import Mathlib

/-!
# Trace event triggers: the hash aggregation engine

A shallow embedding of `kernel/trace/trace_events_trigger.c` (the hash trigger,
its sort and report path, generic trigger registration and the two dispatcher
passes) together with the properties proved about it.

Conventions of the embedding

* Machine integers are natural numbers reduced modulo `2 ^ w` at every
  operation that can wrap (`u64`: 64, `unsigned int`: 32, `unsigned long`:
  `BITS_PER_LONG` of the target).
* Pointers into the entry arena are arena indices; a bucket chain is the list
  of indices linked in it, head first.
* An operation that would dereference a NULL pointer, call a NULL function
  pointer or index an array out of range yields `none`.
* The target is x86: little endian, plain `char` is signed.
* A call of a trigger function through `data->ops->func` is the change it
  makes to the trigger data it receives.
-/

set_option autoImplicit false

namespace HashTrigger

/-! ## Target parameters and kernel helpers that live outside this file -/

/-- Parameters of the build target and the two integer hashes of
`include/linux/hash.h`, which `hash_key` calls but which are defined outside
`trace_events_trigger.c`. -/
structure Platform where
  BITS_PER_LONG : Nat
  PID_MAX_DEFAULT : Int
  hash_64 : Nat → Nat → Nat
  hash_32 : Nat → Nat → Nat

/-- The 64-bit target with the multiplicative hashes of `include/linux/hash.h`
(`GOLDEN_RATIO_PRIME_64`, `GOLDEN_RATIO_PRIME_32`), used to evaluate the
embedding on concrete inputs. -/
def x86_64 : Platform where
  BITS_PER_LONG := 64
  PID_MAX_DEFAULT := 0x8000
  hash_64 := fun val bits => ((val % 2 ^ 64) * 0x9e37fffffffc0001 % 2 ^ 64) >>> (64 - bits)
  hash_32 := fun val bits => ((val % 2 ^ 32) * 0x9e370001 % 2 ^ 32) >>> (32 - bits)

/-! ## Records and event fields -/

/-- A trace record as `void *rec` designates it: its address and its bytes. -/
structure trace_record where
  addr : Nat
  bytes : List Nat

/-- Byte of the record at offset `off`. -/
def rec_byte (rec : trace_record) (off : Nat) : Nat :=
  rec.bytes.getD off 0 % 256

/-- Little-endian load of `size` bytes at offset `off`. -/
def load_le (rec : trace_record) (off : Nat) : Nat → Nat
  | 0 => 0
  | size + 1 => rec_byte rec off + 256 * load_le rec (off + 1) size

/-- Conversion `(u64)x` of a signed integer of `size` bytes given by its
unsigned representation `v`. -/
def sign_extend (size v : Nat) : Nat :=
  if 2 ^ (8 * size - 1) ≤ v then v + 2 ^ 64 - 2 ^ (8 * size) else v

/-- The `size` little-endian bytes of `v`. -/
def to_bytes_le (v : Nat) : Nat → List Nat
  | 0 => []
  | size + 1 => v % 256 :: to_bytes_le (v / 256) size

/-- The C string starting at offset `off` of the record (bytes up to the first
NUL). -/
def rec_cstring (rec : trace_record) (off : Nat) : List Nat :=
  ((rec.bytes.drop off).map (fun b => b % 256)).takeWhile (fun b => b != 0)

/-- The `n` bytes of the record starting at `off`. -/
def rec_span (rec : trace_record) (off n : Nat) : List Nat :=
  (List.range n).map (fun i => rec_byte rec (off + i))

/-- Filter type of an event field (`trace.h`), as far as `is_string_field`
and `is_function_field` look at it. -/
inductive filter_type_t where
  | FILTER_OTHER
  | FILTER_STATIC_STRING
  | FILTER_DYN_STRING
  | FILTER_PTR_STRING
  | FILTER_TRACE_FN
  deriving DecidableEq, Repr

/-- One field of an event as `struct ftrace_event_field` describes it. -/
structure ftrace_event_field where
  name : List Char
  filter_type : filter_type_t
  offset : Nat
  size : Nat
  is_signed : Bool
  deriving DecidableEq, Repr

def is_string_field (field : ftrace_event_field) : Bool :=
  field.filter_type == .FILTER_DYN_STRING ||
  field.filter_type == .FILTER_STATIC_STRING ||
  field.filter_type == .FILTER_PTR_STRING

def is_function_field (field : ftrace_event_field) : Bool :=
  field.filter_type == .FILTER_TRACE_FN

/-- The lookup `trace_find_event_field` over the fields of the event. -/
def trace_find_event_field (fields : List ftrace_event_field) (name : List Char) :
    Option ftrace_event_field :=
  fields.find? (fun f => f.name == name)

/-! ## Field descriptors and value extraction -/

/-- The extraction functions a `hash_field` can point to. -/
inductive hash_field_fn_t where
  | hash_field_none
  | hash_field_string
  | hash_field_diff
  | hash_field_s64
  | hash_field_u64
  | hash_field_s32
  | hash_field_u32
  | hash_field_s16
  | hash_field_u16
  | hash_field_s8
  | hash_field_u8
  deriving DecidableEq, Repr

structure hash_field where
  field : Option ftrace_event_field
  aux_field : Option ftrace_event_field
  fn : Option hash_field_fn_t
  flags : Nat
  deriving DecidableEq, Repr

def HASH_FIELD_SYM : Nat := 1
def HASH_FIELD_HEX : Nat := 2
def HASH_FIELD_STACKTRACE : Nat := 4
def HASH_FIELD_STRING : Nat := 8
def HASH_FIELD_EXECNAME : Nat := 16
def HASH_FIELD_SYSCALL : Nat := 32
def HASH_FIELD_OVERRIDE : Nat := 64

def HASH_TRIGGER_BITS : Nat := 11
def COMPOUND_KEY_MAX : Nat := 8
def HASH_VALS_MAX : Nat := 16
def HASH_SORT_KEYS_MAX : Nat := 2
def HASH_KEY_STRING_MAX : Nat := 64
def HASH_STACKTRACE_DEPTH : Nat := 16
def HASH_STACKTRACE_SKIP : Nat := 3

/-- Test `flags & bit`. -/
def has_flag (flags bit : Nat) : Bool := (flags &&& bit) != 0

/-- The functions `hash_field_none`, `hash_field_string`, `hash_field_diff`
and the instances of `DEFINE_HASH_FIELD_FN`, applied to a descriptor and a
record. -/
def hash_field_fn_apply (fn : hash_field_fn_t) (hash_field : hash_field)
    (rec : trace_record) : Option Nat :=
  match fn with
  | .hash_field_none => some 0
  | .hash_field_string => do
      let field ← hash_field.field
      some ((rec.addr + field.offset) % 2 ^ 64)
  | .hash_field_diff => do
      let field ← hash_field.field
      let aux_field ← hash_field.aux_field
      let m := load_le rec field.offset 8
      let s := load_le rec aux_field.offset 8
      some ((m + 2 ^ 64 - s) % 2 ^ 64)
  | .hash_field_s64 => do
      let field ← hash_field.field
      some (sign_extend 8 (load_le rec field.offset 8))
  | .hash_field_u64 => do
      let field ← hash_field.field
      some (load_le rec field.offset 8)
  | .hash_field_s32 => do
      let field ← hash_field.field
      some (sign_extend 4 (load_le rec field.offset 4))
  | .hash_field_u32 => do
      let field ← hash_field.field
      some (load_le rec field.offset 4)
  | .hash_field_s16 => do
      let field ← hash_field.field
      some (sign_extend 2 (load_le rec field.offset 2))
  | .hash_field_u16 => do
      let field ← hash_field.field
      some (load_le rec field.offset 2)
  | .hash_field_s8 => do
      let field ← hash_field.field
      some (sign_extend 1 (load_le rec field.offset 1))
  | .hash_field_u8 => do
      let field ← hash_field.field
      some (load_le rec field.offset 1)

/-- The call `hash_field->fn(hash_field, rec)`. -/
def hash_field_call (hash_field : hash_field) (rec : trace_record) : Option Nat := do
  let fn ← hash_field.fn
  hash_field_fn_apply fn hash_field rec

def select_value_fn (field_size : Nat) (field_is_signed : Bool) : Option hash_field_fn_t :=
  match field_size with
  | 8 => if field_is_signed then some .hash_field_s64 else some .hash_field_u64
  | 4 => if field_is_signed then some .hash_field_s32 else some .hash_field_u32
  | 2 => if field_is_signed then some .hash_field_s16 else some .hash_field_u16
  | 1 => if field_is_signed then some .hash_field_s8 else some .hash_field_u8
  | _ => none

/-! ## Hash functions -/

def FNV_OFFSET_BASIS : Nat := 14695981039346656037
def FNV_PRIME : Nat := 1099511628211

/-- Conversion of a `char` (signed on x86) holding byte `b` to `u64`. -/
def char_to_u64 (b : Nat) : Nat := sign_extend 1 (b % 256)

/-- The loop of `hash_fnv_1a` over the bytes of the key. -/
def hash_fnv_1a_loop (hash : Nat) : List Nat → Nat
  | [] => hash
  | b :: key => hash_fnv_1a_loop (((hash ^^^ char_to_u64 b) * FNV_PRIME) % 2 ^ 64) key

/-- The function `hash_fnv_1a(key, size, bits)` with `key` the `size` bytes
hashed. -/
def hash_fnv_1a (key : List Nat) (bits : Nat) : Nat :=
  hash_fnv_1a_loop FNV_OFFSET_BASIS key >>> (64 - bits)

/-- A captured call stack (`struct stack_trace`). -/
structure stack_trace where
  nr_entries : Nat
  max_entries : Nat
  entries : List Nat
  skip : Nat
  deriving DecidableEq, Repr

/-- The first `n` frames of a stack trace as bytes, `sizeof(unsigned long)`
bytes per frame. -/
def stack_bytes (P : Platform) (st : stack_trace) (n : Nat) : List Nat :=
  ((List.range n).map
    (fun i => to_bytes_le (st.entries.getD i 0) (P.BITS_PER_LONG / 8))).flatten

def hash_stacktrace (P : Platform) (stacktrace : stack_trace) (bits : Nat) : Nat :=
  hash_fnv_1a (stack_bytes P stacktrace stacktrace.nr_entries) bits

def hash_string (hash_field : hash_field) (bits : Nat) (rec : trace_record) : Option Nat := do
  let field ← hash_field.field
  let size := field.size
  let _ ← hash_field_call hash_field rec
  some (hash_fnv_1a (rec_span rec field.offset size) bits)

/-! ## The aggregate table -/

structure hash_trigger_sort_key where
  descending : Bool
  use_hitcount : Bool
  key_part : Bool
  idx : Nat
  deriving DecidableEq, Repr

inductive hash_key_type where
  | HASH_KEY_TYPE_U64
  | HASH_KEY_TYPE_STACKTRACE
  | HASH_KEY_TYPE_STRING
  deriving DecidableEq, Repr

/-- A `char *` held in a key part: NULL, the address of a byte of the string
arena `hash_key_string_entries` of the table (its offset in the arena), or an
address inside a trace record (the bytes of the record from there on). -/
inductive char_ptr where
  | null
  | arena (offset : Nat)
  | record (bytes : List Nat)
  deriving DecidableEq, Repr

/-- One part of a key (`struct hash_key_part`). The members of the union
`var` are kept side by side; `val_stacktrace` holds what the pointer
designates, `val_string` is the pointer. -/
structure hash_key_part where
  type : hash_key_type
  flags : Nat
  val_u64 : Nat
  val_stacktrace : stack_trace
  val_string : char_ptr
  deriving DecidableEq, Repr

/-- One row of the table (`struct hash_trigger_entry`); the back pointer
`hash_data` is the table the arena belongs to. -/
structure hash_trigger_entry where
  key_parts : List hash_key_part
  sums : List Nat
  comm : List Nat
  count : Nat
  deriving DecidableEq, Repr

/-- The table (`struct hash_trigger_data`), without its lock and its
`event_file` and `early_event_name` members. The member
`hash_key_string_entries` is the string arena, byte by byte. -/
structure hash_trigger_data where
  hashtab : List (List Nat)
  hashtab_bits : Nat
  keys_str : Option (List Char)
  vals_str : Option (List Char)
  sort_keys_str : Option (List Char)
  keys : List (Option hash_field)
  n_keys : Nat
  vals : List (Option hash_field)
  n_vals : Nat
  total_hits : Nat
  total_entries : Nat
  sort_keys : List (Option hash_trigger_sort_key)
  sort_key_cur : Option hash_trigger_sort_key
  max_entries : Nat
  entries : List hash_trigger_entry
  n_entries : Nat
  n_struct_stacktrace_entries : Nat
  n_stacktrace_entries : Nat
  hash_key_string_entries : List Nat
  n_hash_key_string_entries : Nat
  drops : Nat
  deriving DecidableEq, Repr

/-- The running task as `save_comm` reads it. -/
structure task_struct where
  pid : Int
  comm : List Nat
  deriving DecidableEq, Repr

/-- A zeroed `struct stack_trace`. -/
def zero_stack_trace : stack_trace :=
  { nr_entries := 0, max_entries := 0, entries := [], skip := 0 }

/-- A zeroed key part. -/
def zero_key_part : hash_key_part :=
  { type := .HASH_KEY_TYPE_U64, flags := 0, val_u64 := 0,
    val_stacktrace := zero_stack_trace, val_string := .null }

/-- A zeroed arena slot. -/
def zero_entry : hash_trigger_entry :=
  { key_parts := List.replicate COMPOUND_KEY_MAX zero_key_part,
    sums := List.replicate HASH_VALS_MAX 0,
    comm := [],
    count := 0 }

/-- The read `hash_data->keys[i]` followed by a dereference. -/
def key_field (hash_data : hash_trigger_data) (i : Nat) : Option hash_field :=
  (hash_data.keys.getD i none)

/-- The read `hash_data->vals[i]` followed by a dereference. -/
def val_field (hash_data : hash_trigger_data) (i : Nat) : Option hash_field :=
  (hash_data.vals.getD i none)

/-- The arena slot a pointer designates. -/
def entry_at (T : hash_trigger_data) (idx : Nat) : hash_trigger_entry :=
  T.entries.getD idx zero_entry

/-- The loop of `hash_compound_key` filling the local array `key`. -/
def hash_compound_key_loop (hash_data : hash_trigger_data) (rec : trace_record) :
    List Nat → Option (List Nat)
  | [] => some []
  | i :: is => do
      let hash_field ← key_field hash_data i
      let v ← hash_field_call hash_field rec
      let vs ← hash_compound_key_loop hash_data rec is
      some (v :: vs)

def hash_compound_key (hash_data : hash_trigger_data) (bits : Nat) (rec : trace_record) :
    Option Nat := do
  if COMPOUND_KEY_MAX < hash_data.n_keys then none
  let key ← hash_compound_key_loop hash_data rec (List.range hash_data.n_keys)
  some (hash_fnv_1a ((key.map (fun v => to_bytes_le v 8)).flatten) bits)

def hash_key (P : Platform) (hash_data : hash_trigger_data) (rec : trace_record)
    (stacktrace : stack_trace) : Option Nat := do
  let hash_field ← key_field hash_data 0
  let bits := hash_data.hashtab_bits
  if has_flag hash_field.flags HASH_FIELD_STACKTRACE then
    some (hash_stacktrace P stacktrace bits)
  else if has_flag hash_field.flags HASH_FIELD_STRING then
    hash_string hash_field bits rec
  else if 1 < hash_data.n_keys then
    hash_compound_key hash_data bits rec
  else do
    let hash_val ← hash_field_call hash_field rec
    let field ← hash_field.field
    match field.size with
    | 8 => some (P.hash_64 hash_val bits)
    | 4 => some (P.hash_32 (hash_val % 2 ^ 32) bits)
    | _ => some 0

def save_comm (P : Platform) (task : task_struct) : List Nat :=
  if task.pid = 0 then "<idle>".toList.map Char.toNat
  else if task.pid < 0 then "<XXX>".toList.map Char.toNat
  else if task.pid > P.PID_MAX_DEFAULT then "<...>".toList.map Char.toNat
  else task.comm

/-- The first `HASH_STACKTRACE_DEPTH` frames of a trace, as `memcpy` copies
them into the frame arena. -/
def stacktrace_copy (stacktrace : stack_trace) : stack_trace :=
  { stacktrace with
    entries := (List.range HASH_STACKTRACE_DEPTH).map (fun i => stacktrace.entries.getD i 0) }

/-- The function `stacktrace_entry_fill`: claims a slot in each of the two
stack arenas and stores the copy in key part `key`. -/
def stacktrace_entry_fill (hash_data : hash_trigger_data) (entry : hash_trigger_entry)
    (key : Nat) (hash_field : hash_field) (stacktrace : stack_trace) :
    Option (hash_trigger_data × hash_trigger_entry) :=
  if hash_data.max_entries ≤ hash_data.n_struct_stacktrace_entries ∨
     hash_data.max_entries ≤ hash_data.n_stacktrace_entries ∨
     entry.key_parts.length ≤ key then none
  else
    some ({ hash_data with
              n_struct_stacktrace_entries := (hash_data.n_struct_stacktrace_entries + 1) % 2 ^ 32,
              n_stacktrace_entries := (hash_data.n_stacktrace_entries + 1) % 2 ^ 32 },
          { entry with
              key_parts := entry.key_parts.modify
                (fun p => { p with type := .HASH_KEY_TYPE_STACKTRACE,
                                   flags := hash_field.flags,
                                   val_stacktrace := stacktrace_copy stacktrace }) key })

/-- Whether a memory area holds at least `n` bytes (`n ≤ mem.length`), found
by stepping to byte `n - 1`. -/
def has_bytes (mem : List Nat) (n : Nat) : Bool :=
  match n with
  | 0 => true
  | k + 1 => !(mem.drop k).isEmpty

/-- The call `memcpy(&arena[offset], src, size)` on the string arena: the
bytes `src` replace the bytes `offset .. offset + size - 1`, whatever slot
they belong to; a copy that runs past the end of the arena is `none`. -/
def string_arena_write (arena : List Nat) (offset : Nat) (src : List Nat) :
    Option (List Nat) :=
  if !has_bytes arena (offset + src.length) then none
  else some (arena.take offset ++ src ++ arena.drop (offset + src.length))

/-- The function `string_entry_fill`: claims the next slot of the string
arena, at byte `HASH_KEY_STRING_MAX * n_hash_key_string_entries`, copies
`field->size + 1` bytes of the record there (also when they are more than the
`HASH_KEY_STRING_MAX` bytes of a slot) and stores the address in key part
`key`. -/
def string_entry_fill (hash_data : hash_trigger_data) (entry : hash_trigger_entry)
    (key : Nat) (hash_field : hash_field) (rec : trace_record) :
    Option (hash_trigger_data × hash_trigger_entry) := do
  let field ← hash_field.field
  let size := (field.size + 1) % 2 ^ 32
  let offset := (HASH_KEY_STRING_MAX * hash_data.n_hash_key_string_entries) % 2 ^ 32
  let _ ← hash_field_call hash_field rec
  let arena ← string_arena_write hash_data.hash_key_string_entries offset
    (rec_span rec field.offset size)
  if entry.key_parts.length ≤ key then none
  some ({ hash_data with
            hash_key_string_entries := arena,
            n_hash_key_string_entries := (hash_data.n_hash_key_string_entries + 1) % 2 ^ 32 },
        { entry with
            key_parts := entry.key_parts.modify
              (fun p => { p with type := .HASH_KEY_TYPE_STRING,
                                 flags := hash_field.flags,
                                 val_string := .arena offset }) key })

/-- The body of the key loop of `hash_trigger_entry_create` for the key
indices listed; the boolean is `save_execname`. -/
def hash_trigger_entry_create_loop (hash_data : hash_trigger_data) (rec : trace_record)
    (stacktrace : stack_trace) :
    List Nat → hash_trigger_data × hash_trigger_entry × Bool →
      Option (hash_trigger_data × hash_trigger_entry × Bool)
  | [], st => some st
  | i :: is, (hd, entry, save_execname) => do
      let hash_field ← key_field hash_data i
      if has_flag hash_field.flags HASH_FIELD_STACKTRACE then
        let (hd1, entry1) ← stacktrace_entry_fill hd entry i hash_field stacktrace
        hash_trigger_entry_create_loop hash_data rec stacktrace is (hd1, entry1, save_execname)
      else if has_flag hash_field.flags HASH_FIELD_STRING then
        let (hd1, entry1) ← string_entry_fill hd entry i hash_field rec
        hash_trigger_entry_create_loop hash_data rec stacktrace is (hd1, entry1, save_execname)
      else
        let hash_val ← hash_field_call hash_field rec
        if entry.key_parts.length ≤ i then none
        let entry1 := { entry with
          key_parts := entry.key_parts.modify
            (fun p => { p with type := .HASH_KEY_TYPE_U64,
                               flags := hash_field.flags,
                               val_u64 := hash_val }) i }
        hash_trigger_entry_create_loop hash_data rec stacktrace is
          (hd, entry1, save_execname || has_flag hash_field.flags HASH_FIELD_EXECNAME)

/-- The function `hash_trigger_entry_create`: the new table and the arena
index of the entry claimed, if one was. -/
def hash_trigger_entry_create (P : Platform) (hash_data : hash_trigger_data)
    (rec : trace_record) (stacktrace : stack_trace) (current : task_struct) :
    Option (hash_trigger_data × Option Nat) :=
  if hash_data.drops ≠ 0 then some (hash_data, none)
  else if hash_data.n_entries = hash_data.max_entries then
    some ({ hash_data with drops := 1 }, none)
  else do
    let idx := hash_data.n_entries
    let hd0 := { hash_data with n_entries := (hash_data.n_entries + 1) % 2 ^ 32 }
    let entry ← hd0.entries[idx]?
    let (hd1, entry1, save_execname) ←
      hash_trigger_entry_create_loop hd0 rec stacktrace (List.range hd0.n_keys)
        (hd0, entry, false)
    let entry2 := if save_execname then { entry1 with comm := save_comm P current } else entry1
    some ({ hd1 with entries := hd1.entries.set idx entry2 }, some idx)

/-- The check `match_stacktraces`. -/
def match_stacktraces (P : Platform) (entry_stacktrace stacktrace : stack_trace) : Bool :=
  if entry_stacktrace.nr_entries ≠ entry_stacktrace.nr_entries then false
  else
    stack_bytes P entry_stacktrace stacktrace.nr_entries
      == stack_bytes P stacktrace stacktrace.nr_entries

/-- The bytes of a C string held in a buffer: up to the first NUL. -/
def cstr (buf : List Nat) : List Nat := buf.takeWhile (fun b => b != 0)

/-- The memory `strcmp` can read at a `char *` of a key part: nothing at
NULL, the string arena of the table from the offset on, and for an address
inside a trace record the bytes of the record from there on, the end of the
record taken as the terminator. -/
def string_view (hash_data : hash_trigger_data) : char_ptr → Option (List Nat)
  | .null => none
  | .arena offset => some (hash_data.hash_key_string_entries.drop offset)
  | .record bytes => some (bytes ++ [0])

/-- The test `strcmp(a, b) == 0` on the memory at the two pointers: bytes are
compared until they differ or both are NUL; reading past the memory
available is `none`. -/
def strcmp_eq : List Nat → List Nat → Option Bool
  | [], _ => none
  | _ :: _, [] => none
  | x :: xs, y :: ys =>
      if x ≠ y then some false
      else if x = 0 then some true
      else strcmp_eq xs ys

/-- The loop of `hash_trigger_entry_match` over the key indices listed:
`some true` when the entry is returned, `some false` when NULL is. -/
def hash_trigger_entry_match_loop (P : Platform) (hash_data : hash_trigger_data)
    (entry : hash_trigger_entry) (key_parts : List hash_key_part) : List Nat → Option Bool
  | [] => some true
  | i :: is => do
      let ep ← entry.key_parts[i]?
      let kp ← key_parts[i]?
      if ep.type ≠ kp.type then some false
      else
        match ep.type with
        | .HASH_KEY_TYPE_U64 =>
            if ep.val_u64 ≠ kp.val_u64 then some false
            else hash_trigger_entry_match_loop P hash_data entry key_parts is
        | .HASH_KEY_TYPE_STACKTRACE =>
            if !match_stacktraces P ep.val_stacktrace kp.val_stacktrace then some false
            else hash_trigger_entry_match_loop P hash_data entry key_parts is
        | .HASH_KEY_TYPE_STRING => do
            let a ← string_view hash_data ep.val_string
            let b ← string_view hash_data kp.val_string
            let same ← strcmp_eq a b
            if !same then some false
            else hash_trigger_entry_match_loop P hash_data entry key_parts is

/-- The function `hash_trigger_entry_match`; `hash_data` is the table
`entry->hash_data`, whose string arena the string pointers of the entry
point into. -/
def hash_trigger_entry_match (P : Platform) (hash_data : hash_trigger_data)
    (entry : hash_trigger_entry) (key_parts : List hash_key_part) (n_key_parts : Nat) :
    Option Bool :=
  hash_trigger_entry_match_loop P hash_data entry key_parts (List.range n_key_parts)

/-- The loop of `hash_trigger_entry_find` building the local `key_parts`. -/
def hash_trigger_entry_find_parts (hash_data : hash_trigger_data) (rec : trace_record)
    (stacktrace : stack_trace) : List Nat → Option (List hash_key_part)
  | [] => some []
  | i :: is => do
      let hash_field ← key_field hash_data i
      let part ←
        if has_flag hash_field.flags HASH_FIELD_STACKTRACE then
          some { zero_key_part with type := .HASH_KEY_TYPE_STACKTRACE,
                                    val_stacktrace := stacktrace }
        else if has_flag hash_field.flags HASH_FIELD_STRING then do
          let _ ← hash_field_call hash_field rec
          let field ← hash_field.field
          some { zero_key_part with type := .HASH_KEY_TYPE_STRING,
                                    val_string :=
                                      .record ((rec.bytes.drop field.offset).map (fun b => b % 256)) }
        else do
          let hash_val ← hash_field_call hash_field rec
          some { zero_key_part with type := .HASH_KEY_TYPE_U64, val_u64 := hash_val }
      let parts ← hash_trigger_entry_find_parts hash_data rec stacktrace is
      some (part :: parts)

/-- The walk of one bucket chain in `hash_trigger_entry_find`. -/
def hash_trigger_entry_find_chain (P : Platform) (hash_data : hash_trigger_data)
    (key_parts : List hash_key_part) (n_keys : Nat) : List Nat → Option (Option Nat)
  | [] => some none
  | e :: chain => do
      let entry ← hash_data.entries[e]?
      let m ← hash_trigger_entry_match P hash_data entry key_parts n_keys
      if m then some (some e)
      else hash_trigger_entry_find_chain P hash_data key_parts n_keys chain

def hash_trigger_entry_find (P : Platform) (hash_data : hash_trigger_data)
    (rec : trace_record) (stacktrace : stack_trace) : Option (Option Nat) := do
  let n_keys := hash_data.n_keys
  let hash_idx ← hash_key P hash_data rec stacktrace
  if COMPOUND_KEY_MAX < n_keys then none
  let key_parts ← hash_trigger_entry_find_parts hash_data rec stacktrace (List.range n_keys)
  let chain ← hash_data.hashtab[hash_idx]?
  hash_trigger_entry_find_chain P hash_data key_parts n_keys chain

def hash_trigger_entry_insert (P : Platform) (hash_data : hash_trigger_data) (entry : Nat)
    (rec : trace_record) (stacktrace : stack_trace) : Option hash_trigger_data := do
  let hash_idx ← hash_key P hash_data rec stacktrace
  let chain ← hash_data.hashtab[hash_idx]?
  some { hash_data with
    total_entries := (hash_data.total_entries + 1) % 2 ^ P.BITS_PER_LONG,
    hashtab := hash_data.hashtab.set hash_idx (entry :: chain) }

/-- The loop of `hash_trigger_entry_update` over the value indices listed. -/
def hash_trigger_entry_update_loop (hash_data : hash_trigger_data) (rec : trace_record) :
    List Nat → hash_trigger_entry → Option hash_trigger_entry
  | [], entry => some entry
  | i :: is, entry => do
      let hash_field ← val_field hash_data i
      let hash_val ← hash_field_call hash_field rec
      let sum ← entry.sums[i]?
      hash_trigger_entry_update_loop hash_data rec is
        { entry with sums := entry.sums.set i ((sum + hash_val) % 2 ^ 64) }

def hash_trigger_entry_update (hash_data : hash_trigger_data) (entry : Nat)
    (rec : trace_record) : Option hash_trigger_data := do
  let e ← hash_data.entries[entry]?
  let e1 ← hash_trigger_entry_update_loop hash_data rec (List.range hash_data.n_vals) e
  some { hash_data with
    entries := hash_data.entries.set entry { e1 with count := (e1.count + 1) % 2 ^ 64 } }

/-- The trigger function `event_hash_trigger`. The argument `stacktrace` is
the content of its local of that name when the lock is taken: the frames
`save_stack_trace` captured when the first key is a stack trace, and an
indeterminate value otherwise. -/
def event_hash_trigger (P : Platform) (hash_data : hash_trigger_data) (rec : trace_record)
    (stacktrace : stack_trace) (current : task_struct) : Option hash_trigger_data :=
  if hash_data.drops ≠ 0 then
    some { hash_data with drops := (hash_data.drops + 1) % 2 ^ P.BITS_PER_LONG }
  else do
    let _ ← key_field hash_data 0
    let found ← hash_trigger_entry_find P hash_data rec stacktrace
    match found with
    | some entry =>
        let hd ← hash_trigger_entry_update hash_data entry rec
        some { hd with total_hits := (hd.total_hits + 1) % 2 ^ P.BITS_PER_LONG }
    | none =>
        let (hd0, created) ← hash_trigger_entry_create P hash_data rec stacktrace current
        match created with
        | none => some hd0
        | some entry =>
            let hd1 ← hash_trigger_entry_insert P hd0 entry rec stacktrace
            let hd2 ← hash_trigger_entry_update hd1 entry rec
            some { hd2 with total_hits := (hd2.total_hits + 1) % 2 ^ P.BITS_PER_LONG }

/-! ## Table construction -/

def EINVAL : Int := 22
def ENOMEM : Int := 12
def EEXIST : Int := 17
def ENOENT : Int := 2

/-- The allocator handed to the construction functions (`alloc_fn`,
`strdup_fn`), as the sequence of outcomes of the calls still to come: `true`
for memory, `false` for NULL; calls beyond the sequence succeed. -/
def alloc_fn (a : List Bool) : Bool × List Bool :=
  match a with
  | [] => (true, [])
  | ok :: rest => (ok, rest)

/-- The library function `strsep(&s, delim)`: the token returned and the new
value of `s`. -/
def strsep (s : Option (List Char)) (delim : List Char) :
    Option (List Char) × Option (List Char) :=
  match s with
  | none => (none, none)
  | some cs =>
      match cs.span (fun c => !delim.contains c) with
      | (tok, []) => (some tok, none)
      | (tok, _ :: rest) => (some tok, some rest)

def create_hash_field (field aux_field : Option ftrace_event_field) (flags : Nat)
    (a : List Bool) : Option (Option hash_field × List Bool) :=
  let (ok, a1) := alloc_fn a
  if !ok then some (none, a1)
  else if has_flag flags HASH_FIELD_STACKTRACE then
    some (some { field := none, aux_field := none, fn := none, flags := flags }, a1)
  else if has_flag flags HASH_FIELD_OVERRIDE then
    some (some { field := none, aux_field := none, fn := none, flags := flags }, a1)
  else do
    let f ← field
    if is_string_field f then
      some (some { field := some f, aux_field := none, fn := some .hash_field_string,
                   flags := flags ||| HASH_FIELD_STRING }, a1)
    else if is_function_field f then some (none, a1)
    else
      match aux_field with
      | some aux =>
          some (some { field := some f, aux_field := some aux, fn := some .hash_field_diff,
                       flags := flags }, a1)
      | none =>
          match select_value_fn f.size f.is_signed with
          | none => some (none, a1)
          | some fn =>
              some (some { field := some f, aux_field := none, fn := some fn,
                           flags := flags }, a1)

def create_default_sort_key (a : List Bool) : Option hash_trigger_sort_key × List Bool :=
  let (ok, a1) := alloc_fn a
  if !ok then (none, a1)
  else (some { descending := false, use_hitcount := true, key_part := false, idx := 0 }, a1)

/-- First loop of `create_sort_key` (a name of the form `m-s`): the index at
which it leaves for `out`, if it does. -/
def create_sort_key_diff_loop (hash_data : hash_trigger_data)
    (field_name aux_field_name : List Char) : List Nat → Option (Option Nat)
  | [] => some none
  | j :: js => do
      let v ← val_field hash_data j
      let f ← v.field
      if f.name == field_name &&
          (match v.aux_field with
           | some aux => aux.name == aux_field_name
           | none => false) then
        some (some j)
      else create_sort_key_diff_loop hash_data field_name aux_field_name js

/-- Second loop of `create_sort_key`, over the value fields. -/
def create_sort_key_vals_loop (hash_data : hash_trigger_data) (field_name : List Char) :
    List Nat → Option (Option Nat)
  | [] => some none
  | j :: js => do
      let v ← val_field hash_data j
      let f ← v.field
      if f.name == field_name then some (some j)
      else create_sort_key_vals_loop hash_data field_name js

/-- Third loop of `create_sort_key`, over the key fields. -/
def create_sort_key_keys_loop (hash_data : hash_trigger_data) (field_name : List Char) :
    List Nat → Option (Option Nat)
  | [] => some none
  | j :: js => do
      let k ← key_field hash_data j
      if has_flag k.flags HASH_FIELD_STACKTRACE then
        create_sort_key_keys_loop hash_data field_name js
      else if has_flag k.flags HASH_FIELD_STRING then
        create_sort_key_keys_loop hash_data field_name js
      else
        let f ← k.field
        if f.name == field_name then some (some j)
        else create_sort_key_keys_loop hash_data field_name js

/-- The exit `out` of `create_sort_key`. -/
def create_sort_key_out (j : Nat) (key_part : Bool) (a : List Bool) :
    Option hash_trigger_sort_key × List Bool :=
  let (ok, a1) := alloc_fn a
  if !ok then (none, a1)
  else (some { descending := false, use_hitcount := false, key_part := key_part, idx := j }, a1)

def create_sort_key (field_name : List Char) (hash_data : hash_trigger_data)
    (a : List Bool) : Option (Option hash_trigger_sort_key × List Bool) :=
  if field_name == "hitcount".toList then some (create_default_sort_key a)
  else
    let rest (name : List Char) : Option (Option hash_trigger_sort_key × List Bool) := do
      match ← create_sort_key_vals_loop hash_data name (List.range hash_data.n_vals) with
      | some j => some (create_sort_key_out j false a)
      | none =>
          match ← create_sort_key_keys_loop hash_data name (List.range hash_data.n_keys) with
          | some j => some (create_sort_key_out j true a)
          | none => some (none, a)
    if field_name.contains '-' then
      match strsep (some field_name) ['-'] with
      | (none, _) => none
      | (some _, none) => some (none, a)
      | (some m, some aux_field_name) => do
          match ← create_sort_key_diff_loop hash_data m aux_field_name
                    (List.range hash_data.n_vals) with
          | some j => some (create_sort_key_out j false a)
          | none => rest m
    else rest field_name

/-- The exit `free` of `create_sort_keys`: releases the sort keys stored so
far, up to the first empty slot. -/
def create_sort_keys_free (sort_keys : List (Option hash_trigger_sort_key)) :
    List (Option hash_trigger_sort_key) :=
  let n := (sort_keys.takeWhile (fun k => k.isSome)).length
  (List.replicate (min n HASH_SORT_KEYS_MAX) none) ++ sort_keys.drop (min n HASH_SORT_KEYS_MAX)

/-- The loop of `create_sort_keys` over the sort key slots listed, on the
array `hash_data->sort_keys`: the return code, the array and the allocator. -/
def create_sort_keys_loop (hash_data : hash_trigger_data) :
    List Nat → Option (List Char) → List (Option hash_trigger_sort_key) → List Bool →
      Option (Int × List (Option hash_trigger_sort_key) × List Bool)
  | [], _, sort_keys, a => some (0, sort_keys, a)
  | i :: is, fields_str, sort_keys, a =>
      match strsep fields_str [','] with
      | (none, _) =>
          if i = 0 then some (-EINVAL, create_sort_keys_free sort_keys, a)
          else some (0, sort_keys, a)
      | (some field_str0, fields_str1) =>
          match strsep (some field_str0) ['.'] with
          | (none, _) => none
          | (some field_name, field_str) =>
              match create_sort_key field_name hash_data a with
              | none => none
              | some (none, a1) => some (-EINVAL, create_sort_keys_free sort_keys, a1)
              | some (some sk, a1) =>
                  match field_str with
                  | none =>
                      create_sort_keys_loop hash_data is fields_str1
                        (sort_keys.set i (some sk)) a1
                  | some suffix =>
                      if suffix == "descending".toList then
                        create_sort_keys_loop hash_data is fields_str1
                          (sort_keys.set i (some { sk with descending := true })) a1
                      else if suffix != "ascending".toList then
                        some (-EINVAL, create_sort_keys_free sort_keys, a1)
                      else
                        create_sort_keys_loop hash_data is fields_str1
                          (sort_keys.set i (some sk)) a1

/-- The function `create_sort_keys`, as the return code, the array
`hash_data->sort_keys` it leaves and the allocator. -/
def create_sort_keys_array (hash_data : hash_trigger_data) (a : List Bool) :
    Option (Int × List (Option hash_trigger_sort_key) × List Bool) :=
  match hash_data.sort_keys_str with
  | none =>
      match create_default_sort_key a with
      | (none, a1) => some (-ENOMEM, hash_data.sort_keys, a1)
      | (some sk, a1) => some (0, hash_data.sort_keys.set 0 (some sk), a1)
  | some str =>
      match strsep (some str) ['='] with
      | (_, none) => some (-EINVAL, create_sort_keys_free hash_data.sort_keys, a)
      | (_, some fields_str) =>
          create_sort_keys_loop hash_data (List.range HASH_SORT_KEYS_MAX) (some fields_str)
            hash_data.sort_keys a

def create_sort_keys (hash_data : hash_trigger_data) (a : List Bool) :
    Option (Int × hash_trigger_data × List Bool) :=
  match create_sort_keys_array hash_data a with
  | none => none
  | some (ret, sort_keys, a1) => some (ret, { hash_data with sort_keys := sort_keys }, a1)

/-- The first half of `create_key_field`: the return code so far, the event
field found and the flags. -/
def create_key_field_lookup (file : List ftrace_event_field) (field_str : List Char) :
    Option (Int × Option ftrace_event_field × Nat) :=
  if field_str == "stacktrace".toList then some (0, none, HASH_FIELD_STACKTRACE)
  else
    match strsep (some field_str) ['.'] with
    | (none, _) => none
    | (some field_name, suffix) =>
        let flags : Nat :=
          match suffix with
          | none => 0
          | some sfx =>
              if sfx == "sym".toList then HASH_FIELD_SYM
              else if sfx == "hex".toList then HASH_FIELD_HEX
              else if sfx == "execname".toList && field_name == "common_pid".toList then
                HASH_FIELD_EXECNAME
              else if sfx == "syscall".toList then HASH_FIELD_SYSCALL
              else 0
        match trace_find_event_field file field_name with
        | none => some (-EINVAL, none, flags)
        | some f => some (0, some f, flags)

/-- The second half of `create_key_field`: the descriptor is stored in
`keys[key]` and counted when it is not NULL. -/
def create_key_field_store (hash_data : hash_trigger_data) (key : Nat)
    (hf : Option hash_field) : Int × hash_trigger_data :=
  match hf with
  | none => (-ENOMEM, { hash_data with keys := hash_data.keys.set key none })
  | some f =>
      (0, { hash_data with keys := hash_data.keys.set key (some f),
                           n_keys := (hash_data.n_keys + 1) % 2 ^ 32 })

def create_key_field (hash_data : hash_trigger_data) (key : Nat)
    (file : List ftrace_event_field) (field_str : List Char) (a : List Bool) :
    Option (Int × hash_trigger_data × List Bool) :=
  match create_key_field_lookup file field_str with
  | none => none
  | some (ret, field, flags) =>
      if ret ≠ 0 then some (ret, hash_data, a)
      else if hash_data.keys.length ≤ key then none
      else
        match create_hash_field field none flags a with
        | none => none
        | some (hf, a1) =>
            some ((create_key_field_store hash_data key hf).1,
                  (create_key_field_store hash_data key hf).2, a1)

/-- The first half of `create_val_field` for a name other than `hitcount`:
the return code so far, the event field, the auxiliary field and the flags
handed to `create_hash_field`. -/
def create_val_field_lookup (file : List ftrace_event_field) (field_str : List Char) :
    Option (Int × Option ftrace_event_field × Option ftrace_event_field × Nat) :=
  match strsep (some field_str) ['-'] with
  | (none, _) => none
  | (some field_name, some aux_name) =>
      match trace_find_event_field file field_name with
      | none => some (-EINVAL, none, none, 0)
      | some m_field =>
          if is_string_field m_field || is_function_field m_field then
            some (-EINVAL, none, none, 0)
          else
            match trace_find_event_field file aux_name with
            | none => some (-EINVAL, none, none, 0)
            | some s_field =>
                if is_string_field m_field || is_function_field m_field then
                  some (-EINVAL, none, none, 0)
                else some (0, some m_field, some s_field, 0)
  | (some field_str1, none) =>
      match strsep (some field_str1) ['.'] with
      | (none, _) => none
      | (some field_name, suffix) =>
          let flags : Nat :=
            match suffix with
            | none => 0
            | some sfx =>
                if sfx == "sym".toList then HASH_FIELD_SYM
                else if sfx == "hex".toList then HASH_FIELD_HEX
                else if sfx == "override".toList then HASH_FIELD_OVERRIDE
                else 0
          if has_flag flags HASH_FIELD_OVERRIDE then some (0, none, none, flags)
          else
            match trace_find_event_field file field_name with
            | none => some (-EINVAL, none, none, flags)
            | some f => some (0, some f, none, flags)

/-- The second half of `create_val_field`: the descriptor is stored in
`vals[val]` and counted when it is not NULL. -/
def create_val_field_store (hash_data : hash_trigger_data) (val : Nat)
    (hf : Option hash_field) : Int × hash_trigger_data :=
  match hf with
  | none => (-ENOMEM, { hash_data with vals := hash_data.vals.set val none })
  | some f =>
      (0, { hash_data with vals := hash_data.vals.set val (some f),
                           n_vals := (hash_data.n_vals + 1) % 2 ^ 32 })

def create_val_field (hash_data : hash_trigger_data) (val : Nat)
    (file : List ftrace_event_field) (field_str : List Char) (a : List Bool) :
    Option (Int × hash_trigger_data × List Bool) :=
  if field_str == "hitcount".toList then some (0, hash_data, a)
  else
    match create_val_field_lookup file field_str with
    | none => none
    | some (ret, field, aux_field, flags) =>
        if ret ≠ 0 then some (ret, hash_data, a)
        else if hash_data.vals.length ≤ val then none
        else
          match create_hash_field field aux_field flags a with
          | none => none
          | some (hf, a1) =>
              some ((create_val_field_store hash_data val hf).1,
                    (create_val_field_store hash_data val hf).2, a1)

/-- The key loop of `create_hash_fields` over the slots listed: the return
code so far (nonzero: leave for `out`), the table and the allocator. -/
def create_hash_fields_keys (file : List ftrace_event_field) :
    List Nat → Option (List Char) → hash_trigger_data → List Bool →
      Option (Int × hash_trigger_data × List Bool)
  | [], _, hash_data, a => some (0, hash_data, a)
  | i :: is, fields_str, hash_data, a =>
      match strsep fields_str [','] with
      | (none, _) =>
          if i = 0 then some (-EINVAL, hash_data, a) else some (0, hash_data, a)
      | (some field_str, fields_str1) =>
          match create_key_field hash_data i file field_str a with
          | none => none
          | some (ret, hd, a1) =>
              if ret ≠ 0 then some (ret, hd, a1)
              else create_hash_fields_keys file is fields_str1 hd a1

/-- The value loop of `create_hash_fields` over the slots listed. -/
def create_hash_fields_vals (file : List ftrace_event_field) :
    List Nat → Option (List Char) → hash_trigger_data → List Bool →
      Option (Int × hash_trigger_data × List Bool)
  | [], _, hash_data, a => some (0, hash_data, a)
  | i :: is, fields_str, hash_data, a =>
      match strsep fields_str [','] with
      | (none, _) =>
          if i = 0 then some (-EINVAL, hash_data, a) else some (0, hash_data, a)
      | (some field_str, fields_str1) =>
          match create_val_field hash_data i file field_str a with
          | none => none
          | some (ret, hd, a1) =>
              if ret ≠ 0 then some (ret, hd, a1)
              else create_hash_fields_vals file is fields_str1 hd a1

def create_hash_fields (hash_data : hash_trigger_data) (file : List ftrace_event_field)
    (a : List Bool) : Option (Int × hash_trigger_data × List Bool) :=
  match create_hash_fields_keys file (List.range COMPOUND_KEY_MAX) hash_data.keys_str
      hash_data a with
  | none => none
  | some (ret, hd, a1) =>
      if ret ≠ 0 then some (ret, hd, a1)
      else
        match create_hash_fields_vals file (List.range HASH_VALS_MAX) hd.vals_str hd a1 with
        | none => none
        | some (ret1, hd1, a2) =>
            if ret1 ≠ 0 then some (ret1, hd1, a2)
            else create_sort_keys hd1 a2

/-- The zeroed `struct hash_trigger_data` that `alloc_fn` hands to
`create_hash_data` (every path allocates zeroed memory). -/
def zero_hash_data : hash_trigger_data :=
  { hashtab := [], hashtab_bits := 0,
    keys_str := none, vals_str := none, sort_keys_str := none,
    keys := List.replicate COMPOUND_KEY_MAX none, n_keys := 0,
    vals := List.replicate HASH_VALS_MAX none, n_vals := 0,
    total_hits := 0, total_entries := 0,
    sort_keys := List.replicate HASH_SORT_KEYS_MAX none, sort_key_cur := none,
    max_entries := 0, entries := [], n_entries := 0,
    n_struct_stacktrace_entries := 0, n_stacktrace_entries := 0,
    hash_key_string_entries := [], n_hash_key_string_entries := 0, drops := 0 }

/-- The call `strdup_fn(str)`. -/
def strdup_fn (str : List Char) (a : List Bool) : Option (List Char) × List Bool :=
  let (ok, a1) := alloc_fn a
  if ok then (some str, a1) else (none, a1)

/-- The function `create_hash_data`. The result holds the pointer returned
(`none` for NULL), the value of `*ret` afterwards (`ret0` is its value before
the call) and the allocator. -/
def create_hash_data (hashtab_bits : Nat) (keys vals : List Char)
    (sort_keys : Option (List Char)) (file : List ftrace_event_field)
    (a : List Bool) (ret0 : Int) :
    Option (Option hash_trigger_data × Int × List Bool) :=
  let hashtab_size := (1 <<< hashtab_bits) % 2 ^ 32
  let (ok0, a0) := alloc_fn a
  if !ok0 then some (none, ret0, a0)
  else
    let hd0 := { zero_hash_data with max_entries := (hashtab_size * 2) % 2 ^ 32 }
    let (ok1, a1) := alloc_fn a0
    if !ok1 then some (none, ret0, a1)
    else
      let hd1 := { hd0 with entries := List.replicate hd0.max_entries zero_entry }
      let (ok2, a2) := alloc_fn a1
      if !ok2 then some (none, ret0, a2)
      else
        let (ok3, a3) := alloc_fn a2
        if !ok3 then some (none, ret0, a3)
        else
          let (ok4, a4) := alloc_fn a3
          if !ok4 then some (none, ret0, a4)
          else
            let (ks, a5) := strdup_fn keys a4
            let (vs, a6) := strdup_fn vals a5
            let (ss, a7) :=
              match sort_keys with
              | some sk => strdup_fn sk a6
              | none => (none, a6)
            let hd2 := { hd1 with
              hash_key_string_entries :=
                List.replicate ((HASH_KEY_STRING_MAX * hd1.max_entries) % 2 ^ 32) 0,
              keys_str := ks, vals_str := vs, sort_keys_str := ss }
            match create_hash_fields hd2 file a7 with
            | none => none
            | some (ret, hd3, a8) =>
                if ret < 0 then some (none, ret, a8)
                else
                  let (ok5, a9) := alloc_fn a8
                  if !ok5 then some (none, -ENOMEM, a9)
                  else
                    some (some { hd3 with
                                   hashtab := List.replicate hashtab_size [],
                                   hashtab_bits := hashtab_bits }, ret, a9)

/-! ## Sorting and reporting -/

/-- The value an entry is ranked by under a sort key: the hit count, the
integer value of key part `idx`, or the sum `idx`. Both `sort_entries` and
`sort_secondary` read it through the same three-way branch. -/
def sort_key_value (sort_key : hash_trigger_sort_key) (entry : hash_trigger_entry) : Nat :=
  if sort_key.use_hitcount then entry.count
  else if sort_key.key_part then (entry.key_parts.getD sort_key.idx zero_key_part).val_u64
  else entry.sums.getD sort_key.idx 0

/-- The comparator `sort_entries` on two pointers into the arena of
`hash_data`, with `sort_key` the sort key `hash_data->sort_key_cur` points to. -/
def sort_entries (hash_data : hash_trigger_data) (sort_key : hash_trigger_sort_key)
    (a b : Nat) : Int :=
  let val_a := sort_key_value sort_key (entry_at hash_data a)
  let val_b := sort_key_value sort_key (entry_at hash_data b)
  let ret : Int := if val_a > val_b then 1 else if val_a < val_b then -1 else 0
  if sort_key.descending then -ret else ret

/-- The loop of `sort_secondary` over the indices listed; the state is the
array, `start`, `n_subelts` and `cur_val`. The library routine `sort` of
`lib/sort.c` is the argument `sort_fn`; a call of it on a sub-array that runs
past the `n_entries` elements of the array yields `none`. -/
def sort_secondary_loop (sort_fn : (Nat → Nat → Int) → List Nat → List Nat)
    (hash_data : hash_trigger_data) (primary_sort_key secondary : hash_trigger_sort_key)
    (n_entries : Nat) :
    List Nat → List Nat × Nat × Nat × Nat → Option (List Nat)
  | [], (entries, _, _, _) => some entries
  | i :: is, (entries, start, n_subelts, cur_val) =>
      match entries[i]? with
      | none => none
      | some entry =>
          let v := sort_key_value primary_sort_key (entry_at hash_data entry)
          let do_sort := decide (v ≠ cur_val) || decide (i = n_entries - 1)
          if do_sort then
            if 1 < n_subelts ∧ n_entries < start + n_subelts then none
            else
              let entries1 :=
                if 1 < n_subelts then
                  entries.take start
                    ++ sort_fn (sort_entries hash_data secondary)
                        ((entries.drop start).take n_subelts)
                    ++ entries.drop (start + n_subelts)
                else entries
              sort_secondary_loop sort_fn hash_data primary_sort_key secondary n_entries is
                (entries1, i, 1, v)
          else
            sort_secondary_loop sort_fn hash_data primary_sort_key secondary n_entries is
              (entries, start, n_subelts + 1, v)

/-- The function `sort_secondary`: the table (with `sort_key_cur` set to the
secondary key) and the array afterwards. -/
def sort_secondary (sort_fn : (Nat → Nat → Int) → List Nat → List Nat)
    (hash_data : hash_trigger_data) (entries : List Nat) (n_entries : Nat) :
    Option (hash_trigger_data × List Nat) :=
  match hash_data.sort_keys.getD 0 none, entries[0]?, hash_data.sort_keys.getD 1 none with
  | some primary_sort_key, some entry, some secondary =>
      let cur_val := sort_key_value primary_sort_key (entry_at hash_data entry)
      let hd := { hash_data with sort_key_cur := some secondary }
      match sort_secondary_loop sort_fn hd primary_sort_key secondary n_entries
          (List.range' 1 (n_entries - 1)) (entries, 0, 1, cur_val) with
      | none => none
      | some entries1 => some (hd, entries1)
  | _, _, _ => none

/-- The pointers `print_entries_sorted` collects: the chains of the buckets
`0 .. hashtab_size - 1`, in this order. -/
def collect_entries (hash_data : hash_trigger_data) : List Nat :=
  ((List.range ((1 <<< hash_data.hashtab_bits) % 2 ^ 32)).map
    (fun i => hash_data.hashtab.getD i [])).flatten

/-- The function `print_entries_sorted`, with the outcome of its `kmalloc` as
an argument. The result is the table afterwards and, when the function
returns true, the entries in the order in which `hash_trigger_entry_print`
is called on them (`none` when it returns false). -/
def print_entries_sorted (sort_fn : (Nat → Nat → Int) → List Nat → List Nat)
    (kmalloc_ok : Bool) (hash_data : hash_trigger_data) :
    Option (hash_trigger_data × Option (List Nat)) :=
  if !kmalloc_ok then some (hash_data, none)
  else if hash_data.hashtab.length < (1 <<< hash_data.hashtab_bits) % 2 ^ 32 then none
  else
    let entries := collect_entries hash_data
    if hash_data.total_entries < entries.length then none
    else
      match hash_data.sort_keys.getD 0 none with
      | none => none
      | some sort_key =>
          let hd := { hash_data with sort_key_cur := some sort_key }
          let sorted := sort_fn (sort_entries hd sort_key) entries
          match hash_data.sort_keys.getD 1 none with
          | none => some (hd, some sorted)
          | some _ =>
              match sort_secondary sort_fn hd sorted sorted.length with
              | none => none
              | some (hd1, entries1) => some (hd1, some entries1)

/-- The function `print_entries_unsorted`: the entries in bucket order. -/
def print_entries_unsorted (hash_data : hash_trigger_data) : Option (List Nat) :=
  if hash_data.hashtab.length < (1 <<< hash_data.hashtab_bits) % 2 ^ 32 then none
  else some (collect_entries hash_data)

/-- What callers of the library routine `sort` rely on: for a comparator
that is total and transitive, the result is a rearrangement of the array in
which no element is followed by one the comparator puts before it. -/
def is_sort_routine (sort_fn : (Nat → Nat → Int) → List Nat → List Nat) : Prop :=
  ∀ (cmp : Nat → Nat → Int) (l : List Nat),
    (∀ a b, cmp a b ≤ 0 ∨ cmp b a ≤ 0) →
    (∀ a b c, cmp a b ≤ 0 → cmp b c ≤ 0 → cmp a c ≤ 0) →
    (sort_fn cmp l).Perm l ∧ (sort_fn cmp l).Pairwise (fun a b => cmp a b ≤ 0)

/-- An insertion sort, used to evaluate the report path on concrete tables. -/
def insertion_sort (cmp : Nat → Nat → Int) (l : List Nat) : List Nat :=
  l.insertionSort (fun a b => cmp a b ≤ 0)

/-! ## Trigger registration -/

/-- The part of a `struct event_trigger_data` that the trigger callbacks
read and write: the remaining count, the reference count, the filter
attached (`none` for NULL, otherwise the `struct event_filter` designated),
and the private data. -/
structure trigger_state where
  count : Int
  ref : Int
  filter : Option Nat
  private_data : Nat
  deriving DecidableEq, Repr

/-- The members of a `struct event_command` that registration and dispatch
look at. -/
structure event_command where
  name : List Char
  trigger_type : Nat
  post_trigger : Bool
  deriving DecidableEq, Repr

/-- The members `func`, `init` and `free` of a `struct event_trigger_ops`. The
trigger function `func` receives the trigger data and the record (`none` for
a NULL `rec`) and leaves the trigger data; every `event_trigger_ops` of the
file sets it and the dispatcher calls it without a test. The member `init`
is NULL or a function returning a code and the trigger data as it leaves
them; the member `free` is NULL or a function leaving the trigger data. -/
structure event_trigger_ops where
  func : trigger_state → Option trace_record → trigger_state
  init : Option (trigger_state → Int × trigger_state)
  free : Option (trigger_state → trigger_state)

/-- A trigger instance (`struct event_trigger_data`). -/
structure event_trigger_data where
  state : trigger_state
  ops : event_trigger_ops
  cmd_ops : event_command

/-- The members of a `struct ftrace_event_file` that the trigger code uses:
the trigger list (head first), the trigger-mode reference count `tm_ref`, the
two flag bits `TRIGGER_MODE` and `TRIGGER_COND`, and the enable state that
`trace_event_enable_disable` of `trace_events.c` maintains. -/
structure ftrace_event_file where
  triggers : List event_trigger_data
  tm_ref : Int
  trigger_mode : Bool
  trigger_cond : Bool
  enable_state : Nat

/-- The function `event_trigger_init`. -/
def event_trigger_init (data : trigger_state) : Int × trigger_state :=
  (0, { data with ref := data.ref + 1 })

/-- The function `event_trigger_free`, up to the release of the memory when
the reference count reaches 0. -/
def event_trigger_free (data : trigger_state) : trigger_state :=
  if data.ref ≤ 0 then data else { data with ref := data.ref - 1 }

/-- The function `trace_event_trigger_enable_disable`; `ted` is
`trace_event_enable_disable` of `trace_events.c`, acting on the enable state
with its arguments `enable` and `soft_disable`. -/
def trace_event_trigger_enable_disable (ted : Nat → Int → Int → Int × Nat)
    (file : ftrace_event_file) (trigger_enable : Bool) : Int × ftrace_event_file :=
  if trigger_enable then
    let file1 := { file with tm_ref := file.tm_ref + 1 }
    if file1.tm_ref > 1 then (0, file1)
    else
      let r := ted file1.enable_state 1 1
      (r.1, { file1 with trigger_mode := true, enable_state := r.2 })
  else
    let file1 := { file with tm_ref := file.tm_ref - 1 }
    if file1.tm_ref > 0 then (0, file1)
    else
      let r := ted file1.enable_state 0 1
      (r.1, { file1 with trigger_mode := false, enable_state := r.2 })

/-- The function `update_cond_flag`. -/
def update_cond_flag (file : ftrace_event_file) : ftrace_event_file :=
  { file with
    trigger_cond :=
      file.triggers.any (fun data => data.state.filter.isSome || data.cmd_ops.post_trigger) }

/-- The statement `if (data->ops->init) ret = data->ops->init(data->ops, data)`
of `register_trigger`: the value of `ret` and the trigger data after it. -/
def register_trigger_init (data : event_trigger_data) : Int × trigger_state :=
  match data.ops.init with
  | none => (0, data.state)
  | some init => init data.state

/-- The function `register_trigger`: the code returned, the trigger data and
the event file afterwards. -/
def register_trigger (ted : Nat → Int → Int → Int × Nat) (data : event_trigger_data)
    (file : ftrace_event_file) : Int × event_trigger_data × ftrace_event_file :=
  if file.triggers.any (fun test => test.cmd_ops.trigger_type == data.cmd_ops.trigger_type) then
    (-EEXIST, data, file)
  else
    let r := register_trigger_init data
    let data1 := { data with state := r.2 }
    if r.1 < 0 then (r.1, data1, file)
    else
      let file1 := { file with triggers := data1 :: file.triggers }
      let e := trace_event_trigger_enable_disable ted file1 true
      if e.1 < 0 then
        (r.1 + 1 - 1, data1, update_cond_flag { e.2 with triggers := e.2.triggers.tail })
      else (r.1 + 1, data1, update_cond_flag e.2)

/-- A sequence of registrations on one event file. -/
def register_trigger_seq (ted : Nat → Int → Int → Int × Nat) :
    ftrace_event_file → List event_trigger_data → ftrace_event_file
  | file, [] => file
  | file, data :: rest => register_trigger_seq ted (register_trigger ted data file).2.2 rest

/-- The command types of the triggers on a list. -/
def trigger_types (triggers : List event_trigger_data) : List Nat :=
  triggers.map (fun t => t.cmd_ops.trigger_type)

/-! ## Trigger dispatch -/

/-- The value `ETT_NONE` of `enum event_trigger_type`. -/
def ETT_NONE : Nat := 0

/-- The call `data->ops->func(data, rec)`: the trigger data afterwards. -/
def trigger_func_call (data : event_trigger_data) (rec : Option trace_record) :
    event_trigger_data :=
  { data with state := data.ops.func data.state rec }

/-- The test `filter && !filter_match_preds(filter, rec)` of
`event_triggers_call`, with `filter_match_preds` of `trace_events_filter.c`
as the argument of that name. -/
def filter_rejects (filter_match_preds : Nat → trace_record → Bool)
    (data : event_trigger_data) (rec : trace_record) : Bool :=
  match data.state.filter with
  | none => false
  | some filter => !filter_match_preds filter rec

/-- The loop of `event_triggers_call` over the triggers still to visit, with
`tt` as it stands: the final `tt` and the triggers as the loop leaves them. -/
def event_triggers_call_loop (filter_match_preds : Nat → trace_record → Bool)
    (rec : Option trace_record) :
    List event_trigger_data → Nat → Nat × List event_trigger_data
  | [], tt => (tt, [])
  | data :: rest, tt =>
      match rec with
      | none =>
          let r := event_triggers_call_loop filter_match_preds rec rest tt
          (r.1, trigger_func_call data rec :: r.2)
      | some record =>
          if filter_rejects filter_match_preds data record then
            let r := event_triggers_call_loop filter_match_preds rec rest tt
            (r.1, data :: r.2)
          else if data.cmd_ops.post_trigger then
            let r := event_triggers_call_loop filter_match_preds rec rest
              (tt ||| data.cmd_ops.trigger_type)
            (r.1, data :: r.2)
          else
            let r := event_triggers_call_loop filter_match_preds rec rest tt
            (r.1, trigger_func_call data rec :: r.2)

/-- The function `event_triggers_call`: the value returned and the event
file afterwards. -/
def event_triggers_call (filter_match_preds : Nat → trace_record → Bool)
    (file : ftrace_event_file) (rec : Option trace_record) : Nat × ftrace_event_file :=
  if file.triggers.isEmpty then (ETT_NONE, file)
  else
    let r := event_triggers_call_loop filter_match_preds rec file.triggers ETT_NONE
    (r.1, { file with triggers := r.2 })

/-- The loop of `event_triggers_post_call` over the triggers still to visit. -/
def event_triggers_post_call_loop (tt : Nat) (rec : Option trace_record) :
    List event_trigger_data → List event_trigger_data
  | [] => []
  | data :: rest =>
      if (data.cmd_ops.trigger_type &&& tt) ≠ 0 then
        trigger_func_call data rec :: event_triggers_post_call_loop tt rec rest
      else data :: event_triggers_post_call_loop tt rec rest

/-- The function `event_triggers_post_call`: the event file afterwards. -/
def event_triggers_post_call (file : ftrace_event_file) (tt : Nat)
    (rec : Option trace_record) : ftrace_event_file :=
  { file with triggers := event_triggers_post_call_loop tt rec file.triggers }

/-! ## Vocabulary of the statements -/

/-- What one invocation of `event_hash_trigger` receives besides the table:
the record, the content of its local `stacktrace` and the running task. -/
structure hash_event where
  record : trace_record
  stacktrace : stack_trace
  current : task_struct

/-- A stream of events fed one at a time to `event_hash_trigger`. -/
def event_hash_trigger_seq (P : Platform) :
    hash_trigger_data → List hash_event → Option hash_trigger_data
  | T, [] => some T
  | T, ev :: evs =>
      (event_hash_trigger P T ev.record ev.stacktrace ev.current).bind
        (fun T1 => event_hash_trigger_seq P T1 evs)

/-- Value of key field `i` of a record (0 when the descriptor cannot be
evaluated). -/
def key_value (T : hash_trigger_data) (rec : trace_record) (i : Nat) : Nat :=
  ((key_field T i).bind (fun f => hash_field_call f rec)).getD 0

/-- Value of value field `i` of a record (0 when the descriptor cannot be
evaluated). -/
def val_value (T : hash_trigger_data) (rec : trace_record) (i : Nat) : Nat :=
  ((val_field T i).bind (fun f => hash_field_call f rec)).getD 0

/-- The key tuple a record carries: the values of its `n_keys` key fields. -/
def key_tuple (T : hash_trigger_data) (rec : trace_record) : List Nat :=
  (List.range T.n_keys).map (key_value T rec)

/-- The key tuple stored in an entry. -/
def entry_key (T : hash_trigger_data) (idx : Nat) : List Nat :=
  (List.range T.n_keys).map (fun i => ((entry_at T idx).key_parts.getD i zero_key_part).val_u64)

/-- The entries linked in the bucket chains, bucket by bucket. -/
def linked (T : hash_trigger_data) : List Nat := T.hashtab.flatten

/-- A key descriptor for a scalar field: one of the integer extractors of
`DEFINE_HASH_FIELD_FN` on an event field, neither string nor stack trace. -/
def scalar_key_field (f : hash_field) : Bool :=
  f.field.isSome && !has_flag f.flags HASH_FIELD_STACKTRACE &&
  !has_flag f.flags HASH_FIELD_STRING &&
  (match f.fn with
   | some .hash_field_s64 | some .hash_field_u64 | some .hash_field_s32
   | some .hash_field_u32 | some .hash_field_s16 | some .hash_field_u16
   | some .hash_field_s8 | some .hash_field_u8 => true
   | _ => false)

/-- The key of the table consists of one to eight scalar fields. -/
def scalar_keys (T : hash_trigger_data) : Bool :=
  decide (1 ≤ T.n_keys) && decide (T.n_keys ≤ COMPOUND_KEY_MAX) &&
  (List.range T.n_keys).all (fun i =>
    match key_field T i with
    | some f => scalar_key_field f
    | none => false)

/-- A value descriptor whose extraction function can be called: it has a
function, an event field, and an auxiliary field when the function is the
difference. -/
def extractable_val_field (f : hash_field) : Bool :=
  f.field.isSome &&
  (match f.fn with
   | none => false
   | some .hash_field_diff => f.aux_field.isSome
   | some _ => true)

/-- Every value slot below `n_vals` holds an extractable descriptor. -/
def extractable_vals (T : hash_trigger_data) : Bool :=
  decide (T.n_vals ≤ HASH_VALS_MAX) &&
  (List.range T.n_vals).all (fun i =>
    match val_field T i with
    | some f => extractable_val_field f
    | none => false)

/-- The bucket `hash_key` computes for a tuple of scalar key values. -/
def bucket_of (P : Platform) (T : hash_trigger_data) (k : List Nat) : Nat :=
  if 1 < T.n_keys then
    hash_fnv_1a ((k.map (fun v => to_bytes_le v 8)).flatten) T.hashtab_bits
  else
    match ((key_field T 0).bind (fun f => f.field)).map (fun f => f.size) with
    | some 8 => P.hash_64 (k.headD 0) T.hashtab_bits
    | some 4 => P.hash_32 (k.headD 0 % 2 ^ 32) T.hashtab_bits
    | _ => 0

/-- The two integer hashes of the target stay below `2 ^ bits`. -/
def hash_in_range (P : Platform) (bits : Nat) : Prop :=
  (∀ v, P.hash_64 v bits < 2 ^ bits) ∧ (∀ v, P.hash_32 v bits < 2 ^ bits)

/-! ## Invariants used in the proofs -/

/-- Shape of an arena slot of a table with scalar keys: all key parts are
integer parts and both arrays have their declared length. -/
def entry_ok (e : hash_trigger_entry) : Prop :=
  e.key_parts.length = COMPOUND_KEY_MAX ∧
  (∀ i, (e.key_parts.getD i zero_key_part).type = .HASH_KEY_TYPE_U64) ∧
  e.sums.length = HASH_VALS_MAX

/-- The key part `hash_trigger_entry_find` builds for a scalar value. -/
def scalar_part (v : Nat) : hash_key_part :=
  { zero_key_part with type := .HASH_KEY_TYPE_U64, val_u64 := v }

/-- Number of events of a stream that carry key tuple `k`. -/
def hits_of (T : hash_trigger_data) (evs : List hash_event) (k : List Nat) : Nat :=
  evs.countP (fun ev => decide (key_tuple T ev.record = k))

/-- Sum of value field `i` over the events of a stream that carry key tuple `k`. -/
def sum_of (T : hash_trigger_data) (evs : List hash_event) (k : List Nat) (i : Nat) : Nat :=
  ((evs.filter (fun ev => decide (key_tuple T ev.record = k))).map
    (fun ev => val_value T ev.record i)).sum

/-- The key tuples stored in the arena slots claimed so far. -/
def stored_keys (T : hash_trigger_data) : List (List Nat) :=
  (List.range T.n_entries).map (entry_key T)

/-- Invariant of a table with scalar keys that has processed the events `done` without a drop. -/
structure TableInv (P : Platform) (T : hash_trigger_data) (done : List hash_event) : Prop where
  sk : scalar_keys T = true
  ev : extractable_vals T = true
  hr : hash_in_range P T.hashtab_bits
  drops0 : T.drops = 0
  cap : T.max_entries < 2 ^ 32
  len : T.entries.length = T.max_entries
  nle : T.n_entries ≤ T.max_entries
  htlen : T.hashtab.length = 2 ^ T.hashtab_bits
  perm : (linked T).Perm (List.range T.n_entries)
  bucket : ∀ b chain, T.hashtab[b]? = some chain →
    ∀ idx ∈ chain, bucket_of P T (entry_key T idx) = b
  ok : ∀ idx, entry_ok (entry_at T idx)
  zero : ∀ idx, T.n_entries ≤ idx → entry_at T idx = zero_entry
  nodup : (stored_keys T).Nodup
  keys_iff : ∀ k, k ∈ stored_keys T ↔ k ∈ done.map (fun ev => key_tuple T ev.record)
  count : ∀ idx, idx < T.n_entries →
    (entry_at T idx).count = hits_of T done (entry_key T idx) % 2 ^ 64
  sums : ∀ idx, idx < T.n_entries → ∀ i, i < T.n_vals →
    (entry_at T idx).sums.getD i 0 = sum_of T done (entry_key T idx) i % 2 ^ 64
  hits : T.total_hits = done.length % 2 ^ P.BITS_PER_LONG
  tot : T.total_entries = T.n_entries % 2 ^ P.BITS_PER_LONG

/-- Two tables have the same descriptors and the same dimensions. -/
def same_cfg (T T1 : hash_trigger_data) : Prop :=
  T1.keys = T.keys ∧ T1.n_keys = T.n_keys ∧ T1.vals = T.vals ∧ T1.n_vals = T.n_vals ∧
  T1.hashtab_bits = T.hashtab_bits ∧ T1.max_entries = T.max_entries

/-- The members of the table that the construction of descriptors leaves alone. -/
def arena_state (T : hash_trigger_data) :
    List (List Nat) × Nat × Nat × Nat × Nat × List hash_trigger_entry × Nat × Nat :=
  (T.hashtab, T.hashtab_bits, T.total_hits, T.total_entries, T.max_entries, T.entries,
    T.n_entries, T.drops)

/-- The event of scenario A: fields `pid` (4 bytes) and `bytes_alloc` (8 bytes). -/
def scenario_fields : List ftrace_event_field :=
  [ { name := "pid".toList, filter_type := .FILTER_OTHER, offset := 0, size := 4,
      is_signed := true },
    { name := "bytes_alloc".toList, filter_type := .FILTER_OTHER, offset := 8, size := 8,
      is_signed := false } ]

/-- A record of the scenario event with the given field values. -/
def scenario_event (pid bytes_alloc : Nat) : hash_event :=
  { record := { addr := 4096, bytes := to_bytes_le pid 8 ++ to_bytes_le bytes_alloc 8 },
    stacktrace := zero_stack_trace,
    current := { pid := 1, comm := [] } }

/-- The table of scenarios A and B: `hash:pid:bytes_alloc` with one bucket bit. -/
def scenario_table : hash_trigger_data :=
  match create_hash_data 1 "pid".toList "bytes_alloc".toList none scenario_fields [] 0 with
  | some (some T, _, _) => T
  | _ => zero_hash_data

/-- The rows of a table as the report shows them: key tuple, hit count and sums of
every linked entry. -/
def table_rows (T : hash_trigger_data) : List (List Nat × Nat × List Nat) :=
  (linked T).map (fun idx =>
    (entry_key T idx, (entry_at T idx).count, (entry_at T idx).sums.take T.n_vals))

/-- The stream of scenario A. -/
def scenario_A_events : List hash_event :=
  [scenario_event 1 10, scenario_event 2 5, scenario_event 1 7]

/-- Four events with distinct keys: as many as the scenario table holds. -/
def scenario_B_events : List hash_event :=
  [scenario_event 1 10, scenario_event 2 5, scenario_event 3 7, scenario_event 4 1]

/-- The scenario table after the four events of scenario B and a fifth
distinct key. -/
def scenario_B_table : hash_trigger_data :=
  (event_hash_trigger_seq x86_64 scenario_table
    (scenario_B_events ++ [scenario_event 5 100])).getD zero_hash_data

/-- Sum of the hit counts of the entries linked in the bucket chains. -/
def counts_sum (T : hash_trigger_data) : Nat :=
  ((linked T).map (fun idx => (entry_at T idx).count)).sum

/-- Accounting invariant of a table that has been offered `n` events. -/
structure AcctInv (T : hash_trigger_data) (n : Nat) : Prop where
  cap : T.max_entries < 2 ^ 32
  len : T.entries.length = T.max_entries
  nle : T.n_entries ≤ T.max_entries
  perm : (linked T).Perm (List.range T.n_entries)
  zero : ∀ idx, T.n_entries ≤ idx → (entry_at T idx).count = 0
  hits : T.total_hits = counts_sum T
  acc : T.total_hits + T.drops = n

/-- The members of the table that filling in a key leaves alone. -/
def acct_state (T : hash_trigger_data) :
    List (List Nat) × List hash_trigger_entry × Nat × Nat × Nat × Nat × Nat :=
  (T.hashtab, T.entries, T.n_entries, T.total_hits, T.total_entries, T.drops, T.max_entries)

/-- The events offered to the scenario table in the witness of C5: four
admitted keys, a refused fifth key, a dropped hit and a dropped new key. -/
def scenario_C5_events : List hash_event :=
  scenario_B_events ++ [scenario_event 5 100, scenario_event 1 7, scenario_event 6 1]

/-- The scenario table after `scenario_C5_events`. -/
def scenario_C5_table : hash_trigger_data :=
  (event_hash_trigger_seq x86_64 scenario_table scenario_C5_events).getD zero_hash_data

/-- The table of scenario C: `hash:pid:bytes_alloc:sort=hitcount.descending`
after events that give the keys 1, 2 and 3 the hit counts 3, 1 and 2. -/
def scenario_C_table : hash_trigger_data :=
  match create_hash_data 1 "pid".toList "bytes_alloc".toList
      (some "sort=hitcount.descending".toList) scenario_fields [] 0 with
  | some (some T, _, _) =>
      (event_hash_trigger_seq x86_64 T
        [scenario_event 1 1, scenario_event 2 1, scenario_event 3 1, scenario_event 1 1,
         scenario_event 3 1, scenario_event 1 1]).getD zero_hash_data
  | _ => zero_hash_data

/-- The sort key of scenario C. -/
def scenario_C_sort_key : hash_trigger_sort_key :=
  { descending := true, use_hitcount := true, key_part := false, idx := 0 }

/-- The table of scenario D: `hash:pid:bytes_alloc:sort=hitcount,bytes_alloc.ascending`
after one event for `pid = 2` with `bytes_alloc = 20` and one for `pid = 1`
with `bytes_alloc = 10`: two entries that tie on the hit count. -/
def scenario_D_table : hash_trigger_data :=
  match create_hash_data 1 "pid".toList "bytes_alloc".toList
      (some "sort=hitcount,bytes_alloc.ascending".toList) scenario_fields [] 0 with
  | some (some T, _, _) =>
      (event_hash_trigger_seq x86_64 T
        [scenario_event 2 20, scenario_event 1 10]).getD zero_hash_data
  | _ => zero_hash_data

/-- The secondary sort key of scenario D: the sum of `bytes_alloc`, ascending. -/
def scenario_D_secondary : hash_trigger_sort_key :=
  { descending := false, use_hitcount := false, key_part := false, idx := 0 }

/-- The fields of a specification joined by commas. -/
def join_commas : List (List Char) → List Char
  | [] => []
  | [t] => t
  | t :: t1 :: ts => t ++ ',' :: join_commas (t1 :: ts)

/-- A table without the two specification strings. -/
def strip_spec (hd : hash_trigger_data) : hash_trigger_data :=
  { hd with keys_str := none, vals_str := none }

/-- A result of the construction functions without the two specification
strings of its table. -/
def strip_result (r : Int × hash_trigger_data × List Bool) : Int × hash_trigger_data × List Bool :=
  (r.1, strip_spec r.2.1, r.2.2)

/-- Nine key fields: one more than `COMPOUND_KEY_MAX`. -/
def nine_keys : List Char := "pid,pid,pid,pid,pid,pid,pid,pid,pid".toList

/-- Seventeen value fields: one more than `HASH_VALS_MAX`. -/
def seventeen_vals : List Char :=
  join_commas (List.replicate 17 "bytes_alloc".toList)

/-- The command of the `hash` trigger, with `ETT_EVENT_HASH` as bit 4. -/
def trigger_hash_cmd : event_command :=
  { name := "hash".toList, trigger_type := 16, post_trigger := true }

/-- The command of the `stacktrace` trigger, with `ETT_STACKTRACE` as bit 2. -/
def trigger_stacktrace_cmd : event_command :=
  { name := "stacktrace".toList, trigger_type := 4, post_trigger := true }

/-- A trigger function that counts its invocations in the private data. -/
def counting_func (data : trigger_state) (_rec : Option trace_record) : trigger_state :=
  { data with private_data := data.private_data + 1 }

/-- A freshly allocated trigger for a command, with the generic `init`. -/
def new_trigger (cmd : event_command) : event_trigger_data :=
  { state := { count := -1, ref := 0, filter := none, private_data := 0 },
    ops := { func := counting_func, init := some event_trigger_init,
             free := some event_trigger_free },
    cmd_ops := cmd }

/-- An event file without triggers. -/
def empty_event_file : ftrace_event_file :=
  { triggers := [], tm_ref := 0, trigger_mode := false, trigger_cond := false, enable_state := 0 }

/-- A `trace_event_enable_disable` that succeeds and records its argument. -/
def ted_ok (_state : Nat) (enable _soft_disable : Int) : Int × Nat := (0, enable.toNat)

/-- The table of scenario D with the two sums exchanged: hit counts 1 and 1,
sums 10 (slot 0) and 20 (slot 1). -/
def scenario_D_mirror : hash_trigger_data :=
  match create_hash_data 1 "pid".toList "bytes_alloc".toList
      (some "sort=hitcount,bytes_alloc.ascending".toList) scenario_fields [] 0 with
  | some (some T, _, _) =>
      (event_hash_trigger_seq x86_64 T
        [scenario_event 2 10, scenario_event 1 20]).getD zero_hash_data
  | _ => zero_hash_data

/-- The primary sort key of scenario D: the hit count, ascending. -/
def scenario_D_primary : hash_trigger_sort_key :=
  { descending := false, use_hitcount := true, key_part := false, idx := 0 }

/-- The secondary values of the entries a report shows, in the order shown
(`none` when nothing is shown). -/
def reported_secondary (sort_fn : (Nat → Nat → Int) → List Nat → List Nat)
    (T : hash_trigger_data) : Option (List Nat) :=
  match print_entries_sorted sort_fn true T with
  | some (_, some out) =>
      some (out.map (fun idx => sort_key_value scenario_D_secondary (entry_at T idx)))
  | _ => none

/-! ## Vocabulary of the dispatcher statements -/

/-- The filter of a trigger is absent or matches the record. -/
def filter_passes (filter_match_preds : Nat → trace_record → Bool)
    (data : event_trigger_data) (rec : trace_record) : Bool :=
  match data.state.filter with
  | none => true
  | some filter => filter_match_preds filter rec

/-- The bitwise OR of the command types of the triggers listed. -/
def or_trigger_types (triggers : List event_trigger_data) : Nat :=
  triggers.foldr (fun data tt => data.cmd_ops.trigger_type ||| tt) ETT_NONE

/-- The command types on a trigger list are single bits of
`enum event_trigger_type`, and triggers of one command type agree on being
post-triggers, as the commands that this file registers do. -/
def command_types_ok (triggers : List event_trigger_data) : Prop :=
  (∀ d ∈ triggers, ∃ k, d.cmd_ops.trigger_type = 2 ^ k) ∧
  (∀ d ∈ triggers, ∀ e ∈ triggers,
    d.cmd_ops.trigger_type = e.cmd_ops.trigger_type →
      d.cmd_ops.post_trigger = e.cmd_ops.post_trigger)

/-- Each post-trigger command type occurs at most once on the list. -/
def post_types_once (triggers : List event_trigger_data) : Prop :=
  ((triggers.filter (fun d => d.cmd_ops.post_trigger)).map
    (fun d => d.cmd_ops.trigger_type)).Nodup

/-- The command of the `traceon` trigger, with `ETT_TRACE_ONOFF` as bit 0. -/
def trigger_traceon_cmd : event_command :=
  { name := "traceon".toList, trigger_type := 1, post_trigger := false }

/-- A trigger of the command given with the filter given. -/
def filtered_trigger (cmd : event_command) (filter : Option Nat) : event_trigger_data :=
  { new_trigger cmd with state := { (new_trigger cmd).state with filter := filter } }

/-- An event file with a `traceon` trigger, a `stacktrace` trigger behind
filter 7 and a `hash` trigger behind filter 8. -/
def scenario_dispatch_file : ftrace_event_file :=
  { empty_event_file with
    triggers := [filtered_trigger trigger_traceon_cmd none,
                 filtered_trigger trigger_stacktrace_cmd (some 7),
                 filtered_trigger trigger_hash_cmd (some 8)] }

/-- A `filter_match_preds` under which filter 8 matches every record and no
other filter matches any. -/
def scenario_filter_match (filter : Nat) (_rec : trace_record) : Bool := filter == 8

/-- The invocation counts of the triggers of an event file, in list order. -/
def invocation_counts (file : ftrace_event_file) : List Nat :=
  file.triggers.map (fun d => d.state.private_data)

/-! ## Reference values of the hash and of a field -/

/-- The accumulator of the standard 64-bit FNV-1a hash over the bytes
listed, as the specification words it: each byte is XORed into the
accumulator as an unsigned octet, then the accumulator is multiplied by the
prime 1099511628211 modulo `2 ^ 64`. -/
def fnv_1a_reference_loop (acc : Nat) : List Nat → Nat
  | [] => acc
  | b :: key => fnv_1a_reference_loop (((acc ^^^ (b % 256)) * 1099511628211) % 2 ^ 64) key

/-- The standard 64-bit FNV-1a hash of the bytes listed, from the offset
basis 14695981039346656037, shifted right by `64 - bits`. -/
def fnv_1a_reference (key : List Nat) (bits : Nat) : Nat :=
  fnv_1a_reference_loop 14695981039346656037 key >>> (64 - bits)

/-- The integer that the bytes of a field denote in a record: the
`field.size` bytes at `field.offset`, little endian, in two's complement
when the field is signed. -/
def field_value (field : ftrace_event_field) (rec : trace_record) : Int :=
  if field.is_signed = true ∧
      2 ^ (8 * field.size - 1) ≤ load_le rec field.offset field.size then
    (load_le rec field.offset field.size : Int) - 2 ^ (8 * field.size)
  else (load_le rec field.offset field.size : Int)

/-- Conversion of an integer to `u64`: its residue modulo `2 ^ 64`. -/
def to_u64 (v : Int) : Nat := (v % 2 ^ 64).toNat

/-- The descriptor that `create_hash_field` builds for a plain scalar field. -/
def scalar_descriptor (field : ftrace_event_field) (fn : hash_field_fn_t) (flags : Nat) :
    hash_field :=
  { field := some field, aux_field := none, fn := some fn, flags := flags }

/-- A one-byte signed field at offset 0. -/
def scenario_s8_field : ftrace_event_field :=
  { name := "prio".toList, filter_type := .FILTER_OTHER, offset := 0, size := 1,
    is_signed := true }

/-- The fields `bytes_req`, `bytes_alloc` and `gfp_flags` of the `kmalloc`
event as a 32-bit target lays them out: three consecutive unsigned fields of
four bytes. -/
def kmalloc_fields_32 : List ftrace_event_field :=
  [ { name := "bytes_req".toList, filter_type := .FILTER_OTHER, offset := 16, size := 4,
      is_signed := false },
    { name := "bytes_alloc".toList, filter_type := .FILTER_OTHER, offset := 20, size := 4,
      is_signed := false },
    { name := "gfp_flags".toList, filter_type := .FILTER_OTHER, offset := 24, size := 4,
      is_signed := false } ]

/-- A record of that event with the field values given. -/
def kmalloc_record_32 (bytes_req bytes_alloc gfp_flags : Nat) : trace_record :=
  { addr := 4096,
    bytes := List.replicate 16 0 ++ to_bytes_le bytes_req 4 ++ to_bytes_le bytes_alloc 4 ++
      to_bytes_le gfp_flags 4 }

/-- The descriptor that `create_val_field` stores in `vals[0]` for the value
specification given, if it stores one. -/
def val_descriptor (file : List ftrace_event_field) (field_str : List Char) :
    Option hash_field :=
  match create_val_field zero_hash_data 0 file field_str [] with
  | some (_, hash_data, _) => val_field hash_data 0
  | none => none

/-- The value of the field named in a record, when the event has the field. -/
def named_field_value (file : List ftrace_event_field) (name : List Char)
    (rec : trace_record) : Option Int :=
  (trace_find_event_field file name).map (fun field => field_value field rec)

/-- An event with a static string field `comm` of eight bytes, a signed
field `pid` of four bytes, an unsigned field `bytes` of eight bytes and a
function field `ip`. -/
def scenario_E_fields : List ftrace_event_field :=
  [ { name := "comm".toList, filter_type := .FILTER_STATIC_STRING, offset := 8, size := 8,
      is_signed := false },
    { name := "pid".toList, filter_type := .FILTER_OTHER, offset := 16, size := 4,
      is_signed := true },
    { name := "bytes".toList, filter_type := .FILTER_OTHER, offset := 24, size := 8,
      is_signed := false },
    { name := "ip".toList, filter_type := .FILTER_TRACE_FN, offset := 32, size := 8,
      is_signed := false } ]

/-- The code that `create_val_field` returns for the value specification
given on an empty table. -/
def val_field_code (file : List ftrace_event_field) (field_str : List Char) : Option Int :=
  (create_val_field zero_hash_data 0 file field_str []).map (fun r => r.1)

/-- One field of a sort specification: the name, followed by `.` and the
suffix when there is one. -/
def sort_field_spec (name : List Char) (suffix : Option (List Char)) : List Char :=
  match suffix with
  | none => name
  | some s => name ++ '.' :: s

/-- A sort key with the descending flag as the suffix words asks for it:
set for `descending`, left alone otherwise. -/
def apply_sort_suffix (sk : hash_trigger_sort_key) (suffix : Option (List Char)) :
    hash_trigger_sort_key :=
  if suffix = some "descending".toList then { sk with descending := true } else sk

/-- The suffixes that `create_sort_keys` accepts on a sort field. -/
def sort_suffix_ok (suffix : Option (List Char)) : Prop :=
  suffix = none ∨ suffix = some "ascending".toList ∨ suffix = some "descending".toList

/-- The scenario table `hash:pid:bytes_alloc` as `create_hash_fields` hands
it to `create_sort_keys` for the sort specification given: keys and values
parsed, no sort key stored yet. -/
def sort_spec_table (sort_keys_str : List Char) : hash_trigger_data :=
  { scenario_table with
    sort_keys_str := some sort_keys_str,
    sort_keys := List.replicate HASH_SORT_KEYS_MAX none }

/-- The code that `create_sort_keys` returns and the descending flags of the
sort keys it leaves, for a sort specification on the scenario table. -/
def sort_spec_result (sort_keys_str : List Char) : Option (Int × List (Option Bool)) :=
  (create_sort_keys (sort_spec_table sort_keys_str) []).map
    (fun r => (r.1, r.2.1.sort_keys.map (fun k => k.map (fun sk => sk.descending))))

/-- The kind of each of the `n_keys` key descriptors of a table, read off the
flags the way `hash_trigger_entry_create` reads them: stack trace, string or
scalar (`none` for an absent descriptor). -/
def key_kinds (T : hash_trigger_data) : List (Option hash_key_type) :=
  (List.range T.n_keys).map (fun i =>
    (key_field T i).map (fun hf =>
      if has_flag hf.flags HASH_FIELD_STACKTRACE then hash_key_type.HASH_KEY_TYPE_STACKTRACE
      else if has_flag hf.flags HASH_FIELD_STRING then hash_key_type.HASH_KEY_TYPE_STRING
      else hash_key_type.HASH_KEY_TYPE_U64))

/-- The key shapes the specification allows: one scalar, one string, one
stack trace, or two to eight scalars. -/
def allowed_key_shape (kinds : List (Option hash_key_type)) : Bool :=
  kinds == [some .HASH_KEY_TYPE_U64] ||
  kinds == [some .HASH_KEY_TYPE_STRING] ||
  kinds == [some .HASH_KEY_TYPE_STACKTRACE] ||
  (decide (2 ≤ kinds.length) && decide (kinds.length ≤ COMPOUND_KEY_MAX) &&
    kinds.all (fun k => k == some .HASH_KEY_TYPE_U64))

/-- The code that `create_hash_fields` returns and the key kinds of the table
it leaves, for a key specification on the scenario event with the value
specification `hitcount`. -/
def key_spec_result (keys_str : List Char) : Option (Int × List (Option hash_key_type)) :=
  (create_hash_fields
      { zero_hash_data with keys_str := some keys_str, vals_str := some "hitcount".toList }
      scenario_E_fields []).map
    (fun r => (r.1, key_kinds r.2.1))

/-- The table `hash:comm:hitcount` on the scenario event, with the bucket
bits of the hash trigger command. -/
def scenario_E_table : hash_trigger_data :=
  match create_hash_data HASH_TRIGGER_BITS "comm".toList "hitcount".toList none
      scenario_E_fields [] 0 with
  | some (some T, _, _) => T
  | _ => zero_hash_data

/-- An event of the scenario whose `comm` field of eight bytes holds `ab`, a
NUL and the five trailing bytes given. -/
def scenario_E_event (trailing : List Nat) : hash_event :=
  { record := { addr := 4096,
                bytes := List.replicate 8 0 ++ [97, 98, 0] ++ trailing.take 5 ++
                  List.replicate 24 0 },
    stacktrace := zero_stack_trace,
    current := { pid := 1, comm := [] } }

/-- The bucket of an event of scenario E. -/
def scenario_E_bucket (trailing : List Nat) : Option Nat :=
  hash_key x86_64 scenario_E_table (scenario_E_event trailing).record zero_stack_trace

/-- The number of entries and the hit counts of the first two arena slots
after the scenario E table has been offered the events listed. -/
def scenario_E_run (events : List (List Nat)) : Option (Nat × Nat × Nat) :=
  (event_hash_trigger_seq x86_64 scenario_E_table (events.map scenario_E_event)).map
    (fun T => (T.total_entries, (entry_at T 0).count, (entry_at T 1).count))

/-- The `comm` field of an event of scenario E read as a C string. -/
def scenario_E_comm (trailing : List Nat) : List Nat :=
  cstr (rec_span (scenario_E_event trailing).record 8 8)

/-- The key descriptor of the scenario E table. -/
def scenario_E_key : hash_field :=
  { field := scenario_E_fields[0]?, aux_field := none, fn := some .hash_field_string,
    flags := HASH_FIELD_STRING }

/-! ## Count triggers and the boot arena -/

def HASH_TRIGGER_BYTES : Nat := 2621440 * 2

/-- The function `hash_data_bootmem_alloc`. The argument `hashtrigger_bytes`
is the address of the static array of that name and
`hashtrigger_bytes_alloc` the value of the static pointer of that name;
pointer arithmetic is arithmetic on addresses of `BITS_PER_LONG` bits. The
result is the pointer returned (`none` for NULL) and the value of
`hashtrigger_bytes_alloc` afterwards. -/
def hash_data_bootmem_alloc (P : Platform) (hashtrigger_bytes hashtrigger_bytes_alloc : Nat)
    (size : Nat) : Option Nat × Nat :=
  let ptr := hashtrigger_bytes_alloc
  if (hashtrigger_bytes_alloc + size) % 2 ^ P.BITS_PER_LONG
      > (hashtrigger_bytes + HASH_TRIGGER_BYTES) % 2 ^ P.BITS_PER_LONG then
    (none, hashtrigger_bytes_alloc)
  else (some ptr, (hashtrigger_bytes_alloc + size) % 2 ^ P.BITS_PER_LONG)

/-- A sequence of calls of `hash_data_bootmem_alloc` with the sizes listed:
the spans (start address and size) of the calls that returned memory, in
call order, and the value of `hashtrigger_bytes_alloc` afterwards. -/
def hash_data_bootmem_alloc_seq (P : Platform) (hashtrigger_bytes : Nat) :
    Nat → List Nat → List (Nat × Nat) × Nat
  | hashtrigger_bytes_alloc, [] => ([], hashtrigger_bytes_alloc)
  | hashtrigger_bytes_alloc, size :: sizes =>
      match hash_data_bootmem_alloc P hashtrigger_bytes hashtrigger_bytes_alloc size with
      | (some ptr, next) =>
          ((ptr, size) :: (hash_data_bootmem_alloc_seq P hashtrigger_bytes next sizes).1,
           (hash_data_bootmem_alloc_seq P hashtrigger_bytes next sizes).2)
      | (none, next) => hash_data_bootmem_alloc_seq P hashtrigger_bytes next sizes

/-- An address for the static array in the witness. -/
def scenario_arena_base : Nat := 0xffffffff82000000

/-- The frames of two traces agree on the first `n` slots, as
`unsigned long` values. -/
def frames_agree (P : Platform) (a b : stack_trace) (n : Nat) : Prop :=
  ∀ i, i < n →
    a.entries.getD i 0 % 256 ^ (P.BITS_PER_LONG / 8)
      = b.entries.getD i 0 % 256 ^ (P.BITS_PER_LONG / 8)

/-- The call `data->ops->free(data->ops, data)` guarded by
`if (data->ops->free)`: the trigger data afterwards. -/
def trigger_free_call (data : event_trigger_data) : event_trigger_data :=
  match data.ops.free with
  | none => data
  | some free => { data with state := free data.state }

/-- The function `unregister_trigger`: the event file afterwards and the
trigger taken off the list, as `free` leaves it (`none` when no trigger has
the command type of `test`). -/
def unregister_trigger (ted : Nat → Int → Int → Int × Nat) (test : event_trigger_data)
    (file : ftrace_event_file) : ftrace_event_file × Option event_trigger_data :=
  match file.triggers.find?
      (fun data => data.cmd_ops.trigger_type == test.cmd_ops.trigger_type) with
  | none => (file, none)
  | some data =>
      let file1 := { file with
        triggers := file.triggers.eraseP
          (fun data => data.cmd_ops.trigger_type == test.cmd_ops.trigger_type) }
      let file2 := update_cond_flag file1
      let e := trace_event_trigger_enable_disable ted file2 false
      (e.2, some (trigger_free_call data))

/-! ## Vocabulary of the sort, descriptor and arena statements -/

/-- The primary value of an entry: the value `sort_secondary` compares with
`cur_val`. -/
def primary_value (hash_data : hash_trigger_data) (primary : hash_trigger_sort_key)
    (entry : Nat) : Nat :=
  sort_key_value primary (entry_at hash_data entry)

/-- The table `hash:pid:bytes_alloc:sort=hitcount,bytes_alloc.ascending` of
the hash trigger command, freshly created: no entry is linked yet. -/
def scenario_empty_table : hash_trigger_data :=
  match create_hash_data HASH_TRIGGER_BITS "pid".toList "bytes_alloc".toList
      (some "sort=hitcount,bytes_alloc.ascending".toList) scenario_fields [] 0 with
  | some (some T, _, _) => T
  | _ => zero_hash_data

/-- Number of descriptors stored in a descriptor array. -/
def stored_descriptors (l : List (Option hash_field)) : Nat :=
  l.countP (fun f => f.isSome)

/-- The zeroed table with the specification strings of the command
`hash:pid:hitcount,bytes_alloc`, as `create_hash_data` hands it to
`create_hash_fields`. -/
def scenario_hitcount_first_spec : hash_trigger_data :=
  { zero_hash_data with keys_str := some "pid".toList,
                        vals_str := some "hitcount,bytes_alloc".toList }

/-- The table `create_hash_fields` leaves for `hash:pid:hitcount,bytes_alloc`. -/
def scenario_hitcount_first_fields : hash_trigger_data :=
  match create_hash_fields scenario_hitcount_first_spec scenario_fields [] with
  | some (_, T, _) => T
  | none => zero_hash_data

/-- The table of the command `hash:pid:hitcount,bytes_alloc`, freshly
created. -/
def scenario_hitcount_first_table : hash_trigger_data :=
  match create_hash_data HASH_TRIGGER_BITS "pid".toList "hitcount,bytes_alloc".toList none
      scenario_fields [] 0 with
  | some (some T, _, _) => T
  | _ => zero_hash_data

/-- The part of the invariant of a table with scalar keys that concerns the
placement of the entries in the chains; it does not mention `drops`. -/
structure ChainInv (P : Platform) (T : hash_trigger_data) : Prop where
  sk : scalar_keys T = true
  hr : hash_in_range P T.hashtab_bits
  len : T.entries.length = T.max_entries
  nle : T.n_entries ≤ T.max_entries
  htlen : T.hashtab.length = 2 ^ T.hashtab_bits
  perm : (linked T).Perm (List.range T.n_entries)
  bucket : ∀ b chain, T.hashtab[b]? = some chain →
    ∀ idx ∈ chain, bucket_of P T (entry_key T idx) = b
  ok : ∀ idx, entry_ok (entry_at T idx)
  nodup : (stored_keys T).Nodup

/-- Invariant of the arena and the chains of a table created with `bits`
bucket bits, whatever the shape of its keys. -/
structure ArenaInv (T : hash_trigger_data) (bits : Nat) : Prop where
  bits_eq : T.hashtab_bits = bits
  max : T.max_entries = 2 * 2 ^ bits
  len : T.entries.length = T.max_entries
  nle : T.n_entries ≤ T.max_entries
  htlen : T.hashtab.length = 2 ^ bits
  perm : (linked T).Perm (List.range T.n_entries)
  tot : T.total_entries = T.n_entries

/-! ## A 32-bit target and strings as long as an arena slot -/

/-- The 32-bit x86 target: `unsigned long` has 32 bits; `hash_64` and
`hash_32` return the values they return on the 64-bit target. -/
def x86_32 : Platform :=
  { x86_64 with BITS_PER_LONG := 32 }

/-- An event with one string field `comm` of 64 bytes at offset 8: as long as
a slot of the string arena. -/
def scenario_F_fields : List ftrace_event_field :=
  [ { name := "comm".toList, filter_type := .FILTER_STATIC_STRING, offset := 8, size := 64,
      is_signed := false } ]

/-- The table `hash:comm:hitcount` on the event of scenario F, with one
bucket bit: four entries and a string arena of four slots. -/
def scenario_F_table : hash_trigger_data :=
  match create_hash_data 1 "comm".toList "hitcount".toList none scenario_F_fields [] 0 with
  | some (some T, _, _) => T
  | _ => zero_hash_data

/-- A record of scenario F whose `comm` field holds 64 times the byte `c`;
the record ends with the field. -/
def scenario_F_event (c : Nat) : hash_event :=
  { record := { addr := 4096, bytes := List.replicate 8 0 ++ List.replicate 64 c },
    stacktrace := zero_stack_trace,
    current := { pid := 1, comm := [] } }

/-- The number of entries, the hit counts of the first three arena slots and
`total_hits` after the scenario F table has been offered the events listed. -/
def scenario_F_run (events : List Nat) : Option (Nat × Nat × Nat × Nat × Nat) :=
  (event_hash_trigger_seq x86_64 scenario_F_table (events.map scenario_F_event)).map
    (fun T => (T.n_entries, (entry_at T 0).count, (entry_at T 1).count,
      (entry_at T 2).count, T.total_hits))

/-! # Theorems -/

/-! ## Scalar descriptors, hashing and lookup -/

theorem scalar_key_field_call (f : hash_field) (rec : trace_record)
    (h : scalar_key_field f = true) : ∃ v, hash_field_call f rec = some v := by
  unfold scalar_key_field at h
  obtain ⟨fld, hfld⟩ : ∃ fld, f.field = some fld := by
    cases hf : f.field with
    | none => simp [hf] at h
    | some fld => exact ⟨fld, rfl⟩
  cases hfn : f.fn with
  | none => simp [hfn] at h
  | some fn =>
    cases fn <;> simp [hfn] at h <;>
      simp [hash_field_call, hfn, hash_field_fn_apply, hfld]

theorem extractable_val_field_call (f : hash_field) (rec : trace_record)
    (h : extractable_val_field f = true) : ∃ v, hash_field_call f rec = some v := by
  unfold extractable_val_field at h
  obtain ⟨fld, hfld⟩ : ∃ fld, f.field = some fld := by
    cases hf : f.field with
    | none => simp [hf] at h
    | some fld => exact ⟨fld, rfl⟩
  cases hfn : f.fn with
  | none => simp [hfn] at h
  | some fn =>
    cases fn <;> simp [hfn] at h <;>
      simp [hash_field_call, hfn, hash_field_fn_apply, hfld]
    obtain ⟨aux, haux⟩ : ∃ aux, f.aux_field = some aux := by
      cases ha : f.aux_field with
      | none => simp [ha] at h
      | some aux => exact ⟨aux, rfl⟩
    simp [haux]

theorem scalar_keys_field (T : hash_trigger_data) (h : scalar_keys T = true) (i : Nat)
    (hi : i < T.n_keys) : ∃ f, key_field T i = some f ∧ scalar_key_field f = true := by
  unfold scalar_keys at h
  simp only [Bool.and_eq_true, List.all_eq_true, List.mem_range] at h
  have := h.2 i hi
  cases hk : key_field T i with
  | none => simp [hk] at this
  | some f => exact ⟨f, rfl, by simpa [hk] using this⟩

theorem extractable_vals_field (T : hash_trigger_data) (h : extractable_vals T = true) (i : Nat)
    (hi : i < T.n_vals) : ∃ f, val_field T i = some f ∧ extractable_val_field f = true := by
  unfold extractable_vals at h
  simp only [Bool.and_eq_true, List.all_eq_true, List.mem_range] at h
  have := h.2 i hi
  cases hk : val_field T i with
  | none => simp [hk] at this
  | some f => exact ⟨f, rfl, by simpa [hk] using this⟩

theorem key_value_eq (T : hash_trigger_data) (rec : trace_record) (i : Nat) (f : hash_field)
    (v : Nat) (hf : key_field T i = some f) (hv : hash_field_call f rec = some v) :
    key_value T rec i = v := by
  simp [key_value, hf, hv]

theorem hash_compound_key_loop_scalar (T : hash_trigger_data) (rec : trace_record)
    (h : scalar_keys T = true) (is : List Nat) (his : ∀ i ∈ is, i < T.n_keys) :
    hash_compound_key_loop T rec is = some (is.map (key_value T rec)) := by
  induction is with
  | nil => rfl
  | cons i is ih =>
    obtain ⟨f, hf, hs⟩ := scalar_keys_field T h i (his i (by simp))
    obtain ⟨v, hv⟩ := scalar_key_field_call f rec hs
    have ih1 := ih (fun j hj => his j (by simp [hj]))
    simp [hash_compound_key_loop, hf, hv, ih1, key_value_eq T rec i f v hf hv]

theorem scalar_key_field_flags (f : hash_field) (h : scalar_key_field f = true) :
    has_flag f.flags HASH_FIELD_STACKTRACE = false ∧ has_flag f.flags HASH_FIELD_STRING = false ∧
    ∃ fld, f.field = some fld := by
  unfold scalar_key_field at h
  simp only [Bool.and_eq_true, Bool.not_eq_true', Option.isSome_iff_exists] at h
  exact ⟨h.1.1.2, h.1.2, h.1.1.1⟩

theorem key_tuple_one (T : hash_trigger_data) (rec : trace_record) (h : T.n_keys = 1) :
    key_tuple T rec = [key_value T rec 0] := by
  simp [key_tuple, h, List.range_succ]

theorem hash_key_scalar (P : Platform) (T : hash_trigger_data) (rec : trace_record)
    (st : stack_trace) (h : scalar_keys T = true) :
    hash_key P T rec st = some (bucket_of P T (key_tuple T rec)) := by
  have hn : 1 ≤ T.n_keys ∧ T.n_keys ≤ COMPOUND_KEY_MAX := by
    unfold scalar_keys at h
    simp only [Bool.and_eq_true, decide_eq_true_eq] at h
    exact ⟨h.1.1, h.1.2⟩
  obtain ⟨f, hf, hs⟩ := scalar_keys_field T h 0 (by omega)
  obtain ⟨hst, hstr, fld, hfld⟩ := scalar_key_field_flags f hs
  obtain ⟨v, hv⟩ := scalar_key_field_call f rec hs
  by_cases hc : 1 < T.n_keys
  · have hloop := hash_compound_key_loop_scalar T rec h (List.range T.n_keys)
      (fun i hi => List.mem_range.mp hi)
    have hle : ¬ COMPOUND_KEY_MAX < T.n_keys := by omega
    simp [hash_key, hf, hst, hstr, hc, hash_compound_key, hle, hloop, bucket_of, key_tuple]
  · have h1 : T.n_keys = 1 := by omega
    have hkv := key_value_eq T rec 0 f v hf hv
    simp only [hash_key, hf, hst, hstr, hc, hv, hfld, bucket_of, key_tuple_one T rec h1, hkv,
      Option.bind_eq_bind, Option.some_bind, Bool.false_eq_true, if_false, List.headD_cons,
      Option.map_some']
    split
    · rename_i hsz; simp [hsz]
    · rename_i hsz; simp [hsz]
    · rename_i h8 h4
      split
      · rename_i heq; simp at heq; exact absurd heq h8
      · rename_i heq; simp at heq; exact absurd heq h4
      · rfl

theorem find_parts_scalar (T : hash_trigger_data) (rec : trace_record) (st : stack_trace)
    (h : scalar_keys T = true) (is : List Nat) (his : ∀ i ∈ is, i < T.n_keys) :
    hash_trigger_entry_find_parts T rec st is
      = some (is.map (fun i => scalar_part (key_value T rec i))) := by
  induction is with
  | nil => rfl
  | cons i is ih =>
    obtain ⟨f, hf, hs⟩ := scalar_keys_field T h i (his i (by simp))
    obtain ⟨hst, hstr, fld, hfld⟩ := scalar_key_field_flags f hs
    obtain ⟨v, hv⟩ := scalar_key_field_call f rec hs
    have ih1 := ih (fun j hj => his j (by simp [hj]))
    simp [hash_trigger_entry_find_parts, hf, hst, hstr, hv, ih1,
      key_value_eq T rec i f v hf hv, scalar_part]

theorem match_loop_scalar (P : Platform) (hd : hash_trigger_data) (e : hash_trigger_entry)
    (hok : entry_ok e)
    (kps : List hash_key_part) (w : Nat → Nat) (is : List Nat)
    (his : ∀ i ∈ is, i < COMPOUND_KEY_MAX ∧ kps[i]? = some (scalar_part (w i))) :
    hash_trigger_entry_match_loop P hd e kps is
      = some (decide (∀ i ∈ is, (e.key_parts.getD i zero_key_part).val_u64 = w i)) := by
  induction is with
  | nil => simp [hash_trigger_entry_match_loop]
  | cons i is ih =>
    obtain ⟨hi, hk⟩ := his i (by simp)
    have ih1 := ih (fun j hj => his j (by simp [hj]))
    have hlt : i < e.key_parts.length := by rw [hok.1]; exact hi
    have hep : e.key_parts[i]? = some e.key_parts[i] := List.getElem?_eq_getElem hlt
    have hgd : e.key_parts.getD i zero_key_part = e.key_parts[i] := by
      simp [List.getD_eq_getElem?_getD, hep]
    have hty : e.key_parts[i].type = .HASH_KEY_TYPE_U64 := by
      rw [← hgd]; exact hok.2.1 i
    simp only [hash_trigger_entry_match_loop, hep, hk, Option.bind_eq_bind, Option.some_bind,
      hty, scalar_part, ne_eq, not_true_eq_false, if_false, ih1, List.mem_cons, forall_eq_or_imp,
      hgd]
    by_cases hv : e.key_parts[i].val_u64 = w i
    · simp [hv]
    · simp [hv]

theorem entry_match_scalar (P : Platform) (T : hash_trigger_data) (rec : trace_record)
    (h : scalar_keys T = true) (idx : Nat) (hok : entry_ok (entry_at T idx)) :
    hash_trigger_entry_match P T (entry_at T idx)
        ((List.range T.n_keys).map (fun i => scalar_part (key_value T rec i))) T.n_keys
      = some (decide (entry_key T idx = key_tuple T rec)) := by
  have hn : T.n_keys ≤ COMPOUND_KEY_MAX := by
    unfold scalar_keys at h
    simp only [Bool.and_eq_true, decide_eq_true_eq] at h
    exact h.1.2
  unfold hash_trigger_entry_match
  rw [match_loop_scalar P T (entry_at T idx) hok _ (key_value T rec)]
  · congr 1
    simp only [entry_key, key_tuple, List.map_inj_left]
  · intro i hi
    have hi' := List.mem_range.mp hi
    refine ⟨by omega, ?_⟩
    simp [List.getElem?_map, List.getElem?_range hi']

theorem find_chain_scalar (P : Platform) (T : hash_trigger_data) (rec : trace_record)
    (h : scalar_keys T = true) (chain : List Nat)
    (hch : ∀ idx ∈ chain, idx < T.entries.length ∧ entry_ok (entry_at T idx)) :
    hash_trigger_entry_find_chain P T
        ((List.range T.n_keys).map (fun i => scalar_part (key_value T rec i))) T.n_keys chain
      = some (chain.find? (fun idx => decide (entry_key T idx = key_tuple T rec))) := by
  induction chain with
  | nil => rfl
  | cons e chain ih =>
    obtain ⟨hlt, hok⟩ := hch e (by simp)
    have ih1 := ih (fun j hj => hch j (by simp [hj]))
    have he : T.entries[e]? = some (entry_at T e) := by
      simp [entry_at, List.getD_eq_getElem?_getD, List.getElem?_eq_getElem hlt]
    simp only [hash_trigger_entry_find_chain, he, Option.bind_eq_bind, Option.some_bind,
      entry_match_scalar P T rec h e hok, ih1, List.find?_cons]
    by_cases hm : entry_key T e = key_tuple T rec
    · simp [hm]
    · simp [hm]

theorem entry_find_scalar (P : Platform) (T : hash_trigger_data) (rec : trace_record)
    (st : stack_trace) (h : scalar_keys T = true) (chain : List Nat)
    (hb : T.hashtab[bucket_of P T (key_tuple T rec)]? = some chain)
    (hch : ∀ idx ∈ chain, idx < T.entries.length ∧ entry_ok (entry_at T idx)) :
    hash_trigger_entry_find P T rec st
      = some (chain.find? (fun idx => decide (entry_key T idx = key_tuple T rec))) := by
  have hn : ¬ COMPOUND_KEY_MAX < T.n_keys := by
    unfold scalar_keys at h
    simp only [Bool.and_eq_true, decide_eq_true_eq] at h
    omega
  have hparts := find_parts_scalar T rec st h (List.range T.n_keys)
    (fun i hi => List.mem_range.mp hi)
  simp only [hash_trigger_entry_find, hash_key_scalar P T rec st h, hn, hparts, hb,
    Option.bind_eq_bind, Option.some_bind, if_false]
  simpa using find_chain_scalar P T rec h chain hch

theorem update_loop_spec (T : hash_trigger_data) (rec : trace_record)
    (hv : extractable_vals T = true) (is : List Nat) :
    ∀ (e : hash_trigger_entry), is.Nodup → (∀ i ∈ is, i < T.n_vals ∧ i < e.sums.length) →
    ∃ e1, hash_trigger_entry_update_loop T rec is e = some e1 ∧
      e1.key_parts = e.key_parts ∧ e1.comm = e.comm ∧ e1.count = e.count ∧
      e1.sums.length = e.sums.length ∧
      ∀ i, e1.sums.getD i 0
        = if i ∈ is then (e.sums.getD i 0 + val_value T rec i) % 2 ^ 64 else e.sums.getD i 0 := by
  induction is with
  | nil => intro e _ _; exact ⟨e, rfl, rfl, rfl, rfl, rfl, by simp⟩
  | cons i is ih =>
    intro e hnd his
    obtain ⟨hi, hlen⟩ := his i (by simp)
    obtain ⟨f, hf, hs⟩ := extractable_vals_field T hv i hi
    obtain ⟨v, hcall⟩ := extractable_val_field_call f rec hs
    have hvv : val_value T rec i = v := by simp [val_value, hf, hcall]
    have hnd' := List.nodup_cons.mp hnd
    obtain ⟨e1, h1, hk, hc, hct, hl, hsum⟩ :=
      ih { e with sums := e.sums.set i ((e.sums[i] + v) % 2 ^ 64) } hnd'.2
        (fun j hj => by
          have := his j (by simp [hj])
          simpa using this)
    refine ⟨e1, ?_, hk, hc, hct, by simpa using hl, ?_⟩
    · simp only [hash_trigger_entry_update_loop, hf, hcall, List.getElem?_eq_getElem hlen,
        Option.bind_eq_bind, Option.some_bind]
      exact h1
    · intro j
      rw [hsum j]
      by_cases hj : j ∈ is
      · have hne : i ≠ j := fun h => hnd'.1 (h ▸ hj)
        simp [hj, List.getD_eq_getElem?_getD, List.getElem?_set_ne hne]
      · by_cases hji : j = i
        · subst hji
          simp [hj, List.getD_eq_getElem?_getD, List.getElem?_set_self hlen, hvv,
            List.getElem?_eq_getElem hlen]
        · have hne : i ≠ j := fun h => hji h.symm
          simp [hj, hji, List.getD_eq_getElem?_getD, List.getElem?_set_ne hne]

theorem entry_update_spec (T : hash_trigger_data) (rec : trace_record)
    (hv : extractable_vals T = true) (idx : Nat) (hidx : idx < T.entries.length)
    (hsl : (entry_at T idx).sums.length = HASH_VALS_MAX) :
    ∃ e1, hash_trigger_entry_update T idx rec = some { T with entries := T.entries.set idx e1 } ∧
      e1.key_parts = (entry_at T idx).key_parts ∧
      e1.count = ((entry_at T idx).count + 1) % 2 ^ 64 ∧
      e1.sums.length = HASH_VALS_MAX ∧
      ∀ i, e1.sums.getD i 0
        = if i < T.n_vals then ((entry_at T idx).sums.getD i 0 + val_value T rec i) % 2 ^ 64
          else (entry_at T idx).sums.getD i 0 := by
  have hn : T.n_vals ≤ HASH_VALS_MAX := by
    unfold extractable_vals at hv
    simp only [Bool.and_eq_true, decide_eq_true_eq] at hv
    exact hv.1
  have he : T.entries[idx]? = some (entry_at T idx) := by
    simp [entry_at, List.getD_eq_getElem?_getD, List.getElem?_eq_getElem hidx]
  obtain ⟨e1, h1, hk, _, hct, hl, hsum⟩ :=
    update_loop_spec T rec hv (List.range T.n_vals) (entry_at T idx) (List.nodup_range _)
      (fun i hi => ⟨List.mem_range.mp hi, by rw [hsl]; exact lt_of_lt_of_le (List.mem_range.mp hi) hn⟩)
  refine ⟨{ e1 with count := (e1.count + 1) % 2 ^ 64 }, ?_, hk, by simp [hct], by simp [hl, hsl], ?_⟩
  · simp [hash_trigger_entry_update, he, h1]
  · intro i
    simpa [List.mem_range] using hsum i

theorem getD_modify {α : Type} (l : List α) (f : α → α) (n m : Nat) (d : α) (hn : n < l.length) :
    (l.modify f n).getD m d = if n = m then f (l.getD m d) else l.getD m d := by
  simp only [List.getD_eq_getElem?_getD, List.getElem?_modify]
  by_cases h : n = m
  · subst h
    simp [List.getElem?_eq_getElem hn]
  · simp [h]

theorem create_loop_scalar (T : hash_trigger_data) (rec : trace_record) (st : stack_trace)
    (h : scalar_keys T = true) (hd : hash_trigger_data) (is : List Nat) :
    ∀ (e : hash_trigger_entry) (b : Bool), is.Nodup →
      (∀ i ∈ is, i < T.n_keys) → entry_ok e →
    ∃ e1 b1, hash_trigger_entry_create_loop T rec st is (hd, e, b) = some (hd, e1, b1) ∧
      e1.sums = e.sums ∧ e1.count = e.count ∧ entry_ok e1 ∧
      ∀ i, (e1.key_parts.getD i zero_key_part).val_u64
        = if i ∈ is then key_value T rec i else (e.key_parts.getD i zero_key_part).val_u64 := by
  have hn : T.n_keys ≤ COMPOUND_KEY_MAX := by
    unfold scalar_keys at h
    simp only [Bool.and_eq_true, decide_eq_true_eq] at h
    exact h.1.2
  induction is with
  | nil => intro e b _ _ hok; exact ⟨e, b, rfl, rfl, rfl, hok, by simp⟩
  | cons i is ih =>
    intro e b hnd his hok
    have hi := his i (by simp)
    obtain ⟨f, hf, hs⟩ := scalar_keys_field T h i hi
    obtain ⟨hst, hstr, fld, hfld⟩ := scalar_key_field_flags f hs
    obtain ⟨v, hv⟩ := scalar_key_field_call f rec hs
    have hkv := key_value_eq T rec i f v hf hv
    have hnd' := List.nodup_cons.mp hnd
    have hlt : i < e.key_parts.length := by rw [hok.1]; omega
    have hok' : entry_ok { e with
        key_parts := e.key_parts.modify
          (fun p => { p with type := .HASH_KEY_TYPE_U64, flags := f.flags, val_u64 := v }) i } := by
      refine ⟨by simpa using hok.1, ?_, hok.2.2⟩
      intro j
      simp only [getD_modify _ _ _ _ _ hlt]
      by_cases hij : i = j
      · simp [hij]
      · simpa [hij] using hok.2.1 j
    obtain ⟨e1, b1, h1, hsm, hct, hok1, hval⟩ := ih _
      (b || has_flag f.flags HASH_FIELD_EXECNAME) hnd'.2 (fun j hj => his j (by simp [hj])) hok'
    refine ⟨e1, b1, ?_, hsm, hct, hok1, ?_⟩
    · have hnl : ¬ e.key_parts.length ≤ i := by omega
      simp only [hash_trigger_entry_create_loop, hf, hst, hstr, hv, hnl, Option.bind_eq_bind,
        Option.some_bind, Bool.false_eq_true, if_false]
      exact h1
    · intro j
      rw [hval j]
      by_cases hj : j ∈ is
      · simp [hj]
      · simp only [hj, if_false, List.mem_cons, or_false, getD_modify _ _ _ _ _ hlt]
        by_cases hij : i = j
        · subst hij; simp [hkv]
        · have : ¬ j = i := fun h => hij h.symm
          simp [hij, this]

theorem hash_fnv_1a_loop_lt (key : List Nat) : ∀ hash, hash < 2 ^ 64 →
    hash_fnv_1a_loop hash key < 2 ^ 64 := by
  induction key with
  | nil => intro hash h; exact h
  | cons b key ih =>
    intro hash _
    exact ih _ (Nat.mod_lt _ (by norm_num))

theorem hash_fnv_1a_lt (key : List Nat) (bits : Nat) : hash_fnv_1a key bits < 2 ^ bits := by
  unfold hash_fnv_1a
  have h := hash_fnv_1a_loop_lt key FNV_OFFSET_BASIS (by unfold FNV_OFFSET_BASIS; norm_num)
  rw [Nat.shiftRight_eq_div_pow]
  by_cases hb : bits ≤ 64
  · rw [Nat.div_lt_iff_lt_mul (by positivity)]
    calc hash_fnv_1a_loop FNV_OFFSET_BASIS key < 2 ^ 64 := h
      _ = 2 ^ bits * 2 ^ (64 - bits) := by rw [← pow_add]; congr 1; omega
  · have : 64 - bits = 0 := by omega
    rw [this, pow_zero, Nat.div_one]
    exact lt_of_lt_of_le h (Nat.pow_le_pow_right (by norm_num) (by omega))

theorem bucket_of_lt (P : Platform) (T : hash_trigger_data) (k : List Nat)
    (hr : hash_in_range P T.hashtab_bits) : bucket_of P T k < 2 ^ T.hashtab_bits := by
  unfold bucket_of
  split
  · exact hash_fnv_1a_lt _ _
  · split
    · exact hr.1 _
    · exact hr.2 _
    · positivity

theorem inv_bucket_chain (P : Platform) (T : hash_trigger_data) (done : List hash_event)
    (I : TableInv P T done) (k : List Nat) :
    ∃ chain, T.hashtab[bucket_of P T k]? = some chain ∧
      (∀ idx ∈ chain, idx < T.n_entries) := by
  have hb : bucket_of P T k < T.hashtab.length := by
    rw [I.htlen]; exact bucket_of_lt P T k I.hr
  refine ⟨T.hashtab[bucket_of P T k], List.getElem?_eq_getElem hb, ?_⟩
  intro idx hidx
  have : idx ∈ linked T := by
    unfold linked
    exact List.mem_flatten.mpr ⟨_, List.getElem_mem hb, hidx⟩
  exact List.mem_range.mp (I.perm.mem_iff.mp this)

theorem mem_stored_keys (T : hash_trigger_data) (k : List Nat) :
    k ∈ stored_keys T ↔ ∃ idx, idx < T.n_entries ∧ entry_key T idx = k := by
  simp [stored_keys]

theorem inv_find (P : Platform) (T : hash_trigger_data) (done : List hash_event)
    (I : TableInv P T done) (rec : trace_record) (st : stack_trace) :
    (∃ idx, hash_trigger_entry_find P T rec st = some (some idx) ∧ idx < T.n_entries ∧
        entry_key T idx = key_tuple T rec) ∨
    (hash_trigger_entry_find P T rec st = some none ∧ key_tuple T rec ∉ stored_keys T) := by
  obtain ⟨chain, hch, hlt⟩ := inv_bucket_chain P T done I (key_tuple T rec)
  have hfind := entry_find_scalar P T rec st I.sk chain hch
    (fun idx hidx => ⟨by have := hlt idx hidx; have := I.nle; rw [I.len]; omega, I.ok idx⟩)
  rw [hfind]
  cases hf : chain.find? (fun idx => decide (entry_key T idx = key_tuple T rec)) with
  | some idx =>
    left
    refine ⟨idx, rfl, hlt idx (List.mem_of_find?_eq_some hf), ?_⟩
    simpa using List.find?_some hf
  | none =>
    right
    refine ⟨rfl, ?_⟩
    intro hk
    obtain ⟨idx, hidx, hkey⟩ := (mem_stored_keys T _).mp hk
    have hl : idx ∈ linked T := I.perm.mem_iff.mpr (List.mem_range.mpr hidx)
    obtain ⟨chain1, hc1, hi1⟩ := List.mem_flatten.mp hl
    obtain ⟨b, hb⟩ := List.mem_iff_getElem?.mp hc1
    have hbk := I.bucket b chain1 hb idx hi1
    rw [hkey] at hbk
    rw [← hbk, hch] at hb
    have : chain = chain1 := by simpa using hb
    subst this
    have := List.find?_eq_none.mp hf idx hi1
    simp [hkey] at this

theorem key_value_congr (T T1 : hash_trigger_data) (h : same_cfg T T1) :
    key_value T1 = key_value T := by
  funext rec i; simp [key_value, key_field, h.1]

theorem val_value_congr (T T1 : hash_trigger_data) (h : same_cfg T T1) :
    val_value T1 = val_value T := by
  funext rec i; simp [val_value, val_field, h.2.2.1]

theorem key_tuple_congr (T T1 : hash_trigger_data) (h : same_cfg T T1) :
    key_tuple T1 = key_tuple T := by
  funext rec; simp [key_tuple, key_value_congr T T1 h, h.2.1]

theorem bucket_of_congr (P : Platform) (T T1 : hash_trigger_data) (h : same_cfg T T1) :
    bucket_of P T1 = bucket_of P T := by
  funext k; simp [bucket_of, key_field, h.1, h.2.1, h.2.2.2.2.1]

theorem hits_of_congr (T T1 : hash_trigger_data) (h : same_cfg T T1) :
    hits_of T1 = hits_of T := by
  funext evs k; simp [hits_of, key_tuple_congr T T1 h]

theorem sum_of_congr (T T1 : hash_trigger_data) (h : same_cfg T T1) :
    sum_of T1 = sum_of T := by
  funext evs k i; simp [sum_of, key_tuple_congr T T1 h, val_value_congr T T1 h]

theorem scalar_keys_congr (T T1 : hash_trigger_data) (h : same_cfg T T1) :
    scalar_keys T1 = scalar_keys T := by
  simp [scalar_keys, key_field, h.1, h.2.1]

theorem extractable_vals_congr (T T1 : hash_trigger_data) (h : same_cfg T T1) :
    extractable_vals T1 = extractable_vals T := by
  simp [extractable_vals, val_field, h.2.2.1, h.2.2.2.1]

theorem entry_key_congr (T T1 : hash_trigger_data) (h : same_cfg T T1) (idx : Nat)
    (hk : (entry_at T1 idx).key_parts = (entry_at T idx).key_parts) :
    entry_key T1 idx = entry_key T idx := by
  simp [entry_key, h.2.1, hk]

theorem entry_at_set (T T1 : hash_trigger_data) (i : Nat) (e : hash_trigger_entry)
    (h : T1.entries = T.entries.set i e) (hi : i < T.entries.length) (j : Nat) :
    entry_at T1 j = if i = j then e else entry_at T j := by
  simp only [entry_at, h, List.getD_eq_getElem?_getD, List.getElem?_set]
  by_cases hij : i = j
  · subst hij; simp [hi]
  · simp [hij]

theorem hits_of_append (T : hash_trigger_data) (done : List hash_event) (ev : hash_event)
    (k : List Nat) :
    hits_of T (done ++ [ev]) k
      = hits_of T done k + (if key_tuple T ev.record = k then 1 else 0) := by
  simp [hits_of, List.countP_append, List.countP_cons]

theorem sum_of_append (T : hash_trigger_data) (done : List hash_event) (ev : hash_event)
    (k : List Nat) (i : Nat) :
    sum_of T (done ++ [ev]) k i
      = sum_of T done k i + (if key_tuple T ev.record = k then val_value T ev.record i else 0) := by
  by_cases h : key_tuple T ev.record = k
  · simp [sum_of, List.filter_append, List.filter_cons, h]
  · simp [sum_of, List.filter_append, List.filter_cons, h]

theorem scalar_keys_pos (T : hash_trigger_data) (h : scalar_keys T = true) :
    1 ≤ T.n_keys ∧ T.n_keys ≤ COMPOUND_KEY_MAX := by
  unfold scalar_keys at h
  simp only [Bool.and_eq_true, decide_eq_true_eq] at h
  exact ⟨h.1.1, h.1.2⟩

theorem step_hit (P : Platform) (T : hash_trigger_data) (done : List hash_event)
    (I : TableInv P T done) (ev : hash_event) (idx0 : Nat)
    (hf : hash_trigger_entry_find P T ev.record ev.stacktrace = some (some idx0))
    (hlt : idx0 < T.n_entries) (hkey : entry_key T idx0 = key_tuple T ev.record) :
    ∃ T1, event_hash_trigger P T ev.record ev.stacktrace ev.current = some T1 ∧
      same_cfg T T1 ∧ TableInv P T1 (done ++ [ev]) := by
  obtain ⟨f0, hf0, _⟩ := scalar_keys_field T I.sk 0 (scalar_keys_pos T I.sk).1
  have hlen : idx0 < T.entries.length := by have := I.nle; rw [I.len]; omega
  obtain ⟨e1, hup, hkp, hcnt, hsl, hsum⟩ :=
    entry_update_spec T ev.record I.ev idx0 hlen (I.ok idx0).2.2
  obtain ⟨T1, hT1⟩ : ∃ T1 : hash_trigger_data, T1 = { T with
      entries := T.entries.set idx0 e1,
      total_hits := (T.total_hits + 1) % 2 ^ P.BITS_PER_LONG } := ⟨_, rfl⟩
  have hc : same_cfg T T1 := by subst hT1; exact ⟨rfl, rfl, rfl, rfl, rfl, rfl⟩
  refine ⟨T1, ?_, hc, ?_⟩
  · subst hT1; simp [event_hash_trigger, I.drops0, hf0, hf, hup]
  · have hat := entry_at_set T T1 idx0 e1 (by subst hT1; rfl) hlen
    have hek : ∀ idx, entry_key T1 idx = entry_key T idx := by
      intro idx
      apply entry_key_congr T _ hc
      rw [hat idx]
      by_cases h : idx0 = idx
      · subst h; simp [hkp]
      · simp [h]
    have hne : T1.n_entries = T.n_entries := by subst hT1; rfl
    have hsk : stored_keys T1 = stored_keys T := by
      simp only [stored_keys, hne]
      exact List.map_congr_left (fun idx _ => hek idx)
    have hsame : T1.hashtab = T.hashtab ∧ T1.drops = T.drops ∧
        T1.entries.length = T.entries.length ∧ T1.total_entries = T.total_entries ∧
        T1.total_hits = (T.total_hits + 1) % 2 ^ P.BITS_PER_LONG := by
      subst hT1; simp
    obtain ⟨hht, hdr, hel, hte, hth⟩ := hsame
    constructor
    · rw [scalar_keys_congr T T1 hc]; exact I.sk
    · rw [extractable_vals_congr T T1 hc]; exact I.ev
    · rw [hc.2.2.2.2.1]; exact I.hr
    · rw [hdr]; exact I.drops0
    · rw [hc.2.2.2.2.2]; exact I.cap
    · rw [hel, hc.2.2.2.2.2]; exact I.len
    · rw [hne, hc.2.2.2.2.2]; exact I.nle
    · rw [hht, hc.2.2.2.2.1]; exact I.htlen
    · unfold linked; rw [hht, hne]; exact I.perm
    · intro b chain hb idx hidx
      rw [hht] at hb
      rw [hek idx, bucket_of_congr P T _ hc]
      exact I.bucket b chain hb idx hidx
    · intro idx
      rw [hat idx]
      by_cases h : idx0 = idx
      · subst h
        simp only [if_true]
        refine ⟨by rw [hkp]; exact (I.ok idx0).1, ?_, hsl⟩
        rw [hkp]; exact (I.ok idx0).2.1
      · simp only [h, if_false]; exact I.ok idx
    · intro idx hidx
      rw [hat idx]
      have h : ¬ idx0 = idx := by
        rw [hne] at hidx
        omega
      rw [hne] at hidx
      simp only [h, if_false]
      exact I.zero idx hidx
    · rw [hsk]; exact I.nodup
    · intro k
      rw [hsk, key_tuple_congr T _ hc, List.map_append, List.mem_append, I.keys_iff k]
      constructor
      · intro h; exact Or.inl h
      · rintro (h | h)
        · exact h
        · simp only [List.map_cons, List.map_nil, List.mem_singleton] at h
          rw [h, ← hkey, ← I.keys_iff]
          exact (mem_stored_keys T _).mpr ⟨idx0, hlt, rfl⟩
    · intro idx hidx
      rw [hne] at hidx
      rw [hek idx, hits_of_congr T _ hc, hits_of_append, hat idx]
      by_cases h : idx0 = idx
      · subst h
        simp only [if_true, hkey, hcnt, I.count idx0 hlt]
        omega
      · have hne : key_tuple T ev.record ≠ entry_key T idx := by
          intro heq
          have h1 : (stored_keys T)[idx0]? = some (entry_key T idx0) := by
            simp [stored_keys, List.getElem?_map, List.getElem?_range hlt]
          have h2 : (stored_keys T)[idx]? = some (entry_key T idx) := by
            simp [stored_keys, List.getElem?_map, List.getElem?_range hidx]
          rw [← heq, ← hkey] at h2
          have hl : idx0 < (stored_keys T).length := by simp [stored_keys, hlt]
          have hl2 : idx < (stored_keys T).length := by simp [stored_keys, hidx]
          have := (@List.Nodup.getElem_inj_iff _ _ I.nodup idx0 hl idx hl2).mp (by
            rw [List.getElem?_eq_getElem hl] at h1
            rw [List.getElem?_eq_getElem hl2] at h2
            simp only [Option.some.injEq] at h1 h2
            rw [h1, h2])
          exact h this
        simp only [h, if_false, hne, add_zero]
        exact I.count idx hidx
    · intro idx hidx i hi
      rw [hne] at hidx
      have hi' : i < T.n_vals := by rw [← hc.2.2.2.1]; exact hi
      rw [hek idx, sum_of_congr T _ hc, sum_of_append, hat idx]
      by_cases h : idx0 = idx
      · subst h
        simp only [if_true, hkey, hsum i, hi', I.sums idx0 hlt i hi']
        omega
      · have hne : key_tuple T ev.record ≠ entry_key T idx := by
          intro heq
          have hl : idx0 < (stored_keys T).length := by simp [stored_keys, hlt]
          have hl2 : idx < (stored_keys T).length := by simp [stored_keys, hidx]
          have := (@List.Nodup.getElem_inj_iff _ _ I.nodup idx0 hl idx hl2).mp (by
            simp [stored_keys, hkey, heq])
          exact h this
        simp only [h, if_false, hne, add_zero]
        exact I.sums idx hidx i hi'
    · rw [hth, I.hits]; simp [Nat.add_mod]
    · rw [hte, hne]; exact I.tot

theorem zero_entry_ok : entry_ok zero_entry := by
  refine ⟨by simp [zero_entry], ?_, by simp [zero_entry]⟩
  intro i
  simp only [zero_entry, List.getD_eq_getElem?_getD]
  by_cases h : i < COMPOUND_KEY_MAX
  · simp [List.getElem?_replicate, h, zero_key_part]
  · simp [List.getElem?_replicate, h, zero_key_part]

theorem create_scalar (P : Platform) (T : hash_trigger_data) (done : List hash_event)
    (I : TableInv P T done) (rec : trace_record) (st : stack_trace) (cur : task_struct)
    (hlt : T.n_entries < T.max_entries) :
    ∃ e2, hash_trigger_entry_create P T rec st cur
        = some ({ T with n_entries := T.n_entries + 1,
                         entries := T.entries.set T.n_entries e2 }, some T.n_entries) ∧
      e2.sums = zero_entry.sums ∧ e2.count = 0 ∧ entry_ok e2 ∧
      ∀ i, i < T.n_keys → (e2.key_parts.getD i zero_key_part).val_u64 = key_value T rec i := by
  have hmod : (T.n_entries + 1) % 2 ^ 32 = T.n_entries + 1 :=
    Nat.mod_eq_of_lt (by have := I.cap; omega)
  have hne : ¬ T.n_entries = T.max_entries := by omega
  have hz := I.zero T.n_entries (le_refl _)
  have hget : T.entries[T.n_entries]? = some zero_entry := by
    have hl : T.n_entries < T.entries.length := by rw [I.len]; exact hlt
    rw [← hz]
    simp [entry_at, List.getD_eq_getElem?_getD, List.getElem?_eq_getElem hl]
  obtain ⟨hd0, hhd0⟩ : ∃ hd0 : hash_trigger_data,
      hd0 = { T with n_entries := T.n_entries + 1 } := ⟨_, rfl⟩
  have hc0 : same_cfg T hd0 := by subst hhd0; exact ⟨rfl, rfl, rfl, rfl, rfl, rfl⟩
  obtain ⟨e1, b1, hloop, hsm, hct, hok1, hval⟩ :=
    create_loop_scalar hd0 rec st (by rw [scalar_keys_congr T hd0 hc0]; exact I.sk) hd0
      (List.range hd0.n_keys) zero_entry false (List.nodup_range _)
      (fun i hi => List.mem_range.mp hi) zero_entry_ok
  refine ⟨if b1 then { e1 with comm := save_comm P cur } else e1, ?_, ?_, ?_, ?_, ?_⟩
  · subst hhd0
    have hd : ¬ T.drops ≠ 0 := by simp [I.drops0]
    unfold hash_trigger_entry_create
    rw [if_neg hd, if_neg hne]
    simp only [hmod, hget, Option.bind_eq_bind, Option.some_bind, hloop]
  · split <;> simp [hsm]
  · split <;> simp [hct, zero_entry]
  · split
    · exact ⟨hok1.1, hok1.2.1, hok1.2.2⟩
    · exact hok1
  · intro i hi
    have hv := hval i
    rw [key_value_congr T hd0 hc0] at hv
    have hi' : i ∈ List.range hd0.n_keys := by rw [hc0.2.1]; exact List.mem_range.mpr hi
    simp only [hi', if_true] at hv
    split
    · exact hv
    · exact hv

theorem insert_scalar (P : Platform) (T : hash_trigger_data) (rec : trace_record)
    (st : stack_trace) (idx : Nat) (hsk : scalar_keys T = true)
    (hr : hash_in_range P T.hashtab_bits) (hl : T.hashtab.length = 2 ^ T.hashtab_bits) :
    hash_trigger_entry_insert P T idx rec st
      = some { T with
          total_entries := (T.total_entries + 1) % 2 ^ P.BITS_PER_LONG,
          hashtab := T.hashtab.set (bucket_of P T (key_tuple T rec))
            (idx :: T.hashtab.getD (bucket_of P T (key_tuple T rec)) []) } := by
  have hb : bucket_of P T (key_tuple T rec) < T.hashtab.length := by
    rw [hl]; exact bucket_of_lt P T _ hr
  simp [hash_trigger_entry_insert, hash_key_scalar P T rec st hsk,
    List.getElem?_eq_getElem hb, List.getD_eq_getElem?_getD]

theorem flatten_set_cons (L : List (List Nat)) (b x : Nat) (hb : b < L.length) :
    (L.set b (x :: L.getD b [])).flatten.Perm (x :: L.flatten) := by
  induction L generalizing b with
  | nil => simp at hb
  | cons l L ih =>
    cases b with
    | zero => simp
    | succ b =>
      have hb' : b < L.length := by simpa using hb
      have := ih b hb'
      simp only [List.set_cons_succ, List.flatten_cons, List.getD_cons_succ]
      exact (List.Perm.append_left l this).trans List.perm_middle

theorem step_new_exec (P : Platform) (T : hash_trigger_data) (done : List hash_event)
    (I : TableInv P T done) (ev : hash_event)
    (hf : hash_trigger_entry_find P T ev.record ev.stacktrace = some none)
    (hlt : T.n_entries < T.max_entries) :
    ∃ T1 e3, event_hash_trigger P T ev.record ev.stacktrace ev.current = some T1 ∧
      same_cfg T T1 ∧
      T1.entries = T.entries.set T.n_entries e3 ∧
      T1.hashtab = T.hashtab.set (bucket_of P T (key_tuple T ev.record))
        (T.n_entries :: T.hashtab.getD (bucket_of P T (key_tuple T ev.record)) []) ∧
      T1.n_entries = T.n_entries + 1 ∧
      T1.total_entries = (T.total_entries + 1) % 2 ^ P.BITS_PER_LONG ∧
      T1.total_hits = (T.total_hits + 1) % 2 ^ P.BITS_PER_LONG ∧
      T1.drops = T.drops ∧
      entry_ok e3 ∧ e3.count = 1 ∧
      (∀ i, i < T.n_keys → (e3.key_parts.getD i zero_key_part).val_u64 = key_value T ev.record i) ∧
      (∀ i, i < T.n_vals → e3.sums.getD i 0 = val_value T ev.record i % 2 ^ 64) := by
  obtain ⟨f0, hf0, _⟩ := scalar_keys_field T I.sk 0 (scalar_keys_pos T I.sk).1
  have hlen : T.n_entries < T.entries.length := by rw [I.len]; exact hlt
  obtain ⟨e2, hcr, hsm2, hct2, hok2, hval2⟩ :=
    create_scalar P T done I ev.record ev.stacktrace ev.current hlt
  obtain ⟨Tc, hTc⟩ : ∃ Tc : hash_trigger_data, Tc = { T with
      n_entries := T.n_entries + 1, entries := T.entries.set T.n_entries e2 } := ⟨_, rfl⟩
  rw [← hTc] at hcr
  have hcc : same_cfg T Tc := by subst hTc; exact ⟨rfl, rfl, rfl, rfl, rfl, rfl⟩
  have hTcf : Tc.hashtab = T.hashtab ∧ Tc.entries = T.entries.set T.n_entries e2 ∧
      Tc.n_entries = T.n_entries + 1 ∧ Tc.total_entries = T.total_entries ∧
      Tc.total_hits = T.total_hits ∧ Tc.drops = T.drops := by subst hTc; simp
  obtain ⟨hch, hce, hcn, hcte, hcth, hcd⟩ := hTcf
  have hins := insert_scalar P Tc ev.record ev.stacktrace T.n_entries
    (by rw [scalar_keys_congr T Tc hcc]; exact I.sk)
    (by rw [hcc.2.2.2.2.1]; exact I.hr)
    (by rw [hch, hcc.2.2.2.2.1]; exact I.htlen)
  rw [bucket_of_congr P T Tc hcc, key_tuple_congr T Tc hcc, hch, hcte] at hins
  obtain ⟨Ti, hTi⟩ : ∃ Ti : hash_trigger_data, Ti = { Tc with
      total_entries := (T.total_entries + 1) % 2 ^ P.BITS_PER_LONG,
      hashtab := T.hashtab.set (bucket_of P T (key_tuple T ev.record))
        (T.n_entries :: T.hashtab.getD (bucket_of P T (key_tuple T ev.record)) []) } := ⟨_, rfl⟩
  rw [← hTi] at hins
  have hci : same_cfg T Ti := by
    subst hTi
    exact ⟨hcc.1, hcc.2.1, hcc.2.2.1, hcc.2.2.2.1, hcc.2.2.2.2.1, hcc.2.2.2.2.2⟩
  have hTif : Ti.entries = T.entries.set T.n_entries e2 ∧
      Ti.n_entries = T.n_entries + 1 ∧
      Ti.total_hits = T.total_hits ∧ Ti.drops = T.drops ∧
      Ti.total_entries = (T.total_entries + 1) % 2 ^ P.BITS_PER_LONG ∧
      Ti.hashtab = T.hashtab.set (bucket_of P T (key_tuple T ev.record))
        (T.n_entries :: T.hashtab.getD (bucket_of P T (key_tuple T ev.record)) []) := by
    subst hTi; simp [hce, hcn, hcth, hcd]
  obtain ⟨hie, hin, hith, hid, hite, hih⟩ := hTif
  have hat : entry_at Ti T.n_entries = e2 := by
    rw [entry_at_set T Ti T.n_entries e2 hie hlen]; simp
  have hilen : T.n_entries < Ti.entries.length := by rw [hie]; simpa using hlen
  obtain ⟨e3, hup, hkp3, hct3, hsl3, hsum3⟩ :=
    entry_update_spec Ti ev.record (by rw [extractable_vals_congr T Ti hci]; exact I.ev)
      T.n_entries hilen (by rw [hat]; exact hok2.2.2)
  rw [hat] at hkp3 hct3 hsum3
  rw [val_value_congr T Ti hci, hci.2.2.2.1] at hsum3
  refine ⟨{ Ti with entries := Ti.entries.set T.n_entries e3,
                    total_hits := (Ti.total_hits + 1) % 2 ^ P.BITS_PER_LONG }, e3,
    ?_, ?_, ?_, ?_, ?_, ?_, ?_, ?_, ?_, ?_, ?_, ?_⟩
  · have hd : ¬ T.drops ≠ 0 := by simp [I.drops0]
    unfold event_hash_trigger
    rw [if_neg hd]
    simp only [hf0, hf, hcr, hins, hup, Option.bind_eq_bind, Option.some_bind]
  · exact hci
  · simp [hie]
  · exact hih
  · exact hin
  · exact hite
  · simp [hith]
  · exact hid
  · exact ⟨by rw [hkp3]; exact hok2.1, by rw [hkp3]; exact hok2.2.1, hsl3⟩
  · rw [hct3, hct2]; norm_num
  · intro i hi; rw [hkp3]; exact hval2 i hi
  · intro i hi
    rw [hsum3 i, hsm2]
    simp only [hi, if_true, zero_entry, List.getD_eq_getElem?_getD]
    by_cases h : i < HASH_VALS_MAX
    · simp [List.getElem?_replicate, h]
    · simp [List.getElem?_replicate, h]

theorem hits_of_zero (T : hash_trigger_data) (done : List hash_event) (k : List Nat)
    (h : k ∉ done.map (fun ev => key_tuple T ev.record)) : hits_of T done k = 0 := by
  simp only [hits_of, List.countP_eq_zero]
  intro ev hev hk
  exact h (List.mem_map.mpr ⟨ev, hev, by simpa using hk⟩)

theorem sum_of_zero (T : hash_trigger_data) (done : List hash_event) (k : List Nat) (i : Nat)
    (h : k ∉ done.map (fun ev => key_tuple T ev.record)) : sum_of T done k i = 0 := by
  have : done.filter (fun ev => decide (key_tuple T ev.record = k)) = [] := by
    rw [List.filter_eq_nil_iff]
    intro ev hev hk
    exact h (List.mem_map.mpr ⟨ev, hev, by simpa using hk⟩)
  simp [sum_of, this]

theorem step_new (P : Platform) (T : hash_trigger_data) (done : List hash_event)
    (I : TableInv P T done) (ev : hash_event)
    (hf : hash_trigger_entry_find P T ev.record ev.stacktrace = some none)
    (hnew : key_tuple T ev.record ∉ stored_keys T)
    (hlt : T.n_entries < T.max_entries) :
    ∃ T1, event_hash_trigger P T ev.record ev.stacktrace ev.current = some T1 ∧
      same_cfg T T1 ∧ TableInv P T1 (done ++ [ev]) ∧ T1.n_entries = T.n_entries + 1 := by
  obtain ⟨T1, e3, hex, hc, hE, hH, hN, hTE, hTH, hD, hok3, hct3, hkey3, hsum3⟩ :=
    step_new_exec P T done I ev hf hlt
  refine ⟨T1, hex, hc, ?_, hN⟩
  have hlen : T.n_entries < T.entries.length := by rw [I.len]; exact hlt
  have hb : bucket_of P T (key_tuple T ev.record) < T.hashtab.length := by
    rw [I.htlen]; exact bucket_of_lt P T _ I.hr
  have hat := entry_at_set T T1 T.n_entries e3 hE hlen
  have hekn : entry_key T1 T.n_entries = key_tuple T ev.record := by
    simp only [entry_key, key_tuple, hc.2.1, hat, if_true]
    apply List.map_congr_left
    intro i hi
    exact hkey3 i (List.mem_range.mp hi)
  have hek : ∀ idx, idx ≠ T.n_entries → entry_key T1 idx = entry_key T idx := by
    intro idx hne
    apply entry_key_congr T _ hc
    rw [hat idx]
    rw [if_neg (fun h : T.n_entries = idx => hne h.symm)]
  have hsk : stored_keys T1 = stored_keys T ++ [key_tuple T ev.record] := by
    simp only [stored_keys, hN, List.range_succ, List.map_append, List.map_cons, List.map_nil,
      hekn]
    congr 1
    apply List.map_congr_left
    intro idx hidx
    exact hek idx (by have := List.mem_range.mp hidx; omega)
  have hnd : key_tuple T ev.record ∉ done.map (fun ev => key_tuple T ev.record) := by
    rw [← I.keys_iff]; exact hnew
  constructor
  · rw [scalar_keys_congr T T1 hc]; exact I.sk
  · rw [extractable_vals_congr T T1 hc]; exact I.ev
  · rw [hc.2.2.2.2.1]; exact I.hr
  · rw [hD]; exact I.drops0
  · rw [hc.2.2.2.2.2]; exact I.cap
  · rw [hE, hc.2.2.2.2.2]; simpa using I.len
  · rw [hN, hc.2.2.2.2.2]; omega
  · rw [hH, hc.2.2.2.2.1]; simpa using I.htlen
  · unfold linked
    rw [hH, hN, List.range_succ]
    refine (flatten_set_cons T.hashtab _ T.n_entries hb).trans ?_
    refine (List.Perm.cons _ I.perm).trans ?_
    exact (List.perm_append_singleton _ _).symm
  · intro b chain hbc idx hidx
    rw [bucket_of_congr P T _ hc]
    rw [hH, List.getElem?_set] at hbc
    by_cases hbb : bucket_of P T (key_tuple T ev.record) = b
    · simp only [hbb, if_true] at hbc
      rw [← hbb] at hbc
      simp only [hb, if_true, Option.some.injEq] at hbc
      subst hbc
      rcases List.mem_cons.mp hidx with h | h
      · rw [h, hekn]; exact hbb
      · have hch : T.hashtab[bucket_of P T (key_tuple T ev.record)]?
            = some (T.hashtab.getD (bucket_of P T (key_tuple T ev.record)) []) := by
          simp [List.getD_eq_getElem?_getD, List.getElem?_eq_getElem hb]
        have hlt2 : idx < T.n_entries := by
          have : idx ∈ linked T := List.mem_flatten.mpr
            ⟨_, List.mem_iff_getElem?.mpr ⟨_, hch⟩, h⟩
          exact List.mem_range.mp (I.perm.mem_iff.mp this)
        rw [hek idx (by omega)]
        rw [← hbb]
        exact I.bucket _ _ hch idx h
    · simp only [hbb, if_false] at hbc
      have hlt2 : idx < T.n_entries := by
        have : idx ∈ linked T := List.mem_flatten.mpr
          ⟨_, List.mem_iff_getElem?.mpr ⟨_, hbc⟩, hidx⟩
        exact List.mem_range.mp (I.perm.mem_iff.mp this)
      rw [hek idx (by omega)]
      exact I.bucket b chain hbc idx hidx
  · intro idx
    rw [hat idx]
    split
    · exact hok3
    · exact I.ok idx
  · intro idx hidx
    rw [hN] at hidx
    rw [hat idx]
    have : ¬ T.n_entries = idx := by omega
    simp only [this, if_false]
    exact I.zero idx (by omega)
  · rw [hsk]
    exact List.Nodup.append I.nodup (List.nodup_singleton _) (by
      intro a ha hb2
      rw [List.mem_singleton] at hb2
      exact hnew (hb2 ▸ ha))
  · intro k
    rw [hsk, key_tuple_congr T _ hc, List.map_append, List.mem_append, List.mem_append,
      I.keys_iff k]
    simp
  · intro idx hidx
    rw [hN] at hidx
    rw [hits_of_congr T _ hc, hits_of_append, hat idx]
    by_cases h : T.n_entries = idx
    · subst h
      simp only [if_true, hekn, hct3, hits_of_zero T done _ hnd]
      norm_num
    · have hidx2 : idx < T.n_entries := by omega
      rw [hek idx (fun h2 => h h2.symm)]
      have hne : key_tuple T ev.record ≠ entry_key T idx := by
        intro heq
        exact hnew ((mem_stored_keys T _).mpr ⟨idx, hidx2, heq.symm⟩)
      simp only [h, if_false, hne, add_zero]
      exact I.count idx hidx2
  · intro idx hidx i hi
    rw [hN] at hidx
    rw [hc.2.2.2.1] at hi
    rw [sum_of_congr T _ hc, sum_of_append, hat idx]
    by_cases h : T.n_entries = idx
    · subst h
      simp only [if_true, hekn, hsum3 i hi, sum_of_zero T done _ i hnd, zero_add]
    · have hidx2 : idx < T.n_entries := by omega
      rw [hek idx (fun h2 => h h2.symm)]
      have hne : key_tuple T ev.record ≠ entry_key T idx := by
        intro heq
        exact hnew ((mem_stored_keys T _).mpr ⟨idx, hidx2, heq.symm⟩)
      simp only [h, if_false, hne, add_zero]
      exact I.sums idx hidx2 i hi
  · rw [hTH, I.hits]; simp [Nat.add_mod]
  · rw [hTE, hN, I.tot]; simp [Nat.add_mod]

theorem step_full (P : Platform) (T : hash_trigger_data) (done : List hash_event)
    (I : TableInv P T done) (ev : hash_event)
    (hf : hash_trigger_entry_find P T ev.record ev.stacktrace = some none)
    (hfull : T.n_entries = T.max_entries) :
    event_hash_trigger P T ev.record ev.stacktrace ev.current = some { T with drops := 1 } := by
  obtain ⟨f0, hf0, _⟩ := scalar_keys_field T I.sk 0 (scalar_keys_pos T I.sk).1
  have hd : ¬ T.drops ≠ 0 := by simp [I.drops0]
  unfold event_hash_trigger
  rw [if_neg hd]
  simp only [hf0, hf, Option.bind_eq_bind, Option.some_bind]
  unfold hash_trigger_entry_create
  rw [if_neg hd, if_pos hfull]
  rfl

theorem inv_n_entries (P : Platform) (T : hash_trigger_data) (done : List hash_event)
    (I : TableInv P T done) :
    T.n_entries = (done.map (fun ev => key_tuple T ev.record)).toFinset.card := by
  have h1 : (stored_keys T).toFinset = (done.map (fun ev => key_tuple T ev.record)).toFinset := by
    ext k
    simp only [List.mem_toFinset]
    exact I.keys_iff k
  rw [← h1, List.toFinset_card_of_nodup I.nodup]
  simp [stored_keys]

theorem inv_room (P : Platform) (T : hash_trigger_data) (done : List hash_event)
    (I : TableInv P T done) (ev : hash_event) (rest : List hash_event)
    (hnew : key_tuple T ev.record ∉ stored_keys T)
    (hcard : ((done ++ ev :: rest).map (fun ev => key_tuple T ev.record)).toFinset.card
      ≤ T.max_entries) :
    T.n_entries < T.max_entries := by
  have hnd : key_tuple T ev.record ∉ (done.map (fun ev => key_tuple T ev.record)).toFinset := by
    rw [List.mem_toFinset, ← I.keys_iff]; exact hnew
  have hsub : insert (key_tuple T ev.record) (done.map (fun ev => key_tuple T ev.record)).toFinset
      ⊆ ((done ++ ev :: rest).map (fun ev => key_tuple T ev.record)).toFinset := by
    intro k hk
    rw [Finset.mem_insert, List.mem_toFinset] at hk
    rw [List.mem_toFinset, List.map_append, List.mem_append, List.map_cons, List.mem_cons]
    rcases hk with h | h
    · exact Or.inr (Or.inl h)
    · exact Or.inl h
  have := Finset.card_le_card hsub
  rw [Finset.card_insert_of_not_mem hnd, ← inv_n_entries P T done I] at this
  omega

theorem run_inv (P : Platform) (evs : List hash_event) :
    ∀ (T : hash_trigger_data) (done : List hash_event), TableInv P T done →
      ((done ++ evs).map (fun ev => key_tuple T ev.record)).toFinset.card ≤ T.max_entries →
      ∃ T1, event_hash_trigger_seq P T evs = some T1 ∧ same_cfg T T1 ∧
        TableInv P T1 (done ++ evs) := by
  induction evs with
  | nil =>
    intro T done I _
    exact ⟨T, rfl, ⟨rfl, rfl, rfl, rfl, rfl, rfl⟩, by simpa using I⟩
  | cons ev evs ih =>
    intro T done I hcard
    have hstep : ∃ T1, event_hash_trigger P T ev.record ev.stacktrace ev.current = some T1 ∧
        same_cfg T T1 ∧ TableInv P T1 (done ++ [ev]) := by
      rcases inv_find P T done I ev.record ev.stacktrace with ⟨idx, hf, hlt, hkey⟩ | ⟨hf, hnew⟩
      · exact step_hit P T done I ev idx hf hlt hkey
      · obtain ⟨T1, h1, h2, h3, _⟩ :=
          step_new P T done I ev hf hnew (inv_room P T done I ev evs hnew hcard)
        exact ⟨T1, h1, h2, h3⟩
    obtain ⟨T1, hex, hc, I1⟩ := hstep
    have hcard1 : (((done ++ [ev]) ++ evs).map (fun ev => key_tuple T1 ev.record)).toFinset.card
        ≤ T1.max_entries := by
      rw [key_tuple_congr T T1 hc, hc.2.2.2.2.2]
      simpa using hcard
    obtain ⟨T2, hrun, hc2, I2⟩ := ih T1 (done ++ [ev]) I1 hcard1
    refine ⟨T2, ?_, ?_, by simpa using I2⟩
    · simp [event_hash_trigger_seq, hex, hrun]
    · exact ⟨hc2.1.trans hc.1, hc2.2.1.trans hc.2.1, hc2.2.2.1.trans hc.2.2.1,
        hc2.2.2.2.1.trans hc.2.2.2.1, hc2.2.2.2.2.1.trans hc.2.2.2.2.1,
        hc2.2.2.2.2.2.trans hc.2.2.2.2.2⟩

theorem create_key_field_arena (hd : hash_trigger_data) (key : Nat)
    (file : List ftrace_event_field) (s : List Char) (a : List Bool)
    (r : Int × hash_trigger_data × List Bool)
    (h : create_key_field hd key file s a = some r) : arena_state r.2.1 = arena_state hd := by
  unfold create_key_field at h
  split at h
  · simp at h
  · split at h
    · simp at h; subst h; rfl
    · split at h
      · simp at h
      · split at h
        · simp at h
        · rename_i hf a1 _
          simp at h; subst h
          cases hf <;> rfl

theorem create_val_field_arena (hd : hash_trigger_data) (val : Nat)
    (file : List ftrace_event_field) (s : List Char) (a : List Bool)
    (r : Int × hash_trigger_data × List Bool)
    (h : create_val_field hd val file s a = some r) : arena_state r.2.1 = arena_state hd := by
  unfold create_val_field at h
  split at h
  · simp at h; subst h; rfl
  · split at h
    · simp at h
    · split at h
      · simp at h; subst h; rfl
      · split at h
        · simp at h
        · split at h
          · simp at h
          · rename_i hf a1 _
            simp at h; subst h
            cases hf <;> rfl

theorem create_hash_fields_keys_arena (file : List ftrace_event_field) (is : List Nat) :
    ∀ (fs : Option (List Char)) (hd : hash_trigger_data) (a : List Bool)
      (r : Int × hash_trigger_data × List Bool),
      create_hash_fields_keys file is fs hd a = some r → arena_state r.2.1 = arena_state hd := by
  induction is with
  | nil => intro fs hd a r h; simp [create_hash_fields_keys] at h; subst h; rfl
  | cons i is ih =>
    intro fs hd a r h
    unfold create_hash_fields_keys at h
    split at h
    · split at h <;> (simp at h; subst h; rfl)
    · split at h
      · simp at h
      · rename_i ret hd1 a1 hk
        have h1 := create_key_field_arena _ _ _ _ _ _ hk
        split at h
        · simp at h; subst h; exact h1
        · exact (ih _ _ _ _ h).trans h1

theorem create_hash_fields_vals_arena (file : List ftrace_event_field) (is : List Nat) :
    ∀ (fs : Option (List Char)) (hd : hash_trigger_data) (a : List Bool)
      (r : Int × hash_trigger_data × List Bool),
      create_hash_fields_vals file is fs hd a = some r → arena_state r.2.1 = arena_state hd := by
  induction is with
  | nil => intro fs hd a r h; simp [create_hash_fields_vals] at h; subst h; rfl
  | cons i is ih =>
    intro fs hd a r h
    unfold create_hash_fields_vals at h
    split at h
    · split at h <;> (simp at h; subst h; rfl)
    · split at h
      · simp at h
      · rename_i ret hd1 a1 hk
        have h1 := create_val_field_arena _ _ _ _ _ _ hk
        split at h
        · simp at h; subst h; exact h1
        · exact (ih _ _ _ _ h).trans h1

theorem create_hash_fields_arena (hd : hash_trigger_data) (file : List ftrace_event_field)
    (a : List Bool) (r : Int × hash_trigger_data × List Bool)
    (h : create_hash_fields hd file a = some r) : arena_state r.2.1 = arena_state hd := by
  unfold create_hash_fields at h
  split at h
  · simp at h
  · rename_i ret hd1 a1 hk
    have h1 := create_hash_fields_keys_arena _ _ _ _ _ _ hk
    split at h
    · simp at h; subst h; exact h1
    · split at h
      · simp at h
      · rename_i ret1 hd2 a2 hv
        have h2 := create_hash_fields_vals_arena _ _ _ _ _ _ hv
        split at h
        · simp at h; subst h; exact h2.trans h1
        · unfold create_sort_keys at h
          split at h
          · simp at h
          · simp at h; subst h; exact h2.trans h1

theorem create_hash_data_fresh (bits : Nat) (keys vals : List Char)
    (sort_keys : Option (List Char)) (file : List ftrace_event_field) (a : List Bool)
    (ret0 : Int) (T : hash_trigger_data) (ret : Int) (a1 : List Bool)
    (h : create_hash_data bits keys vals sort_keys file a ret0 = some (some T, ret, a1)) :
    T.hashtab = List.replicate ((1 <<< bits) % 2 ^ 32) [] ∧ T.hashtab_bits = bits ∧
    T.max_entries = ((1 <<< bits) % 2 ^ 32 * 2) % 2 ^ 32 ∧
    T.entries = List.replicate T.max_entries zero_entry ∧
    T.n_entries = 0 ∧ T.drops = 0 ∧ T.total_hits = 0 ∧ T.total_entries = 0 := by
  unfold create_hash_data at h
  simp only at h
  repeat' split at h
  all_goals try (simp at h; done)
  rename_i hcf _ _
  have hfr := create_hash_fields_arena _ _ _ _ hcf
  simp only [arena_state, Prod.mk.injEq] at hfr
  simp only [Option.some.injEq, Prod.mk.injEq] at h
  obtain ⟨hT, _, _⟩ := h
  subst hT
  obtain ⟨h1, h2, h3, h4, h5, h6, h7, h8⟩ := hfr
  simp only [h3, h4, h5, h6, h7, h8]
  simp [zero_hash_data]

theorem flatten_replicate_nil (n : Nat) : (List.replicate n ([] : List Nat)).flatten = [] := by
  induction n with
  | zero => rfl
  | succ n ih => simp [List.replicate_succ, ih]

theorem entry_at_replicate (T : hash_trigger_data) (n : Nat)
    (h : T.entries = List.replicate n zero_entry) (idx : Nat) : entry_at T idx = zero_entry := by
  simp only [entry_at, h, List.getD_eq_getElem?_getD, List.getElem?_replicate]
  split <;> rfl

theorem shift_one (bits : Nat) (h : bits < 32) : (1 <<< bits) % 2 ^ 32 = 2 ^ bits := by
  rw [Nat.shiftLeft_eq, one_mul]
  exact Nat.mod_eq_of_lt (Nat.pow_lt_pow_right (by norm_num) h)

theorem fresh_inv (P : Platform) (bits : Nat) (keys vals : List Char)
    (sort_keys : Option (List Char)) (file : List ftrace_event_field) (a : List Bool)
    (ret0 : Int) (T : hash_trigger_data) (ret : Int) (a1 : List Bool)
    (hcreate : create_hash_data bits keys vals sort_keys file a ret0 = some (some T, ret, a1))
    (hbits : bits ≤ 30) (hkeys : scalar_keys T = true) (hvals : extractable_vals T = true)
    (hhash : hash_in_range P bits) :
    TableInv P T [] ∧ T.max_entries = 2 * 2 ^ bits := by
  obtain ⟨hH, hB, hM, hE, hN, hD, hTH, hTE⟩ :=
    create_hash_data_fresh bits keys vals sort_keys file a ret0 T ret a1 hcreate
  rw [shift_one bits (by omega)] at hH hM
  have hpow : 2 ^ bits * 2 < 2 ^ 32 := by
    calc 2 ^ bits * 2 = 2 ^ (bits + 1) := by rw [pow_succ]
      _ < 2 ^ 32 := Nat.pow_lt_pow_right (by norm_num) (by omega)
  rw [Nat.mod_eq_of_lt hpow] at hM
  have hat := entry_at_replicate T T.max_entries hE
  have hsk : stored_keys T = [] := by simp [stored_keys, hN]
  refine ⟨?_, by rw [hM]; ring⟩
  constructor
  · exact hkeys
  · exact hvals
  · rw [hB]; exact hhash
  · exact hD
  · rw [hM]; exact hpow
  · rw [hE]; simp
  · rw [hN]; exact Nat.zero_le _
  · rw [hH, hB]; simp
  · unfold linked; rw [hH, hN, flatten_replicate_nil]; simp
  · intro b chain hb idx hidx
    rw [hH, List.getElem?_replicate] at hb
    split at hb
    · simp at hb; subst hb; simp at hidx
    · simp at hb
  · intro idx; rw [hat idx]; exact zero_entry_ok
  · intro idx _; exact hat idx
  · rw [hsk]; exact List.nodup_nil
  · intro k; rw [hsk]; simp
  · intro idx hidx; rw [hN] at hidx; omega
  · intro idx hidx; rw [hN] at hidx; omega
  · rw [hTH]; simp
  · rw [hTE, hN]; simp

theorem hits_of_le (T : hash_trigger_data) (evs : List hash_event) (k : List Nat) :
    hits_of T evs k ≤ evs.length := List.countP_le_length _

/-- C1: a stream of events fed one at a time to `event_hash_trigger` on a
freshly created table with scalar key fields (and extractable value fields),
whose number of distinct key tuples does not exceed the table capacity, is
processed completely and leaves exactly one linked entry per distinct key
tuple of the stream; the hit count of each entry is the number of events
carrying its key, and `sums[i]` is the sum modulo `2 ^ 64` of value field `i`
over those events. -/
theorem C1_event_hash_trigger_aggregates (P : Platform) (bits : Nat) (keys vals : List Char)
    (sort_keys : Option (List Char)) (file : List ftrace_event_field) (a : List Bool)
    (ret0 : Int) (T : hash_trigger_data) (ret : Int) (a1 : List Bool)
    (evs : List hash_event)
    (hcreate : create_hash_data bits keys vals sort_keys file a ret0 = some (some T, ret, a1))
    (hbits : bits ≤ 30) (hkeys : scalar_keys T = true) (hvals : extractable_vals T = true)
    (hhash : hash_in_range P bits)
    (hcap : ((evs.map (fun ev => key_tuple T ev.record)).dedup).length ≤ T.max_entries)
    (hlen : evs.length < 2 ^ 64) :
    ∃ T1, event_hash_trigger_seq P T evs = some T1 ∧
      ((linked T1).map (entry_key T1)).Nodup ∧
      (∀ k, k ∈ (linked T1).map (entry_key T1) ↔
        k ∈ evs.map (fun ev => key_tuple T ev.record)) ∧
      ∀ idx, idx ∈ linked T1 →
        (entry_at T1 idx).count = hits_of T evs (entry_key T1 idx) ∧
        ∀ i, i < T.n_vals →
          (entry_at T1 idx).sums.getD i 0 = sum_of T evs (entry_key T1 idx) i % 2 ^ 64 := by
  obtain ⟨I0, _⟩ := fresh_inv P bits keys vals sort_keys file a ret0 T ret a1 hcreate hbits
    hkeys hvals hhash
  obtain ⟨T1, hrun, hc, I1⟩ := run_inv P evs T [] I0 (by
    rw [List.nil_append, List.card_toFinset]; exact hcap)
  rw [List.nil_append] at I1
  have hperm : ((linked T1).map (entry_key T1)).Perm (stored_keys T1) :=
    List.Perm.map _ I1.perm
  refine ⟨T1, hrun, hperm.nodup_iff.mpr I1.nodup, ?_, ?_⟩
  · intro k
    rw [hperm.mem_iff, I1.keys_iff k, key_tuple_congr T T1 hc]
  · intro idx hidx
    have hlt : idx < T1.n_entries := List.mem_range.mp (I1.perm.mem_iff.mp hidx)
    refine ⟨?_, ?_⟩
    · rw [I1.count idx hlt, hits_of_congr T T1 hc]
      exact Nat.mod_eq_of_lt (lt_of_le_of_lt (hits_of_le T evs _) hlen)
    · intro i hi
      rw [I1.sums idx hlt i (by rw [hc.2.2.2.1]; exact hi), sum_of_congr T T1 hc]

theorem shiftRight_lt_of_lt (x w b : Nat) (h : x < 2 ^ w) : x >>> (w - b) < 2 ^ b := by
  rw [Nat.shiftRight_eq_div_pow]
  by_cases hb : b ≤ w
  · rw [Nat.div_lt_iff_lt_mul (by positivity)]
    calc x < 2 ^ w := h
      _ = 2 ^ b * 2 ^ (w - b) := by rw [← pow_add]; congr 1; omega
  · have : w - b = 0 := by omega
    rw [this, pow_zero, Nat.div_one]
    exact lt_of_lt_of_le h (Nat.pow_le_pow_right (by norm_num) (by omega))

theorem x86_64_hash_in_range (bits : Nat) : hash_in_range x86_64 bits :=
  ⟨fun _ => shiftRight_lt_of_lt _ 64 bits (Nat.mod_lt _ (by norm_num)),
   fun _ => shiftRight_lt_of_lt _ 32 bits (Nat.mod_lt _ (by norm_num))⟩

/-- C4 (amended): once the drop flag is set, `event_hash_trigger` returns before
the lookup, so an event whose key matches an existing entry is not counted
either: the matching entry, the bucket chains, the arena of entries and
`total_hits` are unchanged, and `drops` is incremented by one (modulo
`2 ^ BITS_PER_LONG`). -/
theorem C4_no_counting_after_drop (P : Platform) (T : hash_trigger_data) (ev : hash_event)
    (idx : Nat) (hdrop : T.drops ≠ 0) (hlinked : idx ∈ linked T)
    (hmatch : entry_key T idx = key_tuple T ev.record) :
    ∃ T1, event_hash_trigger P T ev.record ev.stacktrace ev.current = some T1 ∧
      (entry_at T1 idx).count = (entry_at T idx).count ∧
      (entry_at T1 idx).sums = (entry_at T idx).sums ∧
      idx ∈ linked T1 ∧ entry_key T1 idx = key_tuple T1 ev.record ∧
      T1.total_hits = T.total_hits ∧
      T1.hashtab = T.hashtab ∧ T1.entries = T.entries ∧
      T1.drops = (T.drops + 1) % 2 ^ P.BITS_PER_LONG := by
  refine ⟨{ T with drops := (T.drops + 1) % 2 ^ P.BITS_PER_LONG }, ?_, rfl, rfl, hlinked,
    hmatch, rfl, rfl, rfl, rfl⟩
  unfold event_hash_trigger
  rw [if_pos hdrop]

/-- Witness of C1 on scenario A: key `pid`, value `bytes_alloc`, events
(1,10), (2,5), (1,7) give the rows {pid=2,count=1,sum=5} and
{pid=1,count=2,sum=17}. -/
theorem C1_witness :
    (∃ T1, event_hash_trigger_seq x86_64 scenario_table scenario_A_events = some T1 ∧
      ((linked T1).map (entry_key T1)).Nodup ∧
      (∀ k, k ∈ (linked T1).map (entry_key T1) ↔
        k ∈ scenario_A_events.map (fun ev => key_tuple scenario_table ev.record)) ∧
      ∀ idx, idx ∈ linked T1 →
        (entry_at T1 idx).count = hits_of scenario_table scenario_A_events (entry_key T1 idx) ∧
        ∀ i, i < scenario_table.n_vals →
          (entry_at T1 idx).sums.getD i 0
            = sum_of scenario_table scenario_A_events (entry_key T1 idx) i % 2 ^ 64) ∧
    (event_hash_trigger_seq x86_64 scenario_table scenario_A_events).map table_rows
      = some [([2], 1, [5]), ([1], 2, [17])] :=
  ⟨C1_event_hash_trigger_aggregates x86_64 1 "pid".toList "bytes_alloc".toList none
      scenario_fields [] 0 scenario_table 0 [] scenario_A_events (by decide!) (by decide)
      (by decide) (by decide) (x86_64_hash_in_range 1) (by decide) (by decide),
   by decide⟩

/-- C4 (as stated) fails: in the scenario table filled by four keys and
marked by a refused fifth one, an event with `pid = 1` matches the linked
entry in slot 0, yet after `event_hash_trigger` the hit count of that entry
is still 1 and its sum still 10. -/
theorem C4_counterexample :
    scenario_B_table.drops ≠ 0 ∧ 0 ∈ linked scenario_B_table ∧
    entry_key scenario_B_table 0 = key_tuple scenario_B_table (scenario_event 1 7).record ∧
    (entry_at scenario_B_table 0).count = 1 ∧
    (entry_at scenario_B_table 0).sums.getD 0 0 = 10 ∧
    ∃ T2, event_hash_trigger x86_64 scenario_B_table (scenario_event 1 7).record
        (scenario_event 1 7).stacktrace (scenario_event 1 7).current = some T2 ∧
      (entry_at T2 0).count ≠ (entry_at scenario_B_table 0).count + 1 ∧
      (entry_at T2 0).sums.getD 0 0 ≠ (entry_at scenario_B_table 0).sums.getD 0 0 + 7 :=
  ⟨by decide, by decide, by decide, by decide, by decide,
   { scenario_B_table with drops := 2 }, by decide!, by decide, by decide⟩

/-- Witness of C4 (amended) on the saturated scenario table and an event
with the key of the entry in slot 0. -/
theorem C4_witness :
    ∃ T1, event_hash_trigger x86_64 scenario_B_table (scenario_event 1 7).record
        (scenario_event 1 7).stacktrace (scenario_event 1 7).current = some T1 ∧
      (entry_at T1 0).count = (entry_at scenario_B_table 0).count ∧
      (entry_at T1 0).sums = (entry_at scenario_B_table 0).sums ∧
      0 ∈ linked T1 ∧ entry_key T1 0 = key_tuple T1 (scenario_event 1 7).record ∧
      T1.total_hits = scenario_B_table.total_hits ∧
      T1.hashtab = scenario_B_table.hashtab ∧ T1.entries = scenario_B_table.entries ∧
      T1.drops = (scenario_B_table.drops + 1) % 2 ^ x86_64.BITS_PER_LONG :=
  C4_no_counting_after_drop x86_64 scenario_B_table (scenario_event 1 7) 0
    (by decide) (by decide) (by decide)

theorem update_loop_count (T : hash_trigger_data) (rec : trace_record) (is : List Nat) :
    ∀ (e e1 : hash_trigger_entry),
      hash_trigger_entry_update_loop T rec is e = some e1 → e1.count = e.count := by
  induction is with
  | nil => intro e e1 h; simp [hash_trigger_entry_update_loop] at h; subst h; rfl
  | cons i is ih =>
    intro e e1 h
    simp only [hash_trigger_entry_update_loop, Option.bind_eq_bind, Option.bind_eq_some] at h
    obtain ⟨f, _, v, _, s, _, h⟩ := h
    have h2 := ih _ e1 h
    simpa using h2

theorem update_general (T : hash_trigger_data) (idx : Nat) (rec : trace_record)
    (T1 : hash_trigger_data) (h : hash_trigger_entry_update T idx rec = some T1) :
    ∃ e1, idx < T.entries.length ∧ T1 = { T with entries := T.entries.set idx e1 } ∧
      e1.count = ((entry_at T idx).count + 1) % 2 ^ 64 := by
  simp only [hash_trigger_entry_update, Option.bind_eq_bind, Option.bind_eq_some] at h
  obtain ⟨e, he, e1, hl, h⟩ := h
  have hlt : idx < T.entries.length := by
    by_contra hc
    rw [List.getElem?_eq_none (by omega)] at he
    simp at he
  have hat : entry_at T idx = e := by
    simp [entry_at, List.getD_eq_getElem?_getD, he]
  refine ⟨{ e1 with count := (e1.count + 1) % 2 ^ 64 }, hlt, ?_, ?_⟩
  · simpa using h.symm
  · simp [update_loop_count T rec _ e e1 hl, hat]

theorem find_chain_mem (P : Platform) (T : hash_trigger_data) (kps : List hash_key_part)
    (n : Nat) (chain : List Nat) (idx : Nat)
    (h : hash_trigger_entry_find_chain P T kps n chain = some (some idx)) : idx ∈ chain := by
  induction chain with
  | nil => simp [hash_trigger_entry_find_chain] at h
  | cons e chain ih =>
    simp only [hash_trigger_entry_find_chain, Option.bind_eq_bind, Option.bind_eq_some] at h
    obtain ⟨entry, _, m, _, h⟩ := h
    split at h
    · simp at h; simp [h]
    · exact List.mem_cons_of_mem _ (ih h)

theorem find_mem (P : Platform) (T : hash_trigger_data) (rec : trace_record)
    (st : stack_trace) (idx : Nat)
    (h : hash_trigger_entry_find P T rec st = some (some idx)) : idx ∈ linked T := by
  simp only [hash_trigger_entry_find, Option.bind_eq_bind, Option.bind_eq_some] at h
  obtain ⟨hidx, _, h⟩ := h
  split at h
  · simp at h
  · simp only [Option.pure_def, Option.bind_eq_bind, Option.bind_eq_some] at h
    obtain ⟨_, _, kps, _, chain, hch, h⟩ := h
    exact List.mem_flatten.mpr
      ⟨chain, List.mem_iff_getElem?.mpr ⟨_, hch⟩, find_chain_mem P T kps _ chain idx h⟩

theorem create_loop_general (T0 : hash_trigger_data) (rec : trace_record) (st : stack_trace)
    (is : List Nat) :
    ∀ (hd : hash_trigger_data) (e : hash_trigger_entry) (b : Bool)
      (r : hash_trigger_data × hash_trigger_entry × Bool),
      hash_trigger_entry_create_loop T0 rec st is (hd, e, b) = some r →
      acct_state r.1 = acct_state hd ∧ r.2.1.count = e.count := by
  induction is with
  | nil =>
    intro hd e b r h
    simp [hash_trigger_entry_create_loop] at h
    subst h; exact ⟨rfl, rfl⟩
  | cons i is ih =>
    intro hd e b r h
    simp only [hash_trigger_entry_create_loop, Option.bind_eq_bind, Option.bind_eq_some] at h
    obtain ⟨f, _, h⟩ := h
    split at h
    · simp only [Option.bind_eq_some] at h
      obtain ⟨⟨hd1, e1⟩, hfill, h⟩ := h
      have h2 := ih hd1 e1 b r h
      unfold stacktrace_entry_fill at hfill
      split at hfill
      · simp at hfill
      · simp only [Option.some.injEq, Prod.mk.injEq] at hfill
        obtain ⟨h3, h4⟩ := hfill
        subst h3 h4
        exact ⟨h2.1, h2.2⟩
    · split at h
      · simp only [Option.bind_eq_some] at h
        obtain ⟨⟨hd1, e1⟩, hfill, h⟩ := h
        have h2 := ih hd1 e1 b r h
        simp only [string_entry_fill, Option.bind_eq_bind, Option.bind_eq_some] at hfill
        obtain ⟨fld, _, v, _, arena, _, hfill⟩ := hfill
        split at hfill
        · simp at hfill
        · simp only [Option.pure_def, Option.bind_eq_bind, Option.some_bind,
            Option.some.injEq, Prod.mk.injEq] at hfill
          obtain ⟨h3, h4⟩ := hfill
          subst h3 h4
          exact ⟨h2.1, h2.2⟩
      · simp only [Option.bind_eq_some] at h
        obtain ⟨v, _, h⟩ := h
        split at h
        · simp at h
        · simp only [Option.pure_def, Option.bind_eq_bind, Option.bind_eq_some] at h
          obtain ⟨_, _, h⟩ := h
          have h2 := ih _ _ _ r h
          exact ⟨h2.1, h2.2⟩

theorem create_general (P : Platform) (T : hash_trigger_data) (rec : trace_record)
    (st : stack_trace) (cur : task_struct) (hd : hash_trigger_data) (r : Option Nat)
    (hdrop : T.drops = 0)
    (h : hash_trigger_entry_create P T rec st cur = some (hd, r)) :
    (r = none ∧ T.n_entries = T.max_entries ∧ hd = { T with drops := 1 }) ∨
    (r = some T.n_entries ∧ T.n_entries ≠ T.max_entries ∧ T.n_entries < T.entries.length ∧
      ∃ e2, e2.count = (entry_at T T.n_entries).count ∧
        hd.entries = T.entries.set T.n_entries e2 ∧ hd.hashtab = T.hashtab ∧
        hd.n_entries = (T.n_entries + 1) % 2 ^ 32 ∧ hd.total_hits = T.total_hits ∧
        hd.total_entries = T.total_entries ∧ hd.drops = T.drops ∧
        hd.max_entries = T.max_entries) := by
  unfold hash_trigger_entry_create at h
  rw [if_neg (by simp [hdrop])] at h
  split at h
  · rename_i hfull
    simp only [Option.some.injEq, Prod.mk.injEq] at h
    exact Or.inl ⟨h.2.symm, hfull, h.1.symm⟩
  · rename_i hne
    right
    simp only [Option.bind_eq_bind, Option.bind_eq_some] at h
    obtain ⟨e, he, ⟨hd1, e1, b1⟩, hloop, h⟩ := h
    simp only [Option.some.injEq, Prod.mk.injEq] at h
    obtain ⟨h1, h2⟩ := h
    have hlt : T.n_entries < T.entries.length := by
      by_contra hc
      rw [List.getElem?_eq_none (by simpa using hc)] at he
      simp at he
    have hat : entry_at T T.n_entries = e := by
      simp only [entry_at, List.getD_eq_getElem?_getD]
      have : T.entries[T.n_entries]? = some e := he
      rw [this]; rfl
    obtain ⟨hfr, hct⟩ := create_loop_general _ rec st _ _ _ _ _ hloop
    simp only [acct_state, Prod.mk.injEq] at hfr
    obtain ⟨f1, f2, f3, f4, f5, f6, f7⟩ := hfr
    refine ⟨h2.symm, hne, hlt, if b1 then { e1 with comm := save_comm P cur } else e1, ?_, ?_⟩
    · rw [hat]; split <;> simpa using hct
    · subst h1
      simp only
      exact ⟨by rw [f2], f1, f3, f4, f5, f6, f7⟩

theorem insert_general (P : Platform) (T : hash_trigger_data) (idx : Nat) (rec : trace_record)
    (st : stack_trace) (T1 : hash_trigger_data)
    (h : hash_trigger_entry_insert P T idx rec st = some T1) :
    ∃ b chain, T.hashtab[b]? = some chain ∧
      T1 = { T with total_entries := (T.total_entries + 1) % 2 ^ P.BITS_PER_LONG,
                    hashtab := T.hashtab.set b (idx :: chain) } := by
  simp only [hash_trigger_entry_insert, Option.bind_eq_bind, Option.bind_eq_some] at h
  obtain ⟨b, _, chain, hch, h⟩ := h
  exact ⟨b, chain, hch, by simpa using h.symm⟩

theorem sum_map_update (f g : Nat → Nat) (idx : Nat) (hfg : ∀ j, j ≠ idx → g j = f j)
    (l : List Nat) (hnd : l.Nodup) (hidx : idx ∈ l) :
    (l.map g).sum + f idx = (l.map f).sum + g idx := by
  induction l with
  | nil => simp at hidx
  | cons a l ih =>
    have hnd' := List.nodup_cons.mp hnd
    simp only [List.map_cons, List.sum_cons]
    rcases List.mem_cons.mp hidx with h | h
    · subst h
      have : (l.map g) = (l.map f) := List.map_congr_left (fun j hj =>
        hfg j (fun hji => hnd'.1 (hji ▸ hj)))
      rw [this]; omega
    · have hne : a ≠ idx := fun hai => hnd'.1 (hai ▸ h)
      rw [hfg a hne]
      have := ih hnd'.2 h
      omega

theorem counts_sum_le (T : hash_trigger_data) (idx : Nat) (h : idx ∈ linked T) :
    (entry_at T idx).count ≤ counts_sum T := by
  unfold counts_sum
  exact List.single_le_sum (by simp) _ (List.mem_map.mpr ⟨idx, h, rfl⟩)

theorem acct_step (P : Platform) (T : hash_trigger_data) (n : Nat) (I : AcctInv T n)
    (rec : trace_record) (st : stack_trace) (cur : task_struct) (T1 : hash_trigger_data)
    (hlong : n + 1 < 2 ^ P.BITS_PER_LONG) (h64 : P.BITS_PER_LONG ≤ 64)
    (h : event_hash_trigger P T rec st cur = some T1) : AcctInv T1 (n + 1) := by
  have hpow : 2 ^ P.BITS_PER_LONG ≤ 2 ^ 64 := Nat.pow_le_pow_right (by norm_num) h64
  have hnd : (linked T).Nodup := I.perm.nodup_iff.mpr (List.nodup_range _)
  unfold event_hash_trigger at h
  split at h
  · -- the drop path
    simp only [Option.some.injEq] at h
    subst h
    have hacc := I.acc
    exact ⟨I.cap, I.len, I.nle, I.perm, I.zero, I.hits, by
      show T.total_hits + (T.drops + 1) % 2 ^ P.BITS_PER_LONG = n + 1
      rw [Nat.mod_eq_of_lt (by omega)]; omega⟩
  · rename_i hd0
    have hdrop : T.drops = 0 := by simpa using hd0
    simp only [Option.bind_eq_bind, Option.bind_eq_some] at h
    obtain ⟨_, _, found, hfind, h⟩ := h
    split at h
    · -- found
      rename_i idx
      simp only [Option.bind_eq_some, Option.some.injEq] at h
      obtain ⟨Tu, hup, h⟩ := h
      obtain ⟨e1, hlt, hTu, hct⟩ := update_general T idx rec Tu hup
      have hmem := find_mem P T rec st idx hfind
      have hfin : T1.entries = T.entries.set idx e1 ∧ T1.hashtab = T.hashtab ∧
          T1.n_entries = T.n_entries ∧
          T1.total_hits = (T.total_hits + 1) % 2 ^ P.BITS_PER_LONG ∧
          T1.drops = T.drops ∧ T1.max_entries = T.max_entries := by
        subst h hTu
        simp
      obtain ⟨fE, fH, fN, fTH, fD, fM⟩ := hfin
      have hat := entry_at_set T T1 idx e1 fE hlt
      have hle := counts_sum_le T idx hmem
      have hth : T.total_hits = n := by have := I.acc; omega
      have hct1 : e1.count = (entry_at T idx).count + 1 := by
        rw [hct]; apply Nat.mod_eq_of_lt
        have := I.hits; omega
      have hl1 : linked T1 = linked T := by unfold linked; rw [fH]
      refine ⟨by rw [fM]; exact I.cap, by rw [fE, fM]; simpa using I.len,
        by rw [fN, fM]; exact I.nle, by rw [hl1, fN]; exact I.perm, ?_, ?_, ?_⟩
      · intro j hj
        rw [fN] at hj
        rw [hat j]
        have hlt2 : idx < T.n_entries := List.mem_range.mp (I.perm.mem_iff.mp hmem)
        rw [if_neg (by omega)]
        exact I.zero j hj
      · rw [fTH, Nat.mod_eq_of_lt (by omega)]
        have hsum := sum_map_update (fun j => (entry_at T j).count)
          (fun j => (entry_at T1 j).count) idx
          (fun j hj => by
            simp only [hat j]
            rw [if_neg (fun h2 => hj h2.symm)]) (linked T) hnd hmem
        simp only [hat idx, if_true] at hsum
        have h1 := I.hits
        unfold counts_sum at h1 ⊢
        rw [hl1]
        omega
      · rw [fTH, fD, Nat.mod_eq_of_lt (by omega)]
        have := I.acc; omega
    · -- not found
      simp only [Option.bind_eq_some] at h
      obtain ⟨⟨hdc, created⟩, hcr, h⟩ := h
      rcases create_general P T rec st cur hdc created hdrop hcr with
        ⟨hr, hfull, hhd⟩ | ⟨hr, hne, hlt, e2, hct2, hE, hH, hN, hTH, hTE, hD, hM⟩
      · subst hr hhd
        simp only [Option.some.injEq] at h
        subst h
        exact ⟨I.cap, I.len, I.nle, I.perm, I.zero, I.hits, by
          show T.total_hits + 1 = n + 1
          have := I.acc; omega⟩
      · subst hr
        simp only [Option.bind_eq_some, Option.some.injEq] at h
        obtain ⟨Ti, hins, Tu, hup, h⟩ := h
        obtain ⟨b, chain, hch, hTi⟩ := insert_general P hdc T.n_entries rec st Ti hins
        obtain ⟨e3, hlt3, hTu, hct3⟩ := update_general Ti T.n_entries rec Tu hup
        have hnlt : T.n_entries < T.max_entries := by have := I.nle; omega
        have hmod : (T.n_entries + 1) % 2 ^ 32 = T.n_entries + 1 :=
          Nat.mod_eq_of_lt (by have := I.cap; omega)
        have hiE : Ti.entries = T.entries.set T.n_entries e2 := by subst hTi; exact hE
        have hati : entry_at Ti T.n_entries = e2 := by
          rw [entry_at_set T Ti T.n_entries e2 hiE hlt]; simp
        have hz := I.zero T.n_entries (le_refl _)
        have hc3 : e3.count = 1 := by rw [hct3, hati, hct2, hz]; norm_num
        have hb : b < T.hashtab.length := by
          rw [hH] at hch
          by_contra hc
          rw [List.getElem?_eq_none (by omega)] at hch
          simp at hch
        have hchain : chain = T.hashtab.getD b [] := by
          rw [hH] at hch
          simp [List.getD_eq_getElem?_getD, hch]
        have hfin : T1.entries = T.entries.set T.n_entries e3 ∧
            T1.hashtab = T.hashtab.set b (T.n_entries :: T.hashtab.getD b []) ∧
            T1.n_entries = T.n_entries + 1 ∧
            T1.total_hits = (T.total_hits + 1) % 2 ^ P.BITS_PER_LONG ∧
            T1.drops = T.drops ∧ T1.max_entries = T.max_entries := by
          rw [hmod] at hN
          subst h hTu hTi
          simp [hE, hH, hN, hTH, hD, hM, hchain]
        obtain ⟨fE, fH, fN, fTH, fD, fM⟩ := hfin
        have hat := entry_at_set T T1 T.n_entries e3 fE hlt
        have hnotin : T.n_entries ∉ linked T := by
          intro hmem
          have := List.mem_range.mp (I.perm.mem_iff.mp hmem)
          omega
        have hperm1 : (linked T1).Perm (T.n_entries :: linked T) := by
          unfold linked; rw [fH]
          exact flatten_set_cons T.hashtab b T.n_entries hb
        have hth : T.total_hits = n := by have := I.acc; omega
        refine ⟨by rw [fM]; exact I.cap, by rw [fE, fM]; simpa using I.len,
          by rw [fN, fM]; omega, ?_, ?_, ?_, ?_⟩
        · rw [fN, List.range_succ]
          exact hperm1.trans ((List.Perm.cons _ I.perm).trans
            (List.perm_append_singleton _ _).symm)
        · intro j hj
          rw [fN] at hj
          rw [hat j, if_neg (by omega)]
          exact I.zero j (by omega)
        · rw [fTH, Nat.mod_eq_of_lt (by omega)]
          unfold counts_sum
          rw [(List.Perm.map _ hperm1).sum_eq]
          simp only [List.map_cons, List.sum_cons, hat T.n_entries, if_true, hc3]
          have : (linked T).map (fun idx => (entry_at T1 idx).count)
              = (linked T).map (fun idx => (entry_at T idx).count) :=
            List.map_congr_left (fun j hj => by
              simp only [hat j]
              rw [if_neg (fun h2 : T.n_entries = j => hnotin (h2 ▸ hj))])
          rw [this]
          have h1 := I.hits
          unfold counts_sum at h1
          omega
        · rw [fTH, fD, Nat.mod_eq_of_lt (by omega)]
          have := I.acc; omega

theorem acct_run (P : Platform) (h64 : P.BITS_PER_LONG ≤ 64) (evs : List hash_event) :
    ∀ (T : hash_trigger_data) (n : Nat) (T1 : hash_trigger_data), AcctInv T n →
      n + evs.length < 2 ^ P.BITS_PER_LONG → event_hash_trigger_seq P T evs = some T1 →
      AcctInv T1 (n + evs.length) := by
  induction evs with
  | nil =>
    intro T n T1 I _ h
    simp only [event_hash_trigger_seq, Option.some.injEq] at h
    subst h; simpa using I
  | cons ev evs ih =>
    intro T n T1 I hlt h
    simp only [event_hash_trigger_seq, Option.bind_eq_some] at h
    obtain ⟨T2, hstep, hrest⟩ := h
    simp only [List.length_cons] at hlt
    have I2 := acct_step P T n I ev.record ev.stacktrace ev.current T2 (by omega) h64 hstep
    have := ih T2 (n + 1) T1 I2 (by omega) hrest
    simpa [Nat.add_assoc, Nat.add_comm 1] using this

theorem fresh_acct (bits : Nat) (keys vals : List Char)
    (sort_keys : Option (List Char)) (file : List ftrace_event_field) (a : List Bool)
    (ret0 : Int) (T : hash_trigger_data) (ret : Int) (a1 : List Bool)
    (hcreate : create_hash_data bits keys vals sort_keys file a ret0 = some (some T, ret, a1)) :
    AcctInv T 0 := by
  obtain ⟨hH, hB, hM, hE, hN, hD, hTH, hTE⟩ :=
    create_hash_data_fresh bits keys vals sort_keys file a ret0 T ret a1 hcreate
  have hat := entry_at_replicate T T.max_entries hE
  have hl : linked T = [] := by unfold linked; rw [hH, flatten_replicate_nil]
  refine ⟨?_, by rw [hE]; simp, by rw [hN]; exact Nat.zero_le _, by rw [hl, hN]; simp, ?_, ?_, ?_⟩
  · rw [hM]; exact Nat.mod_lt _ (by norm_num)
  · intro idx _; rw [hat idx]; rfl
  · rw [hTH]; simp [counts_sum, hl]
  · rw [hTH, hD]

theorem map_getD_range {α : Type} (l : List α) (d : α) :
    (List.range l.length).map (fun i => l.getD i d) = l := by
  apply List.ext_getElem
  · simp
  · intro i h1 h2
    simp [List.getD_eq_getElem?_getD, List.getElem?_eq_getElem h2]

theorem collect_entries_eq (T : hash_trigger_data) (hbits : T.hashtab_bits < 32)
    (hlen : T.hashtab.length = 2 ^ T.hashtab_bits) : collect_entries T = linked T := by
  unfold collect_entries linked
  rw [shift_one _ hbits, ← hlen, map_getD_range]

theorem sort_entries_le (T : hash_trigger_data) (k : hash_trigger_sort_key) (a b : Nat) :
    sort_entries T k a b ≤ 0 ↔
      if k.descending then
        sort_key_value k (entry_at T b) ≤ sort_key_value k (entry_at T a)
      else sort_key_value k (entry_at T a) ≤ sort_key_value k (entry_at T b) := by
  unfold sort_entries
  simp only
  rcases Nat.lt_trichotomy (sort_key_value k (entry_at T a)) (sort_key_value k (entry_at T b))
    with h | h | h
  · have h1 : ¬ sort_key_value k (entry_at T a) > sort_key_value k (entry_at T b) := by omega
    cases hd : k.descending
    · simp [h1, h]; omega
    · simp [h1, h]
  · cases hd : k.descending <;> simp [h]
  · have h1 : ¬ sort_key_value k (entry_at T a) < sort_key_value k (entry_at T b) := by omega
    cases hd : k.descending
    · simp [h1, h]
    · simp [h1, h]; omega

theorem sort_entries_total (T : hash_trigger_data) (k : hash_trigger_sort_key) (a b : Nat) :
    sort_entries T k a b ≤ 0 ∨ sort_entries T k b a ≤ 0 := by
  rw [sort_entries_le, sort_entries_le]
  cases k.descending <;> simp <;> omega

theorem sort_entries_trans (T : hash_trigger_data) (k : hash_trigger_sort_key) (a b c : Nat)
    (h1 : sort_entries T k a b ≤ 0) (h2 : sort_entries T k b c ≤ 0) :
    sort_entries T k a c ≤ 0 := by
  rw [sort_entries_le] at h1 h2 ⊢
  cases hd : k.descending <;> simp [hd] at h1 h2 ⊢ <;> omega

/-- C6: for every table with a single sort key (and a bucket array of
`2 ^ hashtab_bits` chains holding at most `total_entries` entries), when the
pointer array is allocated `print_entries_sorted` emits a rearrangement of
the entries linked in the bucket chains that is ordered by the value of the
sort key (hit count, key part or sum): non-decreasing for an ascending key,
non-increasing when the descending flag is set. -/
theorem C6_print_entries_sorted_single_key
    (sort_fn : (Nat → Nat → Int) → List Nat → List Nat) (T : hash_trigger_data)
    (sort_key : hash_trigger_sort_key) (hsort : is_sort_routine sort_fn)
    (hbits : T.hashtab_bits < 32) (hlen : T.hashtab.length = 2 ^ T.hashtab_bits)
    (hroom : (linked T).length ≤ T.total_entries)
    (hprimary : T.sort_keys.getD 0 none = some sort_key)
    (hsingle : T.sort_keys.getD 1 none = none) :
    ∃ T1 out, print_entries_sorted sort_fn true T = some (T1, some out) ∧
      out.Perm (linked T) ∧
      out.Pairwise (fun a b =>
        if sort_key.descending then
          sort_key_value sort_key (entry_at T b) ≤ sort_key_value sort_key (entry_at T a)
        else sort_key_value sort_key (entry_at T a) ≤ sort_key_value sort_key (entry_at T b)) := by
  obtain ⟨T1, hT1⟩ : ∃ T1 : hash_trigger_data, T1 = { T with sort_key_cur := some sort_key } :=
    ⟨_, rfl⟩
  have hcmp : sort_entries T1 sort_key = sort_entries T sort_key := by subst hT1; rfl
  obtain ⟨hperm, hpw⟩ := hsort (sort_entries T sort_key) (linked T)
    (sort_entries_total T sort_key) (sort_entries_trans T sort_key)
  refine ⟨T1, sort_fn (sort_entries T sort_key) (linked T), ?_, hperm, ?_⟩
  · unfold print_entries_sorted
    have h1 : ¬ T.hashtab.length < (1 <<< T.hashtab_bits) % 2 ^ 32 := by
      rw [shift_one _ hbits, hlen]; omega
    have h2 : ¬ T.total_entries < (collect_entries T).length := by
      rw [collect_entries_eq T hbits hlen]; omega
    simp only [Bool.not_true, Bool.false_eq_true, if_false, h1, h2, hprimary, hsingle]
    rw [collect_entries_eq T hbits hlen, ← hT1, hcmp]
  · exact hpw.imp (fun {a b} h => (sort_entries_le T sort_key a b).mp h)

theorem insertion_sort_is_sort_routine : is_sort_routine insertion_sort := by
  intro cmp l htot htr
  letI : IsTotal Nat (fun a b => cmp a b ≤ 0) := ⟨htot⟩
  letI : IsTrans Nat (fun a b => cmp a b ≤ 0) := ⟨htr⟩
  exact ⟨List.perm_insertionSort _ l, List.sorted_insertionSort _ l⟩

/-- Witness of C6 on scenario C: `sort=hitcount.descending` over entries with
the hit counts 3, 1, 2 emits the hit counts 3, 2, 1. -/
theorem C6_witness :
    (∃ T1 out, print_entries_sorted insertion_sort true scenario_C_table = some (T1, some out) ∧
      out.Perm (linked scenario_C_table) ∧
      out.Pairwise (fun a b =>
        if scenario_C_sort_key.descending then
          sort_key_value scenario_C_sort_key (entry_at scenario_C_table b)
            ≤ sort_key_value scenario_C_sort_key (entry_at scenario_C_table a)
        else sort_key_value scenario_C_sort_key (entry_at scenario_C_table a)
            ≤ sort_key_value scenario_C_sort_key (entry_at scenario_C_table b))) ∧
    (List.range 3).map (fun idx => (entry_at scenario_C_table idx).count) = [3, 1, 2] ∧
    (print_entries_sorted insertion_sort true scenario_C_table).map
      (fun r => r.2.map (fun out => out.map (fun idx => (entry_at scenario_C_table idx).count)))
      = some (some [3, 2, 1]) :=
  ⟨C6_print_entries_sorted_single_key insertion_sort scenario_C_table scenario_C_sort_key
      insertion_sort_is_sort_routine (by decide) (by decide) (by decide) (by decide) (by decide),
   by decide, by decide⟩

theorem sort_secondary_pair (sort_fn : (Nat → Nat → Int) → List Nat → List Nat)
    (hd : hash_trigger_data) (x y : Nat) (k1 k2 : hash_trigger_sort_key)
    (h0 : hd.sort_keys.getD 0 none = some k1) (h1 : hd.sort_keys.getD 1 none = some k2) :
    (sort_secondary sort_fn hd [x, y] 2).map (fun r => r.2) = some [x, y] := by
  unfold sort_secondary
  simp only [h0, h1, List.getElem?_cons_zero]
  have hr : List.range' 1 (2 - 1) = [1] := by decide
  rw [hr]
  simp [sort_secondary_loop]

theorem span_no_delim (t rest : List Char) (c : Char) (ht : c ∉ t) :
    (t ++ c :: rest).span (fun x => !([c].contains x)) = (t, c :: rest) := by
  induction t with
  | nil => simp
  | cons x t ih =>
    have hx : ¬ x = c := fun h => ht (by simp [h])
    have ht1 : c ∉ t := fun h => ht (by simp [h])
    have h2 := ih ht1
    simp at h2
    simp [List.takeWhile_cons, List.dropWhile_cons, hx, h2.1, h2.2]

theorem span_all (t : List Char) (c : Char) (ht : c ∉ t) :
    t.span (fun x => !([c].contains x)) = (t, []) := by
  induction t with
  | nil => simp
  | cons x t ih =>
    have hx : ¬ x = c := fun h => ht (by simp [h])
    have ht1 : c ∉ t := fun h => ht (by simp [h])
    have h2 := ih ht1
    simp at h2
    simp [hx]
    exact h2

theorem strsep_more (t rest : List Char) (c : Char) (ht : c ∉ t) :
    strsep (some (t ++ c :: rest)) [c] = (some t, some rest) := by
  simp only [strsep, span_no_delim t rest c ht]

theorem strsep_last (t : List Char) (c : Char) (ht : c ∉ t) :
    strsep (some t) [c] = (some t, none) := by
  simp only [strsep, span_all t c ht]

theorem keys_loop_ignores_rest (file : List ftrace_event_field) (extra : List Char) :
    ∀ (is : List Nat) (ts : List (List Char)) (hd : hash_trigger_data) (a : List Bool),
      is ≠ [] → ts.length = is.length → (∀ t ∈ ts, ',' ∉ t) →
      create_hash_fields_keys file is (some (join_commas ts ++ ',' :: extra)) hd a
        = create_hash_fields_keys file is (some (join_commas ts)) hd a := by
  intro is
  induction is with
  | nil => intro ts hd a h; exact absurd rfl h
  | cons i is ih =>
    intro ts hd a _ hlen hts
    match ts, hlen, hts with
    | [t], hlen, hts =>
      have his : is = [] := by
        simpa using hlen.symm
      subst his
      have ht := hts t (by simp)
      simp only [join_commas, create_hash_fields_keys, strsep_more t extra ',' ht,
        strsep_last t ',' ht]
    | t :: t1 :: ts, hlen, hts =>
      have ht := hts t (by simp)
      have his : is ≠ [] := by
        intro h; subst h; simp at hlen
      have hlen' : (t1 :: ts).length = is.length := by simpa using hlen
      have hts' : ∀ u ∈ t1 :: ts, ',' ∉ u := fun u hu => hts u (List.mem_cons_of_mem _ hu)
      have e1 : join_commas (t :: t1 :: ts) ++ ',' :: extra
          = t ++ ',' :: (join_commas (t1 :: ts) ++ ',' :: extra) := by
        simp [join_commas]
      have e2 : join_commas (t :: t1 :: ts) = t ++ ',' :: join_commas (t1 :: ts) := by
        simp [join_commas]
      rw [e1, e2]
      simp only [create_hash_fields_keys, strsep_more t _ ',' ht]
      cases hk : create_key_field hd i file t a with
      | none => rfl
      | some r =>
        obtain ⟨ret, hd1, a1⟩ := r
        simp only
        split
        · rfl
        · exact ih (t1 :: ts) hd1 a1 his hlen' hts'

theorem vals_loop_ignores_rest (file : List ftrace_event_field) (extra : List Char) :
    ∀ (is : List Nat) (ts : List (List Char)) (hd : hash_trigger_data) (a : List Bool),
      is ≠ [] → ts.length = is.length → (∀ t ∈ ts, ',' ∉ t) →
      create_hash_fields_vals file is (some (join_commas ts ++ ',' :: extra)) hd a
        = create_hash_fields_vals file is (some (join_commas ts)) hd a := by
  intro is
  induction is with
  | nil => intro ts hd a h; exact absurd rfl h
  | cons i is ih =>
    intro ts hd a _ hlen hts
    match ts, hlen, hts with
    | [t], hlen, hts =>
      have his : is = [] := by
        simpa using hlen.symm
      subst his
      have ht := hts t (by simp)
      simp only [join_commas, create_hash_fields_vals, strsep_more t extra ',' ht,
        strsep_last t ',' ht]
    | t :: t1 :: ts, hlen, hts =>
      have ht := hts t (by simp)
      have his : is ≠ [] := by
        intro h; subst h; simp at hlen
      have hlen' : (t1 :: ts).length = is.length := by simpa using hlen
      have hts' : ∀ u ∈ t1 :: ts, ',' ∉ u := fun u hu => hts u (List.mem_cons_of_mem _ hu)
      have e1 : join_commas (t :: t1 :: ts) ++ ',' :: extra
          = t ++ ',' :: (join_commas (t1 :: ts) ++ ',' :: extra) := by
        simp [join_commas]
      have e2 : join_commas (t :: t1 :: ts) = t ++ ',' :: join_commas (t1 :: ts) := by
        simp [join_commas]
      rw [e1, e2]
      simp only [create_hash_fields_vals, strsep_more t _ ',' ht]
      cases hk : create_val_field hd i file t a with
      | none => rfl
      | some r =>
        obtain ⟨ret, hd1, a1⟩ := r
        simp only
        split
        · rfl
        · exact ih (t1 :: ts) hd1 a1 his hlen' hts'

theorem strip_fields (hd hd2 : hash_trigger_data) (h : strip_spec hd = strip_spec hd2) :
    hd.keys = hd2.keys ∧ hd.n_keys = hd2.n_keys ∧ hd.vals = hd2.vals ∧ hd.n_vals = hd2.n_vals ∧
    hd.sort_keys = hd2.sort_keys ∧ hd.sort_keys_str = hd2.sort_keys_str := by
  have h1 := congrArg hash_trigger_data.keys h
  have h2 := congrArg hash_trigger_data.n_keys h
  have h3 := congrArg hash_trigger_data.vals h
  have h4 := congrArg hash_trigger_data.n_vals h
  have h5 := congrArg hash_trigger_data.sort_keys h
  have h6 := congrArg hash_trigger_data.sort_keys_str h
  exact ⟨h1, h2, h3, h4, h5, h6⟩

theorem create_key_field_store_strip (hd hd2 : hash_trigger_data) (key : Nat)
    (hf : Option hash_field) (h : strip_spec hd = strip_spec hd2) :
    (create_key_field_store hd key hf).1 = (create_key_field_store hd2 key hf).1 ∧
    strip_spec (create_key_field_store hd key hf).2
      = strip_spec (create_key_field_store hd2 key hf).2 := by
  obtain ⟨h1, h2, _⟩ := strip_fields hd hd2 h
  cases hf with
  | none =>
    refine ⟨rfl, ?_⟩
    simp only [create_key_field_store, strip_spec, h1] at h ⊢
    simp only [hash_trigger_data.mk.injEq] at h ⊢
    simp [h]
  | some f =>
    refine ⟨rfl, ?_⟩
    simp only [create_key_field_store, strip_spec, h1, h2] at h ⊢
    simp only [hash_trigger_data.mk.injEq] at h ⊢
    simp [h]

theorem create_val_field_store_strip (hd hd2 : hash_trigger_data) (val : Nat)
    (hf : Option hash_field) (h : strip_spec hd = strip_spec hd2) :
    (create_val_field_store hd val hf).1 = (create_val_field_store hd2 val hf).1 ∧
    strip_spec (create_val_field_store hd val hf).2
      = strip_spec (create_val_field_store hd2 val hf).2 := by
  obtain ⟨_, _, h3, h4, _⟩ := strip_fields hd hd2 h
  cases hf with
  | none =>
    refine ⟨rfl, ?_⟩
    simp only [create_val_field_store, strip_spec, h3] at h ⊢
    simp only [hash_trigger_data.mk.injEq] at h ⊢
    simp [h]
  | some f =>
    refine ⟨rfl, ?_⟩
    simp only [create_val_field_store, strip_spec, h3, h4] at h ⊢
    simp only [hash_trigger_data.mk.injEq] at h ⊢
    simp [h]

theorem create_key_field_strip (hd hd2 : hash_trigger_data) (key : Nat)
    (file : List ftrace_event_field) (s : List Char) (a : List Bool)
    (h : strip_spec hd = strip_spec hd2) :
    (create_key_field hd key file s a).map strip_result
      = (create_key_field hd2 key file s a).map strip_result := by
  obtain ⟨h1, _⟩ := strip_fields hd hd2 h
  unfold create_key_field
  cases create_key_field_lookup file s with
  | none => rfl
  | some r =>
    obtain ⟨ret, field, flags⟩ := r
    simp only [h1]
    split
    · simp [strip_result, h]
    · split
      · rfl
      · cases create_hash_field field none flags a with
        | none => rfl
        | some q =>
          obtain ⟨hf, a1⟩ := q
          have := create_key_field_store_strip hd hd2 key hf h
          simp [strip_result, this.1, this.2]

theorem create_val_field_strip (hd hd2 : hash_trigger_data) (val : Nat)
    (file : List ftrace_event_field) (s : List Char) (a : List Bool)
    (h : strip_spec hd = strip_spec hd2) :
    (create_val_field hd val file s a).map strip_result
      = (create_val_field hd2 val file s a).map strip_result := by
  obtain ⟨_, _, h3, _⟩ := strip_fields hd hd2 h
  unfold create_val_field
  split
  · simp [strip_result, h]
  · cases create_val_field_lookup file s with
    | none => rfl
    | some r =>
      obtain ⟨ret, field, aux, flags⟩ := r
      simp only [h3]
      split
      · simp [strip_result, h]
      · split
        · rfl
        · cases create_hash_field field aux flags a with
          | none => rfl
          | some q =>
            obtain ⟨hf, a1⟩ := q
            have := create_val_field_store_strip hd hd2 val hf h
            simp [strip_result, this.1, this.2]

theorem map_strip_cases (x y : Option (Int × hash_trigger_data × List Bool))
    (h : x.map strip_result = y.map strip_result) :
    (x = none ∧ y = none) ∨
    ∃ ret hd hd2 a, x = some (ret, hd, a) ∧ y = some (ret, hd2, a) ∧
      strip_spec hd = strip_spec hd2 := by
  cases x with
  | none => cases y with
    | none => exact Or.inl ⟨rfl, rfl⟩
    | some r => simp at h
  | some r => cases y with
    | none => simp at h
    | some r2 =>
      obtain ⟨ret, hd, a⟩ := r
      obtain ⟨ret2, hd2, a2⟩ := r2
      simp only [Option.map_some', strip_result, Option.some.injEq, Prod.mk.injEq] at h
      obtain ⟨h1, h2, h3⟩ := h
      subst h1 h3
      exact Or.inr ⟨ret, hd, hd2, a, rfl, rfl, h2⟩

theorem keys_loop_strip (file : List ftrace_event_field) (is : List Nat) :
    ∀ (fs : Option (List Char)) (hd hd2 : hash_trigger_data) (a : List Bool),
      strip_spec hd = strip_spec hd2 →
      (create_hash_fields_keys file is fs hd a).map strip_result
        = (create_hash_fields_keys file is fs hd2 a).map strip_result := by
  induction is with
  | nil => intro fs hd hd2 a h; simp [create_hash_fields_keys, strip_result, h]
  | cons i is ih =>
    intro fs hd hd2 a h
    unfold create_hash_fields_keys
    split
    · split <;> simp [strip_result, h]
    · rename_i t fs1 _
      rcases map_strip_cases _ _ (create_key_field_strip hd hd2 i file t a h) with
        ⟨h1, h2⟩ | ⟨ret, hd1, hd3, a1, h1, h2, h3⟩
      · rw [h1, h2]
      · rw [h1, h2]
        simp only
        split
        · simp [strip_result, h3]
        · exact ih fs1 hd1 hd3 a1 h3

theorem vals_loop_strip (file : List ftrace_event_field) (is : List Nat) :
    ∀ (fs : Option (List Char)) (hd hd2 : hash_trigger_data) (a : List Bool),
      strip_spec hd = strip_spec hd2 →
      (create_hash_fields_vals file is fs hd a).map strip_result
        = (create_hash_fields_vals file is fs hd2 a).map strip_result := by
  induction is with
  | nil => intro fs hd hd2 a h; simp [create_hash_fields_vals, strip_result, h]
  | cons i is ih =>
    intro fs hd hd2 a h
    unfold create_hash_fields_vals
    split
    · split <;> simp [strip_result, h]
    · rename_i t fs1 _
      rcases map_strip_cases _ _ (create_val_field_strip hd hd2 i file t a h) with
        ⟨h1, h2⟩ | ⟨ret, hd1, hd3, a1, h1, h2, h3⟩
      · rw [h1, h2]
      · rw [h1, h2]
        simp only
        split
        · simp [strip_result, h3]
        · exact ih fs1 hd1 hd3 a1 h3

theorem sort_key_diff_loop_strip (hd hd2 : hash_trigger_data) (m aux : List Char)
    (h : hd.vals = hd2.vals) (js : List Nat) :
    create_sort_key_diff_loop hd m aux js = create_sort_key_diff_loop hd2 m aux js := by
  induction js with
  | nil => rfl
  | cons j js ih => simp only [create_sort_key_diff_loop, val_field, h, ih]

theorem sort_key_vals_loop_strip (hd hd2 : hash_trigger_data) (m : List Char)
    (h : hd.vals = hd2.vals) (js : List Nat) :
    create_sort_key_vals_loop hd m js = create_sort_key_vals_loop hd2 m js := by
  induction js with
  | nil => rfl
  | cons j js ih => simp only [create_sort_key_vals_loop, val_field, h, ih]

theorem sort_key_keys_loop_strip (hd hd2 : hash_trigger_data) (m : List Char)
    (h : hd.keys = hd2.keys) (js : List Nat) :
    create_sort_key_keys_loop hd m js = create_sort_key_keys_loop hd2 m js := by
  induction js with
  | nil => rfl
  | cons j js ih => simp only [create_sort_key_keys_loop, key_field, h, ih]

theorem create_sort_key_strip (hd hd2 : hash_trigger_data) (name : List Char) (a : List Bool)
    (h : strip_spec hd = strip_spec hd2) :
    create_sort_key name hd a = create_sort_key name hd2 a := by
  obtain ⟨h1, h2, h3, h4, _⟩ := strip_fields hd hd2 h
  unfold create_sort_key
  simp only [h2, h4, sort_key_vals_loop_strip hd hd2 _ h3, sort_key_keys_loop_strip hd hd2 _ h1,
    sort_key_diff_loop_strip hd hd2 _ _ h3]

theorem create_sort_keys_loop_strip (hd hd2 : hash_trigger_data)
    (h : strip_spec hd = strip_spec hd2) (is : List Nat) :
    ∀ (fs : Option (List Char)) (sk : List (Option hash_trigger_sort_key)) (a : List Bool),
      create_sort_keys_loop hd is fs sk a = create_sort_keys_loop hd2 is fs sk a := by
  induction is with
  | nil => intro fs sk a; rfl
  | cons i is ih =>
    intro fs sk a
    simp only [create_sort_keys_loop, create_sort_key_strip hd hd2 _ _ h, ih]

theorem create_sort_keys_strip (hd hd2 : hash_trigger_data) (a : List Bool)
    (h : strip_spec hd = strip_spec hd2) :
    (create_sort_keys hd a).map strip_result = (create_sort_keys hd2 a).map strip_result := by
  obtain ⟨_, _, _, _, h5, h6⟩ := strip_fields hd hd2 h
  have harr : create_sort_keys_array hd a = create_sort_keys_array hd2 a := by
    unfold create_sort_keys_array
    simp only [h5, h6, create_sort_keys_loop_strip hd hd2 h]
  unfold create_sort_keys
  rw [harr]
  cases create_sort_keys_array hd2 a with
  | none => rfl
  | some r =>
    obtain ⟨ret, sk, a1⟩ := r
    simp only [Option.map_some', strip_result, Option.some.injEq, Prod.mk.injEq, true_and,
      and_true]
    simp only [strip_spec, hash_trigger_data.mk.injEq] at h ⊢
    simp [h]

theorem create_key_field_vals_str (hd : hash_trigger_data) (key : Nat)
    (file : List ftrace_event_field) (s : List Char) (a : List Bool)
    (r : Int × hash_trigger_data × List Bool)
    (h : create_key_field hd key file s a = some r) : r.2.1.vals_str = hd.vals_str := by
  unfold create_key_field at h
  split at h
  · simp at h
  · split at h
    · simp at h; subst h; rfl
    · split at h
      · simp at h
      · split at h
        · simp at h
        · rename_i hf a1 _
          simp at h; subst h
          cases hf <;> rfl

theorem keys_loop_vals_str (file : List ftrace_event_field) (is : List Nat) :
    ∀ (fs : Option (List Char)) (hd : hash_trigger_data) (a : List Bool)
      (r : Int × hash_trigger_data × List Bool),
      create_hash_fields_keys file is fs hd a = some r → r.2.1.vals_str = hd.vals_str := by
  induction is with
  | nil => intro fs hd a r h; simp [create_hash_fields_keys] at h; subst h; rfl
  | cons i is ih =>
    intro fs hd a r h
    unfold create_hash_fields_keys at h
    split at h
    · split at h <;> (simp at h; subst h; rfl)
    · split at h
      · simp at h
      · rename_i ret hd1 a1 hk
        have h1 := create_key_field_vals_str _ _ _ _ _ _ hk
        split at h
        · simp at h; subst h; exact h1
        · exact (ih _ _ _ _ h).trans h1

theorem create_hash_fields_congr (file : List ftrace_event_field) (hdA hdB : hash_trigger_data)
    (a : List Bool) (hs : strip_spec hdA = strip_spec hdB)
    (hk : ∀ hd a, create_hash_fields_keys file (List.range COMPOUND_KEY_MAX) hdA.keys_str hd a
      = create_hash_fields_keys file (List.range COMPOUND_KEY_MAX) hdB.keys_str hd a)
    (hv : ∀ hd a, create_hash_fields_vals file (List.range HASH_VALS_MAX) hdA.vals_str hd a
      = create_hash_fields_vals file (List.range HASH_VALS_MAX) hdB.vals_str hd a) :
    (create_hash_fields hdA file a).map strip_result
      = (create_hash_fields hdB file a).map strip_result := by
  unfold create_hash_fields
  rw [hk hdA a]
  rcases map_strip_cases _ _ (keys_loop_strip file (List.range COMPOUND_KEY_MAX) hdB.keys_str
      hdA hdB a hs) with ⟨h1, h2⟩ | ⟨ret, hd1, hd2, a1, h1, h2, h3⟩
  · rw [h1, h2]
  · have hvA : hd1.vals_str = hdA.vals_str := keys_loop_vals_str _ _ _ _ _ _ h1
    have hvB : hd2.vals_str = hdB.vals_str := keys_loop_vals_str _ _ _ _ _ _ h2
    rw [h1, h2]
    simp only
    split
    · simp [strip_result, h3]
    · rw [hvA, hvB, hv hd1 a1]
      rcases map_strip_cases _ _ (vals_loop_strip file (List.range HASH_VALS_MAX) hdB.vals_str
          hd1 hd2 a1 h3) with ⟨h4, h5⟩ | ⟨ret1, hd3, hd4, a2, h4, h5, h6⟩
      · rw [h4, h5]
      · rw [h4, h5]
        simp only
        split
        · simp [strip_result, h6]
        · exact create_sort_keys_strip hd3 hd4 a2 h6

/-- C8 (amended): `create_hash_fields` reads only the first 8 comma-separated
key fields and the first 16 comma-separated value fields. Whatever follows
the 8th key field, or the 16th value field, is ignored without an error: the
call returns the same code, the same descriptors and counts and the same sort
keys as for the specification cut after that field. -/
theorem C8_fields_beyond_limit_ignored (file : List ftrace_event_field)
    (hd : hash_trigger_data) (a : List Bool) (ks vs : List (List Char))
    (kextra vextra : List Char) (spec : Option (List Char))
    (hks : ks.length = COMPOUND_KEY_MAX) (hkc : ∀ t ∈ ks, ',' ∉ t)
    (hvs : vs.length = HASH_VALS_MAX) (hvc : ∀ t ∈ vs, ',' ∉ t) :
    (create_hash_fields
        { hd with keys_str := some (join_commas ks ++ ',' :: kextra), vals_str := spec }
        file a).map strip_result
      = (create_hash_fields { hd with keys_str := some (join_commas ks), vals_str := spec }
          file a).map strip_result ∧
    (create_hash_fields
        { hd with keys_str := spec, vals_str := some (join_commas vs ++ ',' :: vextra) }
        file a).map strip_result
      = (create_hash_fields { hd with keys_str := spec, vals_str := some (join_commas vs) }
          file a).map strip_result := by
  constructor
  · refine create_hash_fields_congr file _ _ a ?_ ?_ ?_
    · rfl
    · intro hd1 a1
      exact keys_loop_ignores_rest file kextra (List.range COMPOUND_KEY_MAX) ks hd1 a1
        (by decide) (by simpa using hks) hkc
    · intro hd1 a1; rfl
  · refine create_hash_fields_congr file _ _ a ?_ ?_ ?_
    · rfl
    · intro hd1 a1; rfl
    · intro hd1 a1
      exact vals_loop_ignores_rest file vextra (List.range HASH_VALS_MAX) vs hd1 a1
        (by decide) (by simpa using hvs) hvc

/-- C8 (as stated) fails: with nine key fields `create_hash_fields` returns 0
and stores eight descriptors, and `create_hash_data` returns a table; with
seventeen value fields it returns 0 and stores sixteen descriptors. -/
theorem C8_counterexample :
    (create_hash_fields
        { zero_hash_data with keys_str := some nine_keys, vals_str := some "bytes_alloc".toList }
        scenario_fields []).map (fun r => (r.1, r.2.1.n_keys)) = some (0, 8) ∧
    (create_hash_data 1 nine_keys "bytes_alloc".toList none scenario_fields [] 0).map
        (fun r => (r.1.isSome, r.2.1)) = some (true, 0) ∧
    (create_hash_fields
        { zero_hash_data with keys_str := some "pid".toList, vals_str := some seventeen_vals }
        scenario_fields []).map (fun r => (r.1, r.2.1.n_vals)) = some (0, 16) ∧
    (create_hash_data 1 "pid".toList seventeen_vals none scenario_fields [] 0).map
        (fun r => (r.1.isSome, r.2.1)) = some (true, 0) := by
  decide

/-- Witness of C8 (amended): a ninth key field and a seventeenth value field
change nothing in what `create_hash_fields` returns. -/
theorem C8_witness :
    (create_hash_fields
        { zero_hash_data with
          keys_str := some (join_commas (List.replicate 8 "pid".toList) ++ ',' :: "pid".toList),
          vals_str := some "bytes_alloc".toList }
        scenario_fields []).map strip_result
      = (create_hash_fields
          { zero_hash_data with
            keys_str := some (join_commas (List.replicate 8 "pid".toList)),
            vals_str := some "bytes_alloc".toList }
          scenario_fields []).map strip_result ∧
    (create_hash_fields
        { zero_hash_data with
          keys_str := some "bytes_alloc".toList,
          vals_str := some (join_commas (List.replicate 16 "bytes_alloc".toList)
            ++ ',' :: "pid".toList) }
        scenario_fields []).map strip_result
      = (create_hash_fields
          { zero_hash_data with
            keys_str := some "bytes_alloc".toList,
            vals_str := some (join_commas (List.replicate 16 "bytes_alloc".toList)) }
          scenario_fields []).map strip_result :=
  C8_fields_beyond_limit_ignored scenario_fields zero_hash_data []
    (List.replicate 8 "pid".toList) (List.replicate 16 "bytes_alloc".toList)
    "pid".toList "pid".toList (some "bytes_alloc".toList)
    (by decide) (by decide) (by decide) (by decide)

/-- C9 fails on the code: when `alloc_fn` returns NULL for the table itself
or for one of the four arenas (entries, stack-trace structs, stack-trace
frames, key strings), `create_hash_data` returns NULL and leaves `*ret` as
the caller initialised it, which is 0 in `event_hash_trigger_func`; only the
failure of the bucket array (here the eleventh allocation) and a failure of
`create_hash_fields` (here an unknown field) store a negative code. -/
theorem C9_arena_failure_leaves_ret_unset :
    (∀ (bits : Nat) (keys vals : List Char) (sort_keys : Option (List Char))
        (file : List ftrace_event_field) (ret0 : Int),
      create_hash_data bits keys vals sort_keys file [false] ret0 = some (none, ret0, []) ∧
      create_hash_data bits keys vals sort_keys file [true, false] ret0
        = some (none, ret0, []) ∧
      create_hash_data bits keys vals sort_keys file [true, true, false] ret0
        = some (none, ret0, []) ∧
      create_hash_data bits keys vals sort_keys file [true, true, true, false] ret0
        = some (none, ret0, []) ∧
      create_hash_data bits keys vals sort_keys file [true, true, true, true, false] ret0
        = some (none, ret0, [])) ∧
    create_hash_data HASH_TRIGGER_BITS "pid".toList "bytes_alloc".toList none scenario_fields
        [true, false] 0 = some (none, 0, []) ∧
    create_hash_data HASH_TRIGGER_BITS "pid".toList "bytes_alloc".toList none scenario_fields
        (List.replicate 10 true ++ [false]) 0 = some (none, -ENOMEM, []) ∧
    create_hash_data HASH_TRIGGER_BITS "nofield".toList "bytes_alloc".toList none scenario_fields
        [] 0 = some (none, -EINVAL, []) := by
  refine ⟨?_, ?_, ?_, ?_⟩
  · intro bits keys vals sort_keys file ret0
    refine ⟨?_, ?_, ?_, ?_, ?_⟩ <;> simp [create_hash_data, alloc_fn]
  · simp [create_hash_data, alloc_fn]
  · decide
  · decide

theorem enable_disable_triggers (ted : Nat → Int → Int → Int × Nat) (file : ftrace_event_file)
    (b : Bool) : (trace_event_trigger_enable_disable ted file b).2.triggers = file.triggers := by
  unfold trace_event_trigger_enable_disable
  split
  · simp only
    split <;> rfl
  · simp only
    split <;> rfl

theorem any_type_iff (triggers : List event_trigger_data) (ty : Nat) :
    triggers.any (fun test => test.cmd_ops.trigger_type == ty) = true ↔
      ty ∈ trigger_types triggers := by
  simp only [List.any_eq_true, beq_iff_eq, trigger_types, List.mem_map]

theorem register_trigger_nodup (ted : Nat → Int → Int → Int × Nat) (data : event_trigger_data)
    (file : ftrace_event_file) (h : (trigger_types file.triggers).Nodup) :
    (trigger_types (register_trigger ted data file).2.2.triggers).Nodup := by
  unfold register_trigger
  split
  · exact h
  · rename_i hdup
    have hnot : data.cmd_ops.trigger_type ∉ trigger_types file.triggers := by
      rw [← any_type_iff]; exact hdup
    simp only
    split
    · exact h
    · split
      · simp only [update_cond_flag, enable_disable_triggers, List.tail_cons]
        exact h
      · simp only [update_cond_flag, enable_disable_triggers, trigger_types, List.map_cons]
        exact List.nodup_cons.mpr ⟨hnot, h⟩

theorem register_trigger_seq_nodup (ted : Nat → Int → Int → Int × Nat)
    (datas : List event_trigger_data) :
    ∀ file : ftrace_event_file, (trigger_types file.triggers).Nodup →
      (trigger_types (register_trigger_seq ted file datas).triggers).Nodup := by
  induction datas with
  | nil => intro file h; exact h
  | cons d ds ih =>
    intro file h
    exact ih _ (register_trigger_nodup ted d file h)

/-- C10: `register_trigger` returns `-EEXIST`, leaving the trigger list, the
event file and the new trigger (its reference count included) unchanged,
when the list already holds a trigger whose command has the same
`trigger_type`, and, unless `init` itself returns `-EEXIST`, only then;
otherwise, when `init` is absent or returns 0 and enabling trigger mode does
not fail, it returns 1 and the list is the old list with the new trigger put
in front. Registrations through `register_trigger` never put two triggers of
one `trigger_type` on a list. -/
theorem C10_register_trigger_rejects_duplicates (ted : Nat → Int → Int → Int × Nat)
    (data : event_trigger_data) (file : ftrace_event_file) (datas : List event_trigger_data) :
    (data.cmd_ops.trigger_type ∈ trigger_types file.triggers →
      register_trigger ted data file = (-EEXIST, data, file)) ∧
    ((register_trigger_init data).1 ≠ -EEXIST →
      ((register_trigger ted data file).1 = -EEXIST ↔
        data.cmd_ops.trigger_type ∈ trigger_types file.triggers)) ∧
    (data.cmd_ops.trigger_type ∉ trigger_types file.triggers →
      (register_trigger_init data).1 = 0 →
      0 ≤ (trace_event_trigger_enable_disable ted
        { file with
          triggers := { data with state := (register_trigger_init data).2 } :: file.triggers }
        true).1 →
      (register_trigger ted data file).1 = 1 ∧
      (register_trigger ted data file).2.1.state = (register_trigger_init data).2 ∧
      (register_trigger ted data file).2.2.triggers
        = { data with state := (register_trigger_init data).2 } :: file.triggers) ∧
    ((trigger_types file.triggers).Nodup →
      (trigger_types (register_trigger ted data file).2.2.triggers).Nodup ∧
      (trigger_types (register_trigger_seq ted file datas).triggers).Nodup) := by
  have hdup : data.cmd_ops.trigger_type ∈ trigger_types file.triggers →
      register_trigger ted data file = (-EEXIST, data, file) := by
    intro h
    unfold register_trigger
    rw [if_pos ((any_type_iff _ _).mpr h)]
  refine ⟨hdup, ?_, ?_, fun h => ⟨register_trigger_nodup ted data file h,
    register_trigger_seq_nodup ted datas file h⟩⟩
  · intro hne
    constructor
    · intro h
      by_contra hn
      have hany : ¬ file.triggers.any
          (fun test => test.cmd_ops.trigger_type == data.cmd_ops.trigger_type) = true := by
        rw [any_type_iff]; exact hn
      unfold register_trigger at h
      rw [if_neg hany] at h
      simp only at h
      split at h
      · exact hne h
      · rename_i hpos
        split at h
        · simp only [EEXIST] at h; omega
        · simp only [EEXIST] at h; omega
    · intro h
      rw [hdup h]
  · intro h hinit henable
    have hany : ¬ file.triggers.any
        (fun test => test.cmd_ops.trigger_type == data.cmd_ops.trigger_type) = true := by
      rw [any_type_iff]; exact h
    unfold register_trigger
    rw [if_neg hany]
    simp only
    rw [if_neg (by omega), if_neg (by omega)]
    simp [update_cond_flag, enable_disable_triggers, hinit]

/-- Witness of C10: registering a hash trigger on an empty file returns 1 and
links it with reference count 1; registering a second hash trigger returns
`-EEXIST` and changes nothing; a stack-trace trigger is accepted next to it. -/
theorem C10_witness :
    (register_trigger ted_ok (new_trigger trigger_hash_cmd) empty_event_file).1 = 1 ∧
    (register_trigger ted_ok (new_trigger trigger_hash_cmd) empty_event_file).2.1.state.ref = 1 ∧
    trigger_types (register_trigger ted_ok (new_trigger trigger_hash_cmd)
      empty_event_file).2.2.triggers = [16] ∧
    (register_trigger ted_ok (new_trigger trigger_hash_cmd)
      (register_trigger ted_ok (new_trigger trigger_hash_cmd) empty_event_file).2.2).1
        = -EEXIST ∧
    trigger_types (register_trigger_seq ted_ok empty_event_file
      [new_trigger trigger_hash_cmd, new_trigger trigger_hash_cmd,
       new_trigger trigger_stacktrace_cmd]).triggers = [4, 16] := by
  have h := C10_register_trigger_rejects_duplicates ted_ok (new_trigger trigger_hash_cmd)
    empty_event_file []
  have h2 := C10_register_trigger_rejects_duplicates ted_ok (new_trigger trigger_hash_cmd)
    (register_trigger ted_ok (new_trigger trigger_hash_cmd) empty_event_file).2.2 []
  have h3 := h.2.2.1 (by decide) (by decide) (by decide)
  refine ⟨h3.1, ?_, ?_, ?_, by decide⟩
  · rw [h3.2.1]; decide
  · rw [h3.2.2]; decide
  · rw [h2.1 (by rw [h3.2.2]; decide)]

theorem perm_pair (l : List Nat) (h : l.Perm [0, 1]) : l = [0, 1] ∨ l = [1, 0] := by
  have hlen := h.length_eq
  match l, hlen with
  | [a, b], _ =>
    have ha : a ∈ [0, 1] := h.mem_iff.mp (by simp)
    have hb : b ∈ [0, 1] := h.mem_iff.mp (by simp)
    have hnd : [a, b].Nodup := h.nodup_iff.mpr (by decide)
    simp only [List.mem_cons, List.mem_singleton, List.not_mem_nil, or_false] at ha hb
    simp only [List.nodup_cons, List.mem_singleton, List.not_mem_nil, not_false_eq_true,
      List.nodup_nil, and_true] at hnd
    rcases ha with rfl | rfl <;> rcases hb with rfl | rfl <;> simp_all

theorem entry_at_count_small (T : hash_trigger_data) (h : T.entries.length = 4) (a : Nat)
    (c : Nat → Nat) (h0 : (entry_at T 0).count = c 0) (h1 : (entry_at T 1).count = c 1)
    (h2 : (entry_at T 2).count = c 2) (h3 : (entry_at T 3).count = c 3)
    (hc : ∀ n, 4 ≤ n → c n = 0) : (entry_at T a).count = c a := by
  by_cases ha : a < 4
  · interval_cases a
    · exact h0
    · exact h1
    · exact h2
    · exact h3
  · rw [hc a (by omega)]
    simp only [entry_at, List.getD_eq_getElem?_getD]
    rw [List.getElem?_eq_none (by omega)]
    rfl

theorem scenario_D_same_primary :
    sort_entries { scenario_D_table with sort_key_cur := some scenario_D_primary }
        scenario_D_primary
      = sort_entries { scenario_D_mirror with sort_key_cur := some scenario_D_primary }
          scenario_D_primary := by
  funext a b
  have hc : ∀ (T : hash_trigger_data), T.entries.length = 4 →
      (entry_at T 0).count = 1 → (entry_at T 1).count = 1 → (entry_at T 2).count = 0 →
      (entry_at T 3).count = 0 → ∀ n, (entry_at T n).count = if n < 2 then 1 else 0 := by
    intro T hl h0 h1 h2 h3 n
    exact entry_at_count_small T hl n (fun n => if n < 2 then 1 else 0) h0 h1 h2 h3
      (fun n hn => by simp; omega)
  have hA := hc scenario_D_table (by decide) (by decide) (by decide) (by decide) (by decide)
  have hB := hc scenario_D_mirror (by decide) (by decide) (by decide) (by decide) (by decide)
  have hcnt : ∀ (T : hash_trigger_data) n,
      sort_key_value scenario_D_primary (entry_at T n) = (entry_at T n).count := by
    intro T n; rfl
  have hat : ∀ (T : hash_trigger_data) n,
      entry_at { T with sort_key_cur := some scenario_D_primary } n = entry_at T n := by
    intro T n; rfl
  simp only [sort_entries, hat, hcnt, hA, hB]

theorem print_entries_sorted_two_keys (sort_fn : (Nat → Nat → Int) → List Nat → List Nat)
    (T : hash_trigger_data) (k0 k1 : hash_trigger_sort_key)
    (hlen : ¬ T.hashtab.length < (1 <<< T.hashtab_bits) % 2 ^ 32)
    (hroom : ¬ T.total_entries < (collect_entries T).length)
    (h0 : T.sort_keys.getD 0 none = some k0) (h1 : T.sort_keys.getD 1 none = some k1) :
    print_entries_sorted sort_fn true T
      = (sort_secondary sort_fn { T with sort_key_cur := some k0 }
          (sort_fn (sort_entries { T with sort_key_cur := some k0 } k0) (collect_entries T))
          (sort_fn (sort_entries { T with sort_key_cur := some k0 } k0)
            (collect_entries T)).length).map (fun r => (r.1, some r.2)) := by
  unfold print_entries_sorted
  simp only [Bool.not_true, Bool.false_eq_true, if_false, hlen, hroom, h0, h1]
  cases sort_secondary sort_fn { T with sort_key_cur := some k0 }
      (sort_fn (sort_entries { T with sort_key_cur := some k0 } k0) (collect_entries T))
      (sort_fn (sort_entries { T with sort_key_cur := some k0 } k0)
        (collect_entries T)).length with
  | none => rfl
  | some r => rfl

theorem reported_pair (sort_fn : (Nat → Nat → Int) → List Nat → List Nat)
    (T : hash_trigger_data) (k0 k1 : hash_trigger_sort_key) (x y : Nat)
    (hlen : ¬ T.hashtab.length < (1 <<< T.hashtab_bits) % 2 ^ 32)
    (hroom : ¬ T.total_entries < (collect_entries T).length)
    (h0 : T.sort_keys.getD 0 none = some k0) (h1 : T.sort_keys.getD 1 none = some k1)
    (hs : sort_fn (sort_entries { T with sort_key_cur := some k0 } k0) (collect_entries T)
      = [x, y]) :
    reported_secondary sort_fn T
      = some [sort_key_value scenario_D_secondary (entry_at T x),
              sort_key_value scenario_D_secondary (entry_at T y)] := by
  have hp := print_entries_sorted_two_keys sort_fn T k0 k1 hlen hroom h0 h1
  rw [hs] at hp
  have hpair := sort_secondary_pair sort_fn { T with sort_key_cur := some k0 } x y k0 k1 h0 h1
  simp only [List.length_cons, List.length_nil, Nat.zero_add, Nat.reduceAdd] at hp
  cases hss : sort_secondary sort_fn { T with sort_key_cur := some k0 } [x, y] 2 with
  | none => rw [hss] at hpair; simp at hpair
  | some r =>
    rw [hss] at hpair hp
    simp only [Option.map_some', Option.some.injEq] at hpair hp
    unfold reported_secondary
    rw [hp, hpair]
    rfl

/-- C7 fails on the code: the two tables of scenario D each hold two entries
that tie on the primary key (hit count 1) and differ on the secondary key
(sums 20 and 10, in one table in this order of the arena slots, in the other
exchanged). Whatever sorting routine `sort` is, the report of one of the two
tables shows the sum 20 before the sum 10 although the secondary key is
ascending: `sort_secondary` ends the run at the last index before `n_subelts`
has counted it and so never sorts a final run of two. -/
theorem C7_tied_pair_left_unsorted (sort_fn : (Nat → Nat → Int) → List Nat → List Nat)
    (hsort : is_sort_routine sort_fn) :
    reported_secondary sort_fn scenario_D_table = some [20, 10] ∨
    reported_secondary sort_fn scenario_D_mirror = some [20, 10] := by
  have hperm := (hsort
    (sort_entries { scenario_D_table with sort_key_cur := some scenario_D_primary }
      scenario_D_primary) [0, 1]
    (sort_entries_total _ _) (sort_entries_trans _ _)).1
  rcases perm_pair _ hperm with h | h
  · left
    have := reported_pair sort_fn scenario_D_table scenario_D_primary scenario_D_secondary 0 1
      (by decide) (by decide) (by decide) (by decide)
      (by rw [show collect_entries scenario_D_table = [0, 1] by decide]; exact h)
    rw [this]
    decide
  · right
    rw [scenario_D_same_primary] at h
    have := reported_pair sort_fn scenario_D_mirror scenario_D_primary scenario_D_secondary 1 0
      (by decide) (by decide) (by decide) (by decide)
      (by rw [show collect_entries scenario_D_mirror = [0, 1] by decide]; exact h)
    rw [this]
    decide

/-- Witness of the C7 theorem with an insertion sort as the routine: the
report of scenario D shows the sums 20, 10. -/
theorem C7_witness :
    (reported_secondary insertion_sort scenario_D_table = some [20, 10] ∨
      reported_secondary insertion_sort scenario_D_mirror = some [20, 10]) ∧
    reported_secondary insertion_sort scenario_D_table = some [20, 10] :=
  ⟨C7_tied_pair_left_unsorted insertion_sort insertion_sort_is_sort_routine, by decide⟩

/-! ## The dispatcher -/

theorem filter_rejects_eq (fmp : Nat → trace_record → Bool) (data : event_trigger_data)
    (rec : trace_record) : filter_rejects fmp data rec = !filter_passes fmp data rec := by
  unfold filter_rejects filter_passes
  cases data.state.filter <;> simp

theorem event_triggers_call_loop_null (fmp : Nat → trace_record → Bool) :
    ∀ (triggers : List event_trigger_data) (tt : Nat),
      event_triggers_call_loop fmp none triggers tt
        = (tt, triggers.map (fun data => trigger_func_call data none)) := by
  intro triggers
  induction triggers with
  | nil => intro tt; rfl
  | cons d ds ih =>
    intro tt
    simp only [event_triggers_call_loop, ih, List.map_cons]

theorem event_triggers_call_loop_rec (fmp : Nat → trace_record → Bool) (rec : trace_record) :
    ∀ (triggers : List event_trigger_data) (tt : Nat),
      event_triggers_call_loop fmp (some rec) triggers tt
        = (tt ||| or_trigger_types
              (triggers.filter
                (fun data => data.cmd_ops.post_trigger && filter_passes fmp data rec)),
           triggers.map (fun data =>
              if !data.cmd_ops.post_trigger && filter_passes fmp data rec
              then trigger_func_call data (some rec) else data)) := by
  intro triggers
  induction triggers with
  | nil => intro tt; simp [event_triggers_call_loop, or_trigger_types, ETT_NONE]
  | cons d ds ih =>
    intro tt
    simp only [event_triggers_call_loop, filter_rejects_eq, ih, List.map_cons, List.filter_cons]
    cases hp : filter_passes fmp d rec <;> cases hq : d.cmd_ops.post_trigger <;>
      simp [or_trigger_types, Nat.lor_assoc]

theorem event_triggers_call_some (fmp : Nat → trace_record → Bool)
    (file : ftrace_event_file) (rec : trace_record) :
    event_triggers_call fmp file (some rec)
      = (or_trigger_types
            (file.triggers.filter
              (fun data => data.cmd_ops.post_trigger && filter_passes fmp data rec)),
         { file with
           triggers := file.triggers.map (fun data =>
             if !data.cmd_ops.post_trigger && filter_passes fmp data rec
             then trigger_func_call data (some rec) else data) }) := by
  unfold event_triggers_call
  split
  · rename_i hempty
    have hnil : file.triggers = [] := List.isEmpty_iff.mp hempty
    cases file with
    | mk triggers tm_ref trigger_mode trigger_cond enable_state =>
      simp only at hnil
      subst hnil
      rfl
  · simp only [event_triggers_call_loop_rec]
    simp [ETT_NONE]

/-- C11: for a record that is not NULL, `event_triggers_call` leaves the
event file with the trigger function invoked on exactly the triggers that
are no post-triggers and whose filter is absent or matches the record (every
other trigger, each post-trigger among them, is as it was), and returns the
bitwise OR of the command types of the post-triggers whose filter is absent
or matches the record, which is `ETT_NONE` when there is none; for a NULL
record it invokes the trigger function of every trigger and returns
`ETT_NONE`; on an empty list it returns `ETT_NONE` and changes nothing. -/
theorem C11_event_triggers_call_contract (filter_match_preds : Nat → trace_record → Bool)
    (file : ftrace_event_file) (rec : trace_record) :
    event_triggers_call filter_match_preds file (some rec)
      = (or_trigger_types
            (file.triggers.filter
              (fun data => data.cmd_ops.post_trigger &&
                filter_passes filter_match_preds data rec)),
         { file with
           triggers := file.triggers.map (fun data =>
             if !data.cmd_ops.post_trigger && filter_passes filter_match_preds data rec
             then trigger_func_call data (some rec) else data) }) ∧
    or_trigger_types [] = ETT_NONE ∧
    event_triggers_call filter_match_preds file none
      = (ETT_NONE,
         { file with
           triggers := file.triggers.map (fun data => trigger_func_call data none) }) ∧
    (∀ r : Option trace_record,
      event_triggers_call filter_match_preds { file with triggers := [] } r
        = (ETT_NONE, { file with triggers := [] })) := by
  refine ⟨event_triggers_call_some filter_match_preds file rec, rfl, ?_, fun r => rfl⟩
  · unfold event_triggers_call
    split
    · rename_i hempty
      have hnil : file.triggers = [] := List.isEmpty_iff.mp hempty
      cases file with
      | mk triggers tm_ref trigger_mode trigger_cond enable_state =>
        simp only at hnil
        subst hnil
        rfl
    · simp only [event_triggers_call_loop_null]

theorem event_triggers_post_call_loop_map (tt : Nat) (rec : Option trace_record)
    (triggers : List event_trigger_data) :
    event_triggers_post_call_loop tt rec triggers
      = triggers.map (fun data =>
          if (data.cmd_ops.trigger_type &&& tt) ≠ 0 then trigger_func_call data rec
          else data) := by
  induction triggers with
  | nil => rfl
  | cons d ds ih =>
    simp only [event_triggers_post_call_loop, ih, List.map_cons]
    split <;> rfl

theorem or_trigger_types_testBit (k : Nat) (triggers : List event_trigger_data) :
    (or_trigger_types triggers).testBit k
      = triggers.any (fun d => d.cmd_ops.trigger_type.testBit k) := by
  induction triggers with
  | nil => simp [or_trigger_types, ETT_NONE]
  | cons d ds ih =>
    have h : or_trigger_types (d :: ds) = d.cmd_ops.trigger_type ||| or_trigger_types ds := rfl
    rw [h, Nat.testBit_or, ih, List.any_cons]

theorem two_pow_and_ne_zero (k tt : Nat) : (2 ^ k &&& tt) ≠ 0 ↔ tt.testBit k = true := by
  constructor
  · intro h
    obtain ⟨i, hi⟩ := Nat.ne_zero_implies_bit_true h
    rw [Nat.testBit_and, Nat.testBit_two_pow] at hi
    simp only [Bool.and_eq_true, decide_eq_true_eq] at hi
    rw [hi.1]; exact hi.2
  · intro h h0
    have : (2 ^ k &&& tt).testBit k = true := by
      rw [Nat.testBit_and, Nat.testBit_two_pow_self, h]; rfl
    rw [h0] at this
    simp at this

/-- The test of `event_triggers_post_call` on a single-bit command type against
the OR of single-bit command types: some listed trigger has that type. -/
theorem type_bit_in_or (t : Nat) (ht : ∃ k, t = 2 ^ k) (triggers : List event_trigger_data)
    (hbits : ∀ d ∈ triggers, ∃ k, d.cmd_ops.trigger_type = 2 ^ k) :
    (t &&& or_trigger_types triggers) ≠ 0 ↔ ∃ e ∈ triggers, e.cmd_ops.trigger_type = t := by
  obtain ⟨k, rfl⟩ := ht
  rw [two_pow_and_ne_zero, or_trigger_types_testBit, List.any_eq_true]
  constructor
  · rintro ⟨e, he, hb⟩
    obtain ⟨j, hj⟩ := hbits e he
    rw [hj, Nat.testBit_two_pow] at hb
    simp only [decide_eq_true_eq] at hb
    exact ⟨e, he, by rw [hj, hb]⟩
  · rintro ⟨e, he, hte⟩
    exact ⟨e, he, by rw [hte]; exact Nat.testBit_two_pow_self⟩

/-- Second pass on one trigger of the list the first pass leaves: the bit
test picks the post-triggers whose filter passes. -/
theorem post_call_test (fmp : Nat → trace_record → Bool) (rec : trace_record)
    (triggers : List event_trigger_data) (htypes : command_types_ok triggers)
    (honce : post_types_once triggers) (d : event_trigger_data) (hd : d ∈ triggers) :
    (d.cmd_ops.trigger_type &&&
        or_trigger_types (triggers.filter
          (fun data => data.cmd_ops.post_trigger && filter_passes fmp data rec))) ≠ 0
      ↔ (d.cmd_ops.post_trigger && filter_passes fmp d rec) = true := by
  have hbits : ∀ e ∈ triggers.filter
      (fun data => data.cmd_ops.post_trigger && filter_passes fmp data rec),
      ∃ k, e.cmd_ops.trigger_type = 2 ^ k := fun e he =>
    htypes.1 e (List.mem_filter.mp he).1
  rw [type_bit_in_or _ (htypes.1 d hd) _ hbits]
  constructor
  · rintro ⟨e, he, hte⟩
    obtain ⟨hemem, hedef⟩ := List.mem_filter.mp he
    simp only [Bool.and_eq_true] at hedef
    have hpost : d.cmd_ops.post_trigger = true := by
      rw [htypes.2 d hd e hemem hte.symm]; exact hedef.1
    have hed : e = d :=
      List.inj_on_of_nodup_map honce
        (List.mem_filter.mpr ⟨hemem, hedef.1⟩) (List.mem_filter.mpr ⟨hd, hpost⟩) hte
    rw [← hed]
    simp [hedef.1, hedef.2]
  · intro h
    exact ⟨d, List.mem_filter.mpr ⟨hd, h⟩, rfl⟩

theorem trigger_func_call_cmd_ops (d : event_trigger_data) (r : Option trace_record) :
    (trigger_func_call d r).cmd_ops = d.cmd_ops := rfl

/-- C12: on a trigger list whose command types are single bits that fix
the post flag and on which each post-trigger command type occurs at most
once, and for a record that is not NULL, the second pass
`event_triggers_post_call(file, event_triggers_call(file, rec), rec)` invokes
the trigger function once on every post-trigger whose filter is absent or
matches the record and on no other trigger; over the two passes every
trigger whose filter is absent or matches the record is invoked exactly
once and no other trigger is invoked. -/
theorem C12_two_phase_dispatch (filter_match_preds : Nat → trace_record → Bool)
    (file : ftrace_event_file) (rec : trace_record)
    (htypes : command_types_ok file.triggers) (honce : post_types_once file.triggers) :
    event_triggers_post_call (event_triggers_call filter_match_preds file (some rec)).2
        (event_triggers_call filter_match_preds file (some rec)).1 (some rec)
      = { (event_triggers_call filter_match_preds file (some rec)).2 with
          triggers :=
            (event_triggers_call filter_match_preds file (some rec)).2.triggers.map
              (fun data =>
                if data.cmd_ops.post_trigger && filter_passes filter_match_preds data rec
                then trigger_func_call data (some rec) else data) } ∧
    (event_triggers_post_call (event_triggers_call filter_match_preds file (some rec)).2
        (event_triggers_call filter_match_preds file (some rec)).1 (some rec)).triggers
      = file.triggers.map (fun data =>
          if filter_passes filter_match_preds data rec
          then trigger_func_call data (some rec) else data) := by
  rw [event_triggers_call_some]
  simp only [event_triggers_post_call, event_triggers_post_call_loop_map, List.map_map]
  have key : ∀ d ∈ file.triggers,
      ((fun data : event_trigger_data =>
          if (data.cmd_ops.trigger_type &&& or_trigger_types (file.triggers.filter
              (fun data => data.cmd_ops.post_trigger &&
                filter_passes filter_match_preds data rec))) ≠ 0
          then trigger_func_call data (some rec) else data) ∘
        (fun data : event_trigger_data =>
          if !data.cmd_ops.post_trigger && filter_passes filter_match_preds data rec
          then trigger_func_call data (some rec) else data)) d
      = (if filter_passes filter_match_preds d rec
          then trigger_func_call d (some rec) else d) ∧
      ((fun data : event_trigger_data =>
          if data.cmd_ops.post_trigger && filter_passes filter_match_preds data rec
          then trigger_func_call data (some rec) else data) ∘
        (fun data : event_trigger_data =>
          if !data.cmd_ops.post_trigger && filter_passes filter_match_preds data rec
          then trigger_func_call data (some rec) else data)) d
      = (if filter_passes filter_match_preds d rec
          then trigger_func_call d (some rec) else d) := by
    intro d hd
    have htest := post_call_test filter_match_preds rec file.triggers htypes honce d hd
    simp only [Function.comp]
    cases hpost : d.cmd_ops.post_trigger <;> cases hpass : filter_passes filter_match_preds d rec
    · simp only [hpost, hpass, Bool.and_false, Bool.false_and, Bool.not_false,
        Bool.false_eq_true, iff_false, not_not] at htest ⊢
      simp [hpost, hpass, htest]
    · simp only [hpost, hpass, Bool.false_and, Bool.false_eq_true, iff_false, not_not] at htest
      simp [hpost, htest, trigger_func_call_cmd_ops]
    · simp only [hpost, hpass, Bool.and_false, Bool.false_eq_true, iff_false, not_not] at htest
      simp [hpost, hpass, htest]
    · simp only [hpost, hpass, Bool.and_self, iff_true] at htest
      simp [hpost, hpass, htest]
  constructor
  · congr 1
    exact List.map_congr_left (fun d hd => by rw [(key d hd).1, (key d hd).2])
  · exact List.map_congr_left (fun d hd => (key d hd).1)

theorem scenario_dispatch_types_ok : command_types_ok scenario_dispatch_file.triggers := by
  have hmem : ∀ d ∈ scenario_dispatch_file.triggers,
      d = filtered_trigger trigger_traceon_cmd none ∨
      d = filtered_trigger trigger_stacktrace_cmd (some 7) ∨
      d = filtered_trigger trigger_hash_cmd (some 8) := by
    intro d hd
    simpa [scenario_dispatch_file] using hd
  constructor
  · intro d hd
    rcases hmem d hd with rfl | rfl | rfl
    · exact ⟨0, rfl⟩
    · exact ⟨2, rfl⟩
    · exact ⟨4, rfl⟩
  · intro d hd e he
    rcases hmem d hd with rfl | rfl | rfl <;> rcases hmem e he with rfl | rfl | rfl <;>
      decide

/-- Witness of C12: a `traceon` trigger without filter, a `stacktrace`
trigger whose filter rejects the record and a `hash` trigger whose filter
matches it; after the two passes the first and the third have been invoked
once and the second not at all, the third in the second pass. -/
theorem C12_witness :
    command_types_ok scenario_dispatch_file.triggers ∧
    post_types_once scenario_dispatch_file.triggers ∧
    invocation_counts (event_triggers_call scenario_filter_match scenario_dispatch_file
      (some (scenario_event 1 1).record)).2 = [1, 0, 0] ∧
    invocation_counts
      (event_triggers_post_call
        (event_triggers_call scenario_filter_match scenario_dispatch_file
          (some (scenario_event 1 1).record)).2
        (event_triggers_call scenario_filter_match scenario_dispatch_file
          (some (scenario_event 1 1).record)).1
        (some (scenario_event 1 1).record)) = [1, 0, 1] := by
  have honce : post_types_once scenario_dispatch_file.triggers := by
    unfold post_types_once; decide
  have h := C12_two_phase_dispatch scenario_filter_match scenario_dispatch_file
    (scenario_event 1 1).record scenario_dispatch_types_ok honce
  refine ⟨scenario_dispatch_types_ok, honce, by decide, ?_⟩
  rw [invocation_counts, h.2]
  decide

/-! ## Hashing and value extraction -/

theorem char_to_u64_low (b : Nat) (h : b % 256 < 128) : char_to_u64 b = b % 256 := by
  unfold char_to_u64 sign_extend
  rw [if_neg]
  simp only [Nat.mul_one]
  omega

theorem hash_fnv_1a_loop_low (key : List Nat) :
    ∀ acc : Nat, (∀ b ∈ key, b % 256 < 128) →
      hash_fnv_1a_loop acc key = fnv_1a_reference_loop acc key := by
  induction key with
  | nil => intro acc _; rfl
  | cons b key ih =>
    intro acc h
    have hb : b % 256 < 128 := h b (List.mem_cons_self b key)
    simp only [hash_fnv_1a_loop, fnv_1a_reference_loop, char_to_u64_low b hb, FNV_PRIME]
    exact ih _ (fun c hc => h c (List.mem_cons_of_mem b hc))

/-- C14: `hash_fnv_1a` equals the standard 64-bit FNV-1a hash, shifted right by
`64 - bits`, on every key whose bytes are all below 128; on the one-byte key
`0x80` it differs from it for every `bits` from 1 to 64, because the byte
is XORed in as a signed `char`, sign-extended to 64 bits: for 11 bits the
code yields 644 where the standard hash yields 1403. -/
theorem C14_hash_fnv_1a_sign_extends_bytes :
    (∀ (key : List Nat) (bits : Nat), (∀ b ∈ key, b % 256 < 128) →
      hash_fnv_1a key bits = fnv_1a_reference key bits) ∧
    (∀ bits : Nat, 1 ≤ bits → bits ≤ 64 →
      hash_fnv_1a [0x80] bits ≠ fnv_1a_reference [0x80] bits) ∧
    hash_fnv_1a [0x80] 11 = 644 ∧ fnv_1a_reference [0x80] 11 = 1403 := by
  refine ⟨?_, ?_, by decide, by decide⟩
  · intro key bits h
    unfold hash_fnv_1a fnv_1a_reference
    rw [hash_fnv_1a_loop_low key _ h, FNV_OFFSET_BASIS]
  · intro bits h1 h64
    interval_cases bits <;> decide

/-- Witness of C14: on the bytes of `ab` the two hashes agree. -/
theorem C14_witness :
    (∀ b ∈ [97, 98], b % 256 < 128) ∧
    hash_fnv_1a [97, 98] 11 = fnv_1a_reference [97, 98] 11 ∧
    hash_fnv_1a [0x80] 64 ≠ fnv_1a_reference [0x80] 64 :=
  ⟨by decide, C14_hash_fnv_1a_sign_extends_bytes.1 [97, 98] 11 (by decide),
   C14_hash_fnv_1a_sign_extends_bytes.2.1 64 (by decide) (by decide)⟩

theorem load_le_lt (rec : trace_record) : ∀ (size off : Nat), load_le rec off size < 256 ^ size := by
  intro size
  induction size with
  | zero => intro off; simp [load_le]
  | succ n ih =>
    intro off
    have h1 : rec_byte rec off < 256 := by unfold rec_byte; omega
    have h2 := ih (off + 1)
    simp only [load_le, pow_succ]
    omega

theorem extract_sized (name : List Char) (ft : filter_type_t) (off size : Nat) (sg : Bool)
    (rec : trace_record) (flags : Nat) (hsize : size ∈ [1, 2, 4, 8]) :
    ∃ fn, select_value_fn size sg = some fn ∧
      hash_field_call
        (scalar_descriptor
          { name := name, filter_type := ft, offset := off, size := size, is_signed := sg }
          fn flags) rec
        = some (to_u64 (field_value
            { name := name, filter_type := ft, offset := off, size := size, is_signed := sg }
            rec)) := by
  simp only [List.mem_cons, List.mem_singleton, List.not_mem_nil, or_false] at hsize
  have hb := load_le_lt rec size off
  rcases hsize with rfl | rfl | rfl | rfl <;> cases sg <;>
    simp only [select_value_fn, if_true, if_false, Bool.false_eq_true] <;>
    refine ⟨_, rfl, ?_⟩ <;>
    simp only [hash_field_call, scalar_descriptor, hash_field_fn_apply, Option.bind_eq_bind,
      Option.some_bind, field_value, sign_extend, to_u64, false_and, if_false, true_and,
      Bool.false_eq_true, Option.some.injEq] <;>
    norm_num at hb ⊢ <;>
    first | omega | (split <;> omega)

theorem select_value_fn_other (size : Nat) (sg : Bool) (h : size ∉ [1, 2, 4, 8]) :
    select_value_fn size sg = none := by
  simp only [List.mem_cons, List.mem_singleton, List.not_mem_nil, or_false, not_or] at h
  unfold select_value_fn
  split
  · exact absurd rfl h.2.2.2
  · exact absurd rfl h.2.2.1
  · exact absurd rfl h.2.1
  · exact absurd rfl h.1
  · rfl

/-- What `create_hash_field` returns for a plain scalar field without
auxiliary field when the allocation succeeds: the descriptor with the
extractor `select_value_fn` chose, or NULL when it chose none. -/
theorem create_hash_field_scalar (field : ftrace_event_field) (flags : Nat) (a : List Bool)
    (hstr : is_string_field field = false) (hfn : is_function_field field = false)
    (hst : has_flag flags HASH_FIELD_STACKTRACE = false)
    (hov : has_flag flags HASH_FIELD_OVERRIDE = false)
    (halloc : (alloc_fn a).1 = true) :
    create_hash_field (some field) none flags a
      = some ((select_value_fn field.size field.is_signed).map
                (fun fn => scalar_descriptor field fn flags), (alloc_fn a).2) := by
  unfold create_hash_field
  cases hal : alloc_fn a with
  | mk ok a1 =>
    rw [hal] at halloc
    simp only at halloc
    subst halloc
    simp only [Bool.not_true, Bool.false_eq_true, if_false, hst, hov, Option.bind_eq_bind,
      Option.some_bind, hstr, hfn]
    cases select_value_fn field.size field.is_signed <;> rfl

/-- C16: for a plain scalar field (no string, no function field, no
auxiliary field, flags without `stacktrace` and `override`) whose descriptor
allocation succeeds: when the field size is 1, 2, 4 or 8, `select_value_fn`
chooses an extractor, `create_hash_field` returns the descriptor holding it,
and the extractor returns the integer that the bytes of the field denote
(little endian, two's complement when signed) converted to `u64`, which for
an unsigned field is the zero-extended value; for any other size
`select_value_fn` returns no extractor and `create_hash_field` returns
NULL. -/
theorem C16_select_value_fn_by_width (field : ftrace_event_field) (rec : trace_record)
    (flags : Nat) (a : List Bool)
    (hstr : is_string_field field = false) (hfn : is_function_field field = false)
    (hst : has_flag flags HASH_FIELD_STACKTRACE = false)
    (hov : has_flag flags HASH_FIELD_OVERRIDE = false)
    (halloc : (alloc_fn a).1 = true) :
    (field.size ∈ [1, 2, 4, 8] →
      ∃ fn, select_value_fn field.size field.is_signed = some fn ∧
        create_hash_field (some field) none flags a
          = some (some (scalar_descriptor field fn flags), (alloc_fn a).2) ∧
        hash_field_call (scalar_descriptor field fn flags) rec
          = some (to_u64 (field_value field rec)) ∧
        (field.is_signed = false →
          hash_field_call (scalar_descriptor field fn flags) rec
            = some (load_le rec field.offset field.size))) ∧
    (field.size ∉ [1, 2, 4, 8] →
      select_value_fn field.size field.is_signed = none ∧
      create_hash_field (some field) none flags a = some (none, (alloc_fn a).2)) := by
  have hc := create_hash_field_scalar field flags a hstr hfn hst hov halloc
  constructor
  · intro hsize
    obtain ⟨fn, hsel, hval⟩ :=
      extract_sized field.name field.filter_type field.offset field.size field.is_signed
        rec flags hsize
    refine ⟨fn, hsel, ?_, hval, ?_⟩
    · rw [hc, hsel]; rfl
    · intro hu
      rw [hval]
      have hb := load_le_lt rec field.size field.offset
      have hle : 256 ^ field.size ≤ 2 ^ 64 := by
        simp only [List.mem_cons, List.mem_singleton, List.not_mem_nil, or_false] at hsize
        rcases hsize with h | h | h | h <;> rw [h] <;> norm_num
      have hlt : (load_le rec field.offset field.size : Int) < 2 ^ 64 := by
        exact_mod_cast lt_of_lt_of_le hb hle
      simp only [field_value, hu, Bool.false_eq_true, false_and, if_false, to_u64,
        Option.some.injEq]
      rw [Int.emod_eq_of_lt (by positivity) hlt]
      simp
  · intro hsize
    have hsel := select_value_fn_other field.size field.is_signed hsize
    refine ⟨hsel, ?_⟩
    rw [hc, hsel]; rfl

/-- Witness of C16: a signed field of one byte holding `0xff` denotes -1 and
is extracted as `2 ^ 64 - 1`; a field of three bytes gets no descriptor. -/
theorem C16_witness :
    field_value scenario_s8_field { addr := 0, bytes := [0xff] } = -1 ∧
    (∃ fn, select_value_fn 1 true = some fn ∧
      hash_field_call (scalar_descriptor scenario_s8_field fn 0) { addr := 0, bytes := [0xff] }
        = some (2 ^ 64 - 1)) ∧
    create_hash_field (some { scenario_s8_field with size := 3 }) none 0 [] = some (none, []) := by
  have h := C16_select_value_fn_by_width scenario_s8_field { addr := 0, bytes := [0xff] } 0 []
    (by decide) (by decide) (by decide) (by decide) (by decide)
  have h3 := C16_select_value_fn_by_width { scenario_s8_field with size := 3 }
    { addr := 0, bytes := [0xff] } 0 [] (by decide) (by decide) (by decide) (by decide)
    (by decide)
  refine ⟨by decide, ?_, (h3.2 (by decide)).2⟩
  obtain ⟨fn, hsel, _, hval, _⟩ := h.1 (by decide)
  refine ⟨fn, hsel, ?_⟩
  rw [hval]
  decide

/-- C17: `hash_field_diff` returns the difference of the two field values
modulo `2 ^ 64` when both fields are eight bytes wide. It reads eight bytes
at each offset whatever the declared widths are: for the four-byte fields
`bytes_alloc = 128` and `bytes_req = 100` of a 32-bit `kmalloc` record
followed by `gfp_flags = 0xd0`, the descriptor that `create_val_field` builds
for `bytes_alloc-bytes_req` extracts 343597383708 and not 28. -/
theorem C17_hash_field_diff_reads_eight_bytes :
    (∀ (hf : hash_field) (m s : ftrace_event_field) (rec : trace_record),
      hf.field = some m → hf.aux_field = some s → m.size = 8 → s.size = 8 →
      hash_field_fn_apply .hash_field_diff hf rec
        = some (to_u64 (field_value m rec - field_value s rec))) ∧
    (val_descriptor kmalloc_fields_32 "bytes_alloc-bytes_req".toList).map
        (fun hf => (hf.fn, hash_field_call hf (kmalloc_record_32 100 128 0xd0)))
      = some (some .hash_field_diff, some 343597383708) ∧
    named_field_value kmalloc_fields_32 "bytes_alloc".toList (kmalloc_record_32 100 128 0xd0)
      = some 128 ∧
    named_field_value kmalloc_fields_32 "bytes_req".toList (kmalloc_record_32 100 128 0xd0)
      = some 100 ∧
    to_u64 (128 - 100) = 28 := by
  refine ⟨?_, by decide, by decide, by decide, by decide⟩
  intro hf m s rec hm hs hm8 hs8
  have hbm := load_le_lt rec 8 m.offset
  have hbs := load_le_lt rec 8 s.offset
  simp only [hash_field_fn_apply, hm, hs, Option.bind_eq_bind, Option.some_bind, field_value,
    hm8, hs8, to_u64, Option.some.injEq]
  norm_num at hbm hbs ⊢
  split <;> split <;> omega

/-- Witness of C17: two unsigned fields of eight bytes, for which the
difference extracted is the difference of the field values. -/
theorem C17_witness :
    hash_field_fn_apply .hash_field_diff
        { field := some { name := "b".toList, filter_type := .FILTER_OTHER, offset := 8,
                          size := 8, is_signed := false },
          aux_field := some { name := "a".toList, filter_type := .FILTER_OTHER, offset := 0,
                              size := 8, is_signed := false },
          fn := some .hash_field_diff, flags := 0 }
        { addr := 0, bytes := to_bytes_le 100 8 ++ to_bytes_le 128 8 }
      = some (to_u64 (field_value
          { name := "b".toList, filter_type := .FILTER_OTHER, offset := 8,
            size := 8, is_signed := false }
          { addr := 0, bytes := to_bytes_le 100 8 ++ to_bytes_le 128 8 } -
        field_value
          { name := "a".toList, filter_type := .FILTER_OTHER, offset := 0,
            size := 8, is_signed := false }
          { addr := 0, bytes := to_bytes_le 100 8 ++ to_bytes_le 128 8 })) ∧
    to_u64 (field_value
          { name := "b".toList, filter_type := .FILTER_OTHER, offset := 8,
            size := 8, is_signed := false }
          { addr := 0, bytes := to_bytes_le 100 8 ++ to_bytes_le 128 8 } -
        field_value
          { name := "a".toList, filter_type := .FILTER_OTHER, offset := 0,
            size := 8, is_signed := false }
          { addr := 0, bytes := to_bytes_le 100 8 ++ to_bytes_le 128 8 }) = 28 :=
  ⟨C17_hash_field_diff_reads_eight_bytes.1 _ _ _ _ rfl rfl rfl rfl, by decide⟩

/-! ## Construction of value descriptors -/

theorem diff_spec_ne_hitcount (m_name s_name : List Char) :
    (m_name ++ '-' :: s_name == "hitcount".toList) = false := by
  rw [beq_eq_false_iff_ne]
  intro h
  have hmem : '-' ∈ m_name ++ '-' :: s_name := by simp
  rw [h] at hmem
  revert hmem
  decide

/-- The parse of a value specification `m-s` by `create_val_field` up to the
call of `create_hash_field`, for a primary field that the event has. -/
theorem create_val_field_lookup_diff (file : List ftrace_event_field)
    (m_name s_name : List Char) (m_field : ftrace_event_field) (hm : '-' ∉ m_name)
    (hfind : trace_find_event_field file m_name = some m_field) :
    create_val_field_lookup file (m_name ++ '-' :: s_name)
      = if is_string_field m_field || is_function_field m_field then
          some (-EINVAL, none, none, 0)
        else
          match trace_find_event_field file s_name with
          | none => some (-EINVAL, none, none, 0)
          | some s_field => some (0, some m_field, some s_field, 0) := by
  unfold create_val_field_lookup
  rw [strsep_more m_name s_name '-' hm]
  simp only [hfind]
  split
  · rfl
  · rename_i hnot
    cases trace_find_event_field file s_name with
    | none => rfl
    | some s_field => simp only [hnot, if_false, Bool.false_eq_true]

/-- What `create_hash_field` returns for a function field: NULL. -/
theorem create_hash_field_function (field : ftrace_event_field)
    (aux_field : Option ftrace_event_field) (flags : Nat) (a : List Bool)
    (hstr : is_string_field field = false) (hfn : is_function_field field = true)
    (hst : has_flag flags HASH_FIELD_STACKTRACE = false)
    (hov : has_flag flags HASH_FIELD_OVERRIDE = false) :
    create_hash_field (some field) aux_field flags a = some (none, (alloc_fn a).2) := by
  unfold create_hash_field
  cases hal : alloc_fn a with
  | mk ok a1 =>
    cases ok
    · simp
    · simp [hst, hov, hstr, hfn]

/-- What `create_hash_field` returns for a scalar primary field with an
auxiliary field when the allocation succeeds: the difference descriptor,
whatever the auxiliary field is. -/
theorem create_hash_field_diff (field aux : ftrace_event_field) (a : List Bool)
    (hstr : is_string_field field = false) (hfn : is_function_field field = false)
    (halloc : (alloc_fn a).1 = true) :
    create_hash_field (some field) (some aux) 0 a
      = some (some { field := some field, aux_field := some aux,
                     fn := some .hash_field_diff, flags := 0 }, (alloc_fn a).2) := by
  unfold create_hash_field
  cases hal : alloc_fn a with
  | mk ok a1 =>
    rw [hal] at halloc
    simp only at halloc
    subst halloc
    have h1 : has_flag 0 HASH_FIELD_STACKTRACE = false := by decide
    have h2 : has_flag 0 HASH_FIELD_OVERRIDE = false := by decide
    simp [h1, h2, hstr, hfn]

/-- The parse of a plain value name (no `-`, no `.`) by `create_val_field`
up to the call of `create_hash_field`. -/
theorem create_val_field_lookup_plain (file : List ftrace_event_field) (name : List Char)
    (field : ftrace_event_field) (hd : '-' ∉ name) (hp : '.' ∉ name)
    (hfind : trace_find_event_field file name = some field) :
    create_val_field_lookup file name = some (0, some field, none, 0) := by
  unfold create_val_field_lookup
  rw [strsep_last name '-' hd]
  simp only [strsep_last name '.' hp, hfind]
  rfl

/-- C18: `create_hash_field` produces no descriptor for a function field, and
`create_val_field` then returns `-ENOMEM` without counting a value;
`create_val_field` returns `-EINVAL` for a difference `m-s` whose primary
field `m` is a string or function field. The auxiliary field `s` is only
looked up, never inspected: when `m` is a plain scalar field and the event
has a field `s`, `create_val_field` stores the difference descriptor and
returns 0, also when `s` is a string or function field, as for `pid-comm`
and `pid-ip`. -/
theorem C18_auxiliary_field_not_checked (hash_data : hash_trigger_data) (val : Nat)
    (file : List ftrace_event_field) (a : List Bool) (hval : val < hash_data.vals.length) :
    (∀ (field : ftrace_event_field) (aux : Option ftrace_event_field) (flags : Nat),
      is_string_field field = false → is_function_field field = true →
      has_flag flags HASH_FIELD_STACKTRACE = false →
      has_flag flags HASH_FIELD_OVERRIDE = false →
      create_hash_field (some field) aux flags a = some (none, (alloc_fn a).2)) ∧
    (∀ (name : List Char) (field : ftrace_event_field),
      '-' ∉ name → '.' ∉ name → name ≠ "hitcount".toList →
      trace_find_event_field file name = some field →
      is_string_field field = false → is_function_field field = true →
      create_val_field hash_data val file name a
        = some (-ENOMEM, { hash_data with vals := hash_data.vals.set val none },
                (alloc_fn a).2)) ∧
    (∀ (m_name s_name : List Char) (m_field : ftrace_event_field),
      '-' ∉ m_name → trace_find_event_field file m_name = some m_field →
      (is_string_field m_field || is_function_field m_field) = true →
      create_val_field hash_data val file (m_name ++ '-' :: s_name) a
        = some (-EINVAL, hash_data, a)) ∧
    (∀ (m_name s_name : List Char) (m_field s_field : ftrace_event_field),
      '-' ∉ m_name → trace_find_event_field file m_name = some m_field →
      trace_find_event_field file s_name = some s_field →
      is_string_field m_field = false → is_function_field m_field = false →
      (alloc_fn a).1 = true →
      create_val_field hash_data val file (m_name ++ '-' :: s_name) a
        = some (0,
            { hash_data with
              vals := hash_data.vals.set val
                (some { field := some m_field, aux_field := some s_field,
                        fn := some .hash_field_diff, flags := 0 }),
              n_vals := (hash_data.n_vals + 1) % 2 ^ 32 },
            (alloc_fn a).2)) ∧
    val_field_code scenario_E_fields "pid-comm".toList = some 0 ∧
    val_descriptor scenario_E_fields "pid-comm".toList
      = some { field := scenario_E_fields[1]?, aux_field := scenario_E_fields[0]?,
               fn := some .hash_field_diff, flags := 0 } ∧
    val_field_code scenario_E_fields "pid-ip".toList = some 0 ∧
    val_field_code scenario_E_fields "comm-pid".toList = some (-EINVAL) := by
  have hlen : ¬ hash_data.vals.length ≤ val := Nat.not_le.mpr hval
  refine ⟨?_, ?_, ?_, ?_, by decide, by decide, by decide, by decide⟩
  · intro field aux flags hstr hfn hst hov
    exact create_hash_field_function field aux flags a hstr hfn hst hov
  · intro name field hd hp hne hfind hstr hfn
    have hne2 : (name == "hitcount".toList) = false := beq_eq_false_iff_ne.mpr hne
    have h0 : has_flag 0 HASH_FIELD_STACKTRACE = false := by decide
    have h1 : has_flag 0 HASH_FIELD_OVERRIDE = false := by decide
    unfold create_val_field
    simp only [hne2, Bool.false_eq_true, if_false,
      create_val_field_lookup_plain file name field hd hp hfind, ne_eq, not_true_eq_false,
      hlen, create_hash_field_function field none 0 a hstr hfn h0 h1, create_val_field_store]
  · intro m_name s_name m_field hm hfind hbad
    unfold create_val_field
    simp only [diff_spec_ne_hitcount, Bool.false_eq_true, if_false,
      create_val_field_lookup_diff file m_name s_name m_field hm hfind, hbad, if_true]
    simp [EINVAL]
  · intro m_name s_name m_field s_field hm hfindm hfinds hstr hfn halloc
    unfold create_val_field
    simp only [diff_spec_ne_hitcount, Bool.false_eq_true, if_false,
      create_val_field_lookup_diff file m_name s_name m_field hm hfindm, hstr, hfn,
      Bool.or_self, hfinds, ne_eq, not_true_eq_false, hlen,
      create_hash_field_diff m_field s_field a hstr hfn halloc, create_val_field_store]

/-- Witness of C18 on the scenario event: `ip` alone gets no descriptor,
`comm-pid` is refused, `pid-comm` is stored. -/
theorem C18_witness :
    create_val_field zero_hash_data 0 scenario_E_fields "ip".toList []
      = some (-ENOMEM, zero_hash_data, []) ∧
    create_val_field zero_hash_data 0 scenario_E_fields "comm-pid".toList []
      = some (-EINVAL, zero_hash_data, []) ∧
    (create_val_field zero_hash_data 0 scenario_E_fields "pid-comm".toList []).map
        (fun r => (r.1, r.2.1.n_vals)) = some (0, 1) := by
  have h := C18_auxiliary_field_not_checked zero_hash_data 0 scenario_E_fields [] (by decide)
  refine ⟨?_, ?_, ?_⟩
  · have h2 := h.2.1 "ip".toList _ (by decide) (by decide) (by decide)
      (show trace_find_event_field scenario_E_fields "ip".toList = scenario_E_fields[3]? from
        by decide) (by decide) (by decide)
    rw [h2]
    decide
  · exact h.2.2.1 "comm".toList "pid".toList _ (by decide)
      (show trace_find_event_field scenario_E_fields "comm".toList = scenario_E_fields[0]? from
        by decide) (by decide)
  · have h4 := h.2.2.2.1 "pid".toList "comm".toList _ _ (by decide)
      (show trace_find_event_field scenario_E_fields "pid".toList = scenario_E_fields[1]? from
        by decide)
      (show trace_find_event_field scenario_E_fields "comm".toList = scenario_E_fields[0]? from
        by decide) (by decide) (by decide) (by decide)
    have hs : "pid".toList ++ '-' :: "comm".toList = "pid-comm".toList := by decide
    rw [hs] at h4
    rw [h4]
    decide

/-! ## Sort specifications and key shapes -/

theorem strsep_sort_field (name : List Char) (suffix : Option (List Char))
    (hdot : '.' ∉ name) :
    strsep (some (sort_field_spec name suffix)) ['.'] = (some name, suffix) := by
  cases suffix with
  | none => exact strsep_last name '.' hdot
  | some s => exact strsep_more name s '.' hdot

/-- The body of the loop of `create_sort_keys` on a field that
`create_sort_key` resolves and whose suffix is accepted. -/
theorem create_sort_keys_loop_body (hash_data : hash_trigger_data) (i : Nat) (is : List Nat)
    (name : List Char) (suffix : Option (List Char)) (fields_str1 : Option (List Char))
    (fields_str : List Char) (sort_keys : List (Option hash_trigger_sort_key))
    (a a1 : List Bool) (sk : hash_trigger_sort_key)
    (hsep : strsep (some fields_str) [','] = (some (sort_field_spec name suffix), fields_str1))
    (hdot : '.' ∉ name) (hsfx : sort_suffix_ok suffix)
    (hres : create_sort_key name hash_data a = some (some sk, a1)) :
    create_sort_keys_loop hash_data (i :: is) (some fields_str) sort_keys a
      = create_sort_keys_loop hash_data is fields_str1
          (sort_keys.set i (some (apply_sort_suffix sk suffix))) a1 := by
  rw [create_sort_keys_loop]
  simp only [hsep, strsep_sort_field name suffix hdot, hres]
  rcases hsfx with h | h | h <;> subst h
  · simp [apply_sort_suffix]
  · have h1 : ("ascending".toList == "descending".toList) = false := by decide
    have h2 : ("ascending".toList != "ascending".toList) = false := by decide
    have h3 : (some "ascending".toList = some "descending".toList) = False := by
      simp only [Option.some.injEq, eq_iff_iff, iff_false]; decide
    simp only [h1, h2, Bool.false_eq_true, if_false, apply_sort_suffix, h3]
  · have h1 : ("descending".toList == "descending".toList) = true := by decide
    simp only [h1, if_true, apply_sort_suffix]

/-- The body of the loop of `create_sort_keys` on a field whose suffix is
neither `ascending` nor `descending`. -/
theorem create_sort_keys_loop_bad_suffix (hash_data : hash_trigger_data) (i : Nat)
    (is : List Nat) (name suffix : List Char) (fields_str1 : Option (List Char))
    (fields_str : List Char) (sort_keys : List (Option hash_trigger_sort_key))
    (a a1 : List Bool) (sk : hash_trigger_sort_key)
    (hsep : strsep (some fields_str) [','] = (some (sort_field_spec name (some suffix)), fields_str1))
    (hdot : '.' ∉ name) (h1 : suffix ≠ "descending".toList) (h2 : suffix ≠ "ascending".toList)
    (hres : create_sort_key name hash_data a = some (some sk, a1)) :
    create_sort_keys_loop hash_data (i :: is) (some fields_str) sort_keys a
      = some (-EINVAL, create_sort_keys_free sort_keys, a1) := by
  rw [create_sort_keys_loop]
  simp only [hsep, strsep_sort_field name (some suffix) hdot, hres]
  have e1 : (suffix == "descending".toList) = false := beq_eq_false_iff_ne.mpr h1
  have e2 : (suffix != "ascending".toList) = true := by
    simp only [bne, beq_eq_false_iff_ne.mpr h2, Bool.not_false]
  simp only [e1, e2, Bool.false_eq_true, if_false, if_true]

theorem create_sort_keys_loop_end (hash_data : hash_trigger_data) (i : Nat) (is : List Nat)
    (sort_keys : List (Option hash_trigger_sort_key)) (a : List Bool) (hi : i ≠ 0) :
    create_sort_keys_loop hash_data (i :: is) none sort_keys a = some (0, sort_keys, a) := by
  rw [create_sort_keys_loop]
  simp only [strsep, if_neg hi]

theorem create_default_sort_key_ascending (a a1 : List Bool) (sk : hash_trigger_sort_key)
    (h : create_default_sort_key a = (some sk, a1)) : sk.descending = false := by
  unfold create_default_sort_key at h
  cases hal : alloc_fn a with
  | mk ok a2 =>
    rw [hal] at h
    cases ok
    · simp at h
    · simp at h
      rw [← h.1]

theorem create_sort_key_out_ascending (j : Nat) (key_part : Bool) (a a1 : List Bool)
    (sk : hash_trigger_sort_key)
    (h : create_sort_key_out j key_part a = (some sk, a1)) : sk.descending = false := by
  unfold create_sort_key_out at h
  cases hal : alloc_fn a with
  | mk ok a2 =>
    rw [hal] at h
    cases ok
    · simp at h
    · simp at h
      rw [← h.1]

/-- A sort key comes out of `create_sort_key` with the descending flag clear. -/
theorem create_sort_key_ascending (field_name : List Char) (hash_data : hash_trigger_data)
    (a a1 : List Bool) (sk : hash_trigger_sort_key)
    (h : create_sort_key field_name hash_data a = some (some sk, a1)) :
    sk.descending = false := by
  have hrest : ∀ name : List Char,
      (do
        match ← create_sort_key_vals_loop hash_data name (List.range hash_data.n_vals) with
        | some j => some (create_sort_key_out j false a)
        | none =>
            match ← create_sort_key_keys_loop hash_data name (List.range hash_data.n_keys) with
            | some j => some (create_sort_key_out j true a)
            | none => some (none, a)) = some (some sk, a1) → sk.descending = false := by
    intro name hr
    cases hv : create_sort_key_vals_loop hash_data name (List.range hash_data.n_vals) with
    | none => simp [hv] at hr
    | some v =>
      cases v with
      | some j =>
        simp [hv] at hr
        exact create_sort_key_out_ascending j false a a1 sk hr
      | none =>
        cases hk : create_sort_key_keys_loop hash_data name (List.range hash_data.n_keys) with
        | none => simp [hv, hk] at hr
        | some k =>
          cases k with
          | some j =>
            simp [hv, hk] at hr
            exact create_sort_key_out_ascending j true a a1 sk hr
          | none => simp [hv, hk] at hr
  unfold create_sort_key at h
  split at h
  · simp only [Option.some.injEq] at h
    exact create_default_sort_key_ascending a a1 sk h
  · simp only at h
    split at h
    · split at h
      · simp at h
      · simp at h
      · rename_i m aux heq
        cases hdl : create_sort_key_diff_loop hash_data m aux (List.range hash_data.n_vals) with
        | none => simp [hdl] at h
        | some d =>
          cases d with
          | some j =>
            simp [hdl] at h
            exact create_sort_key_out_ascending j false a a1 sk h
          | none =>
            simp only [hdl, Option.bind_eq_bind, Option.some_bind] at h
            exact hrest m h
    · exact hrest field_name h

/-- C20, as stated, fails: on the scenario table the sort specifications
`sort=bytes_alloc.desc` and `sort=bytes_alloc.asc`, whose field name
resolves, make `create_sort_keys` return `-EINVAL` and leave no sort key. -/
theorem C20_counterexample :
    sort_spec_result "sort=bytes_alloc.desc".toList = some (-EINVAL, [none, none]) ∧
    sort_spec_result "sort=bytes_alloc.asc".toList = some (-EINVAL, [none, none]) ∧
    sort_spec_result "sort=bytes_alloc".toList = some (0, [some false, none]) := by
  decide

/-- C20, amended: for a sort specification `sort=field[.suffix]` or
`sort=field[.suffix],field2[.suffix]` whose field names `create_sort_key`
resolves, `create_sort_keys` returns 0 and stores one sort key per field,
with the descending flag set for the suffix `descending` and clear for the
suffix `ascending` and for no suffix; any other suffix, `desc` and `asc`
among them, on the only field, on the first of several fields or on the
second field, makes it return `-EINVAL` and release the sort keys. -/
theorem C20_sort_suffixes_are_spelled_out (hash_data : hash_trigger_data) (a a1 : List Bool)
    (pre f1 : List Char) (s1 : Option (List Char)) (sk1 : hash_trigger_sort_key)
    (hpre : '=' ∉ pre) (hdot1 : '.' ∉ f1) (hcomma1 : ',' ∉ sort_field_spec f1 s1)
    (hres1 : create_sort_key f1 hash_data a = some (some sk1, a1)) :
    (sort_suffix_ok s1 →
      hash_data.sort_keys_str = some (pre ++ '=' :: sort_field_spec f1 s1) →
      create_sort_keys hash_data a
        = some (0,
            { hash_data with
              sort_keys := hash_data.sort_keys.set 0 (some (apply_sort_suffix sk1 s1)) },
            a1)) ∧
    (∀ (f2 : List Char) (s2 : Option (List Char)) (sk2 : hash_trigger_sort_key)
       (a2 : List Bool),
      sort_suffix_ok s1 → sort_suffix_ok s2 →
      '.' ∉ f2 → ',' ∉ sort_field_spec f2 s2 →
      create_sort_key f2 hash_data a1 = some (some sk2, a2) →
      hash_data.sort_keys_str
        = some (pre ++ '=' :: (sort_field_spec f1 s1 ++ ',' :: sort_field_spec f2 s2)) →
      create_sort_keys hash_data a
        = some (0,
            { hash_data with
              sort_keys := (hash_data.sort_keys.set 0 (some (apply_sort_suffix sk1 s1))).set 1
                (some (apply_sort_suffix sk2 s2)) },
            a2)) ∧
    ((apply_sort_suffix sk1 (some "descending".toList)).descending = true ∧
     (apply_sort_suffix sk1 (some "ascending".toList)).descending = false ∧
     (apply_sort_suffix sk1 none).descending = false) ∧
    (∀ s : List Char, s1 = some s → s ≠ "descending".toList → s ≠ "ascending".toList →
      hash_data.sort_keys_str = some (pre ++ '=' :: sort_field_spec f1 s1) →
      create_sort_keys hash_data a
        = some (-EINVAL,
            { hash_data with sort_keys := create_sort_keys_free hash_data.sort_keys }, a1)) ∧
    (∀ (s rest : List Char), s1 = some s → s ≠ "descending".toList →
      s ≠ "ascending".toList →
      hash_data.sort_keys_str = some (pre ++ '=' :: (sort_field_spec f1 s1 ++ ',' :: rest)) →
      create_sort_keys hash_data a
        = some (-EINVAL,
            { hash_data with sort_keys := create_sort_keys_free hash_data.sort_keys }, a1)) ∧
    (∀ (f2 s : List Char) (sk2 : hash_trigger_sort_key) (a2 : List Bool),
      sort_suffix_ok s1 → s ≠ "descending".toList → s ≠ "ascending".toList →
      '.' ∉ f2 → ',' ∉ sort_field_spec f2 (some s) →
      create_sort_key f2 hash_data a1 = some (some sk2, a2) →
      hash_data.sort_keys_str
        = some (pre ++ '=' :: (sort_field_spec f1 s1 ++ ',' :: sort_field_spec f2 (some s))) →
      create_sort_keys hash_data a
        = some (-EINVAL,
            { hash_data with
              sort_keys := create_sort_keys_free
                (hash_data.sort_keys.set 0 (some (apply_sort_suffix sk1 s1))) }, a2)) := by
  have hasc := create_sort_key_ascending f1 hash_data a a1 sk1 hres1
  have hmax : List.range HASH_SORT_KEYS_MAX = [0, 1] := by decide
  refine ⟨?_, ?_, ⟨?_, ?_, ?_⟩, ?_, ?_, ?_⟩
  · intro hs1 hstr
    unfold create_sort_keys create_sort_keys_array
    simp only [hstr, strsep_more pre _ '=' hpre, hmax]
    rw [create_sort_keys_loop_body hash_data 0 [1] f1 s1 none _ _ a a1 sk1
      (strsep_last _ ',' hcomma1) hdot1 hs1 hres1]
    rw [create_sort_keys_loop_end hash_data 1 [] _ a1 (by decide)]
  · intro f2 s2 sk2 a2 hs1 hs2 hdot2 hcomma2 hres2 hstr
    unfold create_sort_keys create_sort_keys_array
    simp only [hstr, strsep_more pre _ '=' hpre, hmax]
    rw [create_sort_keys_loop_body hash_data 0 [1] f1 s1 (some (sort_field_spec f2 s2)) _ _
      a a1 sk1 (strsep_more _ _ ',' hcomma1) hdot1 hs1 hres1]
    rw [create_sort_keys_loop_body hash_data 1 [] f2 s2 none _ _ a1 a2 sk2
      (strsep_last _ ',' hcomma2) hdot2 hs2 hres2]
    simp only [create_sort_keys_loop]
  · simp [apply_sort_suffix]
  · have hne : ¬ (some "ascending".toList = some "descending".toList) := by
      simp only [Option.some.injEq]; decide
    simp only [apply_sort_suffix, if_neg hne, hasc]
  · simp [apply_sort_suffix, hasc]
  · intro s hs hnd hna hstr
    subst hs
    unfold create_sort_keys create_sort_keys_array
    simp only [hstr, strsep_more pre _ '=' hpre, hmax]
    rw [create_sort_keys_loop_bad_suffix hash_data 0 [1] f1 s none _ _ a a1 sk1
      (strsep_last _ ',' hcomma1) hdot1 hnd hna hres1]
  · intro s rest hs hnd hna hstr
    subst hs
    unfold create_sort_keys create_sort_keys_array
    simp only [hstr, strsep_more pre _ '=' hpre, hmax]
    rw [create_sort_keys_loop_bad_suffix hash_data 0 [1] f1 s (some rest) _ _ a a1 sk1
      (strsep_more _ _ ',' hcomma1) hdot1 hnd hna hres1]
  · intro f2 s sk2 a2 hs1 hnd hna hdot2 hcomma2 hres2 hstr
    unfold create_sort_keys create_sort_keys_array
    simp only [hstr, strsep_more pre _ '=' hpre, hmax]
    rw [create_sort_keys_loop_body hash_data 0 [1] f1 s1 (some (sort_field_spec f2 (some s))) _ _
      a a1 sk1 (strsep_more _ _ ',' hcomma1) hdot1 hs1 hres1]
    rw [create_sort_keys_loop_bad_suffix hash_data 1 [] f2 s none _ _ a1 a2 sk2
      (strsep_last _ ',' hcomma2) hdot2 hnd hna hres2]

/-- Witness of C20: `sort=hitcount.descending,bytes_alloc.ascending` on the
scenario table stores a descending hit count key and an ascending key on the
first value. -/
theorem C20_witness :
    create_sort_key "hitcount".toList
        (sort_spec_table "sort=hitcount.descending,bytes_alloc.ascending".toList) []
      = some (some { descending := false, use_hitcount := true, key_part := false, idx := 0 },
              []) ∧
    create_sort_key "bytes_alloc".toList
        (sort_spec_table "sort=hitcount.descending,bytes_alloc.ascending".toList) []
      = some (some { descending := false, use_hitcount := false, key_part := false, idx := 0 },
              []) ∧
    (create_sort_keys
        (sort_spec_table "sort=hitcount.descending,bytes_alloc.ascending".toList) []).map
        (fun r => (r.1, r.2.1.sort_keys))
      = some (0, [some { descending := true, use_hitcount := true, key_part := false,
                         idx := 0 },
                  some { descending := false, use_hitcount := false, key_part := false,
                         idx := 0 }]) := by
  have h := (C20_sort_suffixes_are_spelled_out
    (sort_spec_table "sort=hitcount.descending,bytes_alloc.ascending".toList) [] []
    "sort".toList "hitcount".toList (some "descending".toList)
    { descending := false, use_hitcount := true, key_part := false, idx := 0 }
    (by decide) (by decide) (by decide) (by decide)).2.1
    "bytes_alloc".toList (some "ascending".toList)
    { descending := false, use_hitcount := false, key_part := false, idx := 0 } []
    (Or.inr (Or.inr rfl)) (Or.inr (Or.inl rfl)) (by decide) (by decide) (by decide) rfl
  refine ⟨by decide, by decide, ?_⟩
  rw [h]
  decide

/-- C19: `create_hash_fields` does not look at how key fields combine. On the
scenario event it returns 0 for the key specifications `comm,pid` (a string
with a scalar), `stacktrace,pid` (a stack trace with a scalar) and
`stacktrace,comm`, and leaves tables with two key fields whose shapes are
none of the allowed ones; the single keys `pid`, `comm`, `stacktrace` and the
pair `pid,bytes` get the shapes allowed. -/
theorem C19_mixed_keys_are_accepted :
    key_spec_result "comm,pid".toList
      = some (0, [some .HASH_KEY_TYPE_STRING, some .HASH_KEY_TYPE_U64]) ∧
    key_spec_result "stacktrace,pid".toList
      = some (0, [some .HASH_KEY_TYPE_STACKTRACE, some .HASH_KEY_TYPE_U64]) ∧
    key_spec_result "stacktrace,comm".toList
      = some (0, [some .HASH_KEY_TYPE_STACKTRACE, some .HASH_KEY_TYPE_STRING]) ∧
    allowed_key_shape [some .HASH_KEY_TYPE_STRING, some .HASH_KEY_TYPE_U64] = false ∧
    allowed_key_shape [some .HASH_KEY_TYPE_STACKTRACE, some .HASH_KEY_TYPE_U64] = false ∧
    allowed_key_shape [some .HASH_KEY_TYPE_STACKTRACE, some .HASH_KEY_TYPE_STRING] = false ∧
    key_spec_result "pid".toList = some (0, [some .HASH_KEY_TYPE_U64]) ∧
    key_spec_result "comm".toList = some (0, [some .HASH_KEY_TYPE_STRING]) ∧
    key_spec_result "stacktrace".toList = some (0, [some .HASH_KEY_TYPE_STACKTRACE]) ∧
    key_spec_result "pid,bytes".toList
      = some (0, [some .HASH_KEY_TYPE_U64, some .HASH_KEY_TYPE_U64]) := by
  refine ⟨by decide, by decide, by decide, by decide, by decide, by decide, by decide,
    by decide, by decide, by decide⟩

theorem to_bytes_le_length : ∀ (size v : Nat), (to_bytes_le v size).length = size := by
  intro size
  induction size with
  | zero => intro v; rfl
  | succ n ih => intro v; simp [to_bytes_le, ih]

theorem flatten_map_length {α : Type} (f : α → List Nat) (c : Nat) :
    ∀ l : List α, (∀ x ∈ l, (f x).length = c) → ((l.map f).flatten).length = l.length * c := by
  intro l
  induction l with
  | nil => intro _; simp
  | cons x xs ih =>
    intro h
    have hx := h x (List.mem_cons_self x xs)
    have hxs := ih (fun y hy => h y (List.mem_cons_of_mem x hy))
    simp only [List.map_cons, List.flatten_cons, List.length_append, hx, hxs, List.length_cons]
    rw [Nat.succ_mul]
    omega

theorem stack_bytes_length (P : Platform) (st : stack_trace) (n : Nat) :
    (stack_bytes P st n).length = n * (P.BITS_PER_LONG / 8) := by
  unfold stack_bytes
  rw [flatten_map_length _ (P.BITS_PER_LONG / 8) _ (fun i _ => to_bytes_le_length _ _)]
  simp

theorem rec_span_length (rec : trace_record) (off n : Nat) : (rec_span rec off n).length = n := by
  simp [rec_span]

theorem key_bytes_length (T : hash_trigger_data) (rec : trace_record) :
    (((key_tuple T rec).map (fun v => to_bytes_le v 8)).flatten).length = T.n_keys * 8 := by
  rw [flatten_map_length _ 8 _ (fun v _ => to_bytes_le_length 8 v)]
  simp [key_tuple]

/-- C15: `hash_key` looks at the first key descriptor. A stack trace key is
hashed by `hash_fnv_1a` over the `nr_entries * sizeof(unsigned long)` bytes of
the captured frames; a string key by `hash_fnv_1a` over the bytes of the
field, as many as its declared size; a key of two to eight scalar fields by
`hash_fnv_1a` over the `n_keys * 8` bytes of the extracted values in key
order; a single scalar key by `hash_64` when the field is eight bytes wide
and by `hash_32` (of the value truncated to 32 bits) when it is four bytes
wide, and to bucket 0 for any other width. -/
theorem C15_hash_key_by_shape (P : Platform) (T : hash_trigger_data) (rec : trace_record)
    (st : stack_trace) (hf : hash_field) (h0 : key_field T 0 = some hf) :
    (has_flag hf.flags HASH_FIELD_STACKTRACE = true →
      hash_key P T rec st
        = some (hash_fnv_1a (stack_bytes P st st.nr_entries) T.hashtab_bits) ∧
      (stack_bytes P st st.nr_entries).length = st.nr_entries * (P.BITS_PER_LONG / 8)) ∧
    (∀ f : ftrace_event_field,
      has_flag hf.flags HASH_FIELD_STACKTRACE = false →
      has_flag hf.flags HASH_FIELD_STRING = true →
      hf.field = some f → hf.fn = some .hash_field_string →
      hash_key P T rec st
        = some (hash_fnv_1a (rec_span rec f.offset f.size) T.hashtab_bits) ∧
      (rec_span rec f.offset f.size).length = f.size) ∧
    (scalar_keys T = true → 1 < T.n_keys →
      hash_key P T rec st
        = some (hash_fnv_1a (((key_tuple T rec).map (fun v => to_bytes_le v 8)).flatten)
            T.hashtab_bits) ∧
      (((key_tuple T rec).map (fun v => to_bytes_le v 8)).flatten).length = T.n_keys * 8) ∧
    (∀ f : ftrace_event_field, scalar_keys T = true → T.n_keys = 1 → hf.field = some f →
      (f.size = 8 → hash_key P T rec st = some (P.hash_64 (key_value T rec 0) T.hashtab_bits)) ∧
      (f.size = 4 →
        hash_key P T rec st = some (P.hash_32 (key_value T rec 0 % 2 ^ 32) T.hashtab_bits)) ∧
      (f.size ≠ 8 → f.size ≠ 4 → hash_key P T rec st = some 0)) := by
  refine ⟨?_, ?_, ?_, ?_⟩
  · intro hst
    exact ⟨by simp [hash_key, h0, hst, hash_stacktrace], stack_bytes_length P st _⟩
  · intro f hst hstr hfld hfn
    refine ⟨?_, rec_span_length rec _ _⟩
    simp [hash_key, h0, hst, hstr, hash_string, hfld, hash_field_call, hfn, hash_field_fn_apply]
  · intro hs hn
    refine ⟨?_, key_bytes_length T rec⟩
    rw [hash_key_scalar P T rec st hs, bucket_of, if_pos hn]
  · intro f hs hn hfld
    have hk := hash_key_scalar P T rec st hs
    have hnot : ¬ 1 < T.n_keys := by omega
    rw [bucket_of, if_neg hnot, key_tuple_one T rec hn] at hk
    simp only [h0, Option.some_bind, hfld, Option.map_some', List.headD_cons] at hk
    refine ⟨?_, ?_, ?_⟩
    · intro h8; rw [hk, h8]
    · intro h4; rw [hk, h4]
    · intro h8 h4
      rw [hk]
      split
      · rename_i heq; simp only [Option.some.injEq] at heq; exact absurd heq h8
      · rename_i heq; simp only [Option.some.injEq] at heq; exact absurd heq h4
      · rfl

/-! ## String keys -/

/-- C13: `hash_string` hashes the bytes of the field, as many as its declared
size, whatever NUL they hold. On the table `hash:comm:hitcount` (2048
buckets, `comm` declared with eight bytes) the records `ab\0` followed by
five zero bytes and `ab\0` followed by the bytes 44, 112, 0, 0, 0 hold the
same C string, differ after the terminator and fall into bucket 1941 both:
the second one finds the entry of the first, which then counts two hits, and
no second entry is made. A record `ab\0` followed by 1, 0, 0, 0, 0 falls
into bucket 2043 and gets an entry of its own. -/
theorem C13_string_keys_merge_in_one_bucket :
    (∀ (hf : hash_field) (f : ftrace_event_field) (bits : Nat) (rec : trace_record),
      hf.field = some f → hf.fn = some .hash_field_string →
      hash_string hf bits rec = some (hash_fnv_1a (rec_span rec f.offset f.size) bits) ∧
      (rec_span rec f.offset f.size).length = f.size) ∧
    key_field scenario_E_table 0 = some scenario_E_key ∧
    (scenario_E_comm [0, 0, 0, 0, 0] = [97, 98] ∧
     scenario_E_comm [44, 112, 0, 0, 0] = [97, 98] ∧
     scenario_E_comm [1, 0, 0, 0, 0] = [97, 98]) ∧
    (scenario_E_bucket [0, 0, 0, 0, 0] = some 1941 ∧
     scenario_E_bucket [44, 112, 0, 0, 0] = some 1941 ∧
     scenario_E_bucket [1, 0, 0, 0, 0] = some 2043) ∧
    scenario_E_run [[0, 0, 0, 0, 0], [44, 112, 0, 0, 0]] = some (1, 2, 0) ∧
    scenario_E_run [[0, 0, 0, 0, 0], [1, 0, 0, 0, 0]] = some (2, 1, 1) := by
  refine ⟨?_, by decide, ⟨by decide, by decide, by decide⟩,
    ⟨by decide, by decide, by decide⟩, by decide!, by decide!⟩
  intro hf f bits rec hfld hfn
  refine ⟨?_, rec_span_length rec _ _⟩
  simp [hash_string, hfld, hash_field_call, hfn, hash_field_fn_apply]

/-- Witness of C13: the hash of the `comm` field of the first record of the
scenario is the hash of its eight bytes, NUL and trailing bytes included. -/
theorem C13_witness :
    hash_string scenario_E_key HASH_TRIGGER_BITS (scenario_E_event [0, 0, 0, 0, 0]).record
      = some (hash_fnv_1a [97, 98, 0, 0, 0, 0, 0, 0] HASH_TRIGGER_BITS) ∧
    hash_string scenario_E_key HASH_TRIGGER_BITS (scenario_E_event [44, 112, 0, 0, 0]).record
      = some (hash_fnv_1a [97, 98, 0, 44, 112, 0, 0, 0] HASH_TRIGGER_BITS) := by
  have h1 := (C13_string_keys_merge_in_one_bucket.1 scenario_E_key
    { name := "comm".toList, filter_type := .FILTER_STATIC_STRING, offset := 8, size := 8,
      is_signed := false }
    HASH_TRIGGER_BITS (scenario_E_event [0, 0, 0, 0, 0]).record rfl rfl).1
  have h2 := (C13_string_keys_merge_in_one_bucket.1 scenario_E_key
    { name := "comm".toList, filter_type := .FILTER_STATIC_STRING, offset := 8, size := 8,
      is_signed := false }
    HASH_TRIGGER_BITS (scenario_E_event [44, 112, 0, 0, 0]).record rfl rfl).1
  refine ⟨?_, ?_⟩
  · rw [h1]; decide
  · rw [h2]; decide

/-- Witness of C15 on the scenario tables: the single key `pid` of four bytes
is hashed by `hash_32`, the string key `comm` by `hash_fnv_1a` over eight
bytes. -/
theorem C15_witness :
    hash_key x86_64 scenario_table (scenario_event 1 10).record zero_stack_trace
      = some (x86_64.hash_32 (key_value scenario_table (scenario_event 1 10).record 0 % 2 ^ 32)
          scenario_table.hashtab_bits) ∧
    key_value scenario_table (scenario_event 1 10).record 0 = 1 ∧
    hash_key x86_64 scenario_E_table (scenario_E_event [0, 0, 0, 0, 0]).record
        zero_stack_trace
      = some (hash_fnv_1a
          (rec_span (scenario_E_event [0, 0, 0, 0, 0]).record 8 8)
          scenario_E_table.hashtab_bits) := by
  have h1 := (C15_hash_key_by_shape x86_64 scenario_table (scenario_event 1 10).record
    zero_stack_trace
    { field := scenario_fields[0]?, aux_field := none, fn := some .hash_field_s32, flags := 0 }
    (by decide)).2.2.2
    { name := "pid".toList, filter_type := .FILTER_OTHER, offset := 0, size := 4,
      is_signed := true }
    (by decide) (by decide) rfl
  have h2 := (C15_hash_key_by_shape x86_64 scenario_E_table
    (scenario_E_event [0, 0, 0, 0, 0]).record zero_stack_trace scenario_E_key
    (by decide)).2.1
    { name := "comm".toList, filter_type := .FILTER_STATIC_STRING, offset := 8, size := 8,
      is_signed := false }
    (by decide) (by decide) rfl rfl
  exact ⟨h1.2.1 rfl, by decide, h2.1⟩

/-! ## Count triggers, the boot arena and stack trace matching -/

/-- One call of the allocator on a watermark inside the arena, for a size
whose addition cannot wrap the address. -/
theorem bootmem_alloc_call (P : Platform) (base used size : Nat)
    (hused : used ≤ HASH_TRIGGER_BYTES)
    (hsize : base + HASH_TRIGGER_BYTES + size < 2 ^ P.BITS_PER_LONG) :
    hash_data_bootmem_alloc P base (base + used) size
      = if used + size > HASH_TRIGGER_BYTES then (none, base + used)
        else (some (base + used), base + (used + size)) := by
  unfold hash_data_bootmem_alloc
  have h1 : (base + used + size) % 2 ^ P.BITS_PER_LONG = base + used + size :=
    Nat.mod_eq_of_lt (by omega)
  have h2 : (base + HASH_TRIGGER_BYTES) % 2 ^ P.BITS_PER_LONG = base + HASH_TRIGGER_BYTES :=
    Nat.mod_eq_of_lt (by omega)
  simp only [h1, h2]
  by_cases h : used + size > HASH_TRIGGER_BYTES
  · rw [if_pos (by omega), if_pos h]
  · rw [if_neg (by omega), if_neg h, Nat.add_assoc]

theorem bootmem_alloc_seq_spec (P : Platform) (base : Nat) (sizes : List Nat) :
    ∀ used : Nat, used ≤ HASH_TRIGGER_BYTES →
      (∀ size ∈ sizes, base + HASH_TRIGGER_BYTES + size < 2 ^ P.BITS_PER_LONG) →
      ∃ used1, used ≤ used1 ∧ used1 ≤ HASH_TRIGGER_BYTES ∧
        (hash_data_bootmem_alloc_seq P base (base + used) sizes).2 = base + used1 ∧
        (∀ span ∈ (hash_data_bootmem_alloc_seq P base (base + used) sizes).1,
          base + used ≤ span.1 ∧ span.1 + span.2 ≤ base + used1) ∧
        (hash_data_bootmem_alloc_seq P base (base + used) sizes).1.Pairwise
          (fun s t => s.1 + s.2 ≤ t.1) := by
  induction sizes with
  | nil =>
    intro used hused _
    exact ⟨used, le_refl _, hused, rfl, by simp [hash_data_bootmem_alloc_seq],
      by simp [hash_data_bootmem_alloc_seq]⟩
  | cons size sizes ih =>
    intro used hused hsizes
    have hcall := bootmem_alloc_call P base used size hused
      (hsizes size (List.mem_cons_self _ _))
    have hrest : ∀ s ∈ sizes, base + HASH_TRIGGER_BYTES + s < 2 ^ P.BITS_PER_LONG :=
      fun s hs => hsizes s (List.mem_cons_of_mem _ hs)
    by_cases h : used + size > HASH_TRIGGER_BYTES
    · rw [if_pos h] at hcall
      simp only [hash_data_bootmem_alloc_seq, hcall]
      exact ih used hused hrest
    · rw [if_neg h] at hcall
      obtain ⟨used1, hle, hcap, hwm, hin, hpair⟩ := ih (used + size) (by omega) hrest
      simp only [hash_data_bootmem_alloc_seq, hcall]
      refine ⟨used1, by omega, hcap, hwm, ?_, ?_⟩
      · intro span hspan
        rcases List.mem_cons.mp hspan with rfl | hmem
        · simp only; omega
        · have := hin span hmem; omega
      · refine List.pairwise_cons.mpr ⟨?_, hpair⟩
        intro t ht
        have := hin t ht
        simp only; omega

/-- C22: the early-trigger arena holds 5242880 bytes. With `used` bytes
handed out so far and for a size whose addition to an arena address cannot
wrap the address, `hash_data_bootmem_alloc` returns NULL and leaves the
watermark alone when `used + size > 5242880`, and otherwise returns the old
watermark and advances it by `size`. Over every sequence of such calls the
watermark never passes the end of the arena, and the spans returned lie
inside the arena, each one ending before the next one starts. -/
theorem C22_bootmem_bump_allocator (P : Platform) (base used size : Nat) (sizes : List Nat)
    (hused : used ≤ HASH_TRIGGER_BYTES)
    (hsize : base + HASH_TRIGGER_BYTES + size < 2 ^ P.BITS_PER_LONG)
    (hsizes : ∀ s ∈ sizes, base + HASH_TRIGGER_BYTES + s < 2 ^ P.BITS_PER_LONG) :
    HASH_TRIGGER_BYTES = 5242880 ∧
    (used + size > 5242880 →
      hash_data_bootmem_alloc P base (base + used) size = (none, base + used)) ∧
    (used + size ≤ 5242880 →
      hash_data_bootmem_alloc P base (base + used) size
        = (some (base + used), base + used + size)) ∧
    (hash_data_bootmem_alloc_seq P base (base + used) sizes).2 ≤ base + 5242880 ∧
    base + used ≤ (hash_data_bootmem_alloc_seq P base (base + used) sizes).2 ∧
    (∀ span ∈ (hash_data_bootmem_alloc_seq P base (base + used) sizes).1,
      base + used ≤ span.1 ∧ span.1 + span.2 ≤ base + 5242880) ∧
    (hash_data_bootmem_alloc_seq P base (base + used) sizes).1.Pairwise
      (fun s t => s.1 + s.2 ≤ t.1) := by
  have hB : HASH_TRIGGER_BYTES = 5242880 := by decide
  have hcall := bootmem_alloc_call P base used size hused hsize
  obtain ⟨used1, hle, hcap, hwm, hin, hpair⟩ := bootmem_alloc_seq_spec P base sizes used hused hsizes
  rw [hB] at hcall hcap
  refine ⟨hB, ?_, ?_, by rw [hwm]; omega, by rw [hwm]; omega, ?_, hpair⟩
  · intro h; rw [hcall, if_pos h]
  · intro h; rw [hcall, if_neg (by omega), Nat.add_assoc]
  · intro span hspan
    have := hin span hspan
    omega

/-- Witness of C22: from the empty arena, requests of 4 MiB, 2 MiB and 1 MiB
yield the span at offset 0, a refusal, and the span at offset 4 MiB, which
ends at the end of the arena. -/
theorem C22_witness :
    hash_data_bootmem_alloc_seq x86_64 scenario_arena_base (scenario_arena_base + 0)
        [4194304, 2097152, 1048576]
      = ([(scenario_arena_base, 4194304), (scenario_arena_base + 4194304, 1048576)],
         scenario_arena_base + 5242880) ∧
    hash_data_bootmem_alloc x86_64 scenario_arena_base (scenario_arena_base + 4194304) 2097152
      = (none, scenario_arena_base + 4194304) ∧
    (hash_data_bootmem_alloc_seq x86_64 scenario_arena_base (scenario_arena_base + 0)
        [4194304, 2097152, 1048576]).2 ≤ scenario_arena_base + 5242880 := by
  have h := C22_bootmem_bump_allocator x86_64 scenario_arena_base 4194304 2097152
    [4194304, 2097152, 1048576] (by decide) (by decide) (by decide)
  have h0 := C22_bootmem_bump_allocator x86_64 scenario_arena_base 0 2097152
    [4194304, 2097152, 1048576] (by decide) (by decide) (by decide)
  exact ⟨by decide, h.2.1 (by decide), h0.2.2.2.1⟩

theorem to_bytes_le_eq_iff : ∀ (size a b : Nat),
    to_bytes_le a size = to_bytes_le b size ↔ a % 256 ^ size = b % 256 ^ size := by
  intro size
  induction size with
  | zero => intro a b; simp [to_bytes_le, Nat.mod_one]
  | succ n ih =>
    intro a b
    simp only [to_bytes_le, List.cons.injEq, ih, pow_succ]
    rw [Nat.mul_comm (256 ^ n) 256, Nat.mod_mul, Nat.mod_mul]
    constructor
    · rintro ⟨h1, h2⟩; rw [h1, h2]
    · intro h
      have ha : a % 256 < 256 := Nat.mod_lt _ (by norm_num)
      have hb : b % 256 < 256 := Nat.mod_lt _ (by norm_num)
      constructor <;> omega

theorem stack_bytes_succ (P : Platform) (st : stack_trace) (n : Nat) :
    stack_bytes P st (n + 1)
      = stack_bytes P st n ++ to_bytes_le (st.entries.getD n 0) (P.BITS_PER_LONG / 8) := by
  simp [stack_bytes, List.range_succ]

theorem stack_bytes_eq_iff (P : Platform) (a b : stack_trace) :
    ∀ n, stack_bytes P a n = stack_bytes P b n ↔ frames_agree P a b n := by
  intro n
  induction n with
  | zero => simp [stack_bytes, frames_agree]
  | succ n ih =>
    rw [stack_bytes_succ, stack_bytes_succ]
    have hlen : (stack_bytes P a n).length = (stack_bytes P b n).length := by
      rw [stack_bytes_length, stack_bytes_length]
    constructor
    · intro h
      obtain ⟨h1, h2⟩ := List.append_inj h hlen
      have hn := ih.mp h1
      intro i hi
      rcases Nat.lt_succ_iff_lt_or_eq.mp hi with h3 | h3
      · exact hn i h3
      · rw [h3]; exact (to_bytes_le_eq_iff _ _ _).mp h2
    · intro h
      have h1 := ih.mpr (fun i hi => h i (by omega))
      have h2 := (to_bytes_le_eq_iff (P.BITS_PER_LONG / 8) _ _).mpr (h n (by omega))
      rw [h1, h2]

/-- C24: `match_stacktraces` returns true exactly when the stored trace and
the incoming trace agree on the first `stacktrace->nr_entries` frames; the
frame count of the stored trace has no part in the result, so a stored
trace with more frames of which the incoming trace is a prefix matches, as
the stored frames 11, 22, 33 match the incoming frames 11, 22. -/
theorem C24_match_stacktraces_ignores_stored_length (P : Platform)
    (entry_stacktrace stacktrace : stack_trace) :
    (match_stacktraces P entry_stacktrace stacktrace = true
      ↔ frames_agree P entry_stacktrace stacktrace stacktrace.nr_entries) ∧
    (∀ n : Nat,
      match_stacktraces P { entry_stacktrace with nr_entries := n } stacktrace
        = match_stacktraces P entry_stacktrace stacktrace) ∧
    match_stacktraces x86_64
        { nr_entries := 3, max_entries := 16, entries := [11, 22, 33], skip := 3 }
        { nr_entries := 2, max_entries := 16, entries := [11, 22], skip := 3 } = true := by
  have hm : ∀ e : stack_trace, match_stacktraces P e stacktrace
      = (stack_bytes P e stacktrace.nr_entries == stack_bytes P stacktrace stacktrace.nr_entries) := by
    intro e
    unfold match_stacktraces
    rw [if_neg (by simp)]
  refine ⟨?_, ?_, by decide⟩
  · rw [hm, beq_iff_eq, stack_bytes_eq_iff]
  · intro n
    rw [hm, hm]
    rfl

/-! ## Removal of a trigger and the range of bucket indices -/

theorem find_type_none (triggers : List event_trigger_data) (t : Nat)
    (h : t ∉ trigger_types triggers) :
    triggers.find? (fun data => data.cmd_ops.trigger_type == t) = none := by
  rw [List.find?_eq_none]
  intro d hd hc
  simp only [beq_iff_eq] at hc
  exact h (List.mem_map.mpr ⟨d, hd, hc⟩)

theorem enable_disable_tm_ref (ted : Nat → Int → Int → Int × Nat) (file : ftrace_event_file)
    (b : Bool) :
    (trace_event_trigger_enable_disable ted file b).2.triggers = file.triggers ∧
    (trace_event_trigger_enable_disable ted file b).2.tm_ref
      = if b then file.tm_ref + 1 else file.tm_ref - 1 := by
  unfold trace_event_trigger_enable_disable
  cases b
  · simp only [Bool.false_eq_true, if_false]
    split <;> exact ⟨rfl, rfl⟩
  · simp only [if_true]
    split <;> exact ⟨rfl, rfl⟩

/-- What a registration that adds the trigger leaves: the trigger in front
of the list and `tm_ref` one higher. -/
theorem register_trigger_added (ted : Nat → Int → Int → Int × Nat) (data : event_trigger_data)
    (file : ftrace_event_file)
    (hnew : data.cmd_ops.trigger_type ∉ trigger_types file.triggers)
    (hinit : 0 ≤ (register_trigger_init data).1)
    (hen : 0 ≤ (trace_event_trigger_enable_disable ted
        { file with
          triggers := { data with state := (register_trigger_init data).2 } :: file.triggers }
        true).1) :
    (register_trigger ted data file).1 = (register_trigger_init data).1 + 1 ∧
    (register_trigger ted data file).2.2.triggers
      = { data with state := (register_trigger_init data).2 } :: file.triggers ∧
    (register_trigger ted data file).2.2.tm_ref = file.tm_ref + 1 := by
  have hany : ¬ file.triggers.any
      (fun test => test.cmd_ops.trigger_type == data.cmd_ops.trigger_type) = true := by
    rw [any_type_iff]; exact hnew
  have hed := enable_disable_tm_ref ted
    { file with
      triggers := { data with state := (register_trigger_init data).2 } :: file.triggers } true
  unfold register_trigger
  rw [if_neg hany]
  simp only
  rw [if_neg (by omega), if_neg (by omega)]
  simp only [update_cond_flag]
  exact ⟨trivial, hed.1, by simpa using hed.2⟩

theorem eraseP_head (d : event_trigger_data) (l : List event_trigger_data) (t : Nat)
    (h : d.cmd_ops.trigger_type = t) :
    (d :: l).eraseP (fun data => data.cmd_ops.trigger_type == t) = l ∧
    (d :: l).find? (fun data => data.cmd_ops.trigger_type == t) = some d := by
  simp [List.eraseP_cons, List.find?_cons, h]

/-- C30: when `register_trigger` adds a trigger (no trigger of its command
type on the list, `init` absent or not failing, trigger mode enabled
without error), `unregister_trigger` with a test trigger of the same command
type takes exactly that trigger off again and leaves the trigger list and
`tm_ref` as they were before the registration; on a list without a trigger
of the command type of the test trigger it changes nothing. -/
theorem C30_register_unregister_round_trip (ted : Nat → Int → Int → Int × Nat)
    (data test : event_trigger_data) (file : ftrace_event_file) :
    (data.cmd_ops.trigger_type ∉ trigger_types file.triggers →
      0 ≤ (register_trigger_init data).1 →
      0 ≤ (trace_event_trigger_enable_disable ted
        { file with
          triggers := { data with state := (register_trigger_init data).2 } :: file.triggers }
        true).1 →
      test.cmd_ops.trigger_type = data.cmd_ops.trigger_type →
      (register_trigger ted data file).2.2.triggers
        = { data with state := (register_trigger_init data).2 } :: file.triggers ∧
      (unregister_trigger ted test (register_trigger ted data file).2.2).1.triggers
        = file.triggers ∧
      (unregister_trigger ted test (register_trigger ted data file).2.2).1.tm_ref
        = file.tm_ref ∧
      (unregister_trigger ted test (register_trigger ted data file).2.2).2
        = some (trigger_free_call { data with state := (register_trigger_init data).2 })) ∧
    (test.cmd_ops.trigger_type ∉ trigger_types file.triggers →
      unregister_trigger ted test file = (file, none)) := by
  constructor
  · intro hnew hinit hen htest
    obtain ⟨_, hlist, href⟩ := register_trigger_added ted data file hnew hinit hen
    obtain ⟨herase, hfind⟩ := eraseP_head { data with state := (register_trigger_init data).2 }
      file.triggers test.cmd_ops.trigger_type htest.symm
    have hed := fun f => enable_disable_tm_ref ted f false
    refine ⟨hlist, ?_, ?_, ?_⟩
    · unfold unregister_trigger
      rw [hlist, hfind]
      simp only [(hed _).1, update_cond_flag, herase]
    · unfold unregister_trigger
      rw [hlist, hfind]
      simp only [(hed _).2, update_cond_flag, href, Bool.false_eq_true, if_false]
      omega
    · unfold unregister_trigger
      rw [hlist, hfind]
  · intro hnone
    unfold unregister_trigger
    rw [find_type_none file.triggers _ hnone]

/-- Witness of C30: a `hash` trigger registered on a file that holds a
`stacktrace` trigger and unregistered again. -/
theorem C30_witness :
    trigger_types
        (register_trigger ted_ok (new_trigger trigger_hash_cmd)
          { empty_event_file with
            triggers := [new_trigger trigger_stacktrace_cmd], tm_ref := 1 }).2.2.triggers
      = [16, 4] ∧
    trigger_types
        (unregister_trigger ted_ok (new_trigger trigger_hash_cmd)
          (register_trigger ted_ok (new_trigger trigger_hash_cmd)
            { empty_event_file with
              triggers := [new_trigger trigger_stacktrace_cmd], tm_ref := 1 }).2.2).1.triggers
      = [4] ∧
    (unregister_trigger ted_ok (new_trigger trigger_hash_cmd)
        (register_trigger ted_ok (new_trigger trigger_hash_cmd)
          { empty_event_file with
            triggers := [new_trigger trigger_stacktrace_cmd], tm_ref := 1 }).2.2).1.tm_ref
      = 1 := by
  have h := (C30_register_unregister_round_trip ted_ok (new_trigger trigger_hash_cmd)
    (new_trigger trigger_hash_cmd)
    { empty_event_file with
      triggers := [new_trigger trigger_stacktrace_cmd], tm_ref := 1 }).1
    (by decide) (by decide) (by decide) rfl
  refine ⟨by decide, ?_, h.2.2.1⟩
  rw [h.2.1]
  decide

/-- Whatever `hash_key` returns is below `2 ^ hashtab_bits` when the two
integer hashes are. -/
theorem hash_key_lt (P : Platform) (T : hash_trigger_data) (rec : trace_record)
    (st : stack_trace) (hr : hash_in_range P T.hashtab_bits) (idx : Nat)
    (h : hash_key P T rec st = some idx) : idx < 2 ^ T.hashtab_bits := by
  simp only [hash_key, Option.bind_eq_bind, Option.bind_eq_some] at h
  obtain ⟨hf, _, h⟩ := h
  split at h
  · simp only [Option.some.injEq, hash_stacktrace] at h
    rw [← h]; exact hash_fnv_1a_lt _ _
  · split at h
    · simp only [hash_string, Option.bind_eq_bind, Option.bind_eq_some,
        Option.some.injEq] at h
      obtain ⟨_, _, _, _, h⟩ := h
      rw [← h]; exact hash_fnv_1a_lt _ _
    · split at h
      · simp only [hash_compound_key, Option.bind_eq_bind] at h
        split at h
        · simp at h
        · simp only [Option.pure_def, Option.bind_eq_bind, Option.bind_eq_some,
            Option.some.injEq] at h
          obtain ⟨_, _, _, _, h⟩ := h
          rw [← h]; exact hash_fnv_1a_lt _ _
      · simp only [Option.bind_eq_some] at h
        obtain ⟨v, _, f, _, h⟩ := h
        split at h
        · simp only [Option.some.injEq] at h
          rw [← h]; exact hr.1 _
        · simp only [Option.some.injEq] at h
          rw [← h]; exact hr.2 _
        · simp only [Option.some.injEq] at h
          rw [← h]; positivity

/-- C27: on a table with `1 <= hashtab_bits <= 32`, for integer hashes
`hash_64` and `hash_32` that stay below `2 ^ bits` for such `bits`, every
bucket index that `hash_key` returns is below `2 ^ hashtab_bits` and
designates a bucket of a bucket array of that length; `hash_key` returns an
index for a stack trace key, for a string key and for one to eight scalar
key fields of any width. -/
theorem C27_hash_key_below_bucket_count (P : Platform) (T : hash_trigger_data)
    (rec : trace_record) (st : stack_trace)
    (hbits1 : 1 ≤ T.hashtab_bits) (hbits : T.hashtab_bits ≤ 32)
    (hhash : ∀ bits, 1 ≤ bits → bits ≤ 32 → hash_in_range P bits) :
    (∀ idx, hash_key P T rec st = some idx →
      idx < 2 ^ T.hashtab_bits ∧
      (T.hashtab.length = 2 ^ T.hashtab_bits → ∃ chain, T.hashtab[idx]? = some chain)) ∧
    (∀ hf, key_field T 0 = some hf → has_flag hf.flags HASH_FIELD_STACKTRACE = true →
      ∃ idx, hash_key P T rec st = some idx) ∧
    (∀ hf f, key_field T 0 = some hf → has_flag hf.flags HASH_FIELD_STACKTRACE = false →
      has_flag hf.flags HASH_FIELD_STRING = true → hf.field = some f →
      hf.fn = some .hash_field_string →
      ∃ idx, hash_key P T rec st = some idx) ∧
    (scalar_keys T = true → ∃ idx, hash_key P T rec st = some idx) := by
  have hr := hhash T.hashtab_bits hbits1 hbits
  refine ⟨?_, ?_, ?_, ?_⟩
  · intro idx h
    have hlt := hash_key_lt P T rec st hr idx h
    refine ⟨hlt, fun hlen => ?_⟩
    exact ⟨T.hashtab[idx], List.getElem?_eq_getElem (by rw [hlen]; exact hlt)⟩
  · intro hf h0 hst
    exact ⟨hash_stacktrace P st T.hashtab_bits, by simp [hash_key, h0, hst]⟩
  · intro hf f h0 hst hstr hfld hfn
    exact ⟨hash_fnv_1a (rec_span rec f.offset f.size) T.hashtab_bits, by
      simp [hash_key, h0, hst, hstr, hash_string, hfld, hash_field_call, hfn,
        hash_field_fn_apply]⟩
  · intro hs
    exact ⟨_, hash_key_scalar P T rec st hs⟩

/-- Witness of C27: the bucket of a record of scenario E lies below 2048. -/
theorem C27_witness :
    hash_key x86_64 scenario_E_table (scenario_E_event [1, 0, 0, 0, 0]).record zero_stack_trace
      = some 2043 ∧
    2043 < 2 ^ scenario_E_table.hashtab_bits := by
  have h := (C27_hash_key_below_bucket_count x86_64 scenario_E_table
    (scenario_E_event [1, 0, 0, 0, 0]).record zero_stack_trace (by decide) (by decide)
    (fun bits _ _ => x86_64_hash_in_range bits)).1 2043 (by decide)
  exact ⟨by decide, h.1⟩

/-! ## The secondary sort -/

theorem map_const_of_forall (pv : Nat → Nat) (c : Nat) (l : List Nat)
    (h : ∀ x ∈ l, pv x = c) : l.map pv = List.replicate l.length c := by
  induction l with
  | nil => rfl
  | cons x xs ih =>
    simp only [List.map_cons, List.length_cons, List.replicate_succ]
    rw [h x (List.mem_cons_self _ _), ih (fun y hy => h y (List.mem_cons_of_mem _ hy))]

/-- Replacing a run of the array whose elements share one primary value by a
rearrangement of the run. -/
theorem seg_replace (pv : Nat → Nat) (l s : List Nat) (start k c : Nat)
    (hk : start + k ≤ l.length)
    (hperm : s.Perm ((l.drop start).take k))
    (hall : ∀ x ∈ (l.drop start).take k, pv x = c) :
    (l.take start ++ s ++ l.drop (start + k)).Perm l ∧
    (l.take start ++ s ++ l.drop (start + k)).map pv = l.map pv ∧
    (l.take start ++ s ++ l.drop (start + k)).length = l.length ∧
    (l.take start ++ s ++ l.drop (start + k)).drop (start + k) = l.drop (start + k) := by
  have hsplit : l = l.take start ++ ((l.drop start).take k ++ l.drop (start + k)) := by
    have h1 : (l.drop start).take k ++ (l.drop start).drop k = l.drop start :=
      List.take_append_drop k _
    have h2 : (l.drop start).drop k = l.drop (start + k) := by
      rw [List.drop_drop, Nat.add_comm]
    rw [← h2, h1, List.take_append_drop]
  have hslen : s.length = k := by
    rw [hperm.length_eq, List.length_take, List.length_drop]
    omega
  have hp : (l.take start ++ s ++ l.drop (start + k)).Perm l := by
    conv_rhs => rw [hsplit]
    rw [List.append_assoc]
    exact List.Perm.append_left _ (List.Perm.append_right _ hperm)
  have hmap : s.map pv = ((l.drop start).take k).map pv := by
    rw [map_const_of_forall pv c s (fun x hx => hall x (hperm.mem_iff.mp hx)),
      map_const_of_forall pv c _ hall, hperm.length_eq]
  refine ⟨hp, ?_, hp.length_eq, ?_⟩
  · conv_rhs => rw [hsplit]
    simp only [List.map_append, hmap, List.append_assoc]
  · have hlen : (l.take start ++ s).length = start + k := by
      rw [List.length_append, List.length_take, hslen]
      omega
    rw [List.drop_append_of_le_length (by omega), ← hlen, List.drop_length, List.nil_append]

/-- The loop of `sort_secondary`, entered at index `i` with the run
`[start, i)` of `n_subelts` elements that share the primary value `cur_val`:
it reads and sorts inside the array only and leaves a rearrangement with the
same primary value at every position. -/
theorem sort_secondary_loop_spec (sort_fn : (Nat → Nat → Int) → List Nat → List Nat)
    (hd : hash_trigger_data) (primary secondary : hash_trigger_sort_key) (n : Nat)
    (hperm : ∀ l, (sort_fn (sort_entries hd secondary) l).Perm l) :
    ∀ (m i : Nat) (entries : List Nat) (start k cur : Nat),
      i + m = n → entries.length = n → start + k = i → 1 ≤ k →
      (∀ x ∈ (entries.drop start).take k, sort_key_value primary (entry_at hd x) = cur) →
      ∃ out, sort_secondary_loop sort_fn hd primary secondary n (List.range' i m)
          (entries, start, k, cur) = some out ∧
        out.Perm entries ∧
        out.map (fun x => sort_key_value primary (entry_at hd x))
          = entries.map (fun x => sort_key_value primary (entry_at hd x)) := by
  intro m
  induction m with
  | zero =>
    intro i entries start k cur _ _ _ _ _
    exact ⟨entries, rfl, List.Perm.refl _, rfl⟩
  | succ m ih =>
    intro i entries start k cur him hlen hsk hk hall
    subst hsk
    have hi : start + k < entries.length := by omega
    have he : entries[start + k]? = some entries[start + k] := List.getElem?_eq_getElem hi
    have hdrop : (entries.drop (start + k)).take 1 = [entries[start + k]] := by
      rw [List.drop_eq_getElem_cons hi]
      rfl
    rw [List.range'_succ]
    simp only [sort_secondary_loop, he]
    split
    · -- the run ends here
      have hnot : ¬ (1 < k ∧ n < start + k) := by omega
      rw [if_neg hnot]
      by_cases hk1 : 1 < k
      · rw [if_pos hk1]
        obtain ⟨hp, hmap, hl, hdr⟩ := seg_replace
          (fun x => sort_key_value primary (entry_at hd x)) entries
          (sort_fn (sort_entries hd secondary) ((entries.drop start).take k)) start k cur
          (by omega) (hperm _) hall
        obtain ⟨out, hout, hop, hom⟩ := ih (start + k + 1) _ (start + k) 1
          (sort_key_value primary (entry_at hd entries[start + k]))
          (by omega) (by rw [hl]; exact hlen) rfl (le_refl 1)
          (by
            intro x hx
            rw [hdr, hdrop] at hx
            rw [List.mem_singleton.mp hx])
        exact ⟨out, hout, hop.trans hp, hom.trans hmap⟩
      · rw [if_neg hk1]
        obtain ⟨out, hout, hop, hom⟩ := ih (start + k + 1) entries (start + k) 1
          (sort_key_value primary (entry_at hd entries[start + k]))
          (by omega) hlen rfl (le_refl 1)
          (by
            intro x hx
            rw [hdrop] at hx
            rw [List.mem_singleton.mp hx])
        exact ⟨out, hout, hop, hom⟩
    · -- the run goes on
      rename_i hcont
      simp only [Bool.or_eq_true, decide_eq_true_eq, not_or, ne_eq, not_not] at hcont
      obtain ⟨out, hout, hop, hom⟩ := ih (start + k + 1) entries start (k + 1)
        (sort_key_value primary (entry_at hd entries[start + k]))
        (by omega) hlen (by omega) (by omega)
        (by
          intro x hx
          rw [List.take_succ, List.mem_append] at hx
          rcases hx with hx | hx
          · rw [hall x hx, hcont.1]
          · have hget : (entries.drop start)[k]? = some entries[start + k] := by
              rw [List.getElem?_drop, he]
            rw [hget] at hx
            simp only [Option.toList_some, List.mem_singleton] at hx
            rw [hx])
      exact ⟨out, hout, hop, hom⟩

/-- On an array that is not empty `sort_secondary` returns, with a
rearrangement of the array that has the same primary value at every
position. -/
theorem sort_secondary_spec (sort_fn : (Nat → Nat → Int) → List Nat → List Nat)
    (hsort : is_sort_routine sort_fn) (hd : hash_trigger_data) (entries : List Nat)
    (primary secondary : hash_trigger_sort_key)
    (h0 : hd.sort_keys.getD 0 none = some primary)
    (h1 : hd.sort_keys.getD 1 none = some secondary) (hne : entries ≠ []) :
    ∃ out, sort_secondary sort_fn hd entries entries.length
        = some ({ hd with sort_key_cur := some secondary }, out) ∧
      out.Perm entries ∧
      out.map (primary_value hd primary) = entries.map (primary_value hd primary) := by
  obtain ⟨hd1, hhd1⟩ : ∃ hd1 : hash_trigger_data,
      hd1 = { hd with sort_key_cur := some secondary } := ⟨_, rfl⟩
  have hat : ∀ x, entry_at hd1 x = entry_at hd x := by intro x; subst hhd1; rfl
  have hpos : 0 < entries.length := List.length_pos.mpr hne
  have he : entries[0]? = some entries[0] := List.getElem?_eq_getElem hpos
  have hperm : ∀ l, (sort_fn (sort_entries hd1 secondary) l).Perm l := fun l =>
    (hsort _ l (sort_entries_total hd1 secondary) (sort_entries_trans hd1 secondary)).1
  obtain ⟨out, hout, hop, hom⟩ := sort_secondary_loop_spec sort_fn hd1 primary secondary
    entries.length hperm (entries.length - 1) 1 entries 0 1
    (sort_key_value primary (entry_at hd entries[0])) (by omega) rfl rfl (le_refl 1)
    (by
      intro x hx
      rw [List.drop_zero, List.take_one, List.head?_eq_getElem?, he] at hx
      simp only [Option.toList_some, List.mem_singleton] at hx
      rw [hx, hat])
  refine ⟨out, ?_, hop, ?_⟩
  · unfold sort_secondary
    simp only [h0, h1, he, ← hhd1, hout]
  · unfold primary_value
    simp only [hat] at hom
    exact hom

theorem sorted_of_map_eq (hd : hash_trigger_data) (primary : hash_trigger_sort_key)
    (l1 l2 : List Nat)
    (hmap : l1.map (primary_value hd primary) = l2.map (primary_value hd primary))
    (h : l2.Pairwise (fun a b => sort_entries hd primary a b ≤ 0)) :
    l1.Pairwise (fun a b => sort_entries hd primary a b ≤ 0) := by
  have key : ∀ l : List Nat, l.Pairwise (fun a b => sort_entries hd primary a b ≤ 0) ↔
      (l.map (primary_value hd primary)).Pairwise
        (fun u v => if primary.descending then v ≤ u else u ≤ v) := by
    intro l
    rw [List.pairwise_map]
    exact ⟨fun hp => hp.imp (fun {a b} hab => (sort_entries_le hd primary a b).mp hab),
      fun hp => hp.imp (fun {a b} hab => (sort_entries_le hd primary a b).mpr hab)⟩
  rw [key, hmap, ← key]
  exact h

/-- C23: on an array that is not empty `sort_secondary` returns a
rearrangement of the array in which the primary value at every position is
the one that was there before, so an array sorted on the primary key stays
sorted on it, and an entry whose primary value no other entry of the array
has stays at its position. -/
theorem C23_sort_secondary_stays_within_runs
    (sort_fn : (Nat → Nat → Int) → List Nat → List Nat)
    (hsort : is_sort_routine sort_fn) (hd : hash_trigger_data) (entries : List Nat)
    (primary secondary : hash_trigger_sort_key)
    (h0 : hd.sort_keys.getD 0 none = some primary)
    (h1 : hd.sort_keys.getD 1 none = some secondary) (hne : entries ≠ []) :
    ∃ out, sort_secondary sort_fn hd entries entries.length
        = some ({ hd with sort_key_cur := some secondary }, out) ∧
      out.Perm entries ∧
      (∀ i : Nat, (out[i]?).map (primary_value hd primary)
        = (entries[i]?).map (primary_value hd primary)) ∧
      (entries.Pairwise (fun a b => sort_entries hd primary a b ≤ 0) →
        out.Pairwise (fun a b => sort_entries hd primary a b ≤ 0)) ∧
      (∀ (i : Nat) (e : Nat), entries[i]? = some e →
        (∀ (j : Nat) (e2 : Nat), entries[j]? = some e2 →
          primary_value hd primary e2 = primary_value hd primary e → j = i) →
        out[i]? = some e) := by
  obtain ⟨out, hout, hperm, hmap⟩ :=
    sort_secondary_spec sort_fn hsort hd entries primary secondary h0 h1 hne
  have hpos : ∀ i : Nat, (out[i]?).map (primary_value hd primary)
      = (entries[i]?).map (primary_value hd primary) := by
    intro i
    rw [← List.getElem?_map, ← List.getElem?_map, hmap]
  refine ⟨out, hout, hperm, hpos, sorted_of_map_eq hd primary out entries hmap, ?_⟩
  intro i e hie huniq
  have hi := hpos i
  rw [hie] at hi
  cases ho : out[i]? with
  | none => rw [ho] at hi; simp at hi
  | some e2 =>
    rw [ho] at hi
    simp only [Option.map_some', Option.some.injEq] at hi
    have hmem : e2 ∈ entries := hperm.mem_iff.mp (List.mem_iff_getElem?.mpr ⟨i, ho⟩)
    obtain ⟨j, hj⟩ := List.mem_iff_getElem?.mp hmem
    have hji := huniq j e2 hj hi
    rw [hji, hie] at hj
    rw [hj]

/-- Witness of C23: the two entries of scenario D, which tie on the hit
count. -/
theorem C23_witness :
    ∃ out, sort_secondary insertion_sort scenario_D_table [0, 1] [0, 1].length
        = some ({ scenario_D_table with sort_key_cur := some scenario_D_secondary }, out) ∧
      out.Perm [0, 1] ∧
      (∀ i : Nat, (out[i]?).map (primary_value scenario_D_table scenario_D_primary)
        = (([0, 1] : List Nat)[i]?).map (primary_value scenario_D_table scenario_D_primary)) ∧
      (([0, 1] : List Nat).Pairwise
          (fun a b => sort_entries scenario_D_table scenario_D_primary a b ≤ 0) →
        out.Pairwise (fun a b => sort_entries scenario_D_table scenario_D_primary a b ≤ 0)) ∧
      (∀ (i : Nat) (e : Nat), ([0, 1] : List Nat)[i]? = some e →
        (∀ (j : Nat) (e2 : Nat), ([0, 1] : List Nat)[j]? = some e2 →
          primary_value scenario_D_table scenario_D_primary e2
            = primary_value scenario_D_table scenario_D_primary e → j = i) →
        out[i]? = some e) :=
  C23_sort_secondary_stays_within_runs insertion_sort insertion_sort_is_sort_routine
    scenario_D_table [0, 1] scenario_D_primary scenario_D_secondary
    (by decide) (by decide) (by decide)

/-- A freshly created table links no entry: the collection loop of the report
path gathers nothing. -/
theorem collect_entries_fresh (bits : Nat) (keys vals : List Char)
    (sort_keys : Option (List Char)) (file : List ftrace_event_field) (a : List Bool)
    (ret0 : Int) (T : hash_trigger_data) (ret : Int) (a1 : List Bool)
    (hcreate : create_hash_data bits keys vals sort_keys file a ret0 = some (some T, ret, a1)) :
    collect_entries T = [] ∧ T.total_entries = 0 ∧
    T.hashtab.length = (1 <<< T.hashtab_bits) % 2 ^ 32 := by
  obtain ⟨hH, hB, _, _, _, _, _, hTE⟩ :=
    create_hash_data_fresh bits keys vals sort_keys file a ret0 T ret a1 hcreate
  refine ⟨?_, hTE, by rw [hH, hB, List.length_replicate]⟩
  unfold collect_entries
  rw [List.flatten_eq_nil_iff]
  intro l hl
  rw [List.mem_map] at hl
  obtain ⟨i, _, hi⟩ := hl
  rw [← hi, hH, List.getD_eq_getElem?_getD, List.getElem?_replicate]
  split <;> rfl

/-- C29: for an array of `n` elements as `print_entries_sorted` passes it,
`sort_secondary` stays inside the array (every read and every sub-array it
hands to `sort`) exactly when `n` is not 0; on the empty array it reads
`entries[0]`. A freshly created table with two sort keys links no entry, and
its report path runs into that read. -/
theorem C29_sort_secondary_reads_slot_zero_of_empty_array
    (sort_fn : (Nat → Nat → Int) → List Nat → List Nat)
    (hsort : is_sort_routine sort_fn) (hd : hash_trigger_data) (entries : List Nat)
    (primary secondary : hash_trigger_sort_key)
    (h0 : hd.sort_keys.getD 0 none = some primary)
    (h1 : hd.sort_keys.getD 1 none = some secondary) :
    ((sort_secondary sort_fn hd entries entries.length).isSome = true ↔ entries ≠ []) ∧
    sort_secondary sort_fn hd [] 0 = none ∧
    (∀ (bits : Nat) (keys vals : List Char) (sort_keys : Option (List Char))
        (file : List ftrace_event_field) (a : List Bool) (ret0 ret : Int) (a1 : List Bool),
      create_hash_data bits keys vals sort_keys file a ret0 = some (some hd, ret, a1) →
      collect_entries hd = [] ∧ hd.total_entries = 0 ∧
      print_entries_sorted sort_fn true hd = none) := by
  have hnil : ∀ T : hash_trigger_data, T.sort_keys = hd.sort_keys →
      sort_secondary sort_fn T [] 0 = none := by
    intro T hT
    unfold sort_secondary
    simp only [hT, h0, h1, List.getElem?_nil]
  refine ⟨?_, hnil hd rfl, ?_⟩
  · constructor
    · intro h hn
      rw [hn] at h
      rw [List.length_nil, hnil hd rfl] at h
      simp at h
    · intro hne
      obtain ⟨out, hout, _, _⟩ :=
        sort_secondary_spec sort_fn hsort hd entries primary secondary h0 h1 hne
      rw [hout]
      rfl
  · intro bits keys vals sort_keys file a ret0 ret a1 hcreate
    obtain ⟨hc, hte, hlen⟩ :=
      collect_entries_fresh bits keys vals sort_keys file a ret0 hd ret a1 hcreate
    refine ⟨hc, hte, ?_⟩
    have hs : ∀ T : hash_trigger_data, sort_fn (sort_entries T primary) [] = [] := by
      intro T
      exact List.perm_nil.mp
        (hsort _ [] (sort_entries_total T primary) (sort_entries_trans T primary)).1
    unfold print_entries_sorted
    simp only [Bool.not_true, Bool.false_eq_true, if_false, hlen, lt_irrefl, hc,
      List.length_nil, Nat.not_lt_zero, h0, h1, hs]
    rw [hnil { hd with sort_key_cur := some primary } rfl]

/-- The call of `create_hash_data` for the command
`hash:pid:bytes_alloc:sort=hitcount,bytes_alloc.ascending` returns the table
`scenario_empty_table` with code 0. -/
theorem scenario_empty_table_created :
    create_hash_data HASH_TRIGGER_BITS "pid".toList "bytes_alloc".toList
      (some "sort=hitcount,bytes_alloc.ascending".toList) scenario_fields [] 0
      = some (some scenario_empty_table, 0, []) := by
  have h : (create_hash_data HASH_TRIGGER_BITS "pid".toList "bytes_alloc".toList
      (some "sort=hitcount,bytes_alloc.ascending".toList) scenario_fields [] 0).map
      (fun r => (r.1.isSome, r.2)) = some (true, 0, []) := by decide!
  unfold scenario_empty_table
  generalize create_hash_data HASH_TRIGGER_BITS "pid".toList "bytes_alloc".toList
      (some "sort=hitcount,bytes_alloc.ascending".toList) scenario_fields [] 0 = r at h ⊢
  rcases r with _ | ⟨_ | T, ret, a⟩
  · simp at h
  · simp at h
  · simp only [Option.map_some', Option.isSome_some, Option.some.injEq, Prod.mk.injEq,
      true_and] at h
    obtain ⟨h1, h2⟩ := h
    subst h1 h2
    rfl

/-- Witness of C29: the table of the command
`hash:pid:bytes_alloc:sort=hitcount,bytes_alloc.ascending` before its first
event. -/
theorem C29_witness :
    ((sort_secondary insertion_sort scenario_empty_table [] ([] : List Nat).length).isSome = true
      ↔ ([] : List Nat) ≠ []) ∧
    sort_secondary insertion_sort scenario_empty_table [] 0 = none ∧
    (collect_entries scenario_empty_table = [] ∧ scenario_empty_table.total_entries = 0 ∧
      print_entries_sorted insertion_sort true scenario_empty_table = none) :=
  ⟨(C29_sort_secondary_reads_slot_zero_of_empty_array insertion_sort
      insertion_sort_is_sort_routine scenario_empty_table [] scenario_D_primary
      scenario_D_secondary (by decide!) (by decide!)).1,
   (C29_sort_secondary_reads_slot_zero_of_empty_array insertion_sort
      insertion_sort_is_sort_routine scenario_empty_table [] scenario_D_primary
      scenario_D_secondary (by decide!) (by decide!)).2.1,
   (C29_sort_secondary_reads_slot_zero_of_empty_array insertion_sort
      insertion_sort_is_sort_routine scenario_empty_table [] scenario_D_primary
      scenario_D_secondary (by decide!) (by decide!)).2.2 HASH_TRIGGER_BITS "pid".toList
      "bytes_alloc".toList (some "sort=hitcount,bytes_alloc.ascending".toList)
      scenario_fields [] 0 0 [] scenario_empty_table_created⟩

/-! ## Density of the descriptor arrays -/

theorem stored_descriptors_set (l : List (Option hash_field)) :
    ∀ (i : Nat) (f : hash_field), i < l.length → l.getD i none = none →
      stored_descriptors (l.set i (some f)) = stored_descriptors l + 1 := by
  induction l with
  | nil => intro i f hi; simp at hi
  | cons x xs ih =>
    intro i f hi hnone
    cases i with
    | zero =>
      simp only [List.getD_cons_zero] at hnone
      subst hnone
      simp [stored_descriptors]
    | succ i =>
      simp only [List.getD_cons_succ] at hnone
      have h1 := ih i f (by simpa using hi) hnone
      simp only [stored_descriptors, List.set_cons_succ, List.countP_cons] at h1 ⊢
      omega

theorem stored_descriptors_le (l : List (Option hash_field)) :
    stored_descriptors l ≤ l.length := List.countP_le_length _

theorem create_key_field_fields (hd : hash_trigger_data) (key : Nat)
    (file : List ftrace_event_field) (s : List Char) (a : List Bool)
    (hd1 : hash_trigger_data) (a1 : List Bool)
    (h : create_key_field hd key file s a = some (0, hd1, a1)) :
    key < hd.keys.length ∧ (∃ f, hd1.keys = hd.keys.set key (some f)) ∧
    hd1.n_keys = (hd.n_keys + 1) % 2 ^ 32 ∧ hd1.vals = hd.vals ∧ hd1.n_vals = hd.n_vals := by
  unfold create_key_field at h
  split at h
  · simp at h
  · split at h
    · rename_i hret
      simp only [Option.some.injEq, Prod.mk.injEq] at h
      exact absurd h.1 hret
    · split at h
      · simp at h
      · rename_i hlen
        split at h
        · simp at h
        · rename_i hf a2 _
          simp only [Option.some.injEq, Prod.mk.injEq] at h
          obtain ⟨hr, hT, _⟩ := h
          cases hf with
          | none => simp [create_key_field_store, ENOMEM] at hr
          | some f =>
            subst hT
            exact ⟨by omega, ⟨f, rfl⟩, rfl, rfl, rfl⟩

theorem create_val_field_fields (hd : hash_trigger_data) (val : Nat)
    (file : List ftrace_event_field) (s : List Char) (a : List Bool)
    (hd1 : hash_trigger_data) (a1 : List Bool)
    (h : create_val_field hd val file s a = some (0, hd1, a1)) :
    hd1.keys = hd.keys ∧ hd1.n_keys = hd.n_keys ∧
    ((s = "hitcount".toList ∧ hd1.vals = hd.vals ∧ hd1.n_vals = hd.n_vals) ∨
     (s ≠ "hitcount".toList ∧ val < hd.vals.length ∧
      (∃ f, hd1.vals = hd.vals.set val (some f)) ∧
      hd1.n_vals = (hd.n_vals + 1) % 2 ^ 32)) := by
  unfold create_val_field at h
  split at h
  · rename_i hs
    simp only [Option.some.injEq, Prod.mk.injEq] at h
    obtain ⟨_, hT, _⟩ := h
    subst hT
    exact ⟨rfl, rfl, Or.inl ⟨by simpa using hs, rfl, rfl⟩⟩
  · rename_i hs
    split at h
    · simp at h
    · split at h
      · rename_i hret
        simp only [Option.some.injEq, Prod.mk.injEq] at h
        exact absurd h.1 hret
      · split at h
        · simp at h
        · rename_i hlen
          split at h
          · simp at h
          · rename_i hf a2 _
            simp only [Option.some.injEq, Prod.mk.injEq] at h
            obtain ⟨hr, hT, _⟩ := h
            cases hf with
            | none => simp [create_val_field_store, ENOMEM] at hr
            | some f =>
              subst hT
              exact ⟨rfl, rfl, Or.inr ⟨by simpa using hs, by omega, ⟨f, rfl⟩, rfl⟩⟩

/-- The key loop of `create_hash_fields`, entered at slot `i` with `n_keys = i`
and the slots below `i` filled: when it ends with code 0, the slots below
`n_keys` are filled. -/
theorem create_hash_fields_keys_dense (file : List ftrace_event_field) :
    ∀ (m i : Nat) (fs : Option (List Char)) (hd : hash_trigger_data) (a : List Bool)
      (hd1 : hash_trigger_data) (a1 : List Bool),
      hd.n_keys = i → hd.keys.length = COMPOUND_KEY_MAX → i + m ≤ COMPOUND_KEY_MAX →
      (∀ j, j < i → (hd.keys.getD j none).isSome = true) →
      create_hash_fields_keys file (List.range' i m) fs hd a = some (0, hd1, a1) →
      i ≤ hd1.n_keys ∧ hd1.n_keys ≤ COMPOUND_KEY_MAX ∧ (i = 0 → 0 < m → 1 ≤ hd1.n_keys) ∧
      (∀ j, j < hd1.n_keys → (hd1.keys.getD j none).isSome = true) ∧
      hd1.keys.length = COMPOUND_KEY_MAX ∧ hd1.vals = hd.vals ∧ hd1.n_vals = hd.n_vals := by
  intro m
  induction m with
  | zero =>
    intro i fs hd a hd1 a1 hn hlen him hdense h
    simp only [List.range'_zero, create_hash_fields_keys, Option.some.injEq, Prod.mk.injEq] at h
    obtain ⟨_, hT, _⟩ := h
    subst hT
    exact ⟨by omega, by omega, fun _ h0 => absurd h0 (lt_irrefl 0), by rw [hn]; exact hdense,
      hlen, rfl, rfl⟩
  | succ m ih =>
    intro i fs hd a hd1 a1 hn hlen him hdense h
    rw [List.range'_succ] at h
    unfold create_hash_fields_keys at h
    split at h
    · split at h
      · simp [EINVAL] at h
      · rename_i hi0
        simp only [Option.some.injEq, Prod.mk.injEq] at h
        obtain ⟨_, hT, _⟩ := h
        subst hT
        exact ⟨by omega, by omega, fun h0 => absurd h0 hi0, by rw [hn]; exact hdense,
          hlen, rfl, rfl⟩
    · split at h
      · simp at h
      · rename_i ret hd2 a2 hk
        split at h
        · rename_i hret
          simp only [Option.some.injEq, Prod.mk.injEq] at h
          exact absurd h.1 hret
        · rename_i hret
          have hret0 : ret = 0 := by
            by_contra hne
            exact hret hne
          subst hret0
          obtain ⟨hkl, ⟨f, hkeys⟩, hnk, hv, hnv⟩ :=
            create_key_field_fields hd i file _ a hd2 a2 hk
          have hi8 : i < 8 := by simp only [COMPOUND_KEY_MAX] at him; omega
          have hn2 : hd2.n_keys = i + 1 := by
            rw [hnk, hn]
            exact Nat.mod_eq_of_lt (by omega)
          have hlen2 : hd2.keys.length = COMPOUND_KEY_MAX := by
            rw [hkeys, List.length_set, hlen]
          have hdense2 : ∀ j, j < i + 1 → (hd2.keys.getD j none).isSome = true := by
            intro j hj
            rw [hkeys, List.getD_eq_getElem?_getD, List.getElem?_set]
            by_cases hji : i = j
            · subst hji
              simp [hkl]
            · rw [if_neg hji, ← List.getD_eq_getElem?_getD]
              exact hdense j (by omega)
          obtain ⟨h1, h2, _, h4, h5, h6, h7⟩ :=
            ih (i + 1) _ hd2 a2 hd1 a1 hn2 hlen2 (by omega) hdense2 h
          exact ⟨by omega, h2, fun _ _ => by omega, h4, h5, h6.trans hv, h7.trans hnv⟩

/-- The value loop of `create_hash_fields`, entered at slot `i` with the slots
from `i` on empty and `n_vals` the number of descriptors stored: when it ends
with code 0, `n_vals` is still the number of descriptors stored. -/
theorem create_hash_fields_vals_count (file : List ftrace_event_field) :
    ∀ (m i : Nat) (fs : Option (List Char)) (hd : hash_trigger_data) (a : List Bool)
      (hd1 : hash_trigger_data) (a1 : List Bool),
      hd.vals.length = HASH_VALS_MAX → i + m ≤ HASH_VALS_MAX →
      (∀ j, i ≤ j → hd.vals.getD j none = none) →
      hd.n_vals = stored_descriptors hd.vals →
      create_hash_fields_vals file (List.range' i m) fs hd a = some (0, hd1, a1) →
      hd1.n_vals = stored_descriptors hd1.vals ∧ hd1.vals.length = HASH_VALS_MAX ∧
      hd1.keys = hd.keys ∧ hd1.n_keys = hd.n_keys := by
  intro m
  induction m with
  | zero =>
    intro i fs hd a hd1 a1 hlen him hnone hcount h
    simp only [List.range'_zero, create_hash_fields_vals, Option.some.injEq, Prod.mk.injEq] at h
    obtain ⟨_, hT, _⟩ := h
    subst hT
    exact ⟨hcount, hlen, rfl, rfl⟩
  | succ m ih =>
    intro i fs hd a hd1 a1 hlen him hnone hcount h
    rw [List.range'_succ] at h
    unfold create_hash_fields_vals at h
    split at h
    · split at h
      · simp [EINVAL] at h
      · simp only [Option.some.injEq, Prod.mk.injEq] at h
        obtain ⟨_, hT, _⟩ := h
        subst hT
        exact ⟨hcount, hlen, rfl, rfl⟩
    · split at h
      · simp at h
      · rename_i ret hd2 a2 hk
        split at h
        · rename_i hret
          simp only [Option.some.injEq, Prod.mk.injEq] at h
          exact absurd h.1 hret
        · rename_i hret
          have hret0 : ret = 0 := by
            by_contra hne
            exact hret hne
          subst hret0
          obtain ⟨hkeys, hnk, hcase⟩ := create_val_field_fields hd i file _ a hd2 a2 hk
          rcases hcase with ⟨_, hv, hnv⟩ | ⟨_, hil, ⟨f, hv⟩, hnv⟩
          · obtain ⟨h1, h2, h3, h4⟩ := ih (i + 1) _ hd2 a2 hd1 a1 (by rw [hv]; exact hlen)
              (by omega) (by intro j hj; rw [hv]; exact hnone j (by omega))
              (by rw [hnv, hv]; exact hcount) h
            exact ⟨h1, h2, h3.trans hkeys, h4.trans hnk⟩
          · have hle := stored_descriptors_le hd.vals
            have h16 : hd.vals.length = 16 := hlen
            have hcount2 : hd2.n_vals = stored_descriptors hd2.vals := by
              rw [hnv, hv, stored_descriptors_set hd.vals i f hil (hnone i (le_refl i)), hcount]
              exact Nat.mod_eq_of_lt (by omega)
            obtain ⟨h1, h2, h3, h4⟩ := ih (i + 1) _ hd2 a2 hd1 a1
              (by rw [hv, List.length_set]; exact hlen) (by omega)
              (by
                intro j hj
                rw [hv, List.getD_eq_getElem?_getD, List.getElem?_set]
                have hji : ¬ i = j := by omega
                rw [if_neg hji, ← List.getD_eq_getElem?_getD]
                exact hnone j (by omega))
              hcount2 h
            exact ⟨h1, h2, h3.trans hkeys, h4.trans hnk⟩

/-- On a zeroed table `create_hash_fields` returning 0 leaves at least one
key, a descriptor in every key slot below `n_keys`, and `n_vals` equal to the
number of value descriptors stored. -/
theorem create_hash_fields_descriptors (hd : hash_trigger_data)
    (file : List ftrace_event_field) (a : List Bool) (hd1 : hash_trigger_data)
    (a1 : List Bool)
    (hk : hd.keys = List.replicate COMPOUND_KEY_MAX none) (hnk : hd.n_keys = 0)
    (hv : hd.vals = List.replicate HASH_VALS_MAX none) (hnv : hd.n_vals = 0)
    (h : create_hash_fields hd file a = some (0, hd1, a1)) :
    1 ≤ hd1.n_keys ∧ hd1.n_keys ≤ COMPOUND_KEY_MAX ∧
    (∀ j, j < hd1.n_keys → (key_field hd1 j).isSome = true) ∧
    hd1.n_vals = stored_descriptors hd1.vals := by
  unfold create_hash_fields at h
  split at h
  · simp at h
  · rename_i ret hdA aA hkeys
    split at h
    · rename_i hret
      simp only [Option.some.injEq, Prod.mk.injEq] at h
      exact absurd h.1 hret
    · rename_i hret
      have hret0 : ret = 0 := by
        by_contra hne
        exact hret hne
      subst hret0
      rw [List.range_eq_range'] at hkeys
      obtain ⟨_, k2, k3, k4, _, k6, k7⟩ :=
        create_hash_fields_keys_dense file COMPOUND_KEY_MAX 0 _ hd a hdA aA hnk
          (by rw [hk, List.length_replicate]) (by omega)
          (fun j hj => absurd hj (Nat.not_lt_zero j)) hkeys
      split at h
      · simp at h
      · rename_i ret1 hdB aB hvals
        split at h
        · rename_i hret1
          simp only [Option.some.injEq, Prod.mk.injEq] at h
          exact absurd h.1 hret1
        · rename_i hret1
          have hret10 : ret1 = 0 := by
            by_contra hne
            exact hret1 hne
          subst hret10
          rw [List.range_eq_range'] at hvals
          obtain ⟨v1, _, v3, v4⟩ :=
            create_hash_fields_vals_count file HASH_VALS_MAX 0 _ hdA aA hdB aB
              (by rw [k6, hv, List.length_replicate]) (by omega)
              (by
                intro j _
                rw [k6, hv, List.getD_eq_getElem?_getD, List.getElem?_replicate]
                split <;> rfl)
              (by rw [k7, hnv, k6, hv]; decide)
              hvals
          unfold create_sort_keys at h
          split at h
          · simp at h
          · simp only [Option.some.injEq, Prod.mk.injEq] at h
            obtain ⟨_, hT, _⟩ := h
            subst hT
            simp only [key_field, v3, v4]
            exact ⟨k3 rfl (by decide), k2, k4, v1⟩

/-- The call of `create_hash_data` for the command
`hash:pid:hitcount,bytes_alloc` returns the table
`scenario_hitcount_first_table` with code 0. -/
theorem scenario_hitcount_first_table_created :
    create_hash_data HASH_TRIGGER_BITS "pid".toList "hitcount,bytes_alloc".toList none
      scenario_fields [] 0 = some (some scenario_hitcount_first_table, 0, []) := by
  have h : (create_hash_data HASH_TRIGGER_BITS "pid".toList "hitcount,bytes_alloc".toList none
      scenario_fields [] 0).map (fun r => (r.1.isSome, r.2)) = some (true, 0, []) := by decide!
  unfold scenario_hitcount_first_table
  generalize create_hash_data HASH_TRIGGER_BITS "pid".toList "hitcount,bytes_alloc".toList none
      scenario_fields [] 0 = r at h ⊢
  rcases r with _ | ⟨_ | T, ret, a⟩
  · simp at h
  · simp at h
  · simp only [Option.map_some', Option.isSome_some, Option.some.injEq, Prod.mk.injEq,
      true_and] at h
    obtain ⟨h1, h2⟩ := h
    subst h1 h2
    rfl

/-- C28: when `create_hash_fields` returns 0 on a zeroed table, every key
slot below `n_keys` holds a descriptor and `n_vals` is the number of value
descriptors stored; but `create_val_field` returns 0 on the literal
`hitcount` without storing or counting anything while the loop moves to the
next slot, so the descriptors stored need not fill the slots below `n_vals`.
For `hash:pid:hitcount,bytes_alloc` the construction succeeds with
`n_vals = 1`, `vals[0]` empty and the descriptor in `vals[1]`, and the first
event makes `hash_trigger_entry_update` use the empty `vals[0]`. -/
theorem C28_hitcount_leaves_value_slot_empty (hd : hash_trigger_data)
    (file : List ftrace_event_field) (a : List Bool) (hd1 : hash_trigger_data)
    (a1 : List Bool)
    (hk : hd.keys = List.replicate COMPOUND_KEY_MAX none) (hnk : hd.n_keys = 0)
    (hv : hd.vals = List.replicate HASH_VALS_MAX none) (hnv : hd.n_vals = 0)
    (h : create_hash_fields hd file a = some (0, hd1, a1)) :
    (1 ≤ hd1.n_keys ∧ hd1.n_keys ≤ COMPOUND_KEY_MAX ∧
      (∀ j, j < hd1.n_keys → (key_field hd1 j).isSome = true) ∧
      hd1.n_vals = stored_descriptors hd1.vals) ∧
    (∀ val, create_val_field hd val file "hitcount".toList a = some (0, hd, a)) ∧
    (create_hash_data HASH_TRIGGER_BITS "pid".toList "hitcount,bytes_alloc".toList none
        scenario_fields [] 0 = some (some scenario_hitcount_first_table, 0, []) ∧
      scenario_hitcount_first_table.n_vals = 1 ∧
      val_field scenario_hitcount_first_table 0 = none ∧
      (val_field scenario_hitcount_first_table 1).isSome = true ∧
      hash_trigger_entry_update scenario_hitcount_first_table 0 (scenario_event 1 10).record
        = none ∧
      event_hash_trigger x86_64 scenario_hitcount_first_table (scenario_event 1 10).record
        (scenario_event 1 10).stacktrace (scenario_event 1 10).current = none) := by
  refine ⟨create_hash_fields_descriptors hd file a hd1 a1 hk hnk hv hnv h, fun val => rfl,
    scenario_hitcount_first_table_created, by decide!, by decide!, by decide!, by decide!,
    by decide!⟩

/-- Witness of C28: `create_hash_fields` on the specification strings of
`hash:pid:hitcount,bytes_alloc`. -/
theorem C28_witness :
    create_hash_fields scenario_hitcount_first_spec scenario_fields []
      = some (0, scenario_hitcount_first_fields, []) ∧
    scenario_hitcount_first_fields.n_keys = 1 ∧
    scenario_hitcount_first_fields.n_vals = 1 ∧
    stored_descriptors scenario_hitcount_first_fields.vals = 1 ∧
    val_field scenario_hitcount_first_fields 0 = none ∧
    (1 ≤ scenario_hitcount_first_fields.n_keys ∧
      scenario_hitcount_first_fields.n_keys ≤ COMPOUND_KEY_MAX ∧
      (∀ j, j < scenario_hitcount_first_fields.n_keys →
        (key_field scenario_hitcount_first_fields j).isSome = true) ∧
      scenario_hitcount_first_fields.n_vals
        = stored_descriptors scenario_hitcount_first_fields.vals) :=
  ⟨by decide, by decide, by decide, by decide, by decide,
   (C28_hitcount_leaves_value_slot_empty scenario_hitcount_first_spec scenario_fields []
      scenario_hitcount_first_fields [] (by decide) (by decide) (by decide) (by decide)
      (by decide)).1⟩

/-! ## Key uniqueness on every run -/

theorem same_cfg_trans (T T1 T2 : hash_trigger_data) (h1 : same_cfg T T1)
    (h2 : same_cfg T1 T2) : same_cfg T T2 :=
  ⟨h2.1.trans h1.1, h2.2.1.trans h1.2.1, h2.2.2.1.trans h1.2.2.1,
    h2.2.2.2.1.trans h1.2.2.2.1, h2.2.2.2.2.1.trans h1.2.2.2.2.1,
    h2.2.2.2.2.2.trans h1.2.2.2.2.2⟩

theorem drops_zero_eq (T : hash_trigger_data) (h : T.drops = 0) :
    ({ T with drops := 0 } : hash_trigger_data) = T := by
  cases T
  simp only at h
  subst h
  rfl

/-- A table with scalar keys, whatever its `drops`, takes every sequence of
events: the state afterwards is a table that satisfies the invariant, with
some value of `drops`. -/
theorem run_with_drops (P : Platform) (evs : List hash_event) :
    ∀ (T : hash_trigger_data) (done : List hash_event) (d : Nat), TableInv P T done →
      ∃ (T1 : hash_trigger_data) (done1 : List hash_event) (d1 : Nat),
        event_hash_trigger_seq P { T with drops := d } evs = some { T1 with drops := d1 } ∧
        same_cfg T T1 ∧ TableInv P T1 done1 := by
  induction evs with
  | nil =>
    intro T done d I
    exact ⟨T, done, d, rfl, ⟨rfl, rfl, rfl, rfl, rfl, rfl⟩, I⟩
  | cons ev evs ih =>
    intro T done d I
    by_cases hd : d = 0
    · subst hd
      rw [drops_zero_eq T I.drops0]
      simp only [event_hash_trigger_seq]
      rcases inv_find P T done I ev.record ev.stacktrace with ⟨idx, hf, hlt, hkey⟩ | ⟨hf, hnew⟩
      · obtain ⟨T1, hex, hc, I1⟩ := step_hit P T done I ev idx hf hlt hkey
        obtain ⟨T2, done2, d2, hrun, hc2, I2⟩ := ih T1 (done ++ [ev]) 0 I1
        rw [drops_zero_eq T1 I1.drops0] at hrun
        refine ⟨T2, done2, d2, ?_, same_cfg_trans T T1 T2 hc hc2, I2⟩
        rw [hex]
        exact hrun
      · rcases Nat.lt_or_ge T.n_entries T.max_entries with hlt | hge
        · obtain ⟨T1, hex, hc, I1, _⟩ := step_new P T done I ev hf hnew hlt
          obtain ⟨T2, done2, d2, hrun, hc2, I2⟩ := ih T1 (done ++ [ev]) 0 I1
          rw [drops_zero_eq T1 I1.drops0] at hrun
          refine ⟨T2, done2, d2, ?_, same_cfg_trans T T1 T2 hc hc2, I2⟩
          rw [hex]
          exact hrun
        · have hfull : T.n_entries = T.max_entries := le_antisymm I.nle hge
          obtain ⟨T2, done2, d2, hrun, hc2, I2⟩ := ih T done 1 I
          refine ⟨T2, done2, d2, ?_, hc2, I2⟩
          rw [step_full P T done I ev hf hfull]
          exact hrun
    · obtain ⟨T2, done2, d2, hrun, hc2, I2⟩ := ih T done ((d + 1) % 2 ^ P.BITS_PER_LONG) I
      refine ⟨T2, done2, d2, ?_, hc2, I2⟩
      have hstep : event_hash_trigger P { T with drops := d } ev.record ev.stacktrace ev.current
          = some { T with drops := (d + 1) % 2 ^ P.BITS_PER_LONG } := by
        unfold event_hash_trigger
        rw [if_pos hd]
      simp only [event_hash_trigger_seq]
      rw [hstep]
      exact hrun

theorem chain_inv_of_table (P : Platform) (T : hash_trigger_data) (done : List hash_event)
    (I : TableInv P T done) : ChainInv P T :=
  ⟨I.sk, I.hr, I.len, I.nle, I.htlen, I.perm, I.bucket, I.ok, I.nodup⟩

theorem chain_inv_drops (P : Platform) (T : hash_trigger_data) (I : ChainInv P T) (d : Nat) :
    ChainInv P { T with drops := d } :=
  ⟨I.sk, I.hr, I.len, I.nle, I.htlen, I.perm, I.bucket, I.ok, I.nodup⟩

/-- The result of `hash_trigger_entry_find` on a table whose chains satisfy
the placement invariant. -/
theorem chain_find (P : Platform) (T : hash_trigger_data) (I : ChainInv P T)
    (rec : trace_record) (st : stack_trace) :
    (∃ idx, hash_trigger_entry_find P T rec st = some (some idx) ∧ idx < T.n_entries ∧
        entry_key T idx = key_tuple T rec) ∨
    (hash_trigger_entry_find P T rec st = some none ∧ key_tuple T rec ∉ stored_keys T) := by
  have hb : bucket_of P T (key_tuple T rec) < T.hashtab.length := by
    rw [I.htlen]; exact bucket_of_lt P T _ I.hr
  have hch : T.hashtab[bucket_of P T (key_tuple T rec)]?
      = some T.hashtab[bucket_of P T (key_tuple T rec)] := List.getElem?_eq_getElem hb
  have hlt : ∀ idx ∈ T.hashtab[bucket_of P T (key_tuple T rec)], idx < T.n_entries := by
    intro idx hidx
    have : idx ∈ linked T := by
      unfold linked
      exact List.mem_flatten.mpr ⟨_, List.getElem_mem hb, hidx⟩
    exact List.mem_range.mp (I.perm.mem_iff.mp this)
  have hfind := entry_find_scalar P T rec st I.sk _ hch
    (fun idx hidx => ⟨by have := hlt idx hidx; have := I.nle; rw [I.len]; omega, I.ok idx⟩)
  rw [hfind]
  cases hf : (T.hashtab[bucket_of P T (key_tuple T rec)]).find?
      (fun idx => decide (entry_key T idx = key_tuple T rec)) with
  | some idx =>
    left
    refine ⟨idx, rfl, hlt idx (List.mem_of_find?_eq_some hf), ?_⟩
    simpa using List.find?_some hf
  | none =>
    right
    refine ⟨rfl, ?_⟩
    intro hk
    obtain ⟨idx, hidx, hkey⟩ := (mem_stored_keys T _).mp hk
    have hl : idx ∈ linked T := I.perm.mem_iff.mpr (List.mem_range.mpr hidx)
    obtain ⟨chain1, hc1, hi1⟩ := List.mem_flatten.mp hl
    obtain ⟨b, hb1⟩ := List.mem_iff_getElem?.mp hc1
    have hbk := I.bucket b chain1 hb1 idx hi1
    rw [hkey] at hbk
    rw [← hbk, hch] at hb1
    have : T.hashtab[bucket_of P T (key_tuple T rec)] = chain1 := by simpa using hb1
    rw [this] at hf
    have := List.find?_eq_none.mp hf idx hi1
    simp [hkey] at this

/-- What the placement invariant says about the chains: placement by
`hash_key`, one entry per key tuple, and the result of
`hash_trigger_entry_find`. -/
theorem inv_key_uniqueness (P : Platform) (T : hash_trigger_data) (I : ChainInv P T) :
    (∀ (b : Nat) (chain : List Nat), T.hashtab[b]? = some chain → ∀ idx ∈ chain,
      bucket_of P T (entry_key T idx) = b ∧
      ∀ (rec : trace_record) (st : stack_trace), key_tuple T rec = entry_key T idx →
        hash_key P T rec st = some b) ∧
    (linked T).Nodup ∧
    (∀ i ∈ linked T, ∀ j ∈ linked T, entry_key T i = entry_key T j → i = j) ∧
    (∀ (rec : trace_record) (st : stack_trace) (idx : Nat), idx ∈ linked T →
      entry_key T idx = key_tuple T rec →
      hash_trigger_entry_find P T rec st = some (some idx)) ∧
    (∀ (rec : trace_record) (st : stack_trace),
      (∀ idx ∈ linked T, entry_key T idx ≠ key_tuple T rec) →
      hash_trigger_entry_find P T rec st = some none) := by
  have hinj : ∀ i, i < T.n_entries → ∀ j, j < T.n_entries →
      entry_key T i = entry_key T j → i = j := by
    intro i hi j hj hij
    exact List.inj_on_of_nodup_map I.nodup (List.mem_range.mpr hi) (List.mem_range.mpr hj) hij
  have hlt : ∀ idx, idx ∈ linked T → idx < T.n_entries := fun idx h =>
    List.mem_range.mp (I.perm.mem_iff.mp h)
  refine ⟨?_, I.perm.nodup_iff.mpr (List.nodup_range _), ?_, ?_, ?_⟩
  · intro b chain hb idx hidx
    have h1 := I.bucket b chain hb idx hidx
    refine ⟨h1, ?_⟩
    intro rec st hk
    rw [hash_key_scalar P T rec st I.sk, hk, h1]
  · intro i hi j hj hij
    exact hinj i (hlt i hi) j (hlt j hj) hij
  · intro rec st idx hidx hk
    rcases chain_find P T I rec st with ⟨idx1, hf, hlt1, hkey1⟩ | ⟨_, hnew⟩
    · rw [hf, hinj idx1 hlt1 idx (hlt idx hidx) (hkey1.trans hk.symm)]
    · exact absurd ((mem_stored_keys T _).mpr ⟨idx, hlt idx hidx, hk⟩) hnew
  · intro rec st hnone
    rcases chain_find P T I rec st with ⟨idx1, _, hlt1, hkey1⟩ | ⟨hf, _⟩
    · exact absurd hkey1
        (hnone idx1 (I.perm.mem_iff.mpr (List.mem_range.mpr hlt1)))
    · exact hf

/-- C25: a freshly created table with scalar key fields takes every sequence
of events, and in the state it reaches every linked entry sits in the bucket
that `hash_key` computes for its stored key values, every entry is linked
once, no two linked entries hold equal key tuples, and
`hash_trigger_entry_find` returns the linked entry that holds the key values
of a record (and no entry when none holds them). -/
theorem C25_key_uniqueness (P : Platform) (bits : Nat) (keys vals : List Char)
    (sort_keys : Option (List Char)) (file : List ftrace_event_field) (a : List Bool)
    (ret0 : Int) (T : hash_trigger_data) (ret : Int) (a1 : List Bool)
    (evs : List hash_event)
    (hcreate : create_hash_data bits keys vals sort_keys file a ret0 = some (some T, ret, a1))
    (hbits : bits ≤ 30) (hkeys : scalar_keys T = true) (hvals : extractable_vals T = true)
    (hhash : hash_in_range P bits) :
    ∃ T1, event_hash_trigger_seq P T evs = some T1 ∧
      (∀ (b : Nat) (chain : List Nat), T1.hashtab[b]? = some chain → ∀ idx ∈ chain,
        bucket_of P T1 (entry_key T1 idx) = b ∧
        ∀ (rec : trace_record) (st : stack_trace), key_tuple T1 rec = entry_key T1 idx →
          hash_key P T1 rec st = some b) ∧
      (linked T1).Nodup ∧
      (∀ i ∈ linked T1, ∀ j ∈ linked T1, entry_key T1 i = entry_key T1 j → i = j) ∧
      (∀ (rec : trace_record) (st : stack_trace) (idx : Nat), idx ∈ linked T1 →
        entry_key T1 idx = key_tuple T1 rec →
        hash_trigger_entry_find P T1 rec st = some (some idx)) ∧
      (∀ (rec : trace_record) (st : stack_trace),
        (∀ idx ∈ linked T1, entry_key T1 idx ≠ key_tuple T1 rec) →
        hash_trigger_entry_find P T1 rec st = some none) := by
  obtain ⟨I0, _⟩ := fresh_inv P bits keys vals sort_keys file a ret0 T ret a1 hcreate hbits
    hkeys hvals hhash
  obtain ⟨T1, done1, d1, hrun, _, I1⟩ := run_with_drops P evs T [] 0 I0
  rw [drops_zero_eq T I0.drops0] at hrun
  exact ⟨{ T1 with drops := d1 }, hrun,
    inv_key_uniqueness P _ (chain_inv_drops P T1 (chain_inv_of_table P T1 done1 I1) d1)⟩

/-- Witness of C25: the scenario table after four admitted keys and three
dropped events. -/
theorem C25_witness :
    ∃ T1, event_hash_trigger_seq x86_64 scenario_table scenario_C5_events = some T1 ∧
      (∀ (b : Nat) (chain : List Nat), T1.hashtab[b]? = some chain → ∀ idx ∈ chain,
        bucket_of x86_64 T1 (entry_key T1 idx) = b ∧
        ∀ (rec : trace_record) (st : stack_trace), key_tuple T1 rec = entry_key T1 idx →
          hash_key x86_64 T1 rec st = some b) ∧
      (linked T1).Nodup ∧
      (∀ i ∈ linked T1, ∀ j ∈ linked T1, entry_key T1 i = entry_key T1 j → i = j) ∧
      (∀ (rec : trace_record) (st : stack_trace) (idx : Nat), idx ∈ linked T1 →
        entry_key T1 idx = key_tuple T1 rec →
        hash_trigger_entry_find x86_64 T1 rec st = some (some idx)) ∧
      (∀ (rec : trace_record) (st : stack_trace),
        (∀ idx ∈ linked T1, entry_key T1 idx ≠ key_tuple T1 rec) →
        hash_trigger_entry_find x86_64 T1 rec st = some none) :=
  C25_key_uniqueness x86_64 1 "pid".toList "bytes_alloc".toList none scenario_fields [] 0
    scenario_table 0 [] scenario_C5_events (by decide!) (by decide) (by decide) (by decide)
    (x86_64_hash_in_range 1)

/-! ## Accounting of the arena -/

theorem create_loop_bits (T0 : hash_trigger_data) (rec : trace_record) (st : stack_trace)
    (is : List Nat) :
    ∀ (hd : hash_trigger_data) (e : hash_trigger_entry) (b : Bool)
      (r : hash_trigger_data × hash_trigger_entry × Bool),
      hash_trigger_entry_create_loop T0 rec st is (hd, e, b) = some r →
      r.1.hashtab_bits = hd.hashtab_bits := by
  induction is with
  | nil =>
    intro hd e b r h
    simp [hash_trigger_entry_create_loop] at h
    subst h; rfl
  | cons i is ih =>
    intro hd e b r h
    simp only [hash_trigger_entry_create_loop, Option.bind_eq_bind, Option.bind_eq_some] at h
    obtain ⟨f, _, h⟩ := h
    split at h
    · simp only [Option.bind_eq_some] at h
      obtain ⟨⟨hd1, e1⟩, hfill, h⟩ := h
      have h2 := ih hd1 e1 b r h
      unfold stacktrace_entry_fill at hfill
      split at hfill
      · simp at hfill
      · simp only [Option.some.injEq, Prod.mk.injEq] at hfill
        obtain ⟨h3, h4⟩ := hfill
        subst h3 h4
        exact h2
    · split at h
      · simp only [Option.bind_eq_some] at h
        obtain ⟨⟨hd1, e1⟩, hfill, h⟩ := h
        have h2 := ih hd1 e1 b r h
        simp only [string_entry_fill, Option.bind_eq_bind, Option.bind_eq_some] at hfill
        obtain ⟨fld, _, v, _, arena, _, hfill⟩ := hfill
        split at hfill
        · simp at hfill
        · simp only [Option.pure_def, Option.bind_eq_bind, Option.some_bind,
            Option.some.injEq, Prod.mk.injEq] at hfill
          obtain ⟨h3, h4⟩ := hfill
          subst h3 h4
          exact h2
      · simp only [Option.bind_eq_some] at h
        obtain ⟨v, _, h⟩ := h
        split at h
        · simp at h
        · simp only [Option.pure_def, Option.bind_eq_bind, Option.bind_eq_some] at h
          obtain ⟨_, _, h⟩ := h
          exact ih _ _ _ r h

theorem create_bits (P : Platform) (T : hash_trigger_data) (rec : trace_record)
    (st : stack_trace) (cur : task_struct) (hd : hash_trigger_data) (r : Option Nat)
    (h : hash_trigger_entry_create P T rec st cur = some (hd, r)) :
    hd.hashtab_bits = T.hashtab_bits := by
  unfold hash_trigger_entry_create at h
  split at h
  · simp only [Option.some.injEq, Prod.mk.injEq] at h
    rw [← h.1]
  · split at h
    · simp only [Option.some.injEq, Prod.mk.injEq] at h
      rw [← h.1]
    · simp only [Option.bind_eq_bind, Option.bind_eq_some] at h
      obtain ⟨e, _, ⟨hd1, e1, b1⟩, hloop, h⟩ := h
      simp only [Option.some.injEq, Prod.mk.injEq] at h
      have h2 := create_loop_bits _ rec st _ _ _ _ _ hloop
      rw [← h.1]
      exact h2

/-- One call of `event_hash_trigger` keeps the invariant of the arena. -/
theorem arena_step (P : Platform) (T : hash_trigger_data) (bits : Nat) (I : ArenaInv T bits)
    (hbits : bits ≤ 30) (hlong : 32 ≤ P.BITS_PER_LONG)
    (rec : trace_record) (st : stack_trace) (cur : task_struct) (T1 : hash_trigger_data)
    (h : event_hash_trigger P T rec st cur = some T1) : ArenaInv T1 bits := by
  have hcap : 2 * 2 ^ bits < 2 ^ 32 := by
    calc 2 * 2 ^ bits = 2 ^ (bits + 1) := by rw [pow_succ]; ring
      _ < 2 ^ 32 := Nat.pow_lt_pow_right (by norm_num) (by omega)
  have hpow : 2 ^ 32 ≤ 2 ^ P.BITS_PER_LONG := Nat.pow_le_pow_right (by norm_num) hlong
  unfold event_hash_trigger at h
  split at h
  · simp only [Option.some.injEq] at h
    subst h
    exact ⟨I.bits_eq, I.max, I.len, I.nle, I.htlen, I.perm, I.tot⟩
  · rename_i hd0
    have hdrop : T.drops = 0 := by simpa using hd0
    simp only [Option.bind_eq_bind, Option.bind_eq_some] at h
    obtain ⟨_, _, found, hfind, h⟩ := h
    split at h
    · rename_i idx
      simp only [Option.bind_eq_some, Option.some.injEq] at h
      obtain ⟨Tu, hup, h⟩ := h
      obtain ⟨e1, hlt, hTu, _⟩ := update_general T idx rec Tu hup
      have hfin : T1.entries = T.entries.set idx e1 ∧ T1.hashtab = T.hashtab ∧
          T1.n_entries = T.n_entries ∧ T1.total_entries = T.total_entries ∧
          T1.max_entries = T.max_entries ∧ T1.hashtab_bits = T.hashtab_bits := by
        subst h hTu
        simp
      obtain ⟨fE, fH, fN, fTE, fM, fB⟩ := hfin
      have hl1 : linked T1 = linked T := by unfold linked; rw [fH]
      exact ⟨by rw [fB]; exact I.bits_eq, by rw [fM]; exact I.max,
        by rw [fE, fM]; simpa using I.len, by rw [fN, fM]; exact I.nle,
        by rw [fH]; exact I.htlen, by rw [hl1, fN]; exact I.perm, by rw [fTE, fN]; exact I.tot⟩
    · simp only [Option.bind_eq_some] at h
      obtain ⟨⟨hdc, created⟩, hcr, h⟩ := h
      have hB := create_bits P T rec st cur hdc created hcr
      rcases create_general P T rec st cur hdc created hdrop hcr with
        ⟨hr, hfull, hhd⟩ | ⟨hr, hne, hlt, e2, _, hE, hH, hN, hTH, hTE, hD, hM⟩
      · subst hr hhd
        simp only [Option.some.injEq] at h
        subst h
        exact ⟨I.bits_eq, I.max, I.len, I.nle, I.htlen, I.perm, I.tot⟩
      · subst hr
        simp only [Option.bind_eq_some, Option.some.injEq] at h
        obtain ⟨Ti, hins, Tu, hup, h⟩ := h
        obtain ⟨b, chain, hch, hTi⟩ := insert_general P hdc T.n_entries rec st Ti hins
        obtain ⟨e3, hlt3, hTu, _⟩ := update_general Ti T.n_entries rec Tu hup
        have hnlt : T.n_entries < T.max_entries := by have := I.nle; omega
        have hmod : (T.n_entries + 1) % 2 ^ 32 = T.n_entries + 1 :=
          Nat.mod_eq_of_lt (by have := I.max; omega)
        have hmodte : (T.total_entries + 1) % 2 ^ P.BITS_PER_LONG = T.n_entries + 1 := by
          rw [I.tot]
          exact Nat.mod_eq_of_lt (by have := I.max; omega)
        have hb : b < T.hashtab.length := by
          rw [hH] at hch
          by_contra hc
          rw [List.getElem?_eq_none (by omega)] at hch
          simp at hch
        have hchain : chain = T.hashtab.getD b [] := by
          rw [hH] at hch
          simp [List.getD_eq_getElem?_getD, hch]
        have hfin : T1.entries = T.entries.set T.n_entries e3 ∧
            T1.hashtab = T.hashtab.set b (T.n_entries :: T.hashtab.getD b []) ∧
            T1.n_entries = T.n_entries + 1 ∧ T1.total_entries = T.n_entries + 1 ∧
            T1.max_entries = T.max_entries ∧ T1.hashtab_bits = T.hashtab_bits := by
          rw [hmod] at hN
          subst h hTu hTi
          simp [hE, hH, hN, hTE, hM, hB, hchain, hmodte]
        obtain ⟨fE, fH, fN, fTE, fM, fB⟩ := hfin
        have hperm1 : (linked T1).Perm (T.n_entries :: linked T) := by
          unfold linked; rw [fH]
          exact flatten_set_cons T.hashtab b T.n_entries hb
        refine ⟨by rw [fB]; exact I.bits_eq, by rw [fM]; exact I.max,
          by rw [fE, fM]; simpa using I.len, by rw [fN, fM]; omega,
          by rw [fH, List.length_set]; exact I.htlen, ?_, by rw [fTE, fN]⟩
        rw [fN, List.range_succ]
        exact hperm1.trans ((List.Perm.cons _ I.perm).trans
          (List.perm_append_singleton _ _).symm)

theorem arena_run (P : Platform) (bits : Nat) (hbits : bits ≤ 30)
    (hlong : 32 ≤ P.BITS_PER_LONG) (evs : List hash_event) :
    ∀ (T T1 : hash_trigger_data), ArenaInv T bits →
      event_hash_trigger_seq P T evs = some T1 → ArenaInv T1 bits := by
  induction evs with
  | nil =>
    intro T T1 I h
    simp only [event_hash_trigger_seq, Option.some.injEq] at h
    subst h; exact I
  | cons ev evs ih =>
    intro T T1 I h
    simp only [event_hash_trigger_seq, Option.bind_eq_some] at h
    obtain ⟨T2, hstep, hrest⟩ := h
    exact ih T2 T1
      (arena_step P T bits I hbits hlong ev.record ev.stacktrace ev.current T2 hstep) hrest

theorem fresh_arena (bits : Nat) (keys vals : List Char)
    (sort_keys : Option (List Char)) (file : List ftrace_event_field) (a : List Bool)
    (ret0 : Int) (T : hash_trigger_data) (ret : Int) (a1 : List Bool)
    (hcreate : create_hash_data bits keys vals sort_keys file a ret0 = some (some T, ret, a1))
    (hbits : bits ≤ 30) : ArenaInv T bits := by
  obtain ⟨hH, hB, hM, hE, hN, hD, hTH, hTE⟩ :=
    create_hash_data_fresh bits keys vals sort_keys file a ret0 T ret a1 hcreate
  rw [shift_one bits (by omega)] at hH hM
  have hpow : 2 ^ bits * 2 < 2 ^ 32 := by
    calc 2 ^ bits * 2 = 2 ^ (bits + 1) := by rw [pow_succ]
      _ < 2 ^ 32 := Nat.pow_lt_pow_right (by norm_num) (by omega)
  rw [Nat.mod_eq_of_lt hpow] at hM
  have hl : linked T = [] := by unfold linked; rw [hH, flatten_replicate_nil]
  exact ⟨hB, by rw [hM]; ring, by rw [hE]; simp, by rw [hN]; exact Nat.zero_le _,
    by rw [hH]; simp, by rw [hl, hN]; simp, by rw [hTE, hN]⟩

/-- C26: in every state that a table created with at most 30 bucket bits
reaches through a sequence of `event_hash_trigger` calls (on a target whose
`unsigned long` has at least 32 bits), `n_entries <= max_entries`,
`max_entries = 2 * 2 ^ hashtab_bits`, `total_entries = n_entries` is the
number of entries linked in the chains, and the linked entries are the arena
slots `0 .. n_entries - 1`, each linked once. So the slot
`entries[n_entries]` that `hash_trigger_entry_create` claims when the table
is not full lies in the arena, and the pointers `print_entries_sorted`
collects are the linked entries, `total_entries` of them. -/
theorem C26_arena_accounting (P : Platform) (bits : Nat) (keys vals : List Char)
    (sort_keys : Option (List Char)) (file : List ftrace_event_field) (a : List Bool)
    (ret0 : Int) (T : hash_trigger_data) (ret : Int) (a1 : List Bool)
    (evs : List hash_event) (T1 : hash_trigger_data)
    (hcreate : create_hash_data bits keys vals sort_keys file a ret0 = some (some T, ret, a1))
    (hbits : bits ≤ 30) (hlong : 32 ≤ P.BITS_PER_LONG)
    (hrun : event_hash_trigger_seq P T evs = some T1) :
    T1.hashtab_bits = bits ∧
    T1.n_entries ≤ T1.max_entries ∧ T1.max_entries = 2 * 2 ^ T1.hashtab_bits ∧
    T1.entries.length = T1.max_entries ∧
    T1.total_entries = T1.n_entries ∧ (linked T1).length = T1.n_entries ∧
    (linked T1).Perm (List.range T1.n_entries) ∧
    (T1.n_entries ≠ T1.max_entries → (T1.entries[T1.n_entries]?).isSome = true) ∧
    collect_entries T1 = linked T1 ∧ (collect_entries T1).length = T1.total_entries := by
  have I0 := fresh_arena bits keys vals sort_keys file a ret0 T ret a1 hcreate hbits
  have I := arena_run P bits hbits hlong evs T T1 I0 hrun
  have hlen : (linked T1).length = T1.n_entries := by
    rw [I.perm.length_eq, List.length_range]
  have hcol : collect_entries T1 = linked T1 :=
    collect_entries_eq T1 (by rw [I.bits_eq]; omega) (by rw [I.htlen, I.bits_eq])
  refine ⟨I.bits_eq, I.nle, by rw [I.bits_eq]; exact I.max, I.len, I.tot, hlen, I.perm, ?_,
    hcol, by rw [hcol, hlen, I.tot]⟩
  intro hne
  have hlt : T1.n_entries < T1.entries.length := by
    have := I.nle
    rw [I.len]
    omega
  rw [List.getElem?_eq_getElem hlt]
  rfl

/-- Witness of C26: the scenario table (capacity 4) after seven events, four
of them admitted and three dropped. -/
theorem C26_witness :
    (scenario_C5_table.hashtab_bits = 1 ∧
      scenario_C5_table.n_entries ≤ scenario_C5_table.max_entries ∧
      scenario_C5_table.max_entries = 2 * 2 ^ scenario_C5_table.hashtab_bits ∧
      scenario_C5_table.entries.length = scenario_C5_table.max_entries ∧
      scenario_C5_table.total_entries = scenario_C5_table.n_entries ∧
      (linked scenario_C5_table).length = scenario_C5_table.n_entries ∧
      (linked scenario_C5_table).Perm (List.range scenario_C5_table.n_entries) ∧
      (scenario_C5_table.n_entries ≠ scenario_C5_table.max_entries →
        (scenario_C5_table.entries[scenario_C5_table.n_entries]?).isSome = true) ∧
      collect_entries scenario_C5_table = linked scenario_C5_table ∧
      (collect_entries scenario_C5_table).length = scenario_C5_table.total_entries) ∧
    scenario_C5_table.n_entries = 4 ∧ scenario_C5_table.max_entries = 4 :=
  ⟨C26_arena_accounting x86_64 1 "pid".toList "bytes_alloc".toList none scenario_fields [] 0
      scenario_table 0 [] scenario_C5_events scenario_C5_table
      (by decide!) (by decide) (by decide) (by decide!),
   by decide, by decide⟩

/-! ## Wrap of the `unsigned long` counters -/

theorem x86_32_hash_in_range (bits : Nat) : hash_in_range x86_32 bits :=
  x86_64_hash_in_range bits

/-- Calls of `event_hash_trigger` on a table whose `drops` is not 0, as many
as bring the `unsigned long` counter to its range at most: only `drops`
changes, by the number of calls modulo `2 ^ BITS_PER_LONG`. -/
theorem drops_run (P : Platform) (evs : List hash_event) :
    ∀ (T : hash_trigger_data), T.drops ≠ 0 → T.drops < 2 ^ P.BITS_PER_LONG →
      T.drops + evs.length ≤ 2 ^ P.BITS_PER_LONG →
      event_hash_trigger_seq P T evs
        = some { T with drops := (T.drops + evs.length) % 2 ^ P.BITS_PER_LONG } := by
  induction evs with
  | nil =>
    intro T _ hlt _
    simp only [event_hash_trigger_seq, List.length_nil, Nat.add_zero, Nat.mod_eq_of_lt hlt]
  | cons ev evs ih =>
    intro T hd hlt hle
    simp only [List.length_cons] at hle
    have hstep : event_hash_trigger P T ev.record ev.stacktrace ev.current
        = some { T with drops := (T.drops + 1) % 2 ^ P.BITS_PER_LONG } := by
      unfold event_hash_trigger
      rw [if_pos hd]
    simp only [event_hash_trigger_seq, hstep, Option.some_bind, List.length_cons]
    rcases Nat.lt_or_ge (T.drops + 1) (2 ^ P.BITS_PER_LONG) with h1 | h1
    · rw [Nat.mod_eq_of_lt h1]
      rw [ih { T with drops := T.drops + 1 } (by simp) h1 (by simp only; omega)]
      simp only [Nat.add_assoc, Nat.add_comm 1]
    · have hlen : evs.length = 0 := by omega
      have hnil : evs = [] := List.length_eq_zero.mp hlen
      subst hnil
      simp only [event_hash_trigger_seq, List.length_nil, Nat.add_zero]

/-- C3: while the `unsigned long` counter `drops` does not wrap, calls of
`event_hash_trigger` on a table whose `drops` is not 0 change nothing but
`drops`, which they raise by one each, and `drops` stays different from 0.
The call that finds `drops` at `2 ^ BITS_PER_LONG - 1` wraps it to 0: with as
many calls as are missing to `2 ^ BITS_PER_LONG` the table is back in the
state it had when it was full, with `drops = 0`. On the 32-bit target that
is, for the saturated scenario table, after `2 ^ 32 - 1` further events; the
next event with the key of an existing entry is counted again. -/
theorem C3_drops_wraps_to_zero (P : Platform) (T : hash_trigger_data)
    (evs : List hash_event) (hd : T.drops ≠ 0) (hlt : T.drops < 2 ^ P.BITS_PER_LONG) :
    (T.drops + evs.length < 2 ^ P.BITS_PER_LONG →
      event_hash_trigger_seq P T evs = some { T with drops := T.drops + evs.length } ∧
      T.drops + evs.length ≠ 0) ∧
    (T.drops + evs.length = 2 ^ P.BITS_PER_LONG →
      event_hash_trigger_seq P T evs = some { T with drops := 0 }) ∧
    (event_hash_trigger_seq x86_32 scenario_table (scenario_B_events ++ [scenario_event 5 100])
        = some scenario_B_table ∧
      scenario_B_table.drops = 1 ∧
      event_hash_trigger_seq x86_32 scenario_B_table
          (List.replicate (2 ^ 32 - 1) (scenario_event 5 100))
        = some { scenario_B_table with drops := 0 } ∧
      (event_hash_trigger x86_32 { scenario_B_table with drops := 0 }
          (scenario_event 1 7).record (scenario_event 1 7).stacktrace
          (scenario_event 1 7).current).map
          (fun T1 => (T1.drops, (entry_at T1 0).count, T1.total_hits))
        = some (0, (entry_at scenario_B_table 0).count + 1, scenario_B_table.total_hits + 1)) := by
  refine ⟨?_, ?_, by decide!, by decide, ?_, by decide!⟩
  · intro h
    rw [drops_run P evs T hd hlt (le_of_lt h), Nat.mod_eq_of_lt h]
    exact ⟨rfl, by omega⟩
  · intro h
    rw [drops_run P evs T hd hlt (le_of_eq h), h, Nat.mod_self]
  · have h1 : scenario_B_table.drops = 1 := by decide
    have hlen : scenario_B_table.drops
        + (List.replicate (2 ^ 32 - 1) (scenario_event 5 100)).length
        = 2 ^ x86_32.BITS_PER_LONG := by
      rw [List.length_replicate, h1]
      rfl
    rw [drops_run x86_32 _ scenario_B_table (by rw [h1]; decide) (by rw [h1]; decide)
      (le_of_eq hlen), hlen, Nat.mod_self]

/-- Witness of C3: the saturated scenario table of the 32-bit target, whose
`drops` is 1, offered `2 ^ 32 - 1` further events. -/
theorem C3_witness :
    event_hash_trigger_seq x86_32 scenario_B_table
        (List.replicate (2 ^ 32 - 1) (scenario_event 5 100))
      = some { scenario_B_table with drops := 0 } :=
  (C3_drops_wraps_to_zero x86_32 scenario_B_table
    (List.replicate (2 ^ 32 - 1) (scenario_event 5 100)) (by decide) (by decide)).2.1
    (by rw [List.length_replicate]; rfl)

theorem hits_of_replicate (T : hash_trigger_data) (n : Nat) (ev : hash_event) :
    hits_of T (List.replicate n ev) (key_tuple T ev.record) = n := by
  induction n with
  | zero => rfl
  | succ n ih =>
    have h := ih
    unfold hits_of at h ⊢
    rw [List.replicate_succ, List.countP_cons_of_pos _ _ (by simp), h]

/-- The scenario table offered `n` events that carry one key: one entry, in
slot 0, whose hit count is `n`, while `total_hits` is `n` reduced modulo
`2 ^ BITS_PER_LONG`. -/
theorem one_key_run (P : Platform) (hhash : hash_in_range P 1) (n : Nat) (hn : 0 < n)
    (hn64 : n < 2 ^ 64) (ev : hash_event) :
    ∃ T2, event_hash_trigger_seq P scenario_table (List.replicate n ev) = some T2 ∧
      linked T2 = [0] ∧ (entry_at T2 0).count = n ∧ counts_sum T2 = n ∧
      T2.total_hits = n % 2 ^ P.BITS_PER_LONG ∧ T2.drops = 0 := by
  obtain ⟨I0, hmax⟩ := fresh_inv P 1 "pid".toList "bytes_alloc".toList none scenario_fields [] 0
    scenario_table 0 [] (by decide!) (by decide) (by decide) (by decide) hhash
  have hset : ((List.replicate n ev).map (fun e => key_tuple scenario_table e.record)).toFinset
      = {key_tuple scenario_table ev.record} := by
    rw [List.map_replicate]
    exact List.toFinset_replicate_of_ne_zero (by omega)
  obtain ⟨T2, hrun, hc, I2⟩ := run_inv P (List.replicate n ev) scenario_table [] I0 (by
    rw [List.nil_append, hset, Finset.card_singleton, hmax]
    norm_num)
  rw [List.nil_append] at I2
  have hn1 : T2.n_entries = 1 := by
    rw [inv_n_entries P T2 _ I2, key_tuple_congr scenario_table T2 hc, hset,
      Finset.card_singleton]
  have hl : linked T2 = [0] := by
    have hp := I2.perm
    rw [hn1] at hp
    exact List.perm_singleton.mp hp
  have hkey : entry_key T2 0 = key_tuple T2 ev.record := by
    have hmem : entry_key T2 0 ∈ stored_keys T2 :=
      (mem_stored_keys T2 _).mpr ⟨0, by omega, rfl⟩
    have h2 := (I2.keys_iff _).mp hmem
    rw [List.map_replicate] at h2
    exact List.eq_of_mem_replicate h2
  have hcount : (entry_at T2 0).count = n := by
    rw [I2.count 0 (by omega), hkey, hits_of_replicate]
    exact Nat.mod_eq_of_lt hn64
  refine ⟨T2, hrun, hl, hcount, ?_, ?_, I2.drops0⟩
  · unfold counts_sum
    rw [hl]
    simp only [List.map_cons, List.map_nil, List.sum_cons, List.sum_nil, Nat.add_zero, hcount]
  · rw [I2.hits, List.length_replicate]

/-- C5: in every state that a freshly created table reaches through a
sequence of `event_hash_trigger` calls shorter than the range of
`unsigned long`, `total_hits` equals the sum of the hit counts of the entries
linked in the bucket chains, and every event is accounted for exactly once,
in `total_hits` or in `drops`. The hit counts are `u64` and `total_hits` is
`unsigned long`: on the 32-bit target, after `2 ^ 32` events with one key on
the scenario table, the one entry counts `2 ^ 32` hits and `total_hits` is
0. -/
theorem C5_total_hits_wraps_before_counts (P : Platform) (bits : Nat) (keys vals : List Char)
    (sort_keys : Option (List Char)) (file : List ftrace_event_field) (a : List Bool)
    (ret0 : Int) (T : hash_trigger_data) (ret : Int) (a1 : List Bool)
    (evs : List hash_event) (T1 : hash_trigger_data)
    (hcreate : create_hash_data bits keys vals sort_keys file a ret0 = some (some T, ret, a1))
    (h64 : P.BITS_PER_LONG ≤ 64) (hrun : event_hash_trigger_seq P T evs = some T1) :
    (evs.length < 2 ^ P.BITS_PER_LONG →
      T1.total_hits = counts_sum T1 ∧ T1.total_hits + T1.drops = evs.length) ∧
    (∃ T2, event_hash_trigger_seq x86_32 scenario_table
          (List.replicate (2 ^ 32) (scenario_event 1 10)) = some T2 ∧
      linked T2 = [0] ∧ (entry_at T2 0).count = 2 ^ 32 ∧ counts_sum T2 = 2 ^ 32 ∧
      T2.total_hits = 0 ∧ T2.drops = 0) := by
  refine ⟨?_, ?_⟩
  · intro hlen
    have I0 := fresh_acct bits keys vals sort_keys file a ret0 T ret a1 hcreate
    have I1 := acct_run P h64 evs T 0 T1 I0 (by simpa using hlen) hrun
    exact ⟨I1.hits, by simpa using I1.acc⟩
  · obtain ⟨T2, h1, h2, h3, h4, h5, h6⟩ := one_key_run x86_32 (x86_32_hash_in_range 1)
      (2 ^ 32) (by norm_num) (by norm_num) (scenario_event 1 10)
    refine ⟨T2, h1, h2, h3, h4, ?_, h6⟩
    rw [h5]
    exact Nat.mod_self _

/-- Witness of C5: after seven events on the scenario table, four of them
admitted and three dropped, `total_hits = 4` is the sum of the four hit counts
and `total_hits + drops = 7`. -/
theorem C5_witness :
    (scenario_C5_table.total_hits = counts_sum scenario_C5_table ∧
      scenario_C5_table.total_hits + scenario_C5_table.drops = scenario_C5_events.length) ∧
    scenario_C5_table.total_hits = 4 ∧ scenario_C5_table.drops = 3 :=
  ⟨(C5_total_hits_wraps_before_counts x86_64 1 "pid".toList "bytes_alloc".toList none
      scenario_fields [] 0 scenario_table 0 [] scenario_C5_events scenario_C5_table
      (by decide!) (by decide) (by decide!)).1 (by decide),
   by decide, by decide⟩

/-! ## Strings as long as a slot of the string arena -/

/-- The copy of a string field of 64 bytes takes 65 bytes and so ends in the
next slot of the string arena. Two events with the same string meet in one
entry as long as the next slot is unused; once a second string has been
stored there, the first stored string no longer ends where it did, and a
third event that repeats the first string gets an entry of its own. The copy
for the fourth slot runs past the end of the arena. -/
theorem string_copy_runs_into_next_slot :
    scenario_F_run [97, 97] = some (1, 2, 0, 0, 2) ∧
    scenario_F_run [97, 98, 97] = some (3, 1, 1, 1, 3) ∧
    scenario_F_run [97, 98, 99] = some (3, 1, 1, 1, 3) ∧
    scenario_F_run [97, 98, 99, 100] = none := by
  refine ⟨by decide!, by decide!, by decide!, by decide!⟩

/-- The test `has_bytes` is the comparison with the length of the area. -/
theorem has_bytes_iff (mem : List Nat) (n : Nat) : has_bytes mem n = true ↔ n ≤ mem.length := by
  cases n with
  | zero => simp [has_bytes]
  | succ k =>
    simp only [has_bytes, Bool.not_eq_true', List.isEmpty_eq_false, ne_eq, List.drop_eq_nil_iff,
      not_le]
    omega

/-- A copy into the string arena succeeds exactly when it ends inside the
arena, and then leaves an arena of the same size. -/
theorem string_arena_write_spec (arena : List Nat) (offset : Nat) (src : List Nat) :
    ((string_arena_write arena offset src).isSome = true ↔ offset + src.length ≤ arena.length) ∧
    ∀ out, string_arena_write arena offset src = some out → out.length = arena.length := by
  unfold string_arena_write
  by_cases h : has_bytes arena (offset + src.length) = true
  · have hle := (has_bytes_iff arena _).mp h
    simp only [h, Bool.not_true, Bool.false_eq_true, if_false, Option.isSome_some, true_iff,
      Option.some.injEq]
    refine ⟨hle, ?_⟩
    intro out hout
    subst hout
    simp only [List.length_append, List.length_take, List.length_drop]
    omega
  · have hnle : ¬ offset + src.length ≤ arena.length :=
      fun hle => h ((has_bytes_iff arena _).mpr hle)
    simp only [Bool.not_eq_true] at h
    simp [h, hnle]

end HashTrigger
